import Mathlib

/-! # Simulador de duas filas com um servidor e prioridade preemptiva (simulador.c)

Shallow embedding of `simulador.c`.

Modelling conventions:

* `double` values are rationals (exact arithmetic; in `ℚ` a division by zero yields `0`).
* A pointer is the allocation serial number of the object it points to.  `malloc` hands
  out serial numbers `0, 1, 2, ...` per struct type; a nullable pointer field is an
  `Option Nat`.  The heaps of `Cliente` and `Rodada` are partial maps; `free` removes the
  entry, so a dangling or null dereference makes the enclosing function return `none`.
* The event list is a Lean list whose head is `evento_atual` and whose order is the chain
  of `prox_evento` links.  Every event records its own allocation serial number `ident`.
* `rand()` and `log` are not computed: the configuration supplies, for the `i`-th call of
  `amostra_exponencial`, the value of `-log(u_0)`.
* Memory that `criar_rodada` leaves uninitialised (`V_W1`, `V_W2`, `W1`, `W2`) is filled
  from the configuration.
* `unsigned long` counters are natural numbers; increments are assumed not to reach
  `2^64`, while the decrement in `prox_cliente_fila` wraps around at zero as in C.
-/

namespace Simulador

/-! ## Configuration -/

/-- Compile-time constants of the simulator together with the external inputs of a run. -/
structure Config where
  K : Nat
  K_t : Nat
  NUM_RODADAS : Nat
  mu : ℚ
  rho : ℚ
  neg_log_u : Nat → ℚ
  lixo_W1 : Nat → Nat → ℚ
  lixo_W2 : Nat → Nat → ℚ
  lixo_V_W1 : Nat → ℚ
  lixo_V_W2 : Nat → ℚ

/-- The arrival rate: `#define lambda rho*mu/2.0`. -/
def Config.lambda (cfg : Config) : ℚ := cfg.rho * cfg.mu / 2

/-- Largest value of an `unsigned long`. -/
def ULONG_MAX : Nat := 2 ^ 64 - 1

/-- Largest value of a `long`. -/
def LONG_MAX : Nat := 2 ^ 63 - 1

/-- The statement `x -= 1` on an `unsigned long`. -/
def dec_ul (x : Nat) : Nat := if x = 0 then ULONG_MAX else x - 1

/-! ## Data model -/

inductive TipoEvento where
  | chegada_fila_1
  | chegada_fila_2
  | partida
  deriving DecidableEq, Repr

structure Rodada where
  inicio : ℚ
  prox_rodada : Option Nat
  E_W1 : ℚ
  E_T1 : ℚ
  E_Nq1 : ℚ
  E_N1 : ℚ
  E_W2 : ℚ
  E_T2 : ℚ
  E_Nq2 : ℚ
  E_N2 : ℚ
  V_W1 : ℚ
  V_W2 : ℚ
  W1 : Nat → ℚ
  W2 : Nat → ℚ
  ultima_atualizacao_E_Nq1 : ℚ
  ultima_atualizacao_E_N1 : ℚ
  ultima_atualizacao_E_Nq2 : ℚ
  ultima_atualizacao_E_N2 : ℚ
  num_chegadas : Nat
  num_partidas : Nat

structure Cliente where
  rodada : Nat
  prox_cliente : Option Nat
  indice_rodada : Nat
  chegada_estado_atual : ℚ
  chegada_fila_atual : ℚ
  deriving DecidableEq

structure FilaEspera where
  primeiro_cliente : Option Nat
  ultimo_cliente : Option Nat
  num_clientes : Nat
  deriving DecidableEq

structure Evento where
  ident : Nat
  momento : ℚ
  cliente : Nat
  tipo : TipoEvento
  deriving DecidableEq

/-- The global variables of the program together with the heaps and the allocation
counters. -/
structure Estado where
  eventos : List Evento
  fila1 : FilaEspera
  fila2 : FilaEspera
  fase_transiente : Nat
  rodada_atual : Nat
  rodadas_encerradas : Nat
  clientes : Nat → Option Cliente
  rodadas : Nat → Option Rodada
  num_clientes_criados : Nat
  num_rodadas_criadas : Nat
  num_eventos_criados : Nat
  num_amostras : Nat

/-- Store `v` at address `p`. -/
def gravar {α : Type} (mem : Nat → Option α) (p : Nat) (v : α) : Nat → Option α :=
  fun q => if q = p then some v else mem q

/-- Release address `p`. -/
def liberar {α : Type} (mem : Nat → Option α) (p : Nat) : Nat → Option α :=
  fun q => if q = p then none else mem q

/-- Assignment `X[i] = v` on an array. -/
def escrever (X : Nat → ℚ) (i : Nat) (v : ℚ) : Nat → ℚ :=
  fun j => if j = i then v else X j

/-! ## Rounds, customers and queues -/

/-- Function `criar_rodada`: returns the new pointer and the state with the round
allocated. -/
def criar_rodada (cfg : Config) (s : Estado) : Nat × Estado :=
  let momento_atual : ℚ :=
    match s.eventos with
    | [] => 0
    | ev :: _ => ev.momento
  let p := s.num_rodadas_criadas
  let nova_rodada : Rodada :=
    { inicio := momento_atual
      prox_rodada := none
      E_W1 := 0
      E_W2 := 0
      E_T1 := 0
      E_T2 := 0
      E_Nq1 := 0
      E_Nq2 := 0
      E_N1 := 0
      E_N2 := 0
      V_W1 := cfg.lixo_V_W1 p
      V_W2 := cfg.lixo_V_W2 p
      W1 := cfg.lixo_W1 p
      W2 := cfg.lixo_W2 p
      ultima_atualizacao_E_Nq1 := momento_atual
      ultima_atualizacao_E_N1 := momento_atual
      ultima_atualizacao_E_Nq2 := momento_atual
      ultima_atualizacao_E_N2 := momento_atual
      num_chegadas := 0
      num_partidas := 0 }
  (p, { s with rodadas := gravar s.rodadas p nova_rodada, num_rodadas_criadas := p + 1 })

/-- Function `iniciar_fase_transiente`. -/
def iniciar_fase_transiente (cfg : Config) (s : Estado) : Estado :=
  let r := criar_rodada cfg s
  { r.2 with fase_transiente := r.1, rodada_atual := r.1 }

/-- Function `iniciar_nova_rodada`. -/
def iniciar_nova_rodada (cfg : Config) (s : Estado) : Option Estado :=
  let r := criar_rodada cfg s
  match r.2.rodadas r.2.rodada_atual with
  | none => none
  | some R =>
    some { r.2 with
      rodadas := gravar r.2.rodadas r.2.rodada_atual { R with prox_rodada := some r.1 }
      rodada_atual := r.1 }

/-- Function `criar_cliente`. -/
def criar_cliente (rodada : Nat) (s : Estado) : Option (Nat × Estado) :=
  match s.rodadas rodada with
  | none => none
  | some R =>
    let p := s.num_clientes_criados
    let novo_cliente : Cliente :=
      { rodada := rodada
        prox_cliente := none
        chegada_estado_atual := 0
        chegada_fila_atual := 0
        indice_rodada := R.num_chegadas }
    some (p, { s with clientes := gravar s.clientes p novo_cliente,
                      num_clientes_criados := p + 1 })

/-- Function `criar_fila`. -/
def criar_fila : FilaEspera :=
  { num_clientes := 0, primeiro_cliente := none, ultimo_cliente := none }

/-- Function `adicionar_cliente_fila`, on the customer heap and one queue. -/
def adicionar_cliente_fila (mem : Nat → Option Cliente) (fila : FilaEspera) (cliente : Nat) :
    Option ((Nat → Option Cliente) × FilaEspera) :=
  if fila.num_clientes = 0 then
    some (mem, { primeiro_cliente := some cliente
                 ultimo_cliente := some cliente
                 num_clientes := fila.num_clientes + 1 })
  else
    match fila.ultimo_cliente with
    | none => none
    | some u =>
      match mem u with
      | none => none
      | some cu =>
        some (gravar mem u { cu with prox_cliente := some cliente },
              { primeiro_cliente := fila.primeiro_cliente
                ultimo_cliente := some cliente
                num_clientes := fila.num_clientes + 1 })

/-- Function `prox_cliente_fila`, on the customer heap and one queue: the removed customer
and the queue that remains. -/
def prox_cliente_fila (mem : Nat → Option Cliente) (fila : FilaEspera) :
    Option (Nat × FilaEspera) :=
  match fila.primeiro_cliente with
  | none => none
  | some p =>
    match mem p with
    | none => none
    | some cp =>
      let n := dec_ul fila.num_clientes
      some (p, { primeiro_cliente := cp.prox_cliente
                 ultimo_cliente := if n = 0 then none else fila.ultimo_cliente
                 num_clientes := n })

/-! ## Event list -/

/-- The walk of `agendar_evento` over the events that follow `evento_atual`: skip every
event whose `momento` is at most the new one, then link the new event in. -/
def inserir (novo : Evento) : List Evento → List Evento
  | [] => [novo]
  | e :: es => if e.momento ≤ novo.momento then e :: inserir novo es else novo :: e :: es

/-- Function `agendar_evento` (with `criar_evento` inlined). -/
def agendar_evento (momento : ℚ) (cliente : Nat) (tipo : TipoEvento) (s : Estado) :
    Option Estado :=
  match s.eventos with
  | [] => none
  | atual :: pendentes =>
    let novo_evento : Evento :=
      { ident := s.num_eventos_criados, momento := momento, cliente := cliente, tipo := tipo }
    some { s with eventos := atual :: inserir novo_evento pendentes,
                  num_eventos_criados := s.num_eventos_criados + 1 }

/-- Function `amostra_exponencial`: the sample and the state with one more draw consumed. -/
def amostra_exponencial (cfg : Config) (taxa : ℚ) (s : Estado) : ℚ × Estado :=
  (cfg.neg_log_u s.num_amostras / taxa, { s with num_amostras := s.num_amostras + 1 })

/-- Function `variancia`. -/
def variancia (cfg : Config) (E_X : ℚ) (X : Nat → ℚ) : ℚ :=
  let somatorio : ℚ :=
    (List.range cfg.K).foldl (fun acc i => acc + (X i - E_X) * (X i - E_X)) 0
  somatorio / ((cfg.K - 1 : Nat) : ℚ)

/-! ## Queue length accessors and time-weighted integrals -/

/-- Function `get_Nq1`.  The value is that of the `unsigned long` expression returned; the
return type `long` holds it unchanged up to `LONG_MAX`. -/
def get_Nq1 (s : Estado) : Nat :=
  if s.fila1.num_clientes > 0 then s.fila1.num_clientes - 1 else 0

/-- Function `get_N1`, with the same reading of the return type `long` as `get_Nq1`. -/
def get_N1 (s : Estado) : Nat := s.fila1.num_clientes

/-- Function `get_Nq2`, with the same reading of the return type `long` as `get_Nq1`. -/
def get_Nq2 (s : Estado) : Nat :=
  if s.fila1.num_clientes > 0 then s.fila2.num_clientes
  else if s.fila2.num_clientes > 0 then s.fila2.num_clientes - 1
  else 0

/-- Function `get_N2`, with the same reading of the return type `long` as `get_Nq1`. -/
def get_N2 (s : Estado) : Nat := s.fila2.num_clientes

def atualizar_E_Nq1 (s : Estado) : Option Estado :=
  match s.eventos with
  | [] => none
  | ev :: _ =>
    match s.rodadas s.rodada_atual with
    | none => none
    | some R =>
      let R1 : Rodada :=
        { R with
          E_Nq1 := R.E_Nq1 + (get_Nq1 s : ℚ) * (ev.momento - R.ultima_atualizacao_E_Nq1)
          ultima_atualizacao_E_Nq1 := ev.momento }
      some { s with rodadas := gravar s.rodadas s.rodada_atual R1 }

def atualizar_E_N1 (s : Estado) : Option Estado :=
  match s.eventos with
  | [] => none
  | ev :: _ =>
    match s.rodadas s.rodada_atual with
    | none => none
    | some R =>
      let R1 : Rodada :=
        { R with
          E_N1 := R.E_N1 + (get_N1 s : ℚ) * (ev.momento - R.ultima_atualizacao_E_N1)
          ultima_atualizacao_E_N1 := ev.momento }
      some { s with rodadas := gravar s.rodadas s.rodada_atual R1 }

def atualizar_E_Nq2 (s : Estado) : Option Estado :=
  match s.eventos with
  | [] => none
  | ev :: _ =>
    match s.rodadas s.rodada_atual with
    | none => none
    | some R =>
      let R1 : Rodada :=
        { R with
          E_Nq2 := R.E_Nq2 + (get_Nq2 s : ℚ) * (ev.momento - R.ultima_atualizacao_E_Nq2)
          ultima_atualizacao_E_Nq2 := ev.momento }
      some { s with rodadas := gravar s.rodadas s.rodada_atual R1 }

def atualizar_E_N2 (s : Estado) : Option Estado :=
  match s.eventos with
  | [] => none
  | ev :: _ =>
    match s.rodadas s.rodada_atual with
    | none => none
    | some R =>
      let R1 : Rodada :=
        { R with
          E_N2 := R.E_N2 + (get_N2 s : ℚ) * (ev.momento - R.ultima_atualizacao_E_N2)
          ultima_atualizacao_E_N2 := ev.momento }
      some { s with rodadas := gravar s.rodadas s.rodada_atual R1 }

/-! ## Service starts, preemption and round closing -/

/-- The search loop of `interromper_servico_fila_2` over the events that follow
`evento_atual`: the first event of type `partida` and the list without it. -/
def remover_partida : List Evento → Option (Evento × List Evento)
  | [] => none
  | e :: es =>
    if e.tipo = TipoEvento.partida then some (e, es)
    else
      match remover_partida es with
      | none => none
      | some r => some (r.1, e :: r.2)

/-- Function `interromper_servico_fila_2`. -/
def interromper_servico_fila_2 (s : Estado) : Option Estado :=
  if s.fila2.num_clientes = 0 then some s
  else
    match s.eventos with
    | [] => none
    | atual :: pendentes =>
      match remover_partida pendentes with
      | none => some s
      | some r =>
        match s.clientes r.1.cliente with
        | none => none
        | some c =>
          some { s with
            eventos := atual :: r.2
            clientes := gravar s.clientes r.1.cliente
              { c with chegada_estado_atual := atual.momento } }

/-- Function `processar_chegada_servico_1`.  A write to `W1` outside the `K` elements of
the array yields `none`. -/
def processar_chegada_servico_1 (cfg : Config) (s : Estado) : Option Estado :=
  match s.eventos with
  | [] => none
  | ev :: _ =>
    match s.fila1.primeiro_cliente with
    | none => none
    | some p =>
      match s.clientes p with
      | none => none
      | some c =>
        match s.rodadas c.rodada with
        | none => none
        | some R =>
          let espera := ev.momento - c.chegada_estado_atual
          let R1 : Rodada := { R with E_W1 := R.E_W1 + espera }
          if c.rodada ≠ s.fase_transiente ∧ cfg.K ≤ c.indice_rodada then none
          else
            let R2 : Rodada :=
              if c.rodada ≠ s.fase_transiente then
                { R1 with W1 := escrever R1.W1 c.indice_rodada espera }
              else R1
            let s1 : Estado :=
              { s with
                rodadas := gravar s.rodadas c.rodada R2
                clientes := gravar s.clientes p { c with chegada_estado_atual := ev.momento } }
            match interromper_servico_fila_2 s1 with
            | none => none
            | some s2 =>
              let a := amostra_exponencial cfg cfg.mu s2
              let termino_servico := ev.momento + a.1
              agendar_evento termino_servico p TipoEvento.chegada_fila_2 a.2

/-- Function `processar_chegada_servico_2`.  A write to `W2` outside the `K` elements of
the array yields `none`. -/
def processar_chegada_servico_2 (cfg : Config) (s : Estado) : Option Estado :=
  match s.eventos with
  | [] => none
  | ev :: _ =>
    match s.fila2.primeiro_cliente with
    | none => none
    | some p =>
      match s.clientes p with
      | none => none
      | some c =>
        match s.rodadas c.rodada with
        | none => none
        | some R =>
          let espera := ev.momento - c.chegada_estado_atual
          let R1 : Rodada := { R with E_W2 := R.E_W2 + espera }
          if c.rodada ≠ s.fase_transiente ∧ cfg.K ≤ c.indice_rodada then none
          else
            let R2 : Rodada :=
              if c.rodada ≠ s.fase_transiente then
                { R1 with W2 := escrever R1.W2 c.indice_rodada (R1.W2 c.indice_rodada + espera) }
              else R1
            let s1 : Estado :=
              { s with
                rodadas := gravar s.rodadas c.rodada R2
                clientes := gravar s.clientes p { c with chegada_estado_atual := ev.momento } }
            let a := amostra_exponencial cfg cfg.mu s1
            let termino_servico := ev.momento + a.1
            agendar_evento termino_servico p TipoEvento.partida a.2

/-- Function `encerrar_coleta`.  The quotients are those of the doubles when the divisor is
not zero; `dividir` gives the double that a division by a zero `duracao_rodada` stores. -/
def encerrar_coleta (cfg : Config) (rodada : Nat) (s : Estado) : Option Estado :=
  match s.rodadas rodada with
  | none => none
  | some R0 =>
    let num_coletas := R0.num_chegadas
    match R0.prox_rodada with
    | none => none
    | some q =>
      match s.rodadas q with
      | none => none
      | some Rq =>
        let duracao_rodada := Rq.inicio - R0.inicio
        match atualizar_E_Nq1 s with
        | none => none
        | some s1 =>
        match atualizar_E_Nq2 s1 with
        | none => none
        | some s2 =>
        match atualizar_E_N1 s2 with
        | none => none
        | some s3 =>
        match atualizar_E_N2 s3 with
        | none => none
        | some s4 =>
        match s4.rodadas rodada with
        | none => none
        | some R =>
          let R1 : Rodada :=
            { R with
              E_W1 := R.E_W1 / (num_coletas : ℚ)
              E_W2 := R.E_W2 / (num_coletas : ℚ)
              E_T1 := R.E_T1 / (num_coletas : ℚ)
              E_T2 := R.E_T2 / (num_coletas : ℚ)
              E_Nq1 := R.E_Nq1 / duracao_rodada
              E_Nq2 := R.E_Nq2 / duracao_rodada
              E_N1 := R.E_N1 / duracao_rodada
              E_N2 := R.E_N2 / duracao_rodada }
          let R2 : Rodada :=
            { R1 with
              V_W1 := variancia cfg R1.E_W1 R1.W1 }
          let R3 : Rodada :=
            { R2 with
              V_W2 := variancia cfg R2.E_W2 R2.W2 }
          some { s4 with rodadas := gravar s4.rodadas rodada R3 }

/-! ## Event handlers -/

/-- The test of `processar_chegada_fila_1` that decides whether a new round is opened. -/
def atingiu_chegadas (cfg : Config) (s : Estado) (R : Rodada) : Prop :=
  (s.rodada_atual ≠ s.fase_transiente ∧ R.num_chegadas = cfg.K) ∨
  (s.rodada_atual = s.fase_transiente ∧ R.num_chegadas = cfg.K_t)

instance (cfg : Config) (s : Estado) (R : Rodada) : Decidable (atingiu_chegadas cfg s R) := by
  unfold atingiu_chegadas; infer_instance

/-- The test of `processar_partida` that decides whether the round `rodada` is closed. -/
def atingiu_partidas (cfg : Config) (s : Estado) (rodada : Nat) (R : Rodada) : Prop :=
  (rodada ≠ s.fase_transiente ∧ R.num_partidas = cfg.K) ∨
  (rodada = s.fase_transiente ∧ R.num_partidas = cfg.K_t)

instance (cfg : Config) (s : Estado) (rodada : Nat) (R : Rodada) :
    Decidable (atingiu_partidas cfg s rodada R) := by
  unfold atingiu_partidas; infer_instance

/-- Lines 367 to 374 of `processar_chegada_fila_1`: the updates of the integrals. -/
def chegada_fila_1_integrais (s : Estado) : Option Estado :=
  match atualizar_E_N1 s with
  | none => none
  | some s1 =>
    match (if get_N1 s1 > 0 then atualizar_E_Nq1 s1 else some s1) with
    | none => none
    | some s2 =>
      if get_N2 s2 > 0 then atualizar_E_Nq2 s2 else some s2

/-- Lines 376 to 380 of `processar_chegada_fila_1`: the customer joins `fila1` and the
arrival is counted. -/
def chegada_fila_1_contagem (s : Estado) : Option Estado :=
  match s.eventos with
  | [] => none
  | ev :: _ =>
    match adicionar_cliente_fila s.clientes s.fila1 ev.cliente with
    | none => none
    | some r =>
      match r.1 ev.cliente with
      | none => none
      | some c =>
        let mem := gravar r.1 ev.cliente
          { c with chegada_estado_atual := ev.momento, chegada_fila_atual := ev.momento }
        match s.rodadas s.rodada_atual with
        | none => none
        | some R =>
          some { s with
            clientes := mem
            fila1 := r.2
            rodadas := gravar s.rodadas s.rodada_atual
              { R with num_chegadas := R.num_chegadas + 1 } }

/-- Lines 382 to 386 of `processar_chegada_fila_1`: a new round is opened when the quota
of arrivals is reached. -/
def chegada_fila_1_rodada (cfg : Config) (s : Estado) : Option Estado :=
  match s.rodadas s.rodada_atual with
  | none => none
  | some R => if atingiu_chegadas cfg s R then iniciar_nova_rodada cfg s else some s

/-- Lines 393 to 395 of `processar_chegada_fila_1`: the next arrival is scheduled. -/
def chegada_fila_1_proxima (cfg : Config) (s : Estado) : Option Estado :=
  match s.eventos with
  | [] => none
  | ev :: _ =>
    let a := amostra_exponencial cfg cfg.lambda s
    let prox_chegada_fila_1 := ev.momento + a.1
    match criar_cliente a.2.rodada_atual a.2 with
    | none => none
    | some r => agendar_evento prox_chegada_fila_1 r.1 TipoEvento.chegada_fila_1 r.2

/-- Function `processar_chegada_fila_1`. -/
def processar_chegada_fila_1 (cfg : Config) (s : Estado) : Option Estado :=
  match chegada_fila_1_integrais s with
  | none => none
  | some s1 =>
    match chegada_fila_1_contagem s1 with
    | none => none
    | some s2 =>
      match chegada_fila_1_rodada cfg s2 with
      | none => none
      | some s3 =>
        match (if s3.fila1.num_clientes = 1 then processar_chegada_servico_1 cfg s3
               else some s3) with
        | none => none
        | some s4 => chegada_fila_1_proxima cfg s4

/-- Lines 404 to 407 of `processar_chegada_fila_2`: the stage 1 sojourn of the customer of
the event. -/
def chegada_fila_2_cliente (s : Estado) : Option Estado :=
  match s.eventos with
  | [] => none
  | ev :: _ =>
    match s.clientes ev.cliente with
    | none => none
    | some c =>
      match s.rodadas c.rodada with
      | none => none
      | some R =>
        some { s with
          rodadas := gravar s.rodadas c.rodada
            { R with E_T1 := R.E_T1 + (ev.momento - c.chegada_fila_atual) }
          clientes := gravar s.clientes ev.cliente
            { c with chegada_fila_atual := ev.momento, chegada_estado_atual := ev.momento } }

/-- Lines 409 to 415 of `processar_chegada_fila_2`: the updates of the integrals. -/
def chegada_fila_2_integrais (s : Estado) : Option Estado :=
  match atualizar_E_N1 s with
  | none => none
  | some s1 =>
    match atualizar_E_N2 s1 with
    | none => none
    | some s2 =>
      match atualizar_E_Nq2 s2 with
      | none => none
      | some s3 => if get_Nq1 s3 > 0 then atualizar_E_Nq1 s3 else some s3

/-- Line 417 of `processar_chegada_fila_2`: the head of `fila1` moves to the tail of
`fila2`. -/
def chegada_fila_2_mover (s : Estado) : Option Estado :=
  match prox_cliente_fila s.clientes s.fila1 with
  | none => none
  | some r =>
    match adicionar_cliente_fila s.clientes s.fila2 r.1 with
    | none => none
    | some w => some { s with clientes := w.1, fila1 := r.2, fila2 := w.2 }

/-- Function `processar_chegada_fila_2`. -/
def processar_chegada_fila_2 (cfg : Config) (s : Estado) : Option Estado :=
  match chegada_fila_2_cliente s with
  | none => none
  | some s1 =>
    match chegada_fila_2_integrais s1 with
    | none => none
    | some s2 =>
      match chegada_fila_2_mover s2 with
      | none => none
      | some s3 =>
        if s3.fila1.num_clientes > 0 then processar_chegada_servico_1 cfg s3
        else processar_chegada_servico_2 cfg s3

/-- Lines 433 to 437 of `processar_partida`: the stage 2 sojourn is added and the
departure is counted in the round of the customer of the event. -/
def partida_contagem (s : Estado) : Option Estado :=
  match s.eventos with
  | [] => none
  | ev :: _ =>
    match s.clientes ev.cliente with
    | none => none
    | some c =>
      match s.rodadas c.rodada with
      | none => none
      | some R =>
        let R1 : Rodada :=
          { R with
            E_T2 := R.E_T2 + (ev.momento - c.chegada_fila_atual)
            num_partidas := R.num_partidas + 1 }
        some { s with rodadas := gravar s.rodadas c.rodada R1 }

/-- Lines 438 to 442 of `processar_partida`: the round of the customer is closed when its
quota of departures is reached. -/
def partida_encerramento (cfg : Config) (s : Estado) : Option Estado :=
  match s.eventos with
  | [] => none
  | ev :: _ =>
    match s.clientes ev.cliente with
    | none => none
    | some c =>
      match s.rodadas c.rodada with
      | none => none
      | some R =>
        if atingiu_partidas cfg s c.rodada R then
          match encerrar_coleta cfg c.rodada s with
          | none => none
          | some s1 => some { s1 with rodadas_encerradas := s1.rodadas_encerradas + 1 }
        else some s

/-- Lines 444 to 448 of `processar_partida`: the updates of the integrals. -/
def partida_integrais (s : Estado) : Option Estado :=
  match atualizar_E_N2 s with
  | none => none
  | some s1 => if get_Nq2 s1 > 0 then atualizar_E_Nq2 s1 else some s1

/-- Line 450 of `processar_partida`: the head of `fila2` is removed and released. -/
def partida_remover (s : Estado) : Option Estado :=
  match prox_cliente_fila s.clientes s.fila2 with
  | none => none
  | some r => some { s with clientes := liberar s.clientes r.1, fila2 := r.2 }

/-- Function `processar_partida`. -/
def processar_partida (cfg : Config) (s : Estado) : Option Estado :=
  match partida_contagem s with
  | none => none
  | some s1 =>
    match partida_encerramento cfg s1 with
    | none => none
    | some s2 =>
      match partida_integrais s2 with
      | none => none
      | some s3 =>
        match partida_remover s3 with
        | none => none
        | some s4 =>
          if s4.fila2.num_clientes > 0 then processar_chegada_servico_2 cfg s4 else some s4

/-- Function `processar_evento_atual`. -/
def processar_evento_atual (cfg : Config) (s : Estado) : Option Estado :=
  match s.eventos with
  | [] => none
  | ev :: _ =>
    match ev.tipo with
    | TipoEvento.chegada_fila_1 => processar_chegada_fila_1 cfg s
    | TipoEvento.chegada_fila_2 => processar_chegada_fila_2 cfg s
    | TipoEvento.partida => processar_partida cfg s

/-! ## Main loop -/

/-- The state of `main` when the loop is entered. -/
def inicial (cfg : Config) : Estado :=
  let s0 : Estado :=
    { eventos := []
      fila1 := criar_fila
      fila2 := criar_fila
      fase_transiente := 0
      rodada_atual := 0
      rodadas_encerradas := 0
      clientes := fun _ => none
      rodadas := fun _ => none
      num_clientes_criados := 0
      num_rodadas_criadas := 0
      num_eventos_criados := 0
      num_amostras := 0 }
  let s1 := iniciar_fase_transiente cfg s0
  let a := amostra_exponencial cfg cfg.lambda s1
  match criar_cliente a.2.fase_transiente a.2 with
  | none => a.2
  | some r =>
    { r.2 with
      eventos := [{ ident := r.2.num_eventos_criados, momento := a.1, cliente := r.1,
                    tipo := TipoEvento.chegada_fila_1 }]
      num_eventos_criados := r.2.num_eventos_criados + 1 }

/-- One pass through the body of the loop of `main`: the current event is processed, then
`evento_atual` advances to `prox_evento`. -/
def iteracao (cfg : Config) (s : Estado) : Option Estado :=
  match processar_evento_atual cfg s with
  | none => none
  | some s1 =>
    match s1.eventos with
    | [] => none
    | _ :: pendentes => some { s1 with eventos := pendentes }

/-- The state after the `n`-th pass through the loop of `main`; `none` when the loop has
stopped before, or when a pass dereferences an invalid pointer. -/
def rodar (cfg : Config) : Nat → Option Estado
  | 0 => some (inicial cfg)
  | n + 1 =>
    match rodar cfg n with
    | none => none
    | some s =>
      if s.rodadas_encerradas < cfg.NUM_RODADAS + 1 then iteracao cfg s else none

/-! ## Specification vocabulary -/

/-- Assumptions on the configuration: batch sizes of at least one, positive rates and
non-negative values of `-log(u_0)`, so that every exponential sample is non-negative. -/
structure ConfigOk (cfg : Config) : Prop where
  hK : 1 ≤ cfg.K
  hKt : 1 ≤ cfg.K_t
  hmu : 0 < cfg.mu
  hrho : 0 < cfg.rho
  hu : ∀ i, 0 ≤ cfg.neg_log_u i

/-- Quota of the round with pointer `r`: `K_t` for the transient round, which is the first
round allocated, and `K` for the others. -/
def quota (cfg : Config) (r : Nat) : Nat := if r = 0 then cfg.K_t else cfg.K

/-- Serial number of the first customer attributed to round `r`. -/
def base (cfg : Config) : Nat → Nat
  | 0 => 0
  | r + 1 => base cfg r + quota cfg r

/-- Processing order of two events: earlier `momento` first and, among equal `momento`,
the event that was allocated (scheduled) first. -/
def antes (e1 e2 : Evento) : Prop :=
  e1.momento < e2.momento ∨ (e1.momento = e2.momento ∧ e1.ident < e2.ident)

/-- The customers named by the events of type `t`, in list order. -/
def tipos (t : TipoEvento) (l : List Evento) : List Nat :=
  (l.filter (fun e => decide (e.tipo = t))).map (fun e => e.cliente)

/-- Invariant of the events that follow `evento_atual` while the event `ev` is being
handled: `l1`, `l2` and `lp` are the customers of the pending events of each type. -/
structure InvP (pend : List Evento) (nev : Nat) (ev : Evento) (l1 l2 lp : List Nat) :
    Prop where
  ord : pend.Pairwise antes
  dep : ∀ e ∈ pend, antes ev e
  ids : ∀ e ∈ pend, e.ident < nev
  idev : ev.ident < nev
  c1 : tipos TipoEvento.chegada_fila_1 pend = l1
  c2 : tipos TipoEvento.chegada_fila_2 pend = l2
  cp : tipos TipoEvento.partida pend = lp

/-- Invariant of the whole event list between two passes of the main loop.  Customer `n`
is the next exogenous arrival, customers `b .. n-1` are in `fila1`, customers `a .. b-1`
are in `fila2`, and `t` is the time of the last event processed. -/
structure InvE (evs : List Evento) (nev : Nat) (a b n : Nat) (t : ℚ) : Prop where
  ord : evs.Pairwise antes
  ids : ∀ e ∈ evs, e.ident < nev
  tempo : ∀ e ∈ evs, t ≤ e.momento
  c1 : tipos TipoEvento.chegada_fila_1 evs = [n]
  c2 : tipos TipoEvento.chegada_fila_2 evs = if b < n then [b] else []
  cp : tipos TipoEvento.partida evs = if b = n ∧ a < b then [a] else []

/-- Invariant of the two queues and of the `prox_cliente` links. -/
structure InvQ (mem : Nat → Option Cliente) (f1 f2 : FilaEspera) (a b n : Nat) : Prop where
  hab : a ≤ b
  hbn : b ≤ n
  f1_n : f1.num_clientes = n - b
  f1_p : b < n → f1.primeiro_cliente = some b
  f1_u : b < n → f1.ultimo_cliente = some (n - 1)
  f2_n : f2.num_clientes = b - a
  f2_p : a < b → f2.primeiro_cliente = some a
  f2_u : a < b → f2.ultimo_cliente = some (b - 1)
  prox : ∀ i c, a ≤ i → i + 1 < n → i + 1 ≠ b → mem i = some c →
    c.prox_cliente = some (i + 1)

/-- Invariant of the customer heap: the customers `a .. n` are allocated and each one is
attributed to the round whose range of serial numbers contains it. -/
def InvC (cfg : Config) (mem : Nat → Option Cliente) (a n : Nat) : Prop :=
  ∀ i, a ≤ i → i ≤ n → ∃ c, mem i = some c ∧ base cfg c.rodada ≤ i ∧
    i < base cfg (c.rodada + 1) ∧ c.indice_rodada = i - base cfg c.rodada

/-- Invariant of the round heap.  `cur` is `rodada_atual`, `n` the number of arrivals and
`a` the number of departures counted, `t` the current time and `N1` the length of
`fila1`. -/
structure InvRod (cfg : Config) (rods : Nat → Option Rodada) (cur a n : Nat) (t : ℚ)
    (N1 : Nat) : Prop where
  fora : ∀ r, cur < r → rods r = none
  dentro : ∀ r, r ≤ cur → ∃ R, rods r = some R ∧
    R.num_chegadas = min (n - base cfg r) (quota cfg r) ∧
    R.num_partidas = min (a - base cfg r) (quota cfg r) ∧
    R.prox_rodada = (if r < cur then some (r + 1) else none)
  cur_lo : base cfg cur ≤ n
  ini : ∀ r R, rods r = some R → R.inicio ≤ t
  mono : ∀ r R Rq, rods r = some R → rods (r + 1) = some Rq → R.inicio ≤ Rq.inicio
  ord1 : ∀ r R, rods r = some R → R.E_Nq1 ≤ R.E_N1
  cur1 : ∀ R, rods cur = some R →
    R.ultima_atualizacao_E_Nq1 ≤ R.ultima_atualizacao_E_N1 ∧
    R.ultima_atualizacao_E_N1 ≤ t ∧
    (R.ultima_atualizacao_E_Nq1 < R.ultima_atualizacao_E_N1 → N1 ≤ 1)

/-- The fields of a round that the invariant `InvRod` reads. -/
def Rodada.nucleo (R : Rodada) : Nat × Nat × Option Nat × ℚ × ℚ × ℚ × ℚ × ℚ :=
  (R.num_chegadas, R.num_partidas, R.prox_rodada, R.inicio, R.E_Nq1, R.E_N1,
    R.ultima_atualizacao_E_Nq1, R.ultima_atualizacao_E_N1)

/-- The fields of a customer that the invariants `InvQ` and `InvC` read. -/
def Cliente.nucleo (c : Cliente) : Nat × Option Nat × Nat :=
  (c.rodada, c.prox_cliente, c.indice_rodada)

/-- Invariant of the program state between two passes of the main loop. -/
structure Inv (cfg : Config) (s : Estado) (a b n : Nat) (t : ℚ) : Prop where
  evs : InvE s.eventos s.num_eventos_criados a b n t
  filas : InvQ s.clientes s.fila1 s.fila2 a b n
  cls : InvC cfg s.clientes a n
  rods : InvRod cfg s.rodadas s.rodada_atual a n t s.fila1.num_clientes
  cur_hi : n < base cfg (s.rodada_atual + 1)
  ft : s.fase_transiente = 0
  nrod : s.num_rodadas_criadas = s.rodada_atual + 1
  ncli : s.num_clientes_criados = n + 1

/-! ## Traces of a run -/

/-- The event handled by pass `k + 1` of the main loop (the head of the event list after
`k` passes), when that pass takes place. -/
def evento_processado (cfg : Config) (k : Nat) : Option Evento :=
  match rodar cfg k, rodar cfg (k + 1) with
  | some s, some _ => s.eventos.head?
  | _, _ => none

/-- Number of events of type `t` handled by the first `k` passes of the main loop. -/
def processados (cfg : Config) (t : TipoEvento) : Nat → Nat
  | 0 => 0
  | k + 1 =>
    processados cfg t k +
      (match evento_processado cfg k with
       | some ev => if ev.tipo = t then 1 else 0
       | none => 0)

/-- Time of the last event handled by the first `k` passes of the main loop. -/
def tempo_processado (cfg : Config) : Nat → ℚ
  | 0 => 0
  | k + 1 =>
    match evento_processado cfg k with
    | some ev => ev.momento
    | none => tempo_processado cfg k

/-- Two round heaps that agree on every field read by `InvRod`. -/
def RodEq (rods rods' : Nat → Option Rodada) : Prop :=
  ∀ r, (rods' r).map Rodada.nucleo = (rods r).map Rodada.nucleo

/-- Two customer heaps that agree on every field read by `InvQ` and `InvC`. -/
def MemEq (mem mem' : Nat → Option Cliente) : Prop :=
  ∀ i, (mem' i).map Cliente.nucleo = (mem i).map Cliente.nucleo

/-- The round of the customer that departs in pass `k + 1` of the main loop, when that pass
handles an event of type `partida`. -/
def rodada_da_partida (cfg : Config) (k : Nat) : Option Nat :=
  match rodar cfg k, evento_processado cfg k with
  | some s, some ev =>
    if ev.tipo = TipoEvento.partida then (s.clientes ev.cliente).map (fun c => c.rodada)
    else none
  | _, _ => none

/-- Number of departures, among the first `k` passes of the main loop, of customers whose
round is `r`. -/
def partidas_da_rodada (cfg : Config) (r : Nat) : Nat → Nat
  | 0 => 0
  | k + 1 => partidas_da_rodada cfg r k + (if rodada_da_partida cfg k = some r then 1 else 0)

/-- Pass `k + 1` of the main loop handles the departure that completes the quota of
round `r`. -/
def completa_rodada (cfg : Config) (k r : Nat) : Prop :=
  rodada_da_partida cfg k = some r ∧ partidas_da_rodada cfg r (k + 1) = quota cfg r

/-- The call of `encerrar_coleta` made by pass `k + 1` of the main loop, when that pass makes
one: the state at the call (after lines 433 to 437 of `processar_partida`), the pointer
passed as `rodada` and the round it points to. -/
def chamada_encerrar (cfg : Config) (k : Nat) : Option (Estado × Nat × Rodada) :=
  match rodar cfg k with
  | none => none
  | some s =>
    if s.rodadas_encerradas < cfg.NUM_RODADAS + 1 then
      match s.eventos with
      | [] => none
      | ev :: _ =>
        if ev.tipo = TipoEvento.partida then
          match s.clientes ev.cliente with
          | none => none
          | some c =>
            match partida_contagem s with
            | none => none
            | some s1 =>
              match s1.rodadas c.rodada with
              | none => none
              | some R1 =>
                if atingiu_partidas cfg s1 c.rodada R1 then some (s1, c.rodada, R1) else none
        else none
    else none

/-! ## A concrete run -/

/-- Values of `-log(u_0)` of the example run. -/
def amostras_exemplo : Nat → ℚ
  | 0 => 1 / 4
  | 1 => 1
  | 2 => 1
  | 3 => 10
  | 4 => 5
  | 5 => 1 / 2
  | 6 => 100
  | _ => 1

/-- Example configuration: batches of two customers, a transient batch of one customer,
service rate 1 and utilisation 1/2, hence arrival rate 1/4. -/
def cfg_exemplo : Config :=
  { K := 2
    K_t := 1
    NUM_RODADAS := 2
    mu := 1
    rho := 1 / 2
    neg_log_u := amostras_exemplo
    lixo_W1 := fun _ _ => 0
    lixo_W2 := fun _ _ => 0
    lixo_V_W1 := fun _ => 0
    lixo_V_W2 := fun _ => 0 }

/-! ## Vocabulary of the event list, the queues and the closed rounds -/

/-- Ascending order of the timestamps of a list of events. -/
def ordenada (l : List Evento) : Prop :=
  l.Pairwise (fun e1 e2 => e1.momento ≤ e2.momento)

instance (l : List Evento) : Decidable (ordenada l) := by
  unfold ordenada; infer_instance

/-- The uniform draw of `amostra_exponencial`, `u_0 = (double) rand()/RAND_MAX`, for the
value `r` returned by `rand()`; `RAND_MAX` is a constant of the C library. -/
def u_0 (RAND_MAX r : Nat) : ℚ := (r : ℚ) / (RAND_MAX : ℚ)

/-- A state of the example run with three pending events after `evento_atual`. -/
def estado_agenda : Estado :=
  { inicial cfg_exemplo with
    eventos :=
      [{ ident := 0, momento := 5, cliente := 0, tipo := TipoEvento.chegada_fila_2 },
       { ident := 1, momento := 6, cliente := 1, tipo := TipoEvento.chegada_fila_1 },
       { ident := 2, momento := 7, cliente := 0, tipo := TipoEvento.partida },
       { ident := 3, momento := 9, cliente := 2, tipo := TipoEvento.chegada_fila_1 }]
    num_eventos_criados := 4 }

/-- A state in which customer 0 is alone in `fila2` and its departure is pending behind an
arrival event, while the event of time 5 is handled. -/
def estado_interrupcao : Estado :=
  { estado_agenda with
    fila2 := { primeiro_cliente := some 0, ultimo_cliente := some 0, num_clientes := 1 } }

/-- The two queues of the program together with the customer heap that holds their
`prox_cliente` links. -/
structure Filas where
  clientes : Nat → Option Cliente
  fila1 : FilaEspera
  fila2 : FilaEspera

/-- A call on the queues: `adicionar_cliente_fila(fila, cliente)` and
`prox_cliente_fila(fila)`, where `segunda` tells whether `fila` is `fila2`, and the
statement of line 417, `adicionar_cliente_fila(fila2, prox_cliente_fila(fila1))`. -/
inductive Chamada where
  | adicionar (segunda : Bool) (cliente : Nat)
  | retirar (segunda : Bool)
  | mover
  deriving DecidableEq

/-- The queue a call refers to. -/
def Filas.fila (q : Filas) (segunda : Bool) : FilaEspera :=
  if segunda then q.fila2 else q.fila1

/-- Assignment of the heap and of the queue a call refers to. -/
def Filas.atribuir (q : Filas) (segunda : Bool) (mem : Nat → Option Cliente)
    (f : FilaEspera) : Filas :=
  if segunda then { q with clientes := mem, fila2 := f }
  else { q with clientes := mem, fila1 := f }

/-- One call: the queues after it and the customer returned, if the call returns one. -/
def chamar (q : Filas) : Chamada → Option (Filas × Option Nat)
  | Chamada.adicionar segunda cliente =>
    match adicionar_cliente_fila q.clientes (q.fila segunda) cliente with
    | none => none
    | some r => some (q.atribuir segunda r.1 r.2, none)
  | Chamada.retirar segunda =>
    match prox_cliente_fila q.clientes (q.fila segunda) with
    | none => none
    | some r => some (q.atribuir segunda q.clientes r.2, some r.1)
  | Chamada.mover =>
    match prox_cliente_fila q.clientes q.fila1 with
    | none => none
    | some r =>
      match adicionar_cliente_fila q.clientes q.fila2 r.1 with
      | none => none
      | some w => some ({ clientes := w.1, fila1 := r.2, fila2 := w.2 }, none)

/-- A sequence of calls: the queues after it and the customers returned by
`prox_cliente_fila`, in the order of the calls. -/
def executar (q : Filas) : List Chamada → Option (Filas × List Nat)
  | [] => some (q, [])
  | ch :: chs =>
    match chamar q ch with
    | none => none
    | some r =>
      match executar r.1 chs with
      | none => none
      | some w =>
        some (w.1, (match r.2 with
                    | none => w.2
                    | some c => c :: w.2))

/-- Two empty queues made by `criar_fila` over the heap `mem`. -/
def filas_novas (mem : Nat → Option Cliente) : Filas :=
  { clientes := mem, fila1 := criar_fila, fila2 := criar_fila }

/-- Modelled on the words of the specification, "a FIFO of customers for one stage": the
contents of the two queues as lists, oldest customer first. -/
structure Fifos where
  l1 : List Nat
  l2 : List Nat
  deriving DecidableEq

/-- The list of the queue a call refers to. -/
def Fifos.lista (m : Fifos) (segunda : Bool) : List Nat := if segunda then m.l2 else m.l1

/-- A call on the lists: an added customer goes to the end, a removed customer is taken
from the front. -/
def Fifos.chamar (m : Fifos) : Chamada → Fifos × Option Nat
  | Chamada.adicionar segunda cliente =>
    (if segunda then { m with l2 := m.l2 ++ [cliente] }
     else { m with l1 := m.l1 ++ [cliente] }, none)
  | Chamada.retirar segunda =>
    (if segunda then { m with l2 := m.l2.tail } else { m with l1 := m.l1.tail },
      (m.lista segunda).head?)
  | Chamada.mover =>
    ({ l1 := m.l1.tail, l2 := m.l2 ++ m.l1.head?.toList }, none)

/-- A sequence of calls on the lists. -/
def Fifos.executar (m : Fifos) : List Chamada → Fifos × List Nat
  | [] => (m, [])
  | ch :: chs =>
    let r := m.chamar ch
    let w := Fifos.executar r.1 chs
    (w.1, (match r.2 with
           | none => w.2
           | some c => c :: w.2))

/-- The condition that the calls are well formed: `prox_cliente_fila` is called on a
non-empty queue and `adicionar_cliente_fila` with an allocated customer. -/
def Fifos.nao_vazia (mem : Nat → Option Cliente) (m : Fifos) : Chamada → Prop
  | Chamada.adicionar _ cliente => (mem cliente).isSome
  | Chamada.retirar segunda => m.lista segunda ≠ []
  | Chamada.mover => m.l1 ≠ []

/-- The customer passed to `adicionar_cliente_fila` is in neither queue. -/
def Fifos.fora_das_filas (m : Fifos) : Chamada → Prop
  | Chamada.adicionar _ cliente => cliente ∉ m.l1 ∧ cliente ∉ m.l2
  | Chamada.retirar _ => True
  | Chamada.mover => True

/-- Every call of a sequence satisfies the condition `P` when it is made. -/
def Fifos.todas (P : Fifos → Chamada → Prop) (m : Fifos) : List Chamada → Prop
  | [] => True
  | ch :: chs => P m ch ∧ Fifos.todas P (m.chamar ch).1 chs

/-- The customers of `l` are allocated and each one is linked to the next by
`prox_cliente`. -/
def Ligada (mem : Nat → Option Cliente) : List Nat → Prop
  | [] => True
  | [x] => (mem x).isSome
  | x :: y :: t => (∃ c, mem x = some c ∧ c.prox_cliente = some y) ∧ Ligada mem (y :: t)

/-- The queue `f` over the heap `mem` holds the customers of `l`, oldest first. -/
structure Contem (mem : Nat → Option Cliente) (f : FilaEspera) (l : List Nat) : Prop where
  num : f.num_clientes = l.length
  pri : ∀ x t, l = x :: t → f.primeiro_cliente = some x
  ult : ∀ t x, l = t ++ [x] → f.ultimo_cliente = some x
  lig : Ligada mem l

/-- The two queues hold the customers of the two lists, and no customer is held twice. -/
structure Representa (q : Filas) (m : Fifos) : Prop where
  r1 : Contem q.clientes q.fila1 m.l1
  r2 : Contem q.clientes q.fila2 m.l2
  nd : (m.l1 ++ m.l2).Nodup

/-- Number of calls of `adicionar_cliente_fila` on a queue in a sequence of calls. -/
def adicoes (segunda : Bool) : List Chamada → Nat
  | [] => 0
  | Chamada.adicionar b _ :: chs => (if b = segunda then 1 else 0) + adicoes segunda chs
  | Chamada.retirar _ :: chs => adicoes segunda chs
  | Chamada.mover :: chs => (if segunda then 1 else 0) + adicoes segunda chs

/-- Number of calls of `prox_cliente_fila` on a queue in a sequence of calls. -/
def remocoes (segunda : Bool) : List Chamada → Nat
  | [] => 0
  | Chamada.adicionar _ _ :: chs => remocoes segunda chs
  | Chamada.retirar b :: chs => (if b = segunda then 1 else 0) + remocoes segunda chs
  | Chamada.mover :: chs => (if segunda then 0 else 1) + remocoes segunda chs

/-- Four customers without links. -/
def quatro_clientes : Nat → Option Cliente :=
  fun i =>
    if i < 4 then
      some { rodada := 0, prox_cliente := none, indice_rodada := i, chegada_estado_atual := 0,
             chegada_fila_atual := 0 }
    else none

/-- A sequence of calls that adds customer 0 to `fila1` a second time while it is still
in the queue. -/
def chamadas_repetidas : List Chamada :=
  [Chamada.adicionar false 0, Chamada.adicionar false 1, Chamada.adicionar false 0,
   Chamada.adicionar false 2, Chamada.retirar false, Chamada.retirar false]

/-- A sequence of calls in which customers 0 and 1 pass from `fila1` to `fila2`. -/
def chamadas_exemplo : List Chamada :=
  [Chamada.adicionar false 0, Chamada.adicionar false 1, Chamada.mover,
   Chamada.adicionar true 2, Chamada.mover, Chamada.retirar true, Chamada.retirar true,
   Chamada.adicionar false 3, Chamada.retirar true, Chamada.retirar false]

/-- Frame conditions of a state.  Customers below `L` have been released and customers
from `num_clientes_criados` on are not allocated yet; `φ` holds the closed rounds, each
with the contents it had when `encerrar_coleta` returned: such a round is not
`rodada_atual`, is not the round of any allocated customer, and still has those contents. -/
structure Quadro (L : Nat) (φ : Nat → Option Rodada → Prop) (s : Estado) : Prop where
  lo : ∀ i, i < L → s.clientes i = none
  hi : ∀ i, s.num_clientes_criados ≤ i → s.clientes i = none
  lim : L ≤ s.num_clientes_criados
  nrd : s.rodada_atual < s.num_rodadas_criadas
  rod : ∀ r Rr, φ r Rr → s.rodadas r = Rr
  cur : ∀ r Rr, φ r Rr → r < s.rodada_atual
  cli : ∀ r Rr, φ r Rr → ∀ i c, s.clientes i = some c → r < c.rodada

/-- The rounds closed by the first `k` passes of the main loop: round `r` with the contents
`Rr` it had when its call of `encerrar_coleta` returned. -/
def fechadas (cfg : Config) (k : Nat) (r : Nat) (Rr : Option Rodada) : Prop :=
  ∃ j s1 R1 s2, j < k ∧ chamada_encerrar cfg j = some (s1, r, R1) ∧
    encerrar_coleta cfg r s1 = some s2 ∧ s2.rodadas r = Rr

/-- The pointer held by the variable `rodada` of `calcular_IC_rodadas` after `i` passes
through its first loop (lines 631 to 633): it starts at `fase_transiente` and each pass
follows `prox_rodada`. -/
def rodada_lida (s : Estado) : Nat → Option Nat
  | 0 => some s.fase_transiente
  | i + 1 =>
    match rodada_lida s i with
    | none => none
    | some r =>
      match s.rodadas r with
      | none => none
      | some R => R.prox_rodada

/-- The amount that `processar_chegada_servico_1` adds to `E_W1` when called in state `s`
(line 467): the time of `evento_atual` minus the `chegada_estado_atual` of the head of
`fila1`. -/
def espera_servico_1 (s : Estado) : Option ℚ :=
  match s.eventos with
  | [] => none
  | ev :: _ =>
    match s.fila1.primeiro_cliente with
    | none => none
    | some p =>
      match s.clientes p with
      | none => none
      | some c => some (ev.momento - c.chegada_estado_atual)

/-- The amount that `processar_chegada_servico_2` adds to `E_W2` when called in state `s`
(line 488): the time of `evento_atual` minus the `chegada_estado_atual` of the head of
`fila2`. -/
def espera_servico_2 (s : Estado) : Option ℚ :=
  match s.eventos with
  | [] => none
  | ev :: _ =>
    match s.fila2.primeiro_cliente with
    | none => none
    | some p =>
      match s.clientes p with
      | none => none
      | some c => some (ev.momento - c.chegada_estado_atual)

/-- The state in which `processar_chegada_fila_1` reaches the test of line 389, after
lines 367 to 386. -/
def chegada_fila_1_ate_servico (cfg : Config) (s : Estado) : Option Estado :=
  match chegada_fila_1_integrais s with
  | none => none
  | some s1 =>
    match chegada_fila_1_contagem s1 with
    | none => none
    | some s2 => chegada_fila_1_rodada cfg s2

/-- The state in which `processar_chegada_fila_2` reaches the test of line 421, after
lines 404 to 417. -/
def chegada_fila_2_ate_servico (s : Estado) : Option Estado :=
  match chegada_fila_2_cliente s with
  | none => none
  | some s1 =>
    match chegada_fila_2_integrais s1 with
    | none => none
    | some s2 => chegada_fila_2_mover s2

/-- The event that `interromper_servico_fila_2` unlinks when `processar_chegada_servico_1`
is called in state `s` (lines 506 to 513): the first event of type `partida` after
`evento_atual`, when `fila2` is not empty.  The statements of lines 467 to 471, which
precede the call, change neither the event list nor `fila2`. -/
def partida_cancelada (s : Estado) : Option Evento :=
  if s.fila2.num_clientes = 0 then none
  else
    match s.eventos with
    | [] => none
    | _ :: pendentes => (remover_partida pendentes).map (fun r => r.1)

/-! ## Vocabulary of the wait samples -/

/-- The fields of a round that hold the stage 1 waits: the sum `E_W1` and the samples
`W1`. -/
def Rodada.amostra_1 (R : Rodada) : ℚ × (Nat → ℚ) := (R.E_W1, R.W1)

/-- Two round heaps that hold the same rounds with the same stage 1 waits. -/
def AmEq (rods rods' : Nat → Option Rodada) : Prop :=
  ∀ r, (rods' r).map Rodada.amostra_1 = (rods r).map Rodada.amostra_1

/-- While a round other than the transient one is open, its `E_W1` is the sum of the
entries of `W1` written so far: those of its customers among the first `m` customers,
`m` being the number of customers whose stage 1 service has started.  `a` is the number of
departures: the rounds that hold a customer from `a` on are the open ones. -/
def Soma (cfg : Config) (a m : Nat) (rods : Nat → Option Rodada) : Prop :=
  ∀ r R, 1 ≤ r → rods r = some R → a < base cfg (r + 1) →
    R.E_W1 = ∑ i in Finset.range (min (m - base cfg r) cfg.K), R.W1 i

/-- The state in which pass `k + 1` of the main loop calls `processar_chegada_servico_1`,
when it does: from line 390 of `processar_chegada_fila_1`, when the arriving customer is
alone in `fila1`, or from line 422 of `processar_chegada_fila_2`, when `fila1` is not empty
after the move. -/
def inicio_servico_1 (cfg : Config) (k : Nat) : Option Estado :=
  match rodar cfg k with
  | none => none
  | some s =>
    if s.rodadas_encerradas < cfg.NUM_RODADAS + 1 then
      match s.eventos with
      | [] => none
      | ev :: _ =>
        match ev.tipo with
        | TipoEvento.chegada_fila_1 =>
          match chegada_fila_1_ate_servico cfg s with
          | none => none
          | some s3 => if s3.fila1.num_clientes = 1 then some s3 else none
        | TipoEvento.chegada_fila_2 =>
          match chegada_fila_2_ate_servico s with
          | none => none
          | some s3 => if s3.fila1.num_clientes > 0 then some s3 else none
        | TipoEvento.partida => none
    else none

/-- The customer that the call of `processar_chegada_servico_1` made by pass `k + 1`
serves (line 465, the head of `fila1`), with the round `cliente->rodada` whose `E_W1` line
466 increases and the index `cliente->indice_rodada` of the entry of `W1` that line 469
writes when that round is not the transient one. -/
def servico_1_iniciado (cfg : Config) (k : Nat) : Option (Nat × Nat × Nat) :=
  match inicio_servico_1 cfg k with
  | none => none
  | some s3 =>
    match s3.fila1.primeiro_cliente with
    | none => none
    | some p =>
      match s3.clientes p with
      | none => none
      | some c => some (p, c.rodada, c.indice_rodada)

/-- Number of customers that have left `fila1` or are at its head after `k` passes. -/
def iniciados (cfg : Config) (k : Nat) : Nat :=
  min (processados cfg TipoEvento.chegada_fila_2 k + 1)
    (processados cfg TipoEvento.chegada_fila_1 k)

/-- The example configuration, run in memory where every entry of the `W2` array of a
`Rodada` returned by `malloc` holds 7. -/
def cfg_memoria_suja : Config :=
  { cfg_exemplo with lixo_W2 := fun _ _ => 7 }

/-! ## A run with a round of zero duration, and the division of doubles -/

/-- Values of `-log(u_0)` of a run in which the third and the fourth draw are `u_0 = 1`
(`rand()` returns `RAND_MAX`), so that `-log(u_0) = 0` and the second and the third
customer arrive at the time of the first one. -/
def amostras_duracao_nula : Nat → ℚ
  | 0 => 1 / 4
  | 1 => 1
  | 2 => 0
  | 3 => 0
  | _ => 1

/-- The example configuration with the draws `amostras_duracao_nula`. -/
def cfg_duracao_nula : Config :=
  { cfg_exemplo with neg_log_u := amostras_duracao_nula }

/-- Value of a `double`: a number, an infinity or NaN. -/
inductive Duplo where
  | numero (x : ℚ)
  | mais_infinito
  | menos_infinito
  | nan

/-- The quotient `x / d` of two doubles that hold the numbers `x` and `d`, as the statement
`x /= d` computes it.  For `d = 0` it is NaN when `x = 0` and otherwise the infinity with
the sign of `x`; the zero is `+0.0`, the difference of two equal doubles (line 528). -/
def dividir (x d : ℚ) : Duplo :=
  if d = 0 then
    if x = 0 then Duplo.nan
    else if 0 < x then Duplo.mais_infinito
    else Duplo.menos_infinito
  else Duplo.numero (x / d)

/-- The comparison `a >= b` of two doubles: false when one of them is NaN. -/
def Duplo.maior_ou_igual : Duplo → Duplo → Bool
  | Duplo.nan, _ => false
  | _, Duplo.nan => false
  | Duplo.mais_infinito, _ => true
  | _, Duplo.menos_infinito => true
  | Duplo.numero _, Duplo.mais_infinito => false
  | Duplo.menos_infinito, Duplo.numero _ => false
  | Duplo.menos_infinito, Duplo.mais_infinito => false
  | Duplo.numero x, Duplo.numero y => decide (y ≤ x)

/-- The operands of the divisions of lines 541 and 543 of `encerrar_coleta`: the integrals
`E_Nq1` and `E_N1` of `rodada` after the four updates of lines 531 to 534, and
`duracao_rodada` (line 528). -/
def operandos_fila_1 (rodada : Nat) (s : Estado) : Option (ℚ × ℚ × ℚ) :=
  match s.rodadas rodada with
  | none => none
  | some R0 =>
    match R0.prox_rodada with
    | none => none
    | some q =>
      match s.rodadas q with
      | none => none
      | some Rq =>
        let duracao_rodada := Rq.inicio - R0.inicio
        match atualizar_E_Nq1 s with
        | none => none
        | some s1 =>
        match atualizar_E_Nq2 s1 with
        | none => none
        | some s2 =>
        match atualizar_E_N1 s2 with
        | none => none
        | some s3 =>
        match atualizar_E_N2 s3 with
        | none => none
        | some s4 =>
        match s4.rodadas rodada with
        | none => none
        | some R => some (R.E_Nq1, R.E_N1, duracao_rodada)

/-- The doubles that lines 541 and 543 of `encerrar_coleta` store in `E_Nq1` and `E_N1` of
`rodada`. -/
def estimadores_fila_1 (rodada : Nat) (s : Estado) : Option (Duplo × Duplo) :=
  (operandos_fila_1 rodada s).map (fun x => (dividir x.1 x.2.2, dividir x.2.1 x.2.2))

/-! # Proofs -/

/-! ## Basic facts -/

theorem quota_pos {cfg : Config} (h : ConfigOk cfg) (r : Nat) : 1 ≤ quota cfg r := by
  unfold quota
  split
  · exact h.hKt
  · exact h.hK

theorem base_succ (cfg : Config) (r : Nat) : base cfg (r + 1) = base cfg r + quota cfg r := rfl

theorem base_mono {cfg : Config} {r q : Nat} (h : r ≤ q) : base cfg r ≤ base cfg q := by
  induction h with
  | refl => exact Nat.le_refl _
  | step _ ih => exact Nat.le_trans ih (by rw [base_succ]; exact Nat.le_add_right _ _)

theorem base_lt_succ {cfg : Config} (h : ConfigOk cfg) (r : Nat) :
    base cfg r < base cfg (r + 1) := by
  have := quota_pos h r
  rw [base_succ]; omega

/-- A serial number lies in the range of at most one round. -/
theorem base_le_of_lt {cfg : Config} {r q i : Nat}
    (h1 : base cfg r ≤ i) (h2 : i < base cfg (q + 1)) : r ≤ q := by
  by_contra hc
  have : q + 1 ≤ r := by omega
  have := @base_mono cfg _ _ this
  omega

theorem base_unico {cfg : Config} {r q i : Nat}
    (h1 : base cfg r ≤ i) (h2 : i < base cfg (r + 1))
    (h3 : base cfg q ≤ i) (h4 : i < base cfg (q + 1)) : r = q :=
  Nat.le_antisymm (base_le_of_lt h1 h4) (base_le_of_lt h3 h2)

@[simp] theorem gravar_mesmo {α : Type} (mem : Nat → Option α) (p : Nat) (v : α) :
    gravar mem p v p = some v := by simp [gravar]

theorem gravar_outro {α : Type} (mem : Nat → Option α) {p q : Nat} (v : α) (h : q ≠ p) :
    gravar mem p v q = mem q := by simp [gravar, h]

theorem liberar_outro {α : Type} (mem : Nat → Option α) {p q : Nat} (h : q ≠ p) :
    liberar mem p q = mem q := by simp [liberar, h]

theorem antes_momento {e1 e2 : Evento} (h : antes e1 e2) : e1.momento ≤ e2.momento := by
  rcases h with h | ⟨h, _⟩
  · exact le_of_lt h
  · exact le_of_eq h

theorem antes_trans {e1 e2 e3 : Evento} (h12 : antes e1 e2) (h23 : antes e2 e3) :
    antes e1 e3 := by
  rcases h12 with h | ⟨h, hi⟩ <;> rcases h23 with h' | ⟨h', hi'⟩
  · exact Or.inl (lt_trans h h')
  · exact Or.inl (h' ▸ h)
  · exact Or.inl (h ▸ h')
  · exact Or.inr ⟨h.trans h', Nat.lt_trans hi hi'⟩

/-! ### The insertion walk of `agendar_evento` -/

theorem inserir_perm (novo : Evento) (l : List Evento) :
    List.Perm (inserir novo l) (novo :: l) := by
  induction l with
  | nil => exact List.Perm.refl _
  | cons e es ih =>
    unfold inserir
    split
    · exact (List.Perm.cons e ih).trans (List.Perm.swap novo e es)
    · exact List.Perm.refl _

theorem mem_inserir {novo e : Evento} {l : List Evento} :
    e ∈ inserir novo l ↔ e = novo ∨ e ∈ l := by
  rw [(inserir_perm novo l).mem_iff]; simp

theorem inserir_pairwise {novo : Evento} {l : List Evento} (h : l.Pairwise antes)
    (hid : ∀ e ∈ l, e.ident < novo.ident) : (inserir novo l).Pairwise antes := by
  induction l with
  | nil => simp [inserir]
  | cons e es ih =>
    have hes := (List.pairwise_cons.mp h)
    unfold inserir
    split
    · rename_i hle
      refine List.pairwise_cons.mpr ⟨?_, ih hes.2 (fun x hx => hid x (List.mem_cons_of_mem _ hx))⟩
      intro x hx
      rcases mem_inserir.mp hx with rfl | hx
      · rcases lt_or_eq_of_le hle with hlt | heq
        · exact Or.inl hlt
        · exact Or.inr ⟨heq, hid e (List.mem_cons_self _ _)⟩
      · exact hes.1 x hx
    · rename_i hle
      have hlt : novo.momento < e.momento := lt_of_not_le hle
      refine List.pairwise_cons.mpr ⟨?_, h⟩
      intro x hx
      rcases List.mem_cons.mp hx with rfl | hx
      · exact Or.inl hlt
      · exact Or.inl (lt_of_lt_of_le hlt (antes_momento (hes.1 x hx)))

theorem tipos_cons (t : TipoEvento) (e : Evento) (l : List Evento) :
    tipos t (e :: l) = if e.tipo = t then e.cliente :: tipos t l else tipos t l := by
  unfold tipos
  by_cases h : e.tipo = t <;> simp [List.filter_cons, h]

theorem tipos_inserir_outro {t : TipoEvento} {novo : Evento} (l : List Evento)
    (h : novo.tipo ≠ t) : tipos t (inserir novo l) = tipos t l := by
  induction l with
  | nil => simp [inserir, tipos_cons, h, tipos]
  | cons e es ih =>
    unfold inserir
    split
    · simp [tipos_cons, ih]
    · simp [tipos_cons, h]

theorem tipos_inserir_mesmo {t : TipoEvento} {novo : Evento} (l : List Evento)
    (h : novo.tipo = t) (hl : tipos t l = []) : tipos t (inserir novo l) = [novo.cliente] := by
  have hp : List.Perm (tipos t (inserir novo l)) (tipos t (novo :: l)) := by
    unfold tipos
    exact ((inserir_perm novo l).filter _).map _
  rw [tipos_cons, if_pos h, hl] at hp
  exact List.perm_singleton.mp hp

/-! ### The search loop of `interromper_servico_fila_2` -/

theorem remover_partida_none {l : List Evento} (h : tipos TipoEvento.partida l = []) :
    remover_partida l = none := by
  induction l with
  | nil => rfl
  | cons e es ih =>
    rw [tipos_cons] at h
    by_cases he : e.tipo = TipoEvento.partida
    · simp [he] at h
    · rw [if_neg he] at h
      simp [remover_partida, he, ih h]

theorem remover_partida_some {l : List Evento} {c : Nat}
    (h : tipos TipoEvento.partida l = [c]) :
    ∃ e l', remover_partida l = some (e, l') ∧ e.cliente = c ∧ l'.Sublist l ∧
      tipos TipoEvento.partida l' = [] ∧
      tipos TipoEvento.chegada_fila_1 l' = tipos TipoEvento.chegada_fila_1 l ∧
      tipos TipoEvento.chegada_fila_2 l' = tipos TipoEvento.chegada_fila_2 l := by
  induction l with
  | nil => simp [tipos] at h
  | cons e es ih =>
    rw [tipos_cons] at h
    by_cases he : e.tipo = TipoEvento.partida
    · rw [if_pos he] at h
      have h1 : e.cliente = c := by simpa using (List.cons.inj h).1
      have h2 : tipos TipoEvento.partida es = [] := (List.cons.inj h).2
      refine ⟨e, es, by simp [remover_partida, he], h1, List.sublist_cons_self _ _, h2, ?_, ?_⟩
      · simp [tipos_cons, he]
      · simp [tipos_cons, he]
    · rw [if_neg he] at h
      obtain ⟨p, l', hr, hc, hs, hp, h1, h2⟩ := ih h
      refine ⟨p, e :: l', by simp [remover_partida, he, hr], hc, hs.cons₂ _, ?_, ?_, ?_⟩
      · simp [tipos_cons, he, hp]
      · simp [tipos_cons, h1]
      · simp [tipos_cons, h2]

/-! ### Pending events while a handler runs -/

theorem InvP.novo_dep {pend : List Evento} {nev : Nat} {ev : Evento} {l1 l2 lp : List Nat}
    (h : InvP pend nev ev l1 l2 lp) {x : ℚ} (hx : 0 ≤ x) (c : Nat) (τ : TipoEvento) :
    antes ev { ident := nev, momento := ev.momento + x, cliente := c, tipo := τ } := by
  rcases lt_or_eq_of_le hx with hlt | heq
  · exact Or.inl (by simp only; linarith)
  · exact Or.inr ⟨by simp only; rw [← heq]; ring, h.idev⟩

theorem InvP.agendar_base {pend : List Evento} {nev : Nat} {ev : Evento}
    {l1 l2 lp : List Nat} (h : InvP pend nev ev l1 l2 lp) {x : ℚ} (hx : 0 ≤ x) (c : Nat)
    (τ : TipoEvento) :
    (inserir { ident := nev, momento := ev.momento + x, cliente := c, tipo := τ }
        pend).Pairwise antes ∧
    (∀ e ∈ inserir { ident := nev, momento := ev.momento + x, cliente := c, tipo := τ } pend,
        antes ev e) ∧
    (∀ e ∈ inserir { ident := nev, momento := ev.momento + x, cliente := c, tipo := τ } pend,
        e.ident < nev + 1) := by
  refine ⟨inserir_pairwise h.ord (fun e he => h.ids e he), ?_, ?_⟩
  · intro e he
    rcases mem_inserir.mp he with rfl | he
    · exact h.novo_dep hx c τ
    · exact h.dep e he
  · intro e he
    rcases mem_inserir.mp he with rfl | he
    · exact Nat.lt_succ_self _
    · exact Nat.lt_succ_of_lt (h.ids e he)

theorem InvP.agendar_c1 {pend : List Evento} {nev : Nat} {ev : Evento} {l2 lp : List Nat}
    (h : InvP pend nev ev [] l2 lp) {x : ℚ} (hx : 0 ≤ x) (c : Nat) :
    InvP (inserir { ident := nev, momento := ev.momento + x, cliente := c,
                    tipo := TipoEvento.chegada_fila_1 } pend) (nev + 1) ev [c] l2 lp := by
  obtain ⟨h1, h2, h3⟩ := h.agendar_base hx c TipoEvento.chegada_fila_1
  refine ⟨h1, h2, h3, Nat.lt_succ_of_lt h.idev, ?_, ?_, ?_⟩
  · exact tipos_inserir_mesmo pend rfl h.c1
  · rw [tipos_inserir_outro pend (by simp)]; exact h.c2
  · rw [tipos_inserir_outro pend (by simp)]; exact h.cp

theorem InvP.agendar_c2 {pend : List Evento} {nev : Nat} {ev : Evento} {l1 lp : List Nat}
    (h : InvP pend nev ev l1 [] lp) {x : ℚ} (hx : 0 ≤ x) (c : Nat) :
    InvP (inserir { ident := nev, momento := ev.momento + x, cliente := c,
                    tipo := TipoEvento.chegada_fila_2 } pend) (nev + 1) ev l1 [c] lp := by
  obtain ⟨h1, h2, h3⟩ := h.agendar_base hx c TipoEvento.chegada_fila_2
  refine ⟨h1, h2, h3, Nat.lt_succ_of_lt h.idev, ?_, ?_, ?_⟩
  · rw [tipos_inserir_outro pend (by simp)]; exact h.c1
  · exact tipos_inserir_mesmo pend rfl h.c2
  · rw [tipos_inserir_outro pend (by simp)]; exact h.cp

theorem InvP.agendar_cp {pend : List Evento} {nev : Nat} {ev : Evento} {l1 l2 : List Nat}
    (h : InvP pend nev ev l1 l2 []) {x : ℚ} (hx : 0 ≤ x) (c : Nat) :
    InvP (inserir { ident := nev, momento := ev.momento + x, cliente := c,
                    tipo := TipoEvento.partida } pend) (nev + 1) ev l1 l2 [c] := by
  obtain ⟨h1, h2, h3⟩ := h.agendar_base hx c TipoEvento.partida
  refine ⟨h1, h2, h3, Nat.lt_succ_of_lt h.idev, ?_, ?_, ?_⟩
  · rw [tipos_inserir_outro pend (by simp)]; exact h.c1
  · rw [tipos_inserir_outro pend (by simp)]; exact h.c2
  · exact tipos_inserir_mesmo pend rfl h.cp

theorem InvP.remover {pend : List Evento} {nev : Nat} {ev : Evento} {l1 l2 : List Nat}
    {c : Nat} (h : InvP pend nev ev l1 l2 [c]) :
    ∃ e pend', remover_partida pend = some (e, pend') ∧ e.cliente = c ∧
      InvP pend' nev ev l1 l2 [] := by
  obtain ⟨e, l', hr, hc, hs, hp, h1, h2⟩ := remover_partida_some h.cp
  refine ⟨e, l', hr, hc, h.ord.sublist hs, fun x hx => h.dep x (hs.subset hx),
    fun x hx => h.ids x (hs.subset hx), h.idev, ?_, ?_, hp⟩
  · rw [h1]; exact h.c1
  · rw [h2]; exact h.c2

/-- Entering a handler: the invariant of the list splits into the current event and the
invariant of the pending events. -/
theorem InvE.abrir {ev : Evento} {pend : List Evento} {nev a b n : Nat} {t : ℚ}
    (h : InvE (ev :: pend) nev a b n t) :
    t ≤ ev.momento ∧
    InvP pend nev ev
      (if ev.tipo = TipoEvento.chegada_fila_1 then [] else [n])
      (if ev.tipo = TipoEvento.chegada_fila_2 then [] else if b < n then [b] else [])
      (if ev.tipo = TipoEvento.partida then [] else if b = n ∧ a < b then [a] else []) ∧
    (ev.tipo = TipoEvento.chegada_fila_1 → ev.cliente = n) ∧
    (ev.tipo = TipoEvento.chegada_fila_2 → ev.cliente = b ∧ b < n) ∧
    (ev.tipo = TipoEvento.partida → ev.cliente = a ∧ b = n ∧ a < b) := by
  have hord := List.pairwise_cons.mp h.ord
  have c1 := h.c1
  have c2 := h.c2
  have cp := h.cp
  rw [tipos_cons] at c1 c2 cp
  refine ⟨h.tempo ev (List.mem_cons_self _ _), ⟨hord.2, hord.1,
    fun e he => h.ids e (List.mem_cons_of_mem _ he), h.ids ev (List.mem_cons_self _ _),
    ?_, ?_, ?_⟩, ?_, ?_, ?_⟩
  · split at c1
    · rename_i ht; simp only [ht, if_true]; exact (List.cons.inj c1).2
    · rename_i ht; simp only [ht, if_false]; exact c1
  · split at c2
    · rename_i ht; simp only [ht, if_true]
      split at c2
      · exact (List.cons.inj c2).2
      · simp at c2
    · rename_i ht; simp only [ht, if_false]; exact c2
  · split at cp
    · rename_i ht; simp only [ht, if_true]
      split at cp
      · exact (List.cons.inj cp).2
      · simp at cp
    · rename_i ht; simp only [ht, if_false]; exact cp
  · intro ht
    rw [if_pos ht] at c1
    exact (List.cons.inj c1).1
  · intro ht
    rw [if_pos ht] at c2
    split at c2
    · rename_i hb; exact ⟨(List.cons.inj c2).1, hb⟩
    · simp at c2
  · intro ht
    rw [if_pos ht] at cp
    split at cp
    · rename_i hb; exact ⟨(List.cons.inj cp).1, hb.1, hb.2⟩
    · simp at cp

/-- Leaving a handler: the pending events become the event list. -/
theorem InvP.fechar {pend : List Evento} {nev : Nat} {ev : Evento} {a b n : Nat}
    (h : InvP pend nev ev [n] (if b < n then [b] else [])
      (if b = n ∧ a < b then [a] else [])) :
    InvE pend nev a b n ev.momento :=
  ⟨h.ord, h.ids, fun e he => antes_momento (h.dep e he), h.c1, h.c2, h.cp⟩

/-! ### The round heap -/

@[simp] theorem gravar_gravar {α : Type} (mem : Nat → Option α) (p : Nat) (v w : α) :
    gravar (gravar mem p v) p w = gravar mem p w := by
  funext q; by_cases h : q = p <;> simp [gravar, h]

theorem InvRod.mono_t {cfg : Config} {rods : Nat → Option Rodada} {cur a n N1 : Nat}
    {t t' : ℚ} (h : InvRod cfg rods cur a n t N1) (ht : t ≤ t') :
    InvRod cfg rods cur a n t' N1 :=
  ⟨h.fora, h.dentro, h.cur_lo, fun r R hR => le_trans (h.ini r R hR) ht, h.mono, h.ord1,
    fun R hR => ⟨(h.cur1 R hR).1, le_trans (h.cur1 R hR).2.1 ht, (h.cur1 R hR).2.2⟩⟩

/-- Overwriting one round, possibly together with a change of the counts `a` and `n`: the
part of the invariant about counters is supplied by the caller, the part about time
follows when the start time is kept, the two stage 1 integrals stay ordered and, for the
current round, the update times satisfy their condition. -/
theorem InvRod.gravar_cont {cfg : Config} {rods : Nat → Option Rodada}
    {cur a n a' n' N1 N1' : Nat} {t : ℚ} (h : InvRod cfg rods cur a n t N1) {p : Nat}
    {R R' : Rodada} (hp : rods p = some R)
    (hd : ∀ r, r ≤ cur → ∃ R0, gravar rods p R' r = some R0 ∧
      R0.num_chegadas = min (n' - base cfg r) (quota cfg r) ∧
      R0.num_partidas = min (a' - base cfg r) (quota cfg r) ∧
      R0.prox_rodada = (if r < cur then some (r + 1) else none))
    (hlo : base cfg cur ≤ n') (h4 : R'.inicio = R.inicio)
    (h5 : R'.E_Nq1 ≤ R'.E_N1)
    (h6 : p = cur → R'.ultima_atualizacao_E_Nq1 ≤ R'.ultima_atualizacao_E_N1 ∧
      R'.ultima_atualizacao_E_N1 ≤ t ∧
      (R'.ultima_atualizacao_E_Nq1 < R'.ultima_atualizacao_E_N1 → N1' ≤ 1))
    (h7 : ∀ Rc, p ≠ cur → rods cur = some Rc →
      Rc.ultima_atualizacao_E_Nq1 < Rc.ultima_atualizacao_E_N1 → N1' ≤ 1) :
    InvRod cfg (gravar rods p R') cur a' n' t N1' := by
  have hpc : p ≤ cur := by
    by_contra hc
    have := h.fora p (by omega)
    rw [hp] at this; cases this
  refine ⟨?_, hd, hlo, ?_, ?_, ?_, ?_⟩
  · intro r hr
    rw [gravar_outro _ _ (by omega)]
    exact h.fora r hr
  · intro r R0 hR0
    by_cases hrp : r = p
    · subst hrp
      rw [gravar_mesmo] at hR0; cases hR0
      rw [h4]; exact h.ini r R hp
    · rw [gravar_outro _ _ hrp] at hR0
      exact h.ini r R0 hR0
  · intro r R0 Rq hR0 hRq
    have e0 : ∃ Ra, rods r = some Ra ∧ Ra.inicio = R0.inicio := by
      by_cases hrp : r = p
      · subst hrp
        rw [gravar_mesmo] at hR0; cases hR0
        exact ⟨R, hp, h4.symm⟩
      · rw [gravar_outro _ _ hrp] at hR0
        exact ⟨R0, hR0, rfl⟩
    have eq : ∃ Rb, rods (r + 1) = some Rb ∧ Rb.inicio = Rq.inicio := by
      by_cases hrp : r + 1 = p
      · rw [hrp, gravar_mesmo] at hRq; cases hRq
        exact ⟨R, hrp ▸ hp, h4.symm⟩
      · rw [gravar_outro _ _ hrp] at hRq
        exact ⟨Rq, hRq, rfl⟩
    obtain ⟨Ra, hRa, ea⟩ := e0
    obtain ⟨Rb, hRb, eb⟩ := eq
    rw [← ea, ← eb]
    exact h.mono r Ra Rb hRa hRb
  · intro r R0 hR0
    by_cases hrp : r = p
    · subst hrp
      rw [gravar_mesmo] at hR0; cases hR0
      exact h5
    · rw [gravar_outro _ _ hrp] at hR0
      exact h.ord1 r R0 hR0
  · intro Rc hRc
    by_cases hcp : cur = p
    · subst hcp
      rw [gravar_mesmo] at hRc; cases hRc
      exact h6 rfl
    · rw [gravar_outro _ _ hcp] at hRc
      exact ⟨(h.cur1 Rc hRc).1, (h.cur1 Rc hRc).2.1, h7 Rc (fun e => hcp e.symm) hRc⟩

/-- Overwriting one round keeps the invariant when the counters, the link and the start
time are kept, the two stage 1 integrals stay ordered and, for the current round, the
update times satisfy their condition. -/
theorem InvRod.gravar_geral {cfg : Config} {rods : Nat → Option Rodada} {cur a n N1 M : Nat}
    {t : ℚ} (h : InvRod cfg rods cur a n t N1) {p : Nat} {R Q : Rodada}
    (hp : rods p = some R)
    (h1 : Q.num_chegadas = R.num_chegadas) (h2 : Q.num_partidas = R.num_partidas)
    (h3 : Q.prox_rodada = R.prox_rodada) (h4 : Q.inicio = R.inicio)
    (h5 : Q.E_Nq1 ≤ Q.E_N1)
    (h6 : p = cur → Q.ultima_atualizacao_E_Nq1 ≤ Q.ultima_atualizacao_E_N1 ∧
      Q.ultima_atualizacao_E_N1 ≤ t ∧
      (Q.ultima_atualizacao_E_Nq1 < Q.ultima_atualizacao_E_N1 → M ≤ 1))
    (h7 : ∀ Rc, p ≠ cur → rods cur = some Rc →
      Rc.ultima_atualizacao_E_Nq1 < Rc.ultima_atualizacao_E_N1 → M ≤ 1) :
    InvRod cfg (gravar rods p Q) cur a n t M := by
  refine h.gravar_cont hp ?_ h.cur_lo h4 h5 h6 h7
  intro r hr
  by_cases hrp : r = p
  · subst hrp
    obtain ⟨R0, hR0, hc, hd, hx⟩ := h.dentro r hr
    rw [hp] at hR0; cases hR0
    exact ⟨Q, gravar_mesmo _ _ _, h1.trans hc, h2.trans hd, h3.trans hx⟩
  · rw [gravar_outro _ _ hrp]
    exact h.dentro r hr

/-- Overwriting fields that the invariant does not read. -/
theorem InvRod.gravar_nucleo {cfg : Config} {rods : Nat → Option Rodada} {cur a n N1 : Nat}
    {t : ℚ} (h : InvRod cfg rods cur a n t N1) {p : Nat} {R R' : Rodada}
    (hp : rods p = some R) (hn : R'.nucleo = R.nucleo) :
    InvRod cfg (gravar rods p R') cur a n t N1 := by
  simp only [Rodada.nucleo, Prod.mk.injEq] at hn
  obtain ⟨h1, h2, h3, h4, h5, h6, h7, h8⟩ := hn
  refine h.gravar_geral hp h1 h2 h3 h4 ?_ ?_ ?_
  · rw [h5, h6]; exact h.ord1 p R hp
  · intro hpc
    subst hpc
    rw [h7, h8]; exact h.cur1 R hp
  · intro Rc _ hRc
    exact (h.cur1 Rc hRc).2.2

/-- The increment of the integral of the number waiting is at most the increment of the
integral of the number present. -/
theorem integral_le {Eq E uq u agora : ℚ} {N : Nat} (hE : Eq ≤ E) (h1 : uq ≤ u)
    (h2 : u ≤ agora) (h3 : uq < u → N ≤ 1) :
    Eq + ((N - 1 : Nat) : ℚ) * (agora - uq) ≤ E + (N : ℚ) * (agora - u) := by
  have hN : (0 : ℚ) ≤ (N : ℚ) := Nat.cast_nonneg N
  have hd : 0 ≤ agora - u := by linarith
  rcases lt_or_eq_of_le h1 with hlt | heq
  · have hN1 : N - 1 = 0 := by have := h3 hlt; omega
    rw [hN1]
    have := mul_nonneg hN hd
    simp only [Nat.cast_zero, zero_mul, add_zero]
    linarith
  · subst heq
    have hc : ((N - 1 : Nat) : ℚ) ≤ (N : ℚ) := Nat.cast_le.mpr (Nat.sub_le N 1)
    have := mul_le_mul_of_nonneg_right hc hd
    linarith

/-! ### Updates of the time-weighted integrals -/

theorem chegada_fila_1_integrais_ok {cfg : Config} {s : Estado} {ev : Evento}
    {pend : List Evento} {a n : Nat} {t : ℚ} (he : s.eventos = ev :: pend)
    (h : InvRod cfg s.rodadas s.rodada_atual a n t s.fila1.num_clientes)
    (ht : t ≤ ev.momento) :
    ∃ rods', chegada_fila_1_integrais s = some { s with rodadas := rods' } ∧
      InvRod cfg rods' s.rodada_atual a n ev.momento (s.fila1.num_clientes + 1) := by
  obtain ⟨R, hR, -⟩ := h.dentro s.rodada_atual (Nat.le_refl _)
  obtain ⟨hc1, hc2, hc3⟩ := h.cur1 R hR
  have ho := h.ord1 _ R hR
  have h' := h.mono_t ht
  have hc2' : R.ultima_atualizacao_E_N1 ≤ ev.momento := le_trans hc2 ht
  by_cases hN1 : s.fila1.num_clientes = 0 <;> by_cases hN2 : s.fila2.num_clientes = 0
  · simp [chegada_fila_1_integrais, atualizar_E_N1, get_N1, get_N2, he, hR, hN1, hN2]
    refine h'.gravar_geral hR rfl rfl rfl rfl ?_ ?_ ?_
    · simpa using ho
    · intro _
      exact ⟨by simpa using le_trans hc1 hc2', le_refl _, fun _ => by omega⟩
    · intro Rc hne; exact absurd rfl hne
  · simp [chegada_fila_1_integrais, atualizar_E_N1, atualizar_E_Nq2, get_N1,
      get_N2, he, hR, hN1, hN2, Nat.pos_of_ne_zero hN2]
    refine h'.gravar_geral hR rfl rfl rfl rfl ?_ ?_ ?_
    · simpa using ho
    · intro _
      exact ⟨by simpa using le_trans hc1 hc2', le_refl _, fun _ => by omega⟩
    · intro Rc hne; exact absurd rfl hne
  · simp [chegada_fila_1_integrais, atualizar_E_N1, atualizar_E_Nq1, get_N1,
      get_N2, he, hR, hN1, hN2, Nat.pos_of_ne_zero hN1]
    refine h'.gravar_geral hR rfl rfl rfl rfl ?_ ?_ ?_
    · simpa [get_Nq1, get_N1, Nat.pos_of_ne_zero hN1] using integral_le ho hc1 hc2' hc3
    · intro _
      exact ⟨le_refl _, le_refl _, fun hlt => absurd hlt (lt_irrefl _)⟩
    · intro Rc hne; exact absurd rfl hne
  · simp [chegada_fila_1_integrais, atualizar_E_N1, atualizar_E_Nq1,
      atualizar_E_Nq2, get_N1, get_N2, he, hR, hN1, hN2, Nat.pos_of_ne_zero hN1,
      Nat.pos_of_ne_zero hN2]
    refine h'.gravar_geral hR rfl rfl rfl rfl ?_ ?_ ?_
    · simpa [get_Nq1, get_N1, Nat.pos_of_ne_zero hN1] using integral_le ho hc1 hc2' hc3
    · intro _
      exact ⟨le_refl _, le_refl _, fun hlt => absurd hlt (lt_irrefl _)⟩
    · intro Rc hne; exact absurd rfl hne

theorem chegada_fila_2_integrais_ok {cfg : Config} {s : Estado} {ev : Evento}
    {pend : List Evento} {a n : Nat} {t : ℚ} (he : s.eventos = ev :: pend)
    (h : InvRod cfg s.rodadas s.rodada_atual a n t s.fila1.num_clientes)
    (ht : t ≤ ev.momento) :
    ∃ rods', chegada_fila_2_integrais s = some { s with rodadas := rods' } ∧
      InvRod cfg rods' s.rodada_atual a n ev.momento (s.fila1.num_clientes - 1) := by
  obtain ⟨R, hR, -⟩ := h.dentro s.rodada_atual (Nat.le_refl _)
  obtain ⟨hc1, hc2, hc3⟩ := h.cur1 R hR
  have ho := h.ord1 _ R hR
  have h' := h.mono_t ht
  have hc2' : R.ultima_atualizacao_E_N1 ≤ ev.momento := le_trans hc2 ht
  by_cases hN1 : 1 < s.fila1.num_clientes
  · have hq : 0 < s.fila1.num_clientes - 1 := by omega
    have hp : 0 < s.fila1.num_clientes := by omega
    simp [chegada_fila_2_integrais, atualizar_E_N1, atualizar_E_N2, atualizar_E_Nq2,
      atualizar_E_Nq1, get_Nq1, he, hR, hq, hp]
    refine h'.gravar_geral hR rfl rfl rfl rfl ?_ ?_ ?_
    · simpa [get_Nq1, get_N1, hp] using integral_le ho hc1 hc2' hc3
    · intro _
      exact ⟨le_refl _, le_refl _, fun hlt => absurd hlt (lt_irrefl _)⟩
    · intro Rc hne; exact absurd rfl hne
  · have hq : s.fila1.num_clientes - 1 = 0 := by omega
    simp [chegada_fila_2_integrais, atualizar_E_N1, atualizar_E_N2, atualizar_E_Nq2,
      get_Nq1, he, hR, hq]
    refine h'.gravar_geral hR rfl rfl rfl rfl ?_ ?_ ?_
    · have h0 : (0 : ℚ) ≤ (get_N1 s : ℚ) * (ev.momento - R.ultima_atualizacao_E_N1) :=
        mul_nonneg (Nat.cast_nonneg _) (by linarith)
      simp only
      linarith
    · intro _
      exact ⟨by simpa using le_trans hc1 hc2', le_refl _, fun _ => by omega⟩
    · intro Rc hne; exact absurd rfl hne

@[simp] theorem get_Nq2_rodadas (s : Estado) (r : Nat → Option Rodada) :
    get_Nq2 { s with rodadas := r } = get_Nq2 s := rfl

@[simp] theorem get_Nq1_rodadas (s : Estado) (r : Nat → Option Rodada) :
    get_Nq1 { s with rodadas := r } = get_Nq1 s := rfl

@[simp] theorem get_N1_rodadas (s : Estado) (r : Nat → Option Rodada) :
    get_N1 { s with rodadas := r } = get_N1 s := rfl

@[simp] theorem get_N2_rodadas (s : Estado) (r : Nat → Option Rodada) :
    get_N2 { s with rodadas := r } = get_N2 s := rfl

theorem partida_integrais_ok {cfg : Config} {s : Estado} {ev : Evento}
    {pend : List Evento} {a n N1 : Nat} {t : ℚ} (he : s.eventos = ev :: pend)
    (h : InvRod cfg s.rodadas s.rodada_atual a n t N1) :
    ∃ rods', partida_integrais s = some { s with rodadas := rods' } ∧
      InvRod cfg rods' s.rodada_atual a n t N1 := by
  obtain ⟨R, hR, -⟩ := h.dentro s.rodada_atual (Nat.le_refl _)
  by_cases h1 : 0 < s.fila1.num_clientes <;> by_cases h2 : 0 < s.fila2.num_clientes <;>
    by_cases h3 : 0 < s.fila2.num_clientes - 1 <;>
    simp [partida_integrais, atualizar_E_N2, atualizar_E_Nq2, he, hR, get_Nq2, h1, h2, h3] <;>
    exact h.gravar_nucleo hR rfl

/-- Closing a round that has a successor: `encerrar_coleta` succeeds and keeps the
invariant of the round heap. -/
theorem encerrar_coleta_ok {cfg : Config} {s : Estado} {ev : Evento}
    {pend : List Evento} {a n N1 rc : Nat} {t : ℚ} (he : s.eventos = ev :: pend)
    (h : InvRod cfg s.rodadas s.rodada_atual a n t N1) (ht : t ≤ ev.momento)
    (hrc : rc < s.rodada_atual) (hN : N1 = s.fila1.num_clientes) :
    ∃ rods', encerrar_coleta cfg rc s = some { s with rodadas := rods' } ∧
      InvRod cfg rods' s.rodada_atual a n ev.momento N1 := by
  obtain ⟨R, hR, -⟩ := h.dentro s.rodada_atual (Nat.le_refl _)
  obtain ⟨R0, hR0, -, -, hpx⟩ := h.dentro rc (Nat.le_of_lt hrc)
  obtain ⟨Rq, hRq, -⟩ := h.dentro (rc + 1) hrc
  rw [if_pos hrc] at hpx
  obtain ⟨hc1, hc2, hc3⟩ := h.cur1 R hR
  have ho := h.ord1 _ R hR
  have ho0 := h.ord1 _ R0 hR0
  have hd : 0 ≤ Rq.inicio - R0.inicio := by
    have := h.mono rc R0 Rq hR0 hRq
    linarith
  have h' := h.mono_t ht
  have hc2' : R.ultima_atualizacao_E_N1 ≤ ev.momento := le_trans hc2 ht
  have hne : rc ≠ s.rodada_atual := Nat.ne_of_lt hrc
  simp [encerrar_coleta, atualizar_E_N1, atualizar_E_N2, atualizar_E_Nq2,
      atualizar_E_Nq1, he, hR, hR0, hRq, hpx, gravar_outro, hne]
  have hA := h'.gravar_geral (M := N1) (Q :=
      { R with
        E_Nq1 := R.E_Nq1 + (get_Nq1 s : ℚ) * (ev.momento - R.ultima_atualizacao_E_Nq1)
        ultima_atualizacao_E_Nq1 := ev.momento
        E_Nq2 := R.E_Nq2 + (get_Nq2 s : ℚ) * (ev.momento - R.ultima_atualizacao_E_Nq2)
        ultima_atualizacao_E_Nq2 := ev.momento
        E_N1 := R.E_N1 + (get_N1 s : ℚ) * (ev.momento - R.ultima_atualizacao_E_N1)
        ultima_atualizacao_E_N1 := ev.momento
        E_N2 := R.E_N2 + (get_N2 s : ℚ) * (ev.momento - R.ultima_atualizacao_E_N2)
        ultima_atualizacao_E_N2 := ev.momento }) hR rfl rfl rfl rfl
    (by
      have := integral_le (N := s.fila1.num_clientes) ho hc1 hc2' (hN ▸ hc3)
      by_cases hp : 0 < s.fila1.num_clientes
      · simpa [get_Nq1, get_N1, hp] using this
      · have hz : s.fila1.num_clientes = 0 := by omega
        simpa [get_Nq1, get_N1, hz] using ho)
    (fun _ => ⟨le_refl _, le_refl _, fun hlt => absurd hlt (lt_irrefl _)⟩)
    (fun Rc hne => absurd rfl hne)
  refine hA.gravar_geral (p := rc) (R := R0) (by rw [gravar_outro _ _ hne]; exact hR0)
    rfl rfl hpx.symm rfl ?_ ?_ ?_
  · exact div_le_div_of_nonneg_right ho0 hd
  · intro e; exact absurd e hne
  · intro Rc _ hRc
    rw [gravar_mesmo] at hRc
    cases hRc
    intro hlt
    exact absurd hlt (lt_irrefl _)

/-! ### Heaps that differ only in fields the invariants do not read -/

theorem RodEq.rod_refl (rods : Nat → Option Rodada) : RodEq rods rods := fun _ => rfl

theorem RodEq.rod_trans {r1 r2 r3 : Nat → Option Rodada} (h12 : RodEq r1 r2) (h23 : RodEq r2 r3) :
    RodEq r1 r3 := fun r => (h23 r).trans (h12 r)

theorem RodEq.rod_sobrescrever {rods : Nat → Option Rodada} {p : Nat} {R R' : Rodada}
    (hp : rods p = some R) (hn : R'.nucleo = R.nucleo) : RodEq rods (gravar rods p R') := by
  intro r
  by_cases h : r = p
  · subst h; simp [hp, hn]
  · rw [gravar_outro _ _ h]

theorem RodEq.rod_some_dir {rods rods' : Nat → Option Rodada} (h : RodEq rods rods') {r : Nat}
    {R : Rodada} (hR : rods r = some R) : ∃ R', rods' r = some R' ∧ R'.nucleo = R.nucleo := by
  have := h r
  rw [hR] at this
  cases hx : rods' r with
  | none => rw [hx] at this; cases this
  | some R' => rw [hx] at this; exact ⟨R', rfl, Option.some.inj this⟩

theorem RodEq.rod_some_inv {rods rods' : Nat → Option Rodada} (h : RodEq rods rods') {r : Nat}
    {R' : Rodada} (hR : rods' r = some R') : ∃ R, rods r = some R ∧ R'.nucleo = R.nucleo := by
  have := h r
  rw [hR] at this
  cases hx : rods r with
  | none => rw [hx] at this; cases this
  | some R => rw [hx] at this; exact ⟨R, rfl, Option.some.inj this⟩

theorem RodEq.none_inv {rods rods' : Nat → Option Rodada} (h : RodEq rods rods') {r : Nat}
    (hR : rods r = none) : rods' r = none := by
  have := h r
  rw [hR] at this
  cases hx : rods' r with
  | none => rfl
  | some R' => rw [hx] at this; cases this

theorem nucleo_rod {R R' : Rodada} (h : R'.nucleo = R.nucleo) :
    R'.num_chegadas = R.num_chegadas ∧ R'.num_partidas = R.num_partidas ∧
    R'.prox_rodada = R.prox_rodada ∧ R'.inicio = R.inicio ∧ R'.E_Nq1 = R.E_Nq1 ∧
    R'.E_N1 = R.E_N1 ∧ R'.ultima_atualizacao_E_Nq1 = R.ultima_atualizacao_E_Nq1 ∧
    R'.ultima_atualizacao_E_N1 = R.ultima_atualizacao_E_N1 := by
  simpa [Rodada.nucleo] using h

theorem InvRod.rod_congr {cfg : Config} {rods rods' : Nat → Option Rodada} {cur a n N1 : Nat}
    {t : ℚ} (h : InvRod cfg rods cur a n t N1) (he : RodEq rods rods') :
    InvRod cfg rods' cur a n t N1 := by
  refine ⟨fun r hr => he.none_inv (h.fora r hr), ?_, h.cur_lo, ?_, ?_, ?_, ?_⟩
  · intro r hr
    obtain ⟨R, hR, h1, h2, h3⟩ := h.dentro r hr
    obtain ⟨R', hR', hn⟩ := he.rod_some_dir hR
    obtain ⟨e1, e2, e3, -⟩ := nucleo_rod hn
    exact ⟨R', hR', e1.trans h1, e2.trans h2, e3.trans h3⟩
  · intro r R' hR'
    obtain ⟨R, hR, hn⟩ := he.rod_some_inv hR'
    obtain ⟨-, -, -, e4, -⟩ := nucleo_rod hn
    rw [e4]; exact h.ini r R hR
  · intro r R' Rq' hR' hRq'
    obtain ⟨R, hR, hn⟩ := he.rod_some_inv hR'
    obtain ⟨Rq, hRq, hnq⟩ := he.rod_some_inv hRq'
    obtain ⟨-, -, -, e4, -⟩ := nucleo_rod hn
    obtain ⟨-, -, -, e4q, -⟩ := nucleo_rod hnq
    rw [e4, e4q]; exact h.mono r R Rq hR hRq
  · intro r R' hR'
    obtain ⟨R, hR, hn⟩ := he.rod_some_inv hR'
    obtain ⟨-, -, -, -, e5, e6, -⟩ := nucleo_rod hn
    rw [e5, e6]; exact h.ord1 r R hR
  · intro R' hR'
    obtain ⟨R, hR, hn⟩ := he.rod_some_inv hR'
    obtain ⟨-, -, -, -, -, -, e7, e8⟩ := nucleo_rod hn
    rw [e7, e8]; exact h.cur1 R hR

theorem MemEq.mem_refl (mem : Nat → Option Cliente) : MemEq mem mem := fun _ => rfl

theorem MemEq.mem_trans {m1 m2 m3 : Nat → Option Cliente} (h12 : MemEq m1 m2)
    (h23 : MemEq m2 m3) : MemEq m1 m3 := fun r => (h23 r).trans (h12 r)

theorem MemEq.mem_sobrescrever {mem : Nat → Option Cliente} {p : Nat} {c c' : Cliente}
    (hp : mem p = some c) (hn : c'.nucleo = c.nucleo) : MemEq mem (gravar mem p c') := by
  intro r
  by_cases h : r = p
  · subst h; simp [hp, hn]
  · rw [gravar_outro _ _ h]

theorem MemEq.mem_some_dir {mem mem' : Nat → Option Cliente} (h : MemEq mem mem') {i : Nat}
    {c : Cliente} (hc : mem i = some c) : ∃ c', mem' i = some c' ∧ c'.nucleo = c.nucleo := by
  have := h i
  rw [hc] at this
  cases hx : mem' i with
  | none => rw [hx] at this; cases this
  | some c' => rw [hx] at this; exact ⟨c', rfl, Option.some.inj this⟩

theorem MemEq.mem_some_inv {mem mem' : Nat → Option Cliente} (h : MemEq mem mem') {i : Nat}
    {c' : Cliente} (hc : mem' i = some c') : ∃ c, mem i = some c ∧ c'.nucleo = c.nucleo := by
  have := h i
  rw [hc] at this
  cases hx : mem i with
  | none => rw [hx] at this; cases this
  | some c => rw [hx] at this; exact ⟨c, rfl, Option.some.inj this⟩

theorem nucleo_cli {c c' : Cliente} (h : c'.nucleo = c.nucleo) :
    c'.rodada = c.rodada ∧ c'.prox_cliente = c.prox_cliente ∧
    c'.indice_rodada = c.indice_rodada := by
  simpa [Cliente.nucleo] using h

theorem InvC.cli_congr {cfg : Config} {mem mem' : Nat → Option Cliente} {a n : Nat}
    (h : InvC cfg mem a n) (he : MemEq mem mem') : InvC cfg mem' a n := by
  intro i h1 h2
  obtain ⟨c, hc, p1, p2, p3⟩ := h i h1 h2
  obtain ⟨c', hc', hn⟩ := he.mem_some_dir hc
  obtain ⟨e1, -, e3⟩ := nucleo_cli hn
  exact ⟨c', hc', by rw [e1]; exact p1, by rw [e1]; exact p2, by rw [e1, e3]; exact p3⟩

theorem InvQ.fila_congr {mem mem' : Nat → Option Cliente} {f1 f2 : FilaEspera} {a b n : Nat}
    (h : InvQ mem f1 f2 a b n) (he : MemEq mem mem') : InvQ mem' f1 f2 a b n := by
  refine ⟨h.hab, h.hbn, h.f1_n, h.f1_p, h.f1_u, h.f2_n, h.f2_p, h.f2_u, ?_⟩
  intro i c' h1 h2 h3 hc'
  obtain ⟨c, hc, hn⟩ := he.mem_some_inv hc'
  obtain ⟨-, e2, -⟩ := nucleo_cli hn
  rw [e2]; exact h.prox i c h1 h2 h3 hc

/-- A live customer can be dereferenced, its round exists and its index fits the sample
arrays of a round that is not the transient one. -/
theorem cliente_valido {cfg : Config} {mem : Nat → Option Cliente}
    {rods : Nat → Option Rodada} {cur a a' n n' N1 : Nat} {t : ℚ}
    (hC : InvC cfg mem a n) (hR : InvRod cfg rods cur a' n' t N1)
    (hcur : n < base cfg (cur + 1)) {i : Nat} (h1 : a ≤ i) (h2 : i ≤ n) :
    ∃ c R, mem i = some c ∧ rods c.rodada = some R ∧ c.rodada ≤ cur ∧
      base cfg c.rodada ≤ i ∧ i < base cfg (c.rodada + 1) ∧
      ¬ (c.rodada ≠ 0 ∧ cfg.K ≤ c.indice_rodada) := by
  obtain ⟨c, hc, p1, p2, p3⟩ := hC i h1 h2
  have hle : c.rodada ≤ cur := base_le_of_lt p1 (Nat.lt_of_le_of_lt h2 hcur)
  obtain ⟨R, hRr, -⟩ := hR.dentro c.rodada hle
  refine ⟨c, R, hc, hRr, hle, p1, p2, ?_⟩
  rintro ⟨hne, hK⟩
  rw [base_succ] at p2
  have : quota cfg c.rodada = cfg.K := by simp [quota, hne]
  omega

/-! ### Samples -/

theorem amostra_mu_nonneg {cfg : Config} (h : ConfigOk cfg) (s : Estado) :
    0 ≤ (amostra_exponencial cfg cfg.mu s).1 :=
  div_nonneg (h.hu _) (le_of_lt h.hmu)

theorem amostra_lambda_nonneg {cfg : Config} (h : ConfigOk cfg) (s : Estado) :
    0 ≤ (amostra_exponencial cfg cfg.lambda s).1 := by
  refine div_nonneg (h.hu _) ?_
  unfold Config.lambda
  have := mul_pos h.hrho h.hmu
  linarith

/-! ### Preemption and service starts -/

theorem interromper_ok {s : Estado} {ev : Evento} {pend : List Evento} {nev : Nat}
    {l1 l2 lp : List Nat} (he : s.eventos = ev :: pend) (hP : InvP pend nev ev l1 l2 lp)
    (hlp : lp = [] ∨ ∃ a c, lp = [a] ∧ s.fila2.num_clientes ≠ 0 ∧ s.clientes a = some c) :
    ∃ mem' pend', interromper_servico_fila_2 s =
        some { s with eventos := ev :: pend', clientes := mem' } ∧
      InvP pend' nev ev l1 l2 [] ∧ MemEq s.clientes mem' := by
  have hs : s = { s with eventos := ev :: pend, clientes := s.clientes } := by
    cases s; simp only at he; subst he; rfl
  rcases hlp with hlp | ⟨a, c, hlp, hf, hc⟩
  · subst hlp
    refine ⟨s.clientes, pend, ?_, hP, MemEq.mem_refl _⟩
    simp only [interromper_servico_fila_2, he, remover_partida_none hP.cp, ite_self]
    exact congrArg some hs
  · subst hlp
    obtain ⟨e, pend', hr, hec, hP'⟩ := hP.remover
    refine ⟨gravar s.clientes a { c with chegada_estado_atual := ev.momento }, pend', ?_, hP',
      MemEq.mem_sobrescrever hc rfl⟩
    simp only [interromper_servico_fila_2, he, hr, if_neg hf, hec, hc]

theorem servico_1_ok {cfg : Config} (hcfg : ConfigOk cfg) {s : Estado} {ev : Evento}
    {pend : List Evento} {l1 lp : List Nat} {p : Nat} {c : Cliente} {R : Rodada}
    (he : s.eventos = ev :: pend) (hP : InvP pend s.num_eventos_criados ev l1 [] lp)
    (hlp : lp = [] ∨ ∃ a c, lp = [a] ∧ s.fila2.num_clientes ≠ 0 ∧ s.clientes a = some c)
    (hp : s.fila1.primeiro_cliente = some p) (hc : s.clientes p = some c)
    (hR : s.rodadas c.rodada = some R)
    (hK : ¬ (c.rodada ≠ s.fase_transiente ∧ cfg.K ≤ c.indice_rodada)) :
    ∃ mem' rods' pend', processar_chegada_servico_1 cfg s =
        some { s with eventos := ev :: pend', clientes := mem', rodadas := rods',
                      num_eventos_criados := s.num_eventos_criados + 1,
                      num_amostras := s.num_amostras + 1 } ∧
      InvP pend' (s.num_eventos_criados + 1) ev l1 [p] [] ∧ MemEq s.clientes mem' ∧
      RodEq s.rodadas rods' := by
  obtain ⟨evs, f1, f2, ft, ra, re, cl, ro, nc, nr, ne, na⟩ := s
  simp only at he hP hlp hp hc hR hK
  subst he
  have hM1 : MemEq cl (gravar cl p { c with chegada_estado_atual := ev.momento }) :=
    MemEq.mem_sobrescrever hc rfl
  have hlp1 : lp = [] ∨ ∃ a c', lp = [a] ∧ f2.num_clientes ≠ 0 ∧
      gravar cl p { c with chegada_estado_atual := ev.momento } a = some c' := by
    rcases hlp with h | ⟨a, ca, h1, h2, h3⟩
    · exact Or.inl h
    · obtain ⟨c', hc', -⟩ := hM1.mem_some_dir h3
      exact Or.inr ⟨a, c', h1, h2, hc'⟩
  simp only [processar_chegada_servico_1, hp, hc, hR, if_neg hK]
  generalize hR2 : (if c.rodada ≠ ft then
        ({ R with E_W1 := R.E_W1 + (ev.momento - c.chegada_estado_atual)
                  W1 := escrever R.W1 c.indice_rodada (ev.momento - c.chegada_estado_atual) } :
          Rodada)
       else { R with E_W1 := R.E_W1 + (ev.momento - c.chegada_estado_atual) }) = R2
  have hn2 : R2.nucleo = R.nucleo := by
    rw [← hR2]; split <;> rfl
  obtain ⟨mem', pend', hI, hP', hM⟩ := interromper_ok
    (s := ⟨ev :: pend, f1, f2, ft, ra, re,
      gravar cl p { c with chegada_estado_atual := ev.momento },
      gravar ro c.rodada R2, nc, nr, ne, na⟩) rfl hP hlp1
  rw [hI]
  have hx := amostra_mu_nonneg hcfg ⟨ev :: pend', f1, f2, ft, ra, re, mem',
      gravar ro c.rodada R2, nc, nr, ne, na⟩
  exact ⟨mem', gravar ro c.rodada R2, _, rfl, hP'.agendar_c2 hx p, hM1.mem_trans hM,
    RodEq.rod_sobrescrever hR hn2⟩

theorem servico_2_ok {cfg : Config} (hcfg : ConfigOk cfg) {s : Estado} {ev : Evento}
    {pend : List Evento} {l1 l2 : List Nat} {p : Nat} {c : Cliente} {R : Rodada}
    (he : s.eventos = ev :: pend) (hP : InvP pend s.num_eventos_criados ev l1 l2 [])
    (hp : s.fila2.primeiro_cliente = some p) (hc : s.clientes p = some c)
    (hR : s.rodadas c.rodada = some R)
    (hK : ¬ (c.rodada ≠ s.fase_transiente ∧ cfg.K ≤ c.indice_rodada)) :
    ∃ mem' rods' pend', processar_chegada_servico_2 cfg s =
        some { s with eventos := ev :: pend', clientes := mem', rodadas := rods',
                      num_eventos_criados := s.num_eventos_criados + 1,
                      num_amostras := s.num_amostras + 1 } ∧
      InvP pend' (s.num_eventos_criados + 1) ev l1 l2 [p] ∧ MemEq s.clientes mem' ∧
      RodEq s.rodadas rods' := by
  obtain ⟨R2, hR2, hn2⟩ : ∃ R2 : Rodada, R2 =
      (if c.rodada ≠ s.fase_transiente then
        { R with E_W2 := R.E_W2 + (ev.momento - c.chegada_estado_atual)
                 W2 := escrever R.W2 c.indice_rodada
                   (R.W2 c.indice_rodada + (ev.momento - c.chegada_estado_atual)) }
       else { R with E_W2 := R.E_W2 + (ev.momento - c.chegada_estado_atual) }) ∧
      R2.nucleo = R.nucleo := by
    refine ⟨_, rfl, ?_⟩
    split <;> rfl
  have hM1 : MemEq s.clientes
      (gravar s.clientes p { c with chegada_estado_atual := ev.momento }) :=
    MemEq.mem_sobrescrever hc rfl
  have hx := amostra_mu_nonneg hcfg { s with
      rodadas := gravar s.rodadas c.rodada R2
      clientes := gravar s.clientes p { c with chegada_estado_atual := ev.momento } }
  refine ⟨_, gravar s.rodadas c.rodada R2, _, ?_, hP.agendar_cp hx p, hM1,
    RodEq.rod_sobrescrever hR hn2⟩
  simp only [processar_chegada_servico_2, he, hp, hc, hR, if_neg hK]
  rw [← hR2]
  simp only [agendar_evento, amostra_exponencial, he]

/-! ### Queues and the customer heap -/

theorem InvC.cli_sobrescrever {cfg : Config} {mem : Nat → Option Cliente} {a n p : Nat}
    {c c' : Cliente} (h : InvC cfg mem a n) (hp : mem p = some c)
    (h1 : c'.rodada = c.rodada) (h2 : c'.indice_rodada = c.indice_rodada) :
    InvC cfg (gravar mem p c') a n := by
  intro i hi1 hi2
  by_cases hip : i = p
  · subst hip
    obtain ⟨c0, hc0, q1, q2, q3⟩ := h i hi1 hi2
    rw [hp] at hc0; cases hc0
    exact ⟨c', gravar_mesmo _ _ _, by rw [h1]; exact q1, by rw [h1]; exact q2,
      by rw [h1, h2]; exact q3⟩
  · rw [gravar_outro _ _ hip]
    exact h i hi1 hi2

theorem chegada_fila_1_contagem_ok {cfg : Config} {s : Estado} {ev : Evento}
    {pend : List Evento} {a b n : Nat} {R : Rodada} (he : s.eventos = ev :: pend)
    (hev : ev.cliente = n) (hQ : InvQ s.clientes s.fila1 s.fila2 a b n)
    (hC : InvC cfg s.clientes a n) (hR : s.rodadas s.rodada_atual = some R) :
    ∃ mem' f1', chegada_fila_1_contagem s =
        some { s with clientes := mem', fila1 := f1',
                      rodadas := gravar s.rodadas s.rodada_atual
                        { R with num_chegadas := R.num_chegadas + 1 } } ∧
      InvQ mem' f1' s.fila2 a b (n + 1) ∧ InvC cfg mem' a n := by
  obtain ⟨evs, f1, f2, ft, ra, re, cl, ro, nc, nr, ne, na⟩ := s
  simp only at he hQ hC hR
  subst he
  subst hev
  have hab := hQ.hab
  have hbn := hQ.hbn
  obtain ⟨c, hc, q1, q2, q3⟩ := hC ev.cliente (Nat.le_trans hab hbn) (Nat.le_refl _)
  by_cases hb : b = ev.cliente
  · have hz : f1.num_clientes = 0 := by rw [hQ.f1_n]; omega
    simp only [chegada_fila_1_contagem, adicionar_cliente_fila, hz, if_true, hc, hR]
    refine ⟨_, _, rfl, ⟨hab, by omega, by simp; omega, fun _ => by simp [hb], fun _ => by simp,
      hQ.f2_n, hQ.f2_p, hQ.f2_u, ?_⟩, hC.cli_sobrescrever hc rfl rfl⟩
    intro i ci h1 h2 h3 hci
    have hi : i ≠ ev.cliente := by omega
    rw [gravar_outro _ _ hi] at hci
    exact hQ.prox i ci h1 (by omega) h3 hci
  · have hlt : b < ev.cliente := by omega
    have hz : f1.num_clientes ≠ 0 := by rw [hQ.f1_n]; omega
    obtain ⟨cu, hcu, -⟩ := hC (ev.cliente - 1) (by omega) (by omega)
    have hne : ev.cliente ≠ ev.cliente - 1 := by omega
    simp only [chegada_fila_1_contagem, adicionar_cliente_fila, hz, if_false, hQ.f1_u hlt, hcu,
      gravar_outro _ _ hne, hc, hR]
    refine ⟨_, _, rfl, ⟨hab, by omega, by simp; rw [hQ.f1_n]; omega,
      fun _ => by simpa using hQ.f1_p hlt, fun _ => by simp,
      hQ.f2_n, hQ.f2_p, hQ.f2_u, ?_⟩, ?_⟩
    · intro i ci h1 h2 h3 hci
      have hi : i ≠ ev.cliente := by omega
      rw [gravar_outro _ _ hi] at hci
      by_cases hi' : i = ev.cliente - 1
      · subst hi'
        rw [gravar_mesmo] at hci
        cases hci
        simp only
        congr 1
        omega
      · rw [gravar_outro _ _ hi'] at hci
        exact hQ.prox i ci h1 (by omega) h3 hci
    · refine InvC.cli_sobrescrever (c := c) ?_ (by rw [gravar_outro _ _ hne]; exact hc) rfl rfl
      exact hC.cli_sobrescrever hcu rfl rfl

theorem chegada_fila_2_mover_ok {cfg : Config} {s : Estado} {a b n : Nat}
    (hQ : InvQ s.clientes s.fila1 s.fila2 a b n) (hC : InvC cfg s.clientes a n)
    (hb : b < n) :
    ∃ mem' f1' f2', chegada_fila_2_mover s =
        some { s with clientes := mem', fila1 := f1', fila2 := f2' } ∧
      InvQ mem' f1' f2' a (b + 1) n ∧ InvC cfg mem' a n := by
  have hab := hQ.hab
  obtain ⟨c, hc, -⟩ := hC b hab (Nat.le_of_lt hb)
  have hd : dec_ul s.fila1.num_clientes = n - b - 1 := by
    rw [hQ.f1_n]; unfold dec_ul; rw [if_neg (by omega)]
  by_cases hz : a = b
  · have hz2 : s.fila2.num_clientes = 0 := by rw [hQ.f2_n]; omega
    simp only [chegada_fila_2_mover, prox_cliente_fila, adicionar_cliente_fila, hQ.f1_p hb, hc,
      hz2, if_true, hd]
    refine ⟨_, _, _, rfl, ⟨by omega, by omega, by simp; omega, ?_, ?_, by simp; omega,
      fun _ => by simp [hz], fun _ => by simp, ?_⟩, hC⟩
    · intro hlt
      exact hQ.prox b c hab hlt (by omega) hc
    · intro hlt
      simp only
      rw [if_neg (by omega)]
      exact hQ.f1_u hb
    · intro i ci h1 h2 h3 hci
      exact hQ.prox i ci h1 h2 (by omega) hci
  · have hlt : a < b := by omega
    have hz2 : s.fila2.num_clientes ≠ 0 := by rw [hQ.f2_n]; omega
    obtain ⟨cu, hcu, -⟩ := hC (b - 1) (by omega) (by omega)
    simp only [chegada_fila_2_mover, prox_cliente_fila, adicionar_cliente_fila, hQ.f1_p hb, hc,
      hz2, if_false, hd, hQ.f2_u hlt, hcu]
    refine ⟨_, _, _, rfl, ⟨by omega, by omega, by simp; omega, ?_, ?_, by simp; rw [hQ.f2_n]; omega,
      fun _ => by simpa using hQ.f2_p hlt, fun _ => by simp, ?_⟩, hC.cli_sobrescrever hcu rfl rfl⟩
    · intro hlt'
      exact hQ.prox b c hab hlt' (by omega) hc
    · intro hlt'
      simp only
      rw [if_neg (by omega)]
      exact hQ.f1_u hb
    · intro i ci h1 h2 h3 hci
      by_cases hi' : i = b - 1
      · subst hi'
        rw [gravar_mesmo] at hci
        cases hci
        simp only
        congr 1
        omega
      · rw [gravar_outro _ _ hi'] at hci
        exact hQ.prox i ci h1 h2 (by omega) hci

theorem partida_remover_ok {cfg : Config} {s : Estado} {a b n : Nat}
    (hQ : InvQ s.clientes s.fila1 s.fila2 a b n) (hC : InvC cfg s.clientes a n)
    (ha : a < b) :
    ∃ f2', partida_remover s =
        some { s with clientes := liberar s.clientes a, fila2 := f2' } ∧
      InvQ (liberar s.clientes a) s.fila1 f2' (a + 1) b n ∧
      InvC cfg (liberar s.clientes a) (a + 1) n ∧
      f2'.num_clientes = b - (a + 1) := by
  have hbn := hQ.hbn
  obtain ⟨c, hc, -⟩ := hC a (Nat.le_refl _) (by omega)
  have hd : dec_ul s.fila2.num_clientes = b - a - 1 := by
    rw [hQ.f2_n]; unfold dec_ul; rw [if_neg (by omega)]
  simp only [partida_remover, prox_cliente_fila, hQ.f2_p ha, hc, hd]
  refine ⟨_, rfl, ⟨by omega, hbn, hQ.f1_n, hQ.f1_p, hQ.f1_u, by simp; omega, ?_, ?_, ?_⟩, ?_,
    by simp; omega⟩
  · intro hlt
    exact hQ.prox a c (Nat.le_refl _) (by omega) (by omega) hc
  · intro hlt
    simp only
    rw [if_neg (by omega)]
    exact hQ.f2_u ha
  · intro i ci h1 h2 h3 hci
    rw [liberar_outro _ (by omega)] at hci
    exact hQ.prox i ci (by omega) h2 h3 hci
  · intro i h1 h2
    rw [liberar_outro _ (by omega)]
    exact hC i (by omega) h2

/-! ### Round counters -/

theorem InvRod.chegada {cfg : Config} {rods : Nat → Option Rodada} {cur a n N1 : Nat}
    {t : ℚ} {R : Rodada} (h : InvRod cfg rods cur a n t N1) (hR : rods cur = some R)
    (hcur : n < base cfg (cur + 1)) :
    InvRod cfg (gravar rods cur { R with num_chegadas := R.num_chegadas + 1 }) cur a (n + 1) t
      N1 := by
  have hlo := h.cur_lo
  refine h.gravar_cont hR ?_ (by omega) rfl (h.ord1 cur R hR) (fun _ => h.cur1 R hR)
    (fun _ hne => absurd rfl hne)
  intro r hr
  by_cases hrc : r = cur
  · subst hrc
    obtain ⟨R0, hR0, hc, hd, hx⟩ := h.dentro r hr
    rw [hR] at hR0; cases hR0
    refine ⟨_, gravar_mesmo _ _ _, ?_, hd, hx⟩
    simp only [hc]
    rw [base_succ] at hcur
    rw [Nat.min_def, Nat.min_def]
    split_ifs <;> omega
  · rw [gravar_outro _ _ hrc]
    obtain ⟨R0, hR0, hc, hd, hx⟩ := h.dentro r hr
    refine ⟨R0, hR0, ?_, hd, hx⟩
    have : base cfg (r + 1) ≤ base cfg cur := base_mono (by omega)
    rw [base_succ] at this
    rw [hc, Nat.min_def, Nat.min_def]
    split_ifs <;> omega

theorem InvRod.partida {cfg : Config} {rods : Nat → Option Rodada} {cur a n N1 rc : Nat}
    {t : ℚ} {R R' : Rodada} (h : InvRod cfg rods cur a n t N1) (hR : rods rc = some R)
    (h1 : base cfg rc ≤ a) (h2 : a < base cfg (rc + 1))
    (e1 : R'.num_chegadas = R.num_chegadas) (e2 : R'.num_partidas = R.num_partidas + 1)
    (e3 : R'.nucleo = { R with num_partidas := R'.num_partidas }.nucleo) :
    InvRod cfg (gravar rods rc R') cur (a + 1) n t N1 := by
  have hrcur : rc ≤ cur := by
    by_contra hc
    have := h.fora rc (by omega)
    rw [hR] at this; cases this
  simp only [Rodada.nucleo, Prod.mk.injEq] at e3
  obtain ⟨-, -, e5, e6, e7, e8, e9, e10⟩ := e3
  refine h.gravar_cont hR ?_ h.cur_lo e6 (by rw [e7, e8]; exact h.ord1 rc R hR)
    (fun hc => by subst hc; rw [e9, e10]; exact h.cur1 R hR)
    (fun Rc _ hRc => (h.cur1 Rc hRc).2.2)
  intro r hr
  by_cases hrc : r = rc
  · subst hrc
    obtain ⟨R0, hR0, hc, hd, hx⟩ := h.dentro r hr
    rw [hR] at hR0; cases hR0
    refine ⟨_, gravar_mesmo _ _ _, e1.trans hc, ?_, e5.trans hx⟩
    rw [e2, hd]
    rw [base_succ] at h2
    rw [Nat.min_def, Nat.min_def]
    split_ifs <;> omega
  · rw [gravar_outro _ _ hrc]
    obtain ⟨R0, hR0, hc, hd, hx⟩ := h.dentro r hr
    refine ⟨R0, hR0, hc, ?_, hx⟩
    rw [hd]
    rcases Nat.lt_or_gt_of_ne hrc with hlt | hgt
    · have : base cfg (r + 1) ≤ base cfg rc := base_mono (by omega)
      rw [base_succ] at this
      rw [Nat.min_def, Nat.min_def]
      split_ifs <;> omega
    · have : base cfg (rc + 1) ≤ base cfg r := base_mono (by omega)
      rw [Nat.min_def, Nat.min_def]
      split_ifs <;> omega

/-- The round created when the current round reaches its quota of arrivals. -/
theorem InvRod.nova {cfg : Config} {rods : Nat → Option Rodada} {cur a n N1 : Nat}
    {t : ℚ} {R Rn : Rodada} (h : InvRod cfg rods cur a n t N1) (hR : rods cur = some R)
    (hn : n = base cfg (cur + 1)) (ha : a ≤ n)
    (n1 : Rn.num_chegadas = 0) (n2 : Rn.num_partidas = 0) (n3 : Rn.prox_rodada = none)
    (n4 : Rn.inicio = t) (n5 : Rn.E_Nq1 = 0) (n6 : Rn.E_N1 = 0)
    (n7 : Rn.ultima_atualizacao_E_Nq1 = t) (n8 : Rn.ultima_atualizacao_E_N1 = t) :
    InvRod cfg (gravar (gravar rods (cur + 1) Rn) cur { R with prox_rodada := some (cur + 1) })
      (cur + 1) a n t N1 := by
  have hne : cur ≠ cur + 1 := by omega
  have hl : ∀ r, r ≠ cur → r ≠ cur + 1 →
      gravar (gravar rods (cur + 1) Rn) cur { R with prox_rodada := some (cur + 1) } r =
        rods r := by
    intro r h1 h2
    rw [gravar_outro _ _ h1, gravar_outro _ _ h2]
  have hl1 : gravar (gravar rods (cur + 1) Rn) cur { R with prox_rodada := some (cur + 1) }
      (cur + 1) = some Rn := by
    rw [gravar_outro _ _ (by omega), gravar_mesmo]
  refine ⟨?_, ?_, by omega, ?_, ?_, ?_, ?_⟩
  · intro r hr
    rw [hl r (by omega) (by omega)]
    exact h.fora r (by omega)
  · intro r hr
    by_cases h1 : r = cur + 1
    · subst h1
      refine ⟨Rn, hl1, ?_, ?_, by simpa using n3⟩
      · rw [n1, hn]; simp
      · rw [n2]
        have : a - base cfg (cur + 1) = 0 := by omega
        rw [this]; simp
    · by_cases h2 : r = cur
      · subst h2
        obtain ⟨R0, hR0, hc, hd, -⟩ := h.dentro r (Nat.le_refl _)
        rw [hR] at hR0; cases hR0
        exact ⟨_, gravar_mesmo _ _ _, hc, hd, by simp⟩
      · rw [hl r h2 h1]
        obtain ⟨R0, hR0, hc, hd, hx⟩ := h.dentro r (by omega)
        refine ⟨R0, hR0, hc, hd, ?_⟩
        rw [hx, if_pos (by omega), if_pos (by omega)]
  · intro r R0 hR0
    by_cases h1 : r = cur + 1
    · subst h1
      rw [hl1] at hR0; cases hR0
      exact le_of_eq n4
    · by_cases h2 : r = cur
      · subst h2
        rw [gravar_mesmo] at hR0; cases hR0
        exact h.ini r R hR
      · rw [hl r h2 h1] at hR0
        exact h.ini r R0 hR0
  · intro r R0 Rq hR0 hRq
    by_cases h1 : r = cur + 1
    · subst h1
      rw [hl (cur + 1 + 1) (by omega) (by omega), h.fora _ (by omega)] at hRq
      cases hRq
    · by_cases h2 : r = cur
      · subst h2
        rw [gravar_mesmo] at hR0; cases hR0
        rw [hl1] at hRq; cases hRq
        rw [n4]; exact h.ini r R hR
      · rw [hl r h2 h1] at hR0
        by_cases h3 : r + 1 = cur
        · rw [h3, gravar_mesmo] at hRq; cases hRq
          exact h.mono r R0 R hR0 (h3 ▸ hR)
        · rw [hl (r + 1) h3 (by omega)] at hRq
          exact h.mono r R0 Rq hR0 hRq
  · intro r R0 hR0
    by_cases h1 : r = cur + 1
    · subst h1
      rw [hl1] at hR0; cases hR0
      rw [n5, n6]
    · by_cases h2 : r = cur
      · subst h2
        rw [gravar_mesmo] at hR0; cases hR0
        exact h.ord1 r R hR
      · rw [hl r h2 h1] at hR0
        exact h.ord1 r R0 hR0
  · intro Rc hRc
    rw [hl1] at hRc; cases hRc
    rw [n7, n8]
    exact ⟨le_refl _, le_refl _, fun hlt => absurd hlt (lt_irrefl _)⟩

/-! ### Remaining phases of the handlers -/

theorem chegada_fila_1_rodada_ok {cfg : Config} (hcfg : ConfigOk cfg) {s : Estado}
    {ev : Evento} {pend : List Evento} {a n N1 : Nat} {rods0 : Nat → Option Rodada}
    {R : Rodada} (he : s.eventos = ev :: pend) (hft : s.fase_transiente = 0)
    (hnr : s.num_rodadas_criadas = s.rodada_atual + 1)
    (h : InvRod cfg rods0 s.rodada_atual a n ev.momento N1)
    (hR : rods0 s.rodada_atual = some R)
    (hs : s.rodadas = gravar rods0 s.rodada_atual { R with num_chegadas := R.num_chegadas + 1 })
    (hcur : n < base cfg (s.rodada_atual + 1)) (ha : a ≤ n) :
    ∃ rods' cur', chegada_fila_1_rodada cfg s =
        some { s with rodadas := rods', rodada_atual := cur',
                      num_rodadas_criadas := cur' + 1 } ∧
      InvRod cfg rods' cur' a (n + 1) ev.momento N1 ∧ n + 1 < base cfg (cur' + 1) ∧
      (cur' = s.rodada_atual ∨ cur' = s.rodada_atual + 1) := by
  obtain ⟨evs, f1, f2, ft, ra, re, cl, ro, nc, nr, ne, na⟩ := s
  simp only at he hft hnr h hR hs hcur
  subst he hft hnr hs
  have h1 := h.chegada hR hcur
  obtain ⟨R0, hR0, hc, -⟩ := h.dentro ra (Nat.le_refl _)
  rw [hR] at hR0; cases hR0
  have hlo := h.cur_lo
  have hcur' := hcur
  rw [base_succ] at hcur'
  have hq := quota_pos hcfg ra
  have hnum : R.num_chegadas = n - base cfg ra := by
    rw [hc, Nat.min_def]; split_ifs <;> omega
  by_cases hat : n + 1 = base cfg (ra + 1)
  · have hcond : atingiu_chegadas cfg
        ⟨ev :: pend, f1, f2, 0, ra, re, cl,
          gravar rods0 ra { R with num_chegadas := R.num_chegadas + 1 }, nc, ra + 1, ne, na⟩
        { R with num_chegadas := R.num_chegadas + 1 } := by
      unfold atingiu_chegadas
      simp only
      rw [base_succ] at hat
      unfold quota at hat
      by_cases h0 : ra = 0
      · right; rw [if_pos h0] at hat; exact ⟨h0, by omega⟩
      · left; rw [if_neg h0] at hat; exact ⟨h0, by omega⟩
    simp only [chegada_fila_1_rodada, gravar_mesmo, if_pos hcond, iniciar_nova_rodada,
      criar_rodada, gravar_outro _ _ (show ra ≠ ra + 1 by omega)]
    refine ⟨_, ra + 1, rfl, ?_, ?_, Or.inr rfl⟩
    · exact h1.nova (gravar_mesmo _ _ _) hat (by omega) rfl rfl rfl rfl rfl rfl rfl rfl
    · have := quota_pos hcfg (ra + 1)
      rw [base_succ, ← hat]; omega
  · have hcond : ¬ atingiu_chegadas cfg
        ⟨ev :: pend, f1, f2, 0, ra, re, cl,
          gravar rods0 ra { R with num_chegadas := R.num_chegadas + 1 }, nc, ra + 1, ne, na⟩
        { R with num_chegadas := R.num_chegadas + 1 } := by
      unfold atingiu_chegadas
      simp only
      rw [base_succ] at hat
      unfold quota at hat
      by_cases h0 : ra = 0
      · rw [if_pos h0] at hat
        rintro (⟨h', -⟩ | ⟨-, h'⟩)
        · exact h' h0
        · omega
      · rw [if_neg h0] at hat
        rintro (⟨-, h'⟩ | ⟨h', -⟩)
        · omega
        · exact h0 h'
    simp only [chegada_fila_1_rodada, gravar_mesmo, if_neg hcond]
    exact ⟨_, ra, rfl, h1, by omega, Or.inl rfl⟩

theorem partida_contagem_ok {cfg : Config} {s : Estado} {ev : Evento} {pend : List Evento}
    {a n N1 : Nat} {t : ℚ} {c : Cliente} {R : Rodada} (he : s.eventos = ev :: pend)
    (hc : s.clientes ev.cliente = some c) (hR : s.rodadas c.rodada = some R)
    (h : InvRod cfg s.rodadas s.rodada_atual a n t N1)
    (h1 : base cfg c.rodada ≤ a) (h2 : a < base cfg (c.rodada + 1)) :
    ∃ R1 : Rodada, partida_contagem s =
        some { s with rodadas := gravar s.rodadas c.rodada R1 } ∧
      R1.num_partidas = R.num_partidas + 1 ∧ R1.num_chegadas = R.num_chegadas ∧
      R1.prox_rodada = R.prox_rodada ∧
      InvRod cfg (gravar s.rodadas c.rodada R1) s.rodada_atual (a + 1) n t N1 := by
  simp only [partida_contagem, he, hc, hR]
  exact ⟨_, rfl, rfl, rfl, rfl, h.partida hR h1 h2 rfl rfl rfl⟩

theorem chegada_fila_2_cliente_ok {s : Estado} {ev : Evento} {pend : List Evento}
    {c : Cliente} {R : Rodada} (he : s.eventos = ev :: pend)
    (hc : s.clientes ev.cliente = some c) (hR : s.rodadas c.rodada = some R) :
    ∃ mem' rods', chegada_fila_2_cliente s =
        some { s with rodadas := rods', clientes := mem' } ∧
      MemEq s.clientes mem' ∧ RodEq s.rodadas rods' := by
  simp only [chegada_fila_2_cliente, he, hc, hR]
  exact ⟨_, _, rfl, MemEq.mem_sobrescrever hc rfl, RodEq.rod_sobrescrever hR rfl⟩

theorem chegada_fila_1_proxima_ok {cfg : Config} (hcfg : ConfigOk cfg) {s : Estado}
    {ev : Evento} {pend : List Evento} {l2 lp : List Nat} {R : Rodada}
    (he : s.eventos = ev :: pend) (hP : InvP pend s.num_eventos_criados ev [] l2 lp)
    (hR : s.rodadas s.rodada_atual = some R) :
    ∃ pend', chegada_fila_1_proxima cfg s =
        some { s with
          eventos := ev :: pend'
          clientes := gravar s.clientes s.num_clientes_criados
            { rodada := s.rodada_atual, prox_cliente := none, indice_rodada := R.num_chegadas,
              chegada_estado_atual := 0, chegada_fila_atual := 0 }
          num_clientes_criados := s.num_clientes_criados + 1
          num_eventos_criados := s.num_eventos_criados + 1
          num_amostras := s.num_amostras + 1 } ∧
      InvP pend' (s.num_eventos_criados + 1) ev [s.num_clientes_criados] l2 lp := by
  obtain ⟨evs, f1, f2, ft, ra, re, cl, ro, nc, nr, ne, na⟩ := s
  simp only at he hP hR
  subst he
  have hx := amostra_lambda_nonneg hcfg ⟨ev :: pend, f1, f2, ft, ra, re, cl, ro, nc, nr, ne, na⟩
  simp only [chegada_fila_1_proxima, amostra_exponencial, criar_cliente, hR, agendar_evento]
  exact ⟨_, rfl, hP.agendar_c1 hx nc⟩

theorem partida_encerramento_ok {cfg : Config} {s : Estado} {ev : Evento}
    {pend : List Evento} {a n N1 : Nat} {t : ℚ} {c : Cliente}
    (he : s.eventos = ev :: pend) (hft : s.fase_transiente = 0)
    (hc : s.clientes ev.cliente = some c)
    (h : InvRod cfg s.rodadas s.rodada_atual a n t N1) (ht : t ≤ ev.momento)
    (hN : N1 = s.fila1.num_clientes)
    (h1 : base cfg c.rodada < a) (h2 : a ≤ base cfg (c.rodada + 1))
    (han : a ≤ n) (hcur : n < base cfg (s.rodada_atual + 1)) :
    ∃ rods', partida_encerramento cfg s =
        some { s with
          rodadas := rods'
          rodadas_encerradas :=
            s.rodadas_encerradas + (if a = base cfg (c.rodada + 1) then 1 else 0) } ∧
      InvRod cfg rods' s.rodada_atual a n ev.momento N1 ∧
      (a = base cfg (c.rodada + 1) → c.rodada < s.rodada_atual) := by
  have hrc : c.rodada ≤ s.rodada_atual :=
    base_le_of_lt (Nat.le_trans (Nat.le_of_lt h1) han) hcur
  obtain ⟨R, hR, -, hd, hx⟩ := h.dentro c.rodada hrc
  have h2' := h2
  rw [base_succ] at h2'
  have hnum : R.num_partidas = a - base cfg c.rodada := by
    rw [hd, Nat.min_def]; split_ifs <;> omega
  have hlt : a = base cfg (c.rodada + 1) → c.rodada < s.rodada_atual := by
    intro hat
    have : c.rodada + 1 ≤ s.rodada_atual := base_le_of_lt (by omega) hcur
    omega
  by_cases hat : a = base cfg (c.rodada + 1)
  · have hcond : atingiu_partidas cfg s c.rodada R := by
      unfold atingiu_partidas
      rw [hft, hnum]
      rw [base_succ] at hat
      unfold quota at hat
      by_cases h0 : c.rodada = 0
      · right; rw [if_pos h0] at hat; exact ⟨h0, by omega⟩
      · left; rw [if_neg h0] at hat; exact ⟨h0, by omega⟩
    obtain ⟨rods', hE, hI⟩ := encerrar_coleta_ok he h ht (hlt hat) hN
    simp only [partida_encerramento, he, hc, hR, if_pos hcond, hE, if_pos hat]
    exact ⟨rods', rfl, hI, hlt⟩
  · have hcond : ¬ atingiu_partidas cfg s c.rodada R := by
      unfold atingiu_partidas
      rw [hft, hnum]
      rw [base_succ] at hat
      unfold quota at hat
      by_cases h0 : c.rodada = 0
      · rw [if_pos h0] at hat
        rintro (⟨h', -⟩ | ⟨-, h'⟩)
        · exact h' h0
        · omega
      · rw [if_neg h0] at hat
        rintro (⟨-, h'⟩ | ⟨h', -⟩)
        · omega
        · exact h0 h'
    simp only [partida_encerramento, he, hc, hR, if_neg hcond, if_neg hat]
    refine ⟨s.rodadas, ?_, h.mono_t ht, hlt⟩
    obtain ⟨evs, f1, f2, ft, ra, re, cl, ro, nc, nr, ne, na⟩ := s
    simp only at he
    subst he
    rfl

/-! ## The handlers preserve the invariant -/

theorem processar_partida_ok {cfg : Config} (hcfg : ConfigOk cfg) {s : Estado}
    {a b n : Nat} {t : ℚ} {ev : Evento} {pend : List Evento}
    (hI : Inv cfg s a b n t) (he : s.eventos = ev :: pend)
    (htp : ev.tipo = TipoEvento.partida) :
    ∃ s' pend', processar_partida cfg s = some s' ∧ s'.eventos = ev :: pend' ∧
      Inv cfg { s' with eventos := pend' } (a + 1) b n ev.momento ∧
      (∀ e ∈ pend', antes ev e) ∧
      (∃ c, s.clientes ev.cliente = some c ∧ base cfg c.rodada ≤ a ∧
        a < base cfg (c.rodada + 1) ∧
        (a + 1 = base cfg (c.rodada + 1) → c.rodada < s.rodada_atual) ∧
        s'.rodadas_encerradas =
          s.rodadas_encerradas + (if a + 1 = base cfg (c.rodada + 1) then 1 else 0)) := by
  obtain ⟨hE, hQ, hC, hR, hcur, hft, hnr, hnc⟩ := hI
  rw [he] at hE
  obtain ⟨ht, hP, -, -, h3⟩ := hE.abrir
  obtain ⟨hca, hbn, hab⟩ := h3 htp
  simp only [htp, if_true, if_false, reduceCtorEq] at hP
  have hb' : ¬ b < n := by omega
  rw [if_neg hb'] at hP
  obtain ⟨c, R, hc, hRc, hrc, hb1, hb2, hK⟩ :=
    cliente_valido hC hR hcur (Nat.le_refl a) (by omega)
  rw [← hca] at hc
  -- the departure is counted
  obtain ⟨R1, e1, -, -, -, hR1⟩ := partida_contagem_ok he hc hRc hR hb1 hb2
  -- the round is closed when its quota is reached
  obtain ⟨rods2, e2, hR2, hlt⟩ := partida_encerramento_ok
    (s := { s with rodadas := gravar s.rodadas c.rodada R1 }) he hft hc hR1 ht rfl
    (by omega) (by omega) (by omega) hcur
  -- the integrals are updated
  obtain ⟨rods3, e3, hR3⟩ := partida_integrais_ok
    (s := { s with
      rodadas := rods2
      rodadas_encerradas :=
        s.rodadas_encerradas + (if a + 1 = base cfg (c.rodada + 1) then 1 else 0) }) he hR2
  -- the customer leaves
  obtain ⟨f2', e4, hQ4, hC4, hn4⟩ := partida_remover_ok
    (s := { s with
      rodadas := rods3
      rodadas_encerradas :=
        s.rodadas_encerradas + (if a + 1 = base cfg (c.rodada + 1) then 1 else 0) })
    hQ hC hab
  have hchain : ∀ r : Option Estado,
      (if 0 < f2'.num_clientes then
          processar_chegada_servico_2 cfg
            { s with
              rodadas := rods3
              rodadas_encerradas :=
                s.rodadas_encerradas + (if a + 1 = base cfg (c.rodada + 1) then 1 else 0)
              clientes := liberar s.clientes a
              fila2 := f2' }
        else some
            { s with
              rodadas := rods3
              rodadas_encerradas :=
                s.rodadas_encerradas + (if a + 1 = base cfg (c.rodada + 1) then 1 else 0)
              clientes := liberar s.clientes a
              fila2 := f2' }) = r →
      processar_partida cfg s = r := by
    intro r hr
    unfold processar_partida
    rw [e1]
    simp only
    rw [e2]
    simp only
    rw [e3]
    simp only
    rw [e4]
    simp only [gt_iff_lt]
    exact hr
  by_cases hf : 0 < f2'.num_clientes
  · have ha1 : a + 1 < b := by omega
    obtain ⟨c', R', hc', hRc', -, -, -, hK'⟩ :=
      cliente_valido hC4 hR3 hcur (Nat.le_refl (a + 1)) (by omega)
    obtain ⟨mem5, rods5, pend5, e5, hP5, hM5, hR5⟩ := servico_2_ok hcfg
      (s := { s with
              rodadas := rods3
              rodadas_encerradas :=
                s.rodadas_encerradas + (if a + 1 = base cfg (c.rodada + 1) then 1 else 0)
              clientes := liberar s.clientes a
              fila2 := f2' }) he hP (hQ4.f2_p ha1) hc' hRc' (by rw [hft]; exact hK')
    refine ⟨_, pend5, hchain _ ((if_pos hf).trans e5), rfl, ?_, hP5.dep,
      ⟨c, hc, hb1, hb2, hlt, rfl⟩⟩
    have hP5' : InvP pend5 (s.num_eventos_criados + 1) ev [n] (if b < n then [b] else [])
        (if b = n ∧ a + 1 < b then [a + 1] else []) := by
      rw [if_neg hb', if_pos ⟨hbn, ha1⟩]; exact hP5
    exact ⟨hP5'.fechar, hQ4.fila_congr hM5, hC4.cli_congr hM5, (hR3.rod_congr hR5), hcur, hft, hnr, hnc⟩
  · have ha1 : ¬ a + 1 < b := by omega
    refine ⟨_, pend, hchain _ (if_neg hf), he, ?_, hP.dep,
      ⟨c, hc, hb1, hb2, hlt, rfl⟩⟩
    have hP' : InvP pend s.num_eventos_criados ev [n] (if b < n then [b] else [])
        (if b = n ∧ a + 1 < b then [a + 1] else []) := by
      rw [if_neg hb', if_neg (fun h => ha1 h.2)]; exact hP
    exact ⟨hP'.fechar, hQ4, hC4, hR3, hcur, hft, hnr, hnc⟩

theorem processar_chegada_fila_2_ok {cfg : Config} (hcfg : ConfigOk cfg) {s : Estado}
    {a b n : Nat} {t : ℚ} {ev : Evento} {pend : List Evento}
    (hI : Inv cfg s a b n t) (he : s.eventos = ev :: pend)
    (htp : ev.tipo = TipoEvento.chegada_fila_2) :
    ∃ s' pend', processar_chegada_fila_2 cfg s = some s' ∧ s'.eventos = ev :: pend' ∧
      Inv cfg { s' with eventos := pend' } a (b + 1) n ev.momento ∧
      (∀ e ∈ pend', antes ev e) ∧ s'.rodadas_encerradas = s.rodadas_encerradas := by
  obtain ⟨hE, hQ, hC, hR, hcur, hft, hnr, hnc⟩ := hI
  rw [he] at hE
  obtain ⟨ht, hP, -, h2, -⟩ := hE.abrir
  obtain ⟨hcb, hbn⟩ := h2 htp
  have hab := hQ.hab
  simp only [htp, if_true, if_false, reduceCtorEq] at hP
  have hb' : ¬ (b = n ∧ a < b) := by omega
  rw [if_neg hb'] at hP
  obtain ⟨c, R, hc, hRc, -, -, -, -⟩ := cliente_valido hC hR hcur hab (Nat.le_of_lt hbn)
  rw [← hcb] at hc
  -- the stage 1 sojourn of the customer
  obtain ⟨mem1, rods1, e1, hM1, hE1⟩ := chegada_fila_2_cliente_ok he hc hRc
  -- the integrals are updated
  obtain ⟨rods2, e2, hR2⟩ := chegada_fila_2_integrais_ok
    (s := { s with rodadas := rods1, clientes := mem1 }) he (hR.rod_congr hE1) ht
  -- the customer moves from fila1 to fila2
  obtain ⟨mem3, f1', f2', e3, hQ3, hC3⟩ := chegada_fila_2_mover_ok
    (s := { s with rodadas := rods2, clientes := mem1 }) (hQ.fila_congr hM1) (hC.cli_congr hM1) hbn
  have hN : s.fila1.num_clientes - 1 = f1'.num_clientes := by
    rw [hQ3.f1_n, hQ.f1_n]; omega
  have hR2' : InvRod cfg rods2 s.rodada_atual a n ev.momento f1'.num_clientes := hN ▸ hR2
  have hchain : ∀ r : Option Estado,
      (if 0 < f1'.num_clientes then
          processar_chegada_servico_1 cfg
            { s with rodadas := rods2, clientes := mem3, fila1 := f1', fila2 := f2' }
        else
          processar_chegada_servico_2 cfg
            { s with rodadas := rods2, clientes := mem3, fila1 := f1', fila2 := f2' }) = r →
      processar_chegada_fila_2 cfg s = r := by
    intro r hr
    unfold processar_chegada_fila_2
    rw [e1]
    simp only
    rw [e2]
    simp only
    rw [e3]
    simp only [gt_iff_lt]
    exact hr
  by_cases hf : 0 < f1'.num_clientes
  · have hb1 : b + 1 < n := by have := hQ3.f1_n; omega
    obtain ⟨c', R', hc', hRc', -, -, -, hK'⟩ :=
      cliente_valido hC3 hR2' hcur (by omega : a ≤ b + 1) (Nat.le_of_lt hb1)
    obtain ⟨mem4, rods4, pend4, e4, hP4, hM4, hE4⟩ := servico_1_ok hcfg
      (s := { s with rodadas := rods2, clientes := mem3, fila1 := f1', fila2 := f2' })
      he hP (Or.inl rfl) (hQ3.f1_p hb1) hc' hRc' (by rw [hft]; exact hK')
    have hP4' : InvP pend4 (s.num_eventos_criados + 1) ev [n]
        (if b + 1 < n then [b + 1] else []) (if b + 1 = n ∧ a < b + 1 then [a] else []) := by
      rw [if_pos hb1, if_neg (by omega)]; exact hP4
    exact ⟨_, pend4, hchain _ ((if_pos hf).trans e4), rfl,
      ⟨hP4'.fechar, hQ3.fila_congr hM4, hC3.cli_congr hM4, hR2'.rod_congr hE4, hcur, hft, hnr, hnc⟩,
      hP4.dep, rfl⟩
  · have hb1 : b + 1 = n := by have := hQ3.f1_n; omega
    obtain ⟨c', R', hc', hRc', -, -, -, hK'⟩ :=
      cliente_valido hC3 hR2' hcur (Nat.le_refl a) (by omega)
    obtain ⟨mem4, rods4, pend4, e4, hP4, hM4, hE4⟩ := servico_2_ok hcfg
      (s := { s with rodadas := rods2, clientes := mem3, fila1 := f1', fila2 := f2' })
      he hP (hQ3.f2_p (by omega)) hc' hRc' (by rw [hft]; exact hK')
    have hP4' : InvP pend4 (s.num_eventos_criados + 1) ev [n]
        (if b + 1 < n then [b + 1] else []) (if b + 1 = n ∧ a < b + 1 then [a] else []) := by
      rw [if_neg (by omega), if_pos ⟨hb1, by omega⟩]; exact hP4
    exact ⟨_, pend4, hchain _ ((if_neg hf).trans e4), rfl,
      ⟨hP4'.fechar, hQ3.fila_congr hM4, hC3.cli_congr hM4, hR2'.rod_congr hE4, hcur, hft, hnr, hnc⟩,
      hP4.dep, rfl⟩

theorem InvQ.fila_novo {mem : Nat → Option Cliente} {f1 f2 : FilaEspera} {a b n p : Nat}
    (h : InvQ mem f1 f2 a b n) (hp : n ≤ p) (c : Cliente) :
    InvQ (gravar mem p c) f1 f2 a b n := by
  refine ⟨h.hab, h.hbn, h.f1_n, h.f1_p, h.f1_u, h.f2_n, h.f2_p, h.f2_u, ?_⟩
  intro i ci h1 h2 h3 hci
  rw [gravar_outro _ _ (by omega)] at hci
  exact h.prox i ci h1 h2 h3 hci

theorem InvC.cli_novo {cfg : Config} {mem : Nat → Option Cliente} {a n : Nat} {c : Cliente}
    (h : InvC cfg mem a n) (h1 : base cfg c.rodada ≤ n + 1)
    (h2 : n + 1 < base cfg (c.rodada + 1))
    (h3 : c.indice_rodada = n + 1 - base cfg c.rodada) :
    InvC cfg (gravar mem (n + 1) c) a (n + 1) := by
  intro i hi1 hi2
  by_cases hi : i = n + 1
  · subst hi
    exact ⟨c, gravar_mesmo _ _ _, h1, h2, h3⟩
  · rw [gravar_outro _ _ hi]
    exact h i hi1 (by omega)

theorem processar_chegada_fila_1_ok {cfg : Config} (hcfg : ConfigOk cfg) {s : Estado}
    {a b n : Nat} {t : ℚ} {ev : Evento} {pend : List Evento}
    (hI : Inv cfg s a b n t) (he : s.eventos = ev :: pend)
    (htp : ev.tipo = TipoEvento.chegada_fila_1) :
    ∃ s' pend', processar_chegada_fila_1 cfg s = some s' ∧ s'.eventos = ev :: pend' ∧
      Inv cfg { s' with eventos := pend' } a b (n + 1) ev.momento ∧
      (∀ e ∈ pend', antes ev e) ∧ s'.rodadas_encerradas = s.rodadas_encerradas ∧
      (s'.rodada_atual = s.rodada_atual ∨ s'.rodada_atual = s.rodada_atual + 1) := by
  obtain ⟨hE, hQ, hC, hR, hcur, hft, hnr, hnc⟩ := hI
  rw [he] at hE
  obtain ⟨ht, hP, h1, -, -⟩ := hE.abrir
  have hcn := h1 htp
  have hab := hQ.hab
  have hbn := hQ.hbn
  simp only [htp, if_true, if_false, reduceCtorEq] at hP
  -- the integrals are updated
  obtain ⟨rods1, e1, hR1⟩ := chegada_fila_1_integrais_ok he hR ht
  obtain ⟨R1, hRc1, -⟩ := hR1.dentro s.rodada_atual (Nat.le_refl _)
  -- the customer joins fila1 and the arrival is counted
  obtain ⟨mem2, f1', e2, hQ2, hC2⟩ := chegada_fila_1_contagem_ok
    (s := { s with rodadas := rods1 }) he hcn hQ hC hRc1
  -- a new round is opened when the quota is reached
  obtain ⟨rods3, cur', e3, hR3, hcur3, hcc⟩ := chegada_fila_1_rodada_ok hcfg
    (s := { s with
      rodadas := gravar rods1 s.rodada_atual { R1 with num_chegadas := R1.num_chegadas + 1 }
      clientes := mem2
      fila1 := f1' }) he hft hnr hR1 hRc1 rfl hcur (by omega)
  have hN : s.fila1.num_clientes + 1 = f1'.num_clientes := by
    rw [hQ2.f1_n, hQ.f1_n]; omega
  have hR3' : InvRod cfg rods3 cur' a (n + 1) ev.momento f1'.num_clientes := hN ▸ hR3
  have hchain : ∀ (s4 : Estado) (r : Option Estado),
      (if f1'.num_clientes = 1 then
          processar_chegada_servico_1 cfg
            { s with rodadas := rods3, rodada_atual := cur', num_rodadas_criadas := cur' + 1,
                     clientes := mem2, fila1 := f1' }
        else
          some
            { s with rodadas := rods3, rodada_atual := cur', num_rodadas_criadas := cur' + 1,
                     clientes := mem2, fila1 := f1' }) = some s4 →
      chegada_fila_1_proxima cfg s4 = r →
      processar_chegada_fila_1 cfg s = r := by
    intro s4 r h4 h5
    unfold processar_chegada_fila_1
    rw [e1]
    simp only
    rw [e2]
    simp only
    rw [e3]
    simp only
    rw [h4]
    exact h5
  obtain ⟨R3, hRc3, hnum3, -⟩ := hR3.dentro cur' (Nat.le_refl _)
  have hlo3 := hR3.cur_lo
  have hcur3' := hcur3
  rw [base_succ] at hcur3'
  have hnum3' : R3.num_chegadas = n + 1 - base cfg cur' := by
    rw [hnum3, Nat.min_def]; split_ifs <;> omega
  by_cases hf : f1'.num_clientes = 1
  · have hb : b = n := by have := hQ2.f1_n; omega
    have hP' : InvP pend s.num_eventos_criados ev [] []
        (if b = n ∧ a < b then [a] else []) := by
      rw [if_neg (by omega)] at hP; exact hP
    obtain ⟨c', R', hc', hRc', -, -, -, hK'⟩ :=
      cliente_valido hC2 hR3' (by omega : n < base cfg (cur' + 1)) (by omega : a ≤ n)
        (Nat.le_refl n)
    have hlp : (if b = n ∧ a < b then [a] else []) = [] ∨
        ∃ x cx, (if b = n ∧ a < b then [a] else []) = [x] ∧ s.fila2.num_clientes ≠ 0 ∧
          mem2 x = some cx := by
      by_cases hx : a < b
      · obtain ⟨cx, hcx, -⟩ := hC2 a (Nat.le_refl a) (by omega)
        exact Or.inr ⟨a, cx, by rw [if_pos ⟨hb, hx⟩], by rw [hQ.f2_n]; omega, hcx⟩
      · exact Or.inl (by rw [if_neg (fun h => hx h.2)])
    obtain ⟨mem4, rods4, pend4, e4, hP4, hM4, hE4⟩ := servico_1_ok hcfg
      (s := { s with rodadas := rods3, rodada_atual := cur', num_rodadas_criadas := cur' + 1,
                     clientes := mem2, fila1 := f1' })
      he hP' hlp (by rw [hQ2.f1_p (by omega), hb]) hc' hRc' (by rw [hft]; exact hK')
    obtain ⟨R4, hRc4, hn4⟩ := hE4.rod_some_dir hRc3
    obtain ⟨pend5, e5, hP5⟩ := chegada_fila_1_proxima_ok hcfg
      (s := { s with eventos := ev :: pend4, rodadas := rods4, rodada_atual := cur',
                     num_rodadas_criadas := cur' + 1, clientes := mem4, fila1 := f1',
                     num_eventos_criados := s.num_eventos_criados + 1,
                     num_amostras := s.num_amostras + 1 }) rfl hP4 hRc4
    have hP5' : InvP pend5 (s.num_eventos_criados + 1 + 1) ev [n + 1]
        (if b < n + 1 then [b] else []) (if b = n + 1 ∧ a < b then [a] else []) := by
      rw [if_pos (by omega), if_neg (by omega), hb, ← hnc]; exact hP5
    refine ⟨_, pend5, hchain _ _ ((if_pos hf).trans e4) e5, rfl, ⟨hP5'.fechar, ?_, ?_,
      hR3'.rod_congr hE4, hcur3, hft, rfl, by simp only; rw [hnc]⟩, hP5.dep, rfl, hcc⟩
    · simp only
      rw [hnc]
      exact (hQ2.fila_congr hM4).fila_novo (Nat.le_refl _) _
    · simp only
      rw [hnc]
      refine (hC2.cli_congr hM4).cli_novo hlo3 hcur3 ?_
      simp only
      rw [(nucleo_rod hn4).1, hnum3']
  · have hb : b < n := by have := hQ2.f1_n; omega
    have hP' : InvP pend s.num_eventos_criados ev [] [b] [] := by
      rw [if_pos hb, if_neg (by omega)] at hP; exact hP
    obtain ⟨pend5, e5, hP5⟩ := chegada_fila_1_proxima_ok hcfg
      (s := { s with rodadas := rods3, rodada_atual := cur', num_rodadas_criadas := cur' + 1,
                     clientes := mem2, fila1 := f1' }) he hP' hRc3
    have hP5' : InvP pend5 (s.num_eventos_criados + 1) ev [n + 1]
        (if b < n + 1 then [b] else []) (if b = n + 1 ∧ a < b then [a] else []) := by
      rw [if_pos (by omega), if_neg (by omega), ← hnc]; exact hP5
    refine ⟨_, pend5, hchain _ _ (if_neg hf) e5, rfl, ⟨hP5'.fechar, ?_, ?_,
      hR3', hcur3, hft, rfl, by simp only; rw [hnc]⟩, hP5.dep, rfl, hcc⟩
    · simp only
      rw [hnc]
      exact hQ2.fila_novo (Nat.le_refl _) _
    · simp only
      rw [hnc]
      refine hC2.cli_novo hlo3 hcur3 ?_
      simp only
      rw [hnum3']

/-! ## The main loop preserves the invariant -/

/-- No event of the list has type `t` exactly when the list of customers of that type is
empty. -/
theorem tipos_nil_iff {t : TipoEvento} {l : List Evento} :
    tipos t l = [] ↔ ∀ e ∈ l, e.tipo ≠ t := by
  induction l with
  | nil => simp [tipos]
  | cons e es ih =>
    rw [tipos_cons]
    by_cases h : e.tipo = t
    · simp [h]
    · simp [h, ih]

theorem Inv.eventos_ne {cfg : Config} {s : Estado} {a b n : Nat} {t : ℚ}
    (h : Inv cfg s a b n t) : ∃ ev pend, s.eventos = ev :: pend := by
  have := h.evs.c1
  cases hs : s.eventos with
  | nil => rw [hs] at this; simp [tipos] at this
  | cons ev pend => exact ⟨ev, pend, rfl⟩

theorem iteracao_ok {cfg : Config} (hcfg : ConfigOk cfg) {s : Estado} {a b n : Nat} {t : ℚ}
    {ev : Evento} {pend : List Evento} (hI : Inv cfg s a b n t)
    (he : s.eventos = ev :: pend) :
    ∃ s', iteracao cfg s = some s' ∧
      Inv cfg s' (a + if ev.tipo = TipoEvento.partida then 1 else 0)
        (b + if ev.tipo = TipoEvento.chegada_fila_2 then 1 else 0)
        (n + if ev.tipo = TipoEvento.chegada_fila_1 then 1 else 0) ev.momento ∧
      (∀ e ∈ s'.eventos, antes ev e) := by
  cases htp : ev.tipo with
  | chegada_fila_1 =>
    obtain ⟨s', pend', h1, h2, h3, h4, -⟩ := processar_chegada_fila_1_ok hcfg hI he htp
    refine ⟨{ s' with eventos := pend' }, ?_, by simpa using h3, h4⟩
    simp only [iteracao, processar_evento_atual, he, htp, h1, h2]
  | chegada_fila_2 =>
    obtain ⟨s', pend', h1, h2, h3, h4, -⟩ := processar_chegada_fila_2_ok hcfg hI he htp
    refine ⟨{ s' with eventos := pend' }, ?_, by simpa using h3, h4⟩
    simp only [iteracao, processar_evento_atual, he, htp, h1, h2]
  | partida =>
    obtain ⟨s', pend', h1, h2, h3, h4, -⟩ := processar_partida_ok hcfg hI he htp
    refine ⟨{ s' with eventos := pend' }, ?_, by simpa using h3, h4⟩
    simp only [iteracao, processar_evento_atual, he, htp, h1, h2]

theorem inicial_ok {cfg : Config} (hcfg : ConfigOk cfg) : Inv cfg (inicial cfg) 0 0 0 0 := by
  have hx : 0 ≤ cfg.neg_log_u 0 / cfg.lambda := by
    refine div_nonneg (hcfg.hu 0) ?_
    unfold Config.lambda
    have := mul_pos hcfg.hrho hcfg.hmu
    linarith
  have hKt := hcfg.hKt
  have hb1 : base cfg 1 = cfg.K_t := by simp [base, quota]
  simp only [inicial, iniciar_fase_transiente, criar_rodada, amostra_exponencial, criar_cliente,
    gravar_mesmo, criar_fila]
  constructor
  · exact ⟨by simp, by simp, by simpa using hx, by simp [tipos], by simp [tipos],
      by simp [tipos]⟩
  · exact ⟨Nat.le_refl _, Nat.le_refl _, rfl, fun h => absurd h (by omega),
      fun h => absurd h (by omega), rfl, fun h => absurd h (by omega),
      fun h => absurd h (by omega), fun i c _ h2 => absurd h2 (by omega)⟩
  · intro i _ h2
    have hi : i = 0 := by omega
    subst hi
    simp only [gravar_mesmo]
    refine ⟨_, rfl, by simp [base], ?_, by simp [base]⟩
    simp only [zero_add, hb1]
    omega
  · dsimp only
    refine ⟨?_, ?_, by simp [base], ?_, ?_, ?_, ?_⟩
    · intro r hr
      rw [gravar_outro _ _ (by omega)]
    · intro r hr
      have hr0 : r = 0 := by omega
      subst hr0
      simp only [gravar_mesmo]
      exact ⟨_, rfl, by simp [base], by simp [base], by simp⟩
    · intro r R hR
      by_cases hr0 : r = 0
      · subst hr0; rw [gravar_mesmo] at hR; cases hR; exact le_refl _
      · rw [gravar_outro _ _ hr0] at hR; cases hR
    · intro r R Rq _ hRq
      rw [gravar_outro _ _ (by omega)] at hRq; cases hRq
    · intro r R hR
      by_cases hr0 : r = 0
      · subst hr0; rw [gravar_mesmo] at hR; cases hR; exact le_refl _
      · rw [gravar_outro _ _ hr0] at hR; cases hR
    · intro R hR
      rw [gravar_mesmo] at hR; cases hR
      exact ⟨le_refl _, le_refl _, fun h => absurd h (lt_irrefl _)⟩
  · dsimp only
    rw [hb1]; omega
  · rfl
  · rfl
  · rfl

/-! ## Runs -/

theorem rodar_succ {cfg : Config} {k : Nat} {s' : Estado} (h : rodar cfg (k + 1) = some s') :
    ∃ s, rodar cfg k = some s ∧ s.rodadas_encerradas < cfg.NUM_RODADAS + 1 ∧
      iteracao cfg s = some s' := by
  simp only [rodar] at h
  cases hs : rodar cfg k with
  | none => rw [hs] at h; cases h
  | some s =>
    rw [hs] at h
    simp only at h
    by_cases hg : s.rodadas_encerradas < cfg.NUM_RODADAS + 1
    · rw [if_pos hg] at h
      exact ⟨s, rfl, hg, h⟩
    · rw [if_neg hg] at h; cases h

theorem rodar_passo {cfg : Config} {k : Nat} {s s' : Estado} (h : rodar cfg k = some s)
    (hg : s.rodadas_encerradas < cfg.NUM_RODADAS + 1) (hi : iteracao cfg s = some s') :
    rodar cfg (k + 1) = some s' := by
  simp only [rodar, h, if_pos hg, hi]

theorem evento_processado_eq {cfg : Config} {k : Nat} {s s' : Estado} {ev : Evento}
    {pend : List Evento} (h : rodar cfg k = some s) (h' : rodar cfg (k + 1) = some s')
    (he : s.eventos = ev :: pend) : evento_processado cfg k = some ev := by
  simp only [evento_processado, h, h', he, List.head?_cons]

theorem evento_processado_some {cfg : Config} {k : Nat} {ev : Evento}
    (h : evento_processado cfg k = some ev) :
    ∃ s s' pend, rodar cfg k = some s ∧ rodar cfg (k + 1) = some s' ∧
      s.eventos = ev :: pend := by
  unfold evento_processado at h
  cases hs : rodar cfg k with
  | none => rw [hs] at h; cases h
  | some s =>
    cases hs' : rodar cfg (k + 1) with
    | none => rw [hs, hs'] at h; cases h
    | some s' =>
      rw [hs, hs'] at h
      simp only at h
      cases he : s.eventos with
      | nil => rw [he] at h; cases h
      | cons e pend =>
        rw [he] at h
        simp only [List.head?_cons, Option.some.injEq] at h
        subst h
        exact ⟨s, s', pend, rfl, rfl, he⟩

theorem processados_succ {cfg : Config} {k : Nat} {ev : Evento} (t : TipoEvento)
    (h : evento_processado cfg k = some ev) :
    processados cfg t (k + 1) = processados cfg t k + if ev.tipo = t then 1 else 0 := by
  simp only [processados, h]

theorem tempo_processado_succ {cfg : Config} {k : Nat} {ev : Evento}
    (h : evento_processado cfg k = some ev) : tempo_processado cfg (k + 1) = ev.momento := by
  simp only [tempo_processado, h]

/-- Every state that the main loop reaches satisfies the invariant, with the numbers of
events handled so far as the ghost counts. -/
theorem rodar_inv {cfg : Config} (hcfg : ConfigOk cfg) :
    ∀ (k : Nat) (s : Estado), rodar cfg k = some s →
      Inv cfg s (processados cfg TipoEvento.partida k)
        (processados cfg TipoEvento.chegada_fila_2 k)
        (processados cfg TipoEvento.chegada_fila_1 k) (tempo_processado cfg k) := by
  intro k
  induction k with
  | zero =>
    intro s hs
    simp only [rodar, Option.some.injEq] at hs
    subst hs
    exact inicial_ok hcfg
  | succ k ih =>
    intro s' hs'
    obtain ⟨s, hs, -, hit⟩ := rodar_succ hs'
    have hI := ih s hs
    obtain ⟨ev, pend, he⟩ := hI.eventos_ne
    obtain ⟨s'', hit', hI', -⟩ := iteracao_ok hcfg hI he
    rw [hit] at hit'
    cases hit'
    have hev := evento_processado_eq hs hs' he
    rw [processados_succ _ hev, processados_succ _ hev, processados_succ _ hev,
      tempo_processado_succ hev]
    exact hI'

/-- No pass of the main loop dereferences an invalid pointer: while the loop condition holds
the next pass produces a state. -/
theorem rodar_progresso {cfg : Config} (hcfg : ConfigOk cfg) {k : Nat} {s : Estado}
    (hs : rodar cfg k = some s) (hg : s.rodadas_encerradas < cfg.NUM_RODADAS + 1) :
    ∃ s', rodar cfg (k + 1) = some s' := by
  have hI := rodar_inv hcfg k s hs
  obtain ⟨ev, pend, he⟩ := hI.eventos_ne
  obtain ⟨s', hit, -⟩ := iteracao_ok hcfg hI he
  exact ⟨s', rodar_passo hs hg hit⟩

/-! ## Consequences of the invariant used by the claims -/

theorem min_passo {cfg : Config} {rc a : Nat} (r : Nat) (h1 : base cfg rc ≤ a)
    (h2 : a < base cfg (rc + 1)) :
    min (a + 1 - base cfg r) (quota cfg r) =
      min (a - base cfg r) (quota cfg r) + (if rc = r then 1 else 0) := by
  by_cases hrc : rc = r
  · subst hrc
    rw [if_pos rfl]
    rw [base_succ] at h2
    rw [Nat.min_def, Nat.min_def]
    split_ifs <;> omega
  · rw [if_neg hrc]
    rcases Nat.lt_or_gt_of_ne hrc with hlt | hgt
    · have : base cfg (rc + 1) ≤ base cfg r := base_mono (by omega)
      rw [Nat.min_def, Nat.min_def]
      split_ifs <;> omega
    · have : base cfg (r + 1) ≤ base cfg rc := base_mono (by omega)
      rw [base_succ] at this
      rw [Nat.min_def, Nat.min_def]
      split_ifs <;> omega

/-- The test that closes a round succeeds exactly when the departing customer is the last
one of its round. -/
theorem atingiu_partidas_iff {cfg : Config} {s : Estado} {rc a : Nat} {R : Rodada}
    (hft : s.fase_transiente = 0) (hnum : R.num_partidas = a - base cfg rc)
    (h1 : base cfg rc < a) (h2 : a ≤ base cfg (rc + 1)) :
    atingiu_partidas cfg s rc R ↔ a = base cfg (rc + 1) := by
  unfold atingiu_partidas
  rw [hft, hnum]
  rw [base_succ] at h2 ⊢
  unfold quota at h2 ⊢
  by_cases h0 : rc = 0
  · rw [if_pos h0] at h2 ⊢
    constructor
    · rintro (⟨h', -⟩ | ⟨-, h'⟩)
      · exact absurd h0 h'
      · omega
    · intro h; right; exact ⟨h0, by omega⟩
  · rw [if_neg h0] at h2 ⊢
    constructor
    · rintro (⟨-, h'⟩ | ⟨h', -⟩)
      · omega
      · exact absurd h' h0
    · intro h; left; exact ⟨h0, by omega⟩

/-- Effect of one pass of the main loop on the counter of closed rounds. -/
theorem iteracao_encerradas {cfg : Config} (hcfg : ConfigOk cfg) {s s' : Estado}
    {a b n : Nat} {t : ℚ} {ev : Evento} {pend : List Evento} (hI : Inv cfg s a b n t)
    (he : s.eventos = ev :: pend) (hit : iteracao cfg s = some s') :
    (ev.tipo ≠ TipoEvento.partida → s'.rodadas_encerradas = s.rodadas_encerradas) ∧
    (ev.tipo = TipoEvento.partida → ∃ c, s.clientes ev.cliente = some c ∧
      base cfg c.rodada ≤ a ∧ a < base cfg (c.rodada + 1) ∧
      s'.rodadas_encerradas =
        s.rodadas_encerradas + (if a + 1 = base cfg (c.rodada + 1) then 1 else 0)) := by
  cases htp : ev.tipo with
  | chegada_fila_1 =>
    obtain ⟨s1, pend', h1, h2, -, -, h5, -⟩ := processar_chegada_fila_1_ok hcfg hI he htp
    simp only [iteracao, processar_evento_atual, he, htp, h1, h2, Option.some.injEq] at hit
    subst hit
    exact ⟨fun _ => h5, fun h => by cases h⟩
  | chegada_fila_2 =>
    obtain ⟨s1, pend', h1, h2, -, -, h5⟩ := processar_chegada_fila_2_ok hcfg hI he htp
    simp only [iteracao, processar_evento_atual, he, htp, h1, h2, Option.some.injEq] at hit
    subst hit
    exact ⟨fun _ => h5, fun h => by cases h⟩
  | partida =>
    obtain ⟨s1, pend', h1, h2, -, -, c, hc, hb1, hb2, -, h5⟩ :=
      processar_partida_ok hcfg hI he htp
    simp only [iteracao, processar_evento_atual, he, htp, h1, h2, Option.some.injEq] at hit
    subst hit
    exact ⟨fun h => absurd rfl h, fun _ => ⟨c, hc, hb1, hb2, h5⟩⟩

theorem rodada_da_partida_eq {cfg : Config} {k : Nat} {s : Estado} {ev : Evento}
    (hs : rodar cfg k = some s) (hev : evento_processado cfg k = some ev) :
    rodada_da_partida cfg k =
      if ev.tipo = TipoEvento.partida then (s.clientes ev.cliente).map (fun c => c.rodada)
      else none := by
  simp only [rodada_da_partida, hs, hev]

theorem rodada_da_partida_none {cfg : Config} {k : Nat}
    (hev : evento_processado cfg k = none) : rodada_da_partida cfg k = none := by
  unfold rodada_da_partida
  rw [hev]
  cases rodar cfg k <;> rfl

theorem processados_none {cfg : Config} {k : Nat} (t : TipoEvento)
    (hev : evento_processado cfg k = none) :
    processados cfg t (k + 1) = processados cfg t k := by
  simp only [processados, hev, Nat.add_zero]

/-- The departures counted for a round are those of the customers in its range. -/
theorem partidas_da_rodada_eq {cfg : Config} (hcfg : ConfigOk cfg) (r : Nat) :
    ∀ k, partidas_da_rodada cfg r k =
      min (processados cfg TipoEvento.partida k - base cfg r) (quota cfg r) := by
  intro k
  induction k with
  | zero => simp [partidas_da_rodada, processados]
  | succ k ih =>
    simp only [partidas_da_rodada]
    rw [ih]
    cases hev : evento_processado cfg k with
    | none => rw [rodada_da_partida_none hev, processados_none _ hev]; simp
    | some ev =>
      obtain ⟨s, s', pend, hs, hs', he⟩ := evento_processado_some hev
      have hI := rodar_inv hcfg k s hs
      obtain ⟨s0, hs0, -, hit⟩ := rodar_succ hs'
      rw [hs] at hs0; cases hs0
      obtain ⟨h1, h2⟩ := iteracao_encerradas hcfg hI he hit
      rw [rodada_da_partida_eq hs hev, processados_succ _ hev]
      by_cases htp : ev.tipo = TipoEvento.partida
      · obtain ⟨c, hc, hb1, hb2, -⟩ := h2 htp
        rw [if_pos htp, if_pos htp, hc, min_passo r hb1 hb2]
        simp
      · rw [if_neg htp, if_neg htp]
        simp

theorem partidas_da_rodada_mono {cfg : Config} (r : Nat) {i j : Nat} (h : i ≤ j) :
    partidas_da_rodada cfg r i ≤ partidas_da_rodada cfg r j := by
  induction h with
  | refl => exact Nat.le_refl _
  | step _ ih => exact Nat.le_trans ih (by simp only [partidas_da_rodada]; omega)

/-- After a pass of the main loop every pending event comes after the event that the pass
handled, and this remains so in all later states. -/
theorem pendentes_depois {cfg : Config} (hcfg : ConfigOk cfg) {i : Nat} {ei : Evento}
    (hi : evento_processado cfg i = some ei) :
    ∀ d s, rodar cfg (i + 1 + d) = some s → ∀ e ∈ s.eventos, antes ei e := by
  obtain ⟨si, si', pend, hs, hs', he⟩ := evento_processado_some hi
  intro d
  induction d with
  | zero =>
    intro s hsd e hes
    rw [Nat.add_zero, hs'] at hsd
    cases hsd
    obtain ⟨s0, hs0, -, hit⟩ := rodar_succ hs'
    rw [hs] at hs0; cases hs0
    obtain ⟨s'', hit', -, hdep⟩ := iteracao_ok hcfg (rodar_inv hcfg i si hs) he
    rw [hit] at hit'; cases hit'
    exact hdep e hes
  | succ d ih =>
    intro s hsd e hes
    obtain ⟨sp, hsp, -, hit⟩ := rodar_succ (k := i + 1 + d) hsd
    have hIp := rodar_inv hcfg _ sp hsp
    obtain ⟨evp, pendp, hep⟩ := hIp.eventos_ne
    obtain ⟨s'', hit', -, hdep⟩ := iteracao_ok hcfg hIp hep
    rw [hit] at hit'; cases hit'
    have h1 : antes ei evp := ih sp hsp evp (by rw [hep]; exact List.mem_cons_self _ _)
    exact antes_trans h1 (hdep e hes)

/-- The customer that departs in a pass of the main loop belongs to the range of its
round. -/
theorem rodada_da_partida_some {cfg : Config} (hcfg : ConfigOk cfg) {k r : Nat} {s s' : Estado}
    (hs : rodar cfg k = some s) (hs' : rodar cfg (k + 1) = some s')
    (h : rodada_da_partida cfg k = some r) :
    ∃ ev pend c, s.eventos = ev :: pend ∧ ev.tipo = TipoEvento.partida ∧
      s.clientes ev.cliente = some c ∧ c.rodada = r ∧
      base cfg r ≤ processados cfg TipoEvento.partida k ∧
      processados cfg TipoEvento.partida k < base cfg (r + 1) := by
  have hI := rodar_inv hcfg k s hs
  obtain ⟨ev, pend, he⟩ := hI.eventos_ne
  have hev := evento_processado_eq hs hs' he
  obtain ⟨s0, hs0, -, hit⟩ := rodar_succ hs'
  rw [hs] at hs0; cases hs0
  rw [rodada_da_partida_eq hs hev] at h
  by_cases htp : ev.tipo = TipoEvento.partida
  · obtain ⟨c, hc, hb1, hb2, -⟩ := (iteracao_encerradas hcfg hI he hit).2 htp
    rw [if_pos htp, hc] at h
    simp only [Option.map_some', Option.some.injEq] at h
    subst h
    exact ⟨ev, pend, c, he, htp, hc, rfl, hb1, hb2⟩
  · rw [if_neg htp] at h; cases h

/-- A pass completes the quota of round `r` exactly when it processes the departure of the
last customer in the range of `r`. -/
theorem completa_rodada_iff {cfg : Config} (hcfg : ConfigOk cfg) {k : Nat} {s s' : Estado}
    (hs : rodar cfg k = some s) (hs' : rodar cfg (k + 1) = some s') (r : Nat) :
    completa_rodada cfg k r ↔
      (rodada_da_partida cfg k = some r ∧
        processados cfg TipoEvento.partida k + 1 = base cfg (r + 1)) := by
  unfold completa_rodada
  constructor
  · rintro ⟨h1, h2⟩
    refine ⟨h1, ?_⟩
    obtain ⟨ev, pend, c, he, htp, hc, hcr, hb1, hb2⟩ := rodada_da_partida_some hcfg hs hs' h1
    have hev := evento_processado_eq hs hs' he
    rw [partidas_da_rodada_eq hcfg, processados_succ _ hev, if_pos htp] at h2
    rw [base_succ] at hb2 ⊢
    rw [Nat.min_def] at h2
    split_ifs at h2 <;> omega
  · rintro ⟨h1, h2⟩
    refine ⟨h1, ?_⟩
    obtain ⟨ev, pend, c, he, htp, hc, hcr, hb1, hb2⟩ := rodada_da_partida_some hcfg hs hs' h1
    have hev := evento_processado_eq hs hs' he
    rw [partidas_da_rodada_eq hcfg, processados_succ _ hev, if_pos htp]
    rw [base_succ] at hb2 h2
    rw [Nat.min_def]
    split_ifs <;> omega

/-- A pass of the main loop calls `encerrar_coleta` on round `r` exactly when it processes
the departure of the last customer in the range of `r`. -/
theorem chamada_encerrar_iff {cfg : Config} (hcfg : ConfigOk cfg) {k : Nat} {s s' : Estado}
    (hs : rodar cfg k = some s) (hs' : rodar cfg (k + 1) = some s') (r : Nat) :
    (chamada_encerrar cfg k).map (fun x => x.2.1) = some r ↔
      (rodada_da_partida cfg k = some r ∧
        processados cfg TipoEvento.partida k + 1 = base cfg (r + 1)) := by
  have hI := rodar_inv hcfg k s hs
  obtain ⟨ev, pend, he⟩ := hI.eventos_ne
  have hev := evento_processado_eq hs hs' he
  obtain ⟨s0, hs0, hg, hit⟩ := rodar_succ hs'
  rw [hs] at hs0; cases hs0
  rw [rodada_da_partida_eq hs hev]
  by_cases htp : ev.tipo = TipoEvento.partida
  · obtain ⟨c, hc, hb1, hb2, -⟩ := (iteracao_encerradas hcfg hI he hit).2 htp
    have hrc : c.rodada ≤ s.rodada_atual := by
      have hE := hI.evs
      rw [he] at hE
      obtain ⟨-, -, -, -, h3⟩ := hE.abrir
      obtain ⟨-, hbn, hab⟩ := h3 htp
      exact base_le_of_lt hb1 (by have := hI.cur_hi; omega)
    obtain ⟨R, hRc, -, hd0, -⟩ := hI.rods.dentro c.rodada hrc
    obtain ⟨R1, e1, hn1, -, -, -⟩ := partida_contagem_ok he hc hRc hI.rods hb1 hb2
    have hb2' := hb2
    rw [base_succ] at hb2'
    have hnum : R1.num_partidas =
        processados cfg TipoEvento.partida k + 1 - base cfg c.rodada := by
      rw [hn1, hd0, Nat.min_def]; split_ifs <;> omega
    have hat := @atingiu_partidas_iff cfg { s with rodadas := gravar s.rodadas c.rodada R1 }
      c.rodada _ R1 hI.ft hnum (by omega) (by omega)
    rw [if_pos htp, hc]
    simp only [chamada_encerrar, hs, if_pos hg, he, if_pos htp, hc]
    rw [e1]
    simp only [gravar_mesmo]
    by_cases hx : atingiu_partidas cfg { s with rodadas := gravar s.rodadas c.rodada R1 }
        c.rodada R1
    · rw [if_pos hx]
      simp only [Option.map_some', Option.some.injEq]
      constructor
      · intro h; subst h; exact ⟨rfl, hat.mp hx⟩
      · intro h; exact h.1
    · rw [if_neg hx]
      simp only [Option.map_none', Option.map_some', Option.some.injEq, false_iff, not_and,
        reduceCtorEq]
      intro h hb
      subst h
      exact hx (hat.mpr hb)
  · rw [if_neg htp]
    simp only [chamada_encerrar, hs, if_pos hg, he, if_neg htp, Option.map_none', false_and,
      reduceCtorEq]

/-! ## The example configuration -/

theorem cfg_exemplo_ok : ConfigOk cfg_exemplo := by
  refine ⟨by decide, by decide, by norm_num [cfg_exemplo], by norm_num [cfg_exemplo], ?_⟩
  intro i
  simp only [cfg_exemplo]
  unfold amostras_exemplo
  split <;> norm_num

/-! ## Claims -/

/-- C1: in every run of the main loop (batch sizes of at least one, non-negative samples)
the events taken as `evento_atual` have non-decreasing timestamps, and of two processed
events with equal timestamps the one that was allocated first by `agendar_evento` (smaller
`ident`) is processed first; in every state reached, each event of the list has an `ident`
below the serial number that `agendar_evento` gives to the next event it schedules. -/
theorem ordem_dos_eventos_processados {cfg : Config} (hcfg : ConfigOk cfg) {i j : Nat}
    {ei ej : Evento} (hij : i < j) (hi : evento_processado cfg i = some ei)
    (hj : evento_processado cfg j = some ej) :
    ei.momento ≤ ej.momento ∧ (ei.momento = ej.momento → ei.ident < ej.ident) ∧
    (∀ s, rodar cfg j = some s → ∀ e ∈ s.eventos, e.ident < s.num_eventos_criados) := by
  obtain ⟨sj, sj', pend, hsj, -, hej⟩ := evento_processado_some hj
  obtain ⟨d, hd⟩ : ∃ d, j = i + 1 + d := ⟨j - (i + 1), by omega⟩
  subst hd
  have h := pendentes_depois hcfg hi d sj hsj ej (by rw [hej]; exact List.mem_cons_self _ _)
  refine ⟨antes_momento h, ?_, ?_⟩
  · intro heq
    rcases h with hlt | ⟨-, hid⟩
    · exact absurd heq (ne_of_lt hlt)
    · exact hid
  · intro s hs e he
    exact (rodar_inv hcfg _ s hs).evs.ids e he

/-- Witness of C1 on the example run: the first two events processed. -/
theorem ordem_dos_eventos_processados_witness :
    evento_processado cfg_exemplo 0 =
        some { ident := 0, momento := 1, cliente := 0, tipo := TipoEvento.chegada_fila_1 } ∧
      evento_processado cfg_exemplo 1 =
        some { ident := 1, momento := 2, cliente := 0, tipo := TipoEvento.chegada_fila_2 } ∧
      ((1 : ℚ) ≤ 2 ∧ ((1 : ℚ) = 2 → 0 < 1) ∧
        (∀ s, rodar cfg_exemplo 1 = some s → ∀ e ∈ s.eventos, e.ident < s.num_eventos_criados)) :=
  ⟨by decide!, by decide!,
    @ordem_dos_eventos_processados cfg_exemplo cfg_exemplo_ok 0 1
      { ident := 0, momento := 1, cliente := 0, tipo := TipoEvento.chegada_fila_1 }
      { ident := 1, momento := 2, cliente := 0, tipo := TipoEvento.chegada_fila_2 }
      (by decide) (by decide!) (by decide!)⟩

/-- C2: in every state reached after processing events, the sizes of the two queues add up
to the number of `chegada_fila_1` events processed minus the number of `partida` events
processed (which is not larger), and neither `num_clientes` is decremented below zero: a
`chegada_fila_2` event is only processed with `fila1` non-empty and a `partida` event only
with `fila2` non-empty. -/
theorem conservacao_de_clientes {cfg : Config} (hcfg : ConfigOk cfg) {k : Nat} {s : Estado}
    (hs : rodar cfg k = some s) :
    processados cfg TipoEvento.partida k ≤ processados cfg TipoEvento.chegada_fila_1 k ∧
    s.fila1.num_clientes + s.fila2.num_clientes =
      processados cfg TipoEvento.chegada_fila_1 k - processados cfg TipoEvento.partida k ∧
    (∀ ev pend, s.eventos = ev :: pend →
      (ev.tipo = TipoEvento.chegada_fila_2 → 0 < s.fila1.num_clientes) ∧
      (ev.tipo = TipoEvento.partida → 0 < s.fila2.num_clientes)) := by
  have hI := rodar_inv hcfg k s hs
  have hab := hI.filas.hab
  have hbn := hI.filas.hbn
  refine ⟨by omega, by rw [hI.filas.f1_n, hI.filas.f2_n]; omega, ?_⟩
  intro ev pend he
  have hE := hI.evs
  rw [he] at hE
  obtain ⟨-, -, -, h2, h3⟩ := hE.abrir
  constructor
  · intro htp
    have := (h2 htp).2
    rw [hI.filas.f1_n]; omega
  · intro htp
    have := (h3 htp).2.2
    rw [hI.filas.f2_n]; omega

/-- Witness of C2 on the example run, after four passes of the main loop. -/
theorem conservacao_de_clientes_witness :
    ∃ s, rodar cfg_exemplo 4 = some s ∧
      processados cfg_exemplo TipoEvento.partida 4 ≤
        processados cfg_exemplo TipoEvento.chegada_fila_1 4 ∧
      s.fila1.num_clientes + s.fila2.num_clientes =
        processados cfg_exemplo TipoEvento.chegada_fila_1 4 -
          processados cfg_exemplo TipoEvento.partida 4 ∧
      (∀ ev pend, s.eventos = ev :: pend →
        (ev.tipo = TipoEvento.chegada_fila_2 → 0 < s.fila1.num_clientes) ∧
        (ev.tipo = TipoEvento.partida → 0 < s.fila2.num_clientes)) := by
  obtain ⟨s, hs⟩ := Option.isSome_iff_exists.mp
    (show (rodar cfg_exemplo 4).isSome = true by decide!)
  exact ⟨s, hs, conservacao_de_clientes cfg_exemplo_ok hs⟩

/-- C3: in every state reached, once the handler has completed and `evento_atual` has
advanced, a non-empty `fila1` implies that no event of the list has type `partida`;
consequently the event processed by the next pass is never a `partida` while `fila1` is
non-empty. -/
theorem prioridade_da_fila_1 {cfg : Config} (hcfg : ConfigOk cfg) {k : Nat} {s : Estado}
    (hs : rodar cfg k = some s) :
    (0 < s.fila1.num_clientes → ∀ e ∈ s.eventos, e.tipo ≠ TipoEvento.partida) ∧
    (∀ ev, evento_processado cfg k = some ev → ev.tipo = TipoEvento.partida →
      s.fila1.num_clientes = 0) := by
  have hI := rodar_inv hcfg k s hs
  have h1 : 0 < s.fila1.num_clientes → ∀ e ∈ s.eventos, e.tipo ≠ TipoEvento.partida := by
    intro hf
    have hb : ¬ (processados cfg TipoEvento.chegada_fila_2 k =
        processados cfg TipoEvento.chegada_fila_1 k ∧
        processados cfg TipoEvento.partida k < processados cfg TipoEvento.chegada_fila_2 k) := by
      have := hI.filas.f1_n
      omega
    have hp := hI.evs.cp
    rw [if_neg hb] at hp
    exact tipos_nil_iff.mp hp
  refine ⟨h1, ?_⟩
  intro ev hev htp
  obtain ⟨s0, -, pend, hs0, -, he⟩ := evento_processado_some hev
  rw [hs] at hs0; cases hs0
  by_contra hne
  exact h1 (Nat.pos_of_ne_zero hne) ev (by rw [he]; exact List.mem_cons_self _ _) htp

/-- Witness of C3 on the example run: after three passes `fila1` holds one customer. -/
theorem prioridade_da_fila_1_witness :
    ∃ s, rodar cfg_exemplo 3 = some s ∧ s.fila1.num_clientes = 1 ∧
      (0 < s.fila1.num_clientes → ∀ e ∈ s.eventos, e.tipo ≠ TipoEvento.partida) ∧
      (∀ ev, evento_processado cfg_exemplo 3 = some ev → ev.tipo = TipoEvento.partida →
        s.fila1.num_clientes = 0) := by
  obtain ⟨s, hs⟩ := Option.isSome_iff_exists.mp
    (show (rodar cfg_exemplo 3).isSome = true by decide!)
  have h1 : (rodar cfg_exemplo 3).map (fun s => s.fila1.num_clientes) = some 1 := by decide!
  rw [hs] at h1
  exact ⟨s, hs, by simpa using h1, prioridade_da_fila_1 cfg_exemplo_ok hs⟩

/-- C4: for batch sizes of at least one, a pass of the main loop calls `encerrar_coleta` on
round `r` if and only if it processes the `partida` of a customer of `r` whose departure is
the `K`-th (for the transient round the `K_t`-th) departure of customers of `r`; the pass
increments `rodadas_encerradas`, by exactly one, in that case and leaves it unchanged
otherwise.  The departures counted for a round never exceed its quota, so a round is closed
by at most one pass. -/
theorem encerramento_de_rodadas {cfg : Config} (hcfg : ConfigOk cfg) {k : Nat}
    {s s' : Estado} (hs : rodar cfg k = some s) (hs' : rodar cfg (k + 1) = some s') :
    (∀ r, (chamada_encerrar cfg k).map (fun x => x.2.1) = some r ↔ completa_rodada cfg k r) ∧
    (s'.rodadas_encerradas = s.rodadas_encerradas + 1 ↔ ∃ r, completa_rodada cfg k r) ∧
    ((¬ ∃ r, completa_rodada cfg k r) → s'.rodadas_encerradas = s.rodadas_encerradas) ∧
    (∀ r j, partidas_da_rodada cfg r j ≤ quota cfg r) ∧
    (∀ r j, completa_rodada cfg j r → completa_rodada cfg k r → j = k) := by
  have hI := rodar_inv hcfg k s hs
  obtain ⟨ev, pend, he⟩ := hI.eventos_ne
  obtain ⟨s0, hs0, -, hit⟩ := rodar_succ hs'
  rw [hs] at hs0; cases hs0
  have hev := evento_processado_eq hs hs' he
  obtain ⟨h1, h2⟩ := iteracao_encerradas hcfg hI he hit
  have hle : ∀ r j, partidas_da_rodada cfg r j ≤ quota cfg r := by
    intro r j
    rw [partidas_da_rodada_eq hcfg]
    exact Nat.min_le_right _ _
  have huniq : ∀ r i j, i < j → completa_rodada cfg i r → completa_rodada cfg j r → False := by
    intro r i j hij hci hcj
    have hm := @partidas_da_rodada_mono cfg r _ _ (show i + 1 ≤ j by omega)
    have hj := hcj.2
    simp only [partidas_da_rodada, hcj.1, if_true] at hj
    have hi := hci.2
    omega
  have hiff : (∃ r, completa_rodada cfg k r) ↔
      s'.rodadas_encerradas = s.rodadas_encerradas + 1 := by
    by_cases htp : ev.tipo = TipoEvento.partida
    · obtain ⟨c, hc, hb1, hb2, hre⟩ := h2 htp
      have hrp : rodada_da_partida cfg k = some c.rodada := by
        rw [rodada_da_partida_eq hs hev, if_pos htp, hc]; rfl
      have hcount : partidas_da_rodada cfg c.rodada (k + 1) =
          processados cfg TipoEvento.partida k + 1 - base cfg c.rodada := by
        rw [partidas_da_rodada_eq hcfg, processados_succ _ hev, if_pos htp]
        rw [base_succ] at hb2
        rw [Nat.min_def]; split_ifs <;> omega
      have hb2' := hb2
      rw [base_succ] at hb2'
      constructor
      · rintro ⟨r, hr1, hr2⟩
        rw [hrp] at hr1
        cases hr1
        rw [hcount] at hr2
        rw [hre, if_pos (by rw [base_succ]; omega)]
      · intro h
        rw [hre] at h
        by_cases hat : processados cfg TipoEvento.partida k + 1 = base cfg (c.rodada + 1)
        · refine ⟨c.rodada, hrp, ?_⟩
          rw [hcount, hat, base_succ]; omega
        · rw [if_neg hat] at h; omega
    · have hrp : rodada_da_partida cfg k = none := by
        rw [rodada_da_partida_eq hs hev, if_neg htp]
      constructor
      · rintro ⟨r, hr1, -⟩
        rw [hrp] at hr1; cases hr1
      · intro h
        rw [h1 htp] at h; omega
  refine ⟨fun r => (chamada_encerrar_iff hcfg hs hs' r).trans
    (completa_rodada_iff hcfg hs hs' r).symm, hiff.symm, ?_, hle, ?_⟩
  · intro hno
    by_cases htp : ev.tipo = TipoEvento.partida
    · obtain ⟨c, hc, hb1, hb2, hre⟩ := h2 htp
      by_cases hat : processados cfg TipoEvento.partida k + 1 = base cfg (c.rodada + 1)
      · exact absurd (hiff.mpr (by rw [hre, if_pos hat])) hno
      · rw [hre, if_neg hat]; rfl
    · exact h1 htp
  · intro r j hj hk
    rcases Nat.lt_trichotomy j k with hlt | heq | hgt
    · exact absurd (huniq r j k hlt hj hk) id
    · exact heq
    · exact absurd (huniq r k j hgt hk hj) id

/-- Witness of C4 on the example run: the ninth pass closes round 1. -/
theorem encerramento_de_rodadas_witness :
    ∃ s s', rodar cfg_exemplo 8 = some s ∧ rodar cfg_exemplo 9 = some s' ∧
      s.rodadas_encerradas = 1 ∧ s'.rodadas_encerradas = 2 ∧
      (∀ r, (chamada_encerrar cfg_exemplo 8).map (fun x => x.2.1) = some r ↔
        completa_rodada cfg_exemplo 8 r) ∧
      (s'.rodadas_encerradas = s.rodadas_encerradas + 1 ↔
        ∃ r, completa_rodada cfg_exemplo 8 r) ∧
      ((¬ ∃ r, completa_rodada cfg_exemplo 8 r) →
        s'.rodadas_encerradas = s.rodadas_encerradas) ∧
      (∀ r j, partidas_da_rodada cfg_exemplo r j ≤ quota cfg_exemplo r) ∧
      (∀ r j, completa_rodada cfg_exemplo j r → completa_rodada cfg_exemplo 8 r → j = 8) := by
  obtain ⟨s, hs⟩ := Option.isSome_iff_exists.mp
    (show (rodar cfg_exemplo 8).isSome = true by decide!)
  obtain ⟨s', hs'⟩ := Option.isSome_iff_exists.mp
    (show (rodar cfg_exemplo 9).isSome = true by decide!)
  have h1 : (rodar cfg_exemplo 8).map (fun s => s.rodadas_encerradas) = some 1 := by decide!
  have h2 : (rodar cfg_exemplo 9).map (fun s => s.rodadas_encerradas) = some 2 := by decide!
  rw [hs] at h1
  rw [hs'] at h2
  exact ⟨s, s', hs, hs', by simpa using h1, by simpa using h2,
    encerramento_de_rodadas cfg_exemplo_ok hs hs'⟩

theorem tipos_singleton_mem {t : TipoEvento} {l : List Evento} {x : Nat}
    (h : tipos t l = [x]) : ∃ e ∈ l, e.tipo = t ∧ e.cliente = x := by
  induction l with
  | nil => simp [tipos] at h
  | cons e es ih =>
    rw [tipos_cons] at h
    by_cases he : e.tipo = t
    · rw [if_pos he] at h
      exact ⟨e, List.mem_cons_self _ _, he, (List.cons.inj h).1⟩
    · rw [if_neg he] at h
      obtain ⟨e', hm, h1, h2⟩ := ih h
      exact ⟨e', List.mem_cons_of_mem _ hm, h1, h2⟩

/-- C5: when a pass of the main loop processes a `chegada_fila_1` event, a new round is
opened and made `rodada_atual` if and only if, after counting the arrival, the current
round is not the transient one and its `num_chegadas` equals `K`, or it is the transient
one and its `num_chegadas` equals `K_t`.  The new round is the one just allocated, it is
linked from the previous round and has counted no arrival.  The customer created for the
next exogenous arrival is attributed to the resulting `rodada_atual`, with `indice_rodada`
0 when a round was opened.  In particular, with `K < K_t` the transient round does not open
a round when its count reaches `K`. -/
theorem abertura_de_rodada {cfg : Config} (hcfg : ConfigOk cfg) {k : Nat} {s s' : Estado}
    {ev : Evento} {pend : List Evento} {R : Rodada} (hs : rodar cfg k = some s)
    (hs' : rodar cfg (k + 1) = some s') (he : s.eventos = ev :: pend)
    (htp : ev.tipo = TipoEvento.chegada_fila_1) (hR : s.rodadas s.rodada_atual = some R) :
    (s'.rodada_atual ≠ s.rodada_atual ↔
      ((s.rodada_atual ≠ s.fase_transiente ∧ R.num_chegadas + 1 = cfg.K) ∨
        (s.rodada_atual = s.fase_transiente ∧ R.num_chegadas + 1 = cfg.K_t))) ∧
    (∃ Ra, s'.rodadas s.rodada_atual = some Ra ∧ Ra.num_chegadas = R.num_chegadas + 1 ∧
      (s'.rodada_atual ≠ s.rodada_atual → Ra.prox_rodada = some s'.rodada_atual)) ∧
    (s'.rodada_atual ≠ s.rodada_atual →
      s'.rodada_atual = s.num_rodadas_criadas ∧
      s'.num_rodadas_criadas = s.num_rodadas_criadas + 1 ∧
      ∃ Rn, s'.rodadas s'.rodada_atual = some Rn ∧ Rn.num_chegadas = 0) ∧
    (∃ e c, e ∈ s'.eventos ∧ e.tipo = TipoEvento.chegada_fila_1 ∧
      e.cliente = s.num_clientes_criados ∧ s'.clientes e.cliente = some c ∧
      c.rodada = s'.rodada_atual ∧
      c.indice_rodada = if s'.rodada_atual ≠ s.rodada_atual then 0 else R.num_chegadas + 1) ∧
    (s.rodada_atual = s.fase_transiente → cfg.K < cfg.K_t → R.num_chegadas + 1 = cfg.K →
      s'.rodada_atual = s.rodada_atual) := by
  have hI := rodar_inv hcfg k s hs
  have hI' := rodar_inv hcfg (k + 1) s' hs'
  have hev := evento_processado_eq hs hs' he
  rw [processados_succ _ hev, processados_succ _ hev, processados_succ _ hev, htp] at hI'
  simp only [if_true, if_false, reduceCtorEq, Nat.add_zero] at hI'
  obtain ⟨s0, hs0, -, hit⟩ := rodar_succ hs'
  rw [hs] at hs0; cases hs0
  obtain ⟨s1, pend', h1, h2, -, -, -, hcc⟩ := processar_chegada_fila_1_ok hcfg hI he htp
  simp only [iteracao, processar_evento_atual, he, htp, h1, h2, Option.some.injEq] at hit
  have hcur' : s'.rodada_atual = s1.rodada_atual := by rw [← hit]
  rw [← hcur'] at hcc
  generalize hn : processados cfg TipoEvento.chegada_fila_1 k = n at hI hI'
  generalize ha : processados cfg TipoEvento.partida k = a at hI hI'
  generalize hb : processados cfg TipoEvento.chegada_fila_2 k = b at hI hI'
  have hlo := hI.rods.cur_lo
  have hhi := hI.cur_hi
  have hlo' := hI'.rods.cur_lo
  have hhi' := hI'.cur_hi
  have hq := quota_pos hcfg s.rodada_atual
  rw [base_succ] at hhi
  obtain ⟨R0, hR0, hnum, -⟩ := hI.rods.dentro s.rodada_atual (Nat.le_refl _)
  rw [hR] at hR0; cases hR0
  have hnumR : R.num_chegadas = n - base cfg s.rodada_atual := by
    rw [hnum, Nat.min_def]; split_ifs <;> omega
  have hquota : ((s.rodada_atual ≠ s.fase_transiente ∧ R.num_chegadas + 1 = cfg.K) ∨
      (s.rodada_atual = s.fase_transiente ∧ R.num_chegadas + 1 = cfg.K_t)) ↔
      R.num_chegadas + 1 = quota cfg s.rodada_atual := by
    rw [hI.ft]
    unfold quota
    by_cases h0 : s.rodada_atual = 0
    · rw [if_pos h0]
      constructor
      · rintro (⟨h, -⟩ | ⟨-, h⟩)
        · exact absurd h0 h
        · exact h
      · intro h; exact Or.inr ⟨h0, h⟩
    · rw [if_neg h0]
      constructor
      · rintro (⟨-, h⟩ | ⟨h, -⟩)
        · exact h
        · exact absurd h h0
      · intro h; exact Or.inl ⟨h0, h⟩
  have hmain : s'.rodada_atual ≠ s.rodada_atual ↔
      R.num_chegadas + 1 = quota cfg s.rodada_atual := by
    constructor
    · intro hne
      have hc : s'.rodada_atual = s.rodada_atual + 1 := by
        rcases hcc with h | h
        · exact absurd h hne
        · exact h
      rw [hc] at hlo'
      rw [base_succ] at hlo'
      omega
    · intro hqe hc
      rw [hc, base_succ] at hhi'
      omega
  have hle : s.rodada_atual ≤ s'.rodada_atual := by
    rcases hcc with h | h <;> omega
  obtain ⟨Ra, hRa, hnuma, -, hproxa⟩ := hI'.rods.dentro s.rodada_atual hle
  have hnumRa : Ra.num_chegadas = R.num_chegadas + 1 := by
    rw [hnuma, hnumR, Nat.min_def]; split_ifs <;> omega
  obtain ⟨Rn, hRn, hnumn, -⟩ := hI'.rods.dentro s'.rodada_atual (Nat.le_refl _)
  have hsucc : s'.rodada_atual ≠ s.rodada_atual → s'.rodada_atual = s.rodada_atual + 1 := by
    intro hne
    rcases hcc with h | h
    · exact absurd h hne
    · exact h
  obtain ⟨e, hem, het, hec⟩ := tipos_singleton_mem hI'.evs.c1
  obtain ⟨c, hc, hc1, hc2, hc3⟩ := hI'.cls (n + 1) (by have := hI.filas.hab; have := hI.filas.hbn; omega)
    (Nat.le_refl _)
  have hcr : c.rodada = s'.rodada_atual := base_unico hc1 hc2 hlo' hhi'
  refine ⟨hmain.trans hquota.symm, ⟨Ra, hRa, hnumRa, ?_⟩, ?_, ⟨e, c, hem, het, ?_, ?_, hcr, ?_⟩,
    ?_⟩
  · intro hne
    rw [hproxa, if_pos (by have := hsucc hne; omega), hsucc hne]
  · intro hne
    refine ⟨by rw [hsucc hne, hI.nrod], by rw [hI'.nrod, hI.nrod, hsucc hne], Rn, hRn, ?_⟩
    rw [hnumn]
    have h3 := hmain.mp hne
    have : n + 1 = base cfg (s.rodada_atual + 1) := by rw [base_succ]; omega
    rw [hsucc hne, ← this]
    simp
  · rw [hec, hI.ncli]
  · rw [hec]; exact hc
  · rw [hc3, hcr]
    by_cases hne : s'.rodada_atual ≠ s.rodada_atual
    · rw [if_pos hne]
      have h3 := hmain.mp hne
      rw [hsucc hne, base_succ]
      omega
    · rw [if_neg hne]
      have heq : s'.rodada_atual = s.rodada_atual := not_not.mp hne
      rw [heq]; omega
  · intro hft hK hnK
    by_contra hne
    have h3 := hquota.mpr (hmain.mp hne)
    rcases h3 with ⟨h, -⟩ | ⟨-, h⟩
    · exact h hft
    · omega

/-- Witness of C5 on the example run: the fourth pass processes the second arrival of
round 1 and opens round 2. -/
theorem abertura_de_rodada_witness :
    ∃ s s' ev pend R, rodar cfg_exemplo 3 = some s ∧ rodar cfg_exemplo 4 = some s' ∧
      s.eventos = ev :: pend ∧ ev.tipo = TipoEvento.chegada_fila_1 ∧
      s.rodadas s.rodada_atual = some R ∧ s.rodada_atual = 1 ∧ s'.rodada_atual = 2 ∧
      (s'.rodada_atual ≠ s.rodada_atual ↔
        ((s.rodada_atual ≠ s.fase_transiente ∧ R.num_chegadas + 1 = cfg_exemplo.K) ∨
          (s.rodada_atual = s.fase_transiente ∧ R.num_chegadas + 1 = cfg_exemplo.K_t))) := by
  obtain ⟨s, hs⟩ := Option.isSome_iff_exists.mp
    (show (rodar cfg_exemplo 3).isSome = true by decide!)
  obtain ⟨s', hs'⟩ := Option.isSome_iff_exists.mp
    (show (rodar cfg_exemplo 4).isSome = true by decide!)
  have h1 : (rodar cfg_exemplo 3).map (fun s => (s.eventos, s.rodada_atual)) =
      some ([{ ident := 5, momento := 7, cliente := 2, tipo := TipoEvento.chegada_fila_1 },
        { ident := 4, momento := 10, cliente := 1, tipo := TipoEvento.chegada_fila_2 }], 1) := by
    decide!
  have h2 : (rodar cfg_exemplo 4).map (fun s => s.rodada_atual) = some 2 := by decide!
  have h3 : ((rodar cfg_exemplo 3).bind fun s => s.rodadas s.rodada_atual).isSome = true := by
    decide!
  rw [hs] at h1 h3
  rw [hs'] at h2
  simp only [Option.map_some', Option.some.injEq, Prod.mk.injEq, Option.some_bind] at h1 h2 h3
  obtain ⟨R, hR⟩ := Option.isSome_iff_exists.mp h3
  exact ⟨s, s', _, _, R, hs, hs', h1.1, rfl, hR, h1.2, h2,
    (abertura_de_rodada cfg_exemplo_ok hs hs' h1.1 rfl hR).1⟩

/-- C6: in every state reached, every round of the heap (every round of the list that
starts at `fase_transiente`) has `num_chegadas` at most its quota, `K_t` for the transient
round and `K` otherwise, and `num_partidas` at most `num_chegadas`. -/
theorem contadores_das_rodadas {cfg : Config} (hcfg : ConfigOk cfg) {k : Nat} {s : Estado}
    {r : Nat} {R : Rodada} (hs : rodar cfg k = some s) (hR : s.rodadas r = some R) :
    R.num_chegadas ≤ (if r = s.fase_transiente then cfg.K_t else cfg.K) ∧
    R.num_partidas ≤ R.num_chegadas := by
  have hI := rodar_inv hcfg k s hs
  have hr : r ≤ s.rodada_atual := by
    by_contra hc
    have := hI.rods.fora r (by omega)
    rw [hR] at this; cases this
  obtain ⟨R0, hR0, h1, h2, -⟩ := hI.rods.dentro r hr
  rw [hR] at hR0; cases hR0
  have hab := hI.filas.hab
  have hbn := hI.filas.hbn
  constructor
  · rw [h1, hI.ft]
    exact Nat.min_le_right _ _
  · rw [h1, h2, Nat.min_def, Nat.min_def]
    split_ifs <;> omega

/-- Witness of C6 on the example run: round 1 after five passes. -/
theorem contadores_das_rodadas_witness :
    ∃ s R, rodar cfg_exemplo 5 = some s ∧ s.rodadas 1 = some R ∧
      R.num_chegadas ≤ (if 1 = s.fase_transiente then cfg_exemplo.K_t else cfg_exemplo.K) ∧
      R.num_partidas ≤ R.num_chegadas := by
  obtain ⟨s, hs⟩ := Option.isSome_iff_exists.mp
    (show (rodar cfg_exemplo 5).isSome = true by decide!)
  have h3 : ((rodar cfg_exemplo 5).bind fun s => s.rodadas 1).isSome = true := by decide!
  rw [hs] at h3
  obtain ⟨R, hR⟩ := Option.isSome_iff_exists.mp h3
  exact ⟨s, R, hs, hR, contadores_das_rodadas cfg_exemplo_ok hs hR⟩

/-- C7: whenever a pass of the main loop calls `encerrar_coleta(rodada)`, for all batch
sizes of at least one, `rodada->prox_rodada` is not null and points to an allocated round,
so the duration of the round is computed from an existing round, and the call returns. -/
theorem encerrar_tem_proxima_rodada {cfg : Config} (hcfg : ConfigOk cfg) {k : Nat}
    {s1 : Estado} {r : Nat} {R1 : Rodada} (h : chamada_encerrar cfg k = some (s1, r, R1)) :
    ∃ q Rq, R1.prox_rodada = some q ∧ s1.rodadas q = some Rq ∧
      (encerrar_coleta cfg r s1).isSome = true := by
  unfold chamada_encerrar at h
  cases hs : rodar cfg k with
  | none => rw [hs] at h; cases h
  | some s =>
    rw [hs] at h
    simp only at h
    by_cases hg : s.rodadas_encerradas < cfg.NUM_RODADAS + 1
    swap
    · rw [if_neg hg] at h; cases h
    rw [if_pos hg] at h
    have hI := rodar_inv hcfg k s hs
    obtain ⟨ev, pend, he⟩ := hI.eventos_ne
    rw [he] at h
    simp only at h
    by_cases htp : ev.tipo = TipoEvento.partida
    swap
    · rw [if_neg htp] at h; cases h
    rw [if_pos htp] at h
    have hE := hI.evs
    rw [he] at hE
    obtain ⟨ht, -, -, -, h3⟩ := hE.abrir
    obtain ⟨hca, hbn, hab⟩ := h3 htp
    obtain ⟨c, R, hc, hRc, hrc, hb1, hb2, -⟩ :=
      cliente_valido hI.cls hI.rods hI.cur_hi (Nat.le_refl _) (by omega : _ ≤ _)
    rw [← hca] at hc
    obtain ⟨R1', e1, hn1, -, -, hR1⟩ := partida_contagem_ok he hc hRc hI.rods hb1 hb2
    rw [hc] at h
    simp only at h
    rw [e1] at h
    simp only [gravar_mesmo] at h
    by_cases hat : atingiu_partidas cfg { s with rodadas := gravar s.rodadas c.rodada R1' }
        c.rodada R1'
    swap
    · rw [if_neg hat] at h; cases h
    rw [if_pos hat] at h
    simp only [Option.some.injEq, Prod.mk.injEq] at h
    obtain ⟨h1, h2, h3'⟩ := h
    subst h1 h2 h3'
    have hb2' := hb2
    rw [base_succ] at hb2'
    obtain ⟨R0, hR0, -, hd0, -⟩ := hI.rods.dentro c.rodada hrc
    rw [hRc] at hR0; cases hR0
    have hnum : R1'.num_partidas =
        processados cfg TipoEvento.partida k + 1 - base cfg c.rodada := by
      rw [hn1, hd0, Nat.min_def]; split_ifs <;> omega
    have hat' := (@atingiu_partidas_iff cfg { s with rodadas := gravar s.rodadas c.rodada R1' }
      c.rodada _ R1' hI.ft hnum (by omega) (by omega)).mp hat
    have hlt : c.rodada < s.rodada_atual := by
      have : c.rodada + 1 ≤ s.rodada_atual :=
        @base_le_of_lt cfg (c.rodada + 1) s.rodada_atual
          (processados cfg TipoEvento.partida k + 1) (by omega) (by have := hI.cur_hi; omega)
      omega
    obtain ⟨Rx, hRx, -, -, hpx⟩ := hR1.dentro c.rodada hrc
    rw [gravar_mesmo] at hRx; cases hRx
    rw [if_pos hlt] at hpx
    obtain ⟨Rq, hRq, -⟩ := hR1.dentro (c.rodada + 1) hlt
    obtain ⟨rods', hE', -⟩ := encerrar_coleta_ok
      (s := { s with rodadas := gravar s.rodadas c.rodada R1' }) he hR1 ht hlt rfl
    exact ⟨c.rodada + 1, Rq, hpx, hRq, by rw [hE']; rfl⟩

/-- Witness of C7 on the example run: the ninth pass calls `encerrar_coleta` on round 1. -/
theorem encerrar_tem_proxima_rodada_witness :
    ∃ s1 r R1, chamada_encerrar cfg_exemplo 8 = some (s1, r, R1) ∧
      ∃ q Rq, R1.prox_rodada = some q ∧ s1.rodadas q = some Rq ∧
        (encerrar_coleta cfg_exemplo r s1).isSome = true := by
  obtain ⟨x, hx⟩ := Option.isSome_iff_exists.mp
    (show (chamada_encerrar cfg_exemplo 8).isSome = true by decide!)
  obtain ⟨s1, r, R1⟩ := x
  exact ⟨s1, r, R1, hx, encerrar_tem_proxima_rodada cfg_exemplo_ok hx⟩

/-- C9, evaluated on the example run: round 1 is closed by the ninth pass of the main loop
with `num_partidas = K`, and its normalized stage 2 estimators are `E_N2 = 0` and
`E_Nq2 = 1/3`, so `E_N2 < E_Nq2`. -/
theorem estimadores_da_fila_2_exemplo :
    ∃ s R, rodar cfg_exemplo 9 = some s ∧ s.rodadas 1 = some R ∧
      (chamada_encerrar cfg_exemplo 8).map (fun x => x.2.1) = some 1 ∧
      s.rodadas_encerradas = 2 ∧ R.num_partidas = cfg_exemplo.K ∧
      R.E_N2 = 0 ∧ R.E_Nq2 = 1 / 3 ∧ R.E_N2 < R.E_Nq2 := by
  obtain ⟨s, hs⟩ := Option.isSome_iff_exists.mp
    (show (rodar cfg_exemplo 9).isSome = true by decide!)
  have h3 : ((rodar cfg_exemplo 9).bind fun s => s.rodadas 1).isSome = true := by decide!
  have h4 : ((rodar cfg_exemplo 9).bind fun s =>
      (s.rodadas 1).map fun R => (s.rodadas_encerradas, R.num_partidas, R.E_N2, R.E_Nq2)) =
      some (2, 2, 0, 1 / 3) := by
    decide!
  rw [hs] at h3 h4
  simp only [Option.some_bind] at h3 h4
  obtain ⟨R, hR⟩ := Option.isSome_iff_exists.mp h3
  rw [hR] at h4
  simp only [Option.map_some', Option.some.injEq, Prod.mk.injEq] at h4
  obtain ⟨h5, h6, h7, h8⟩ := h4
  refine ⟨s, R, hs, hR, by decide!, h5, h6, h7, h8, ?_⟩
  rw [h7, h8]
  norm_num

/-- When `encerrar_coleta` is called on a round that is not `rodada_atual`, the four update
times of that round are not changed and its four integrals are only divided by the duration
of the round: the final update of the integrals is applied to `rodada_atual`. -/
theorem encerrar_coleta_outra_rodada {cfg : Config} {s s' : Estado} {r : Nat} {R : Rodada}
    (h : encerrar_coleta cfg r s = some s') (hne : r ≠ s.rodada_atual)
    (hR : s.rodadas r = some R) :
    ∃ R' q Rq, s'.rodadas r = some R' ∧ R.prox_rodada = some q ∧ s.rodadas q = some Rq ∧
      R'.ultima_atualizacao_E_Nq1 = R.ultima_atualizacao_E_Nq1 ∧
      R'.ultima_atualizacao_E_Nq2 = R.ultima_atualizacao_E_Nq2 ∧
      R'.ultima_atualizacao_E_N1 = R.ultima_atualizacao_E_N1 ∧
      R'.ultima_atualizacao_E_N2 = R.ultima_atualizacao_E_N2 ∧
      R'.E_Nq1 = R.E_Nq1 / (Rq.inicio - R.inicio) ∧
      R'.E_Nq2 = R.E_Nq2 / (Rq.inicio - R.inicio) ∧
      R'.E_N1 = R.E_N1 / (Rq.inicio - R.inicio) ∧
      R'.E_N2 = R.E_N2 / (Rq.inicio - R.inicio) := by
  simp only [encerrar_coleta, hR] at h
  cases hp : R.prox_rodada with
  | none => rw [hp] at h; cases h
  | some q =>
    rw [hp] at h
    simp only at h
    cases hq : s.rodadas q with
    | none => rw [hq] at h; cases h
    | some Rq =>
      rw [hq] at h
      simp only at h
      cases he : s.eventos with
      | nil => simp [atualizar_E_Nq1, he] at h
      | cons ev pend =>
        cases hc : s.rodadas s.rodada_atual with
        | none => simp [atualizar_E_Nq1, he, hc] at h
        | some Rc =>
          simp only [atualizar_E_Nq1, atualizar_E_Nq2, atualizar_E_N1, atualizar_E_N2, he, hc,
            gravar_mesmo, gravar_gravar, gravar_outro _ _ hne, hR, Option.some.injEq] at h
          subst h
          exact ⟨_, q, Rq, gravar_mesmo _ _ _, rfl, hq, rfl, rfl, rfl, rfl, rfl, rfl, rfl, rfl⟩

/-- C10, evaluated on the example run: the ninth pass calls `encerrar_coleta` on round 1 at
time 14 while `rodada_atual` is round 2.  After the call the four update times of round 1
are still 7, 7, 7 and 2, and its `E_N2` is `0 / 6`: the final update went to round 2, whose
four update times are 14. -/
theorem encerrar_coleta_exemplo :
    ∃ s1 R1 s2 R2 Rc, chamada_encerrar cfg_exemplo 8 = some (s1, 1, R1) ∧
      s1.eventos.map (fun e => e.momento) = [14, 407] ∧ s1.rodada_atual = 2 ∧
      get_N2 s1 = 1 ∧
      encerrar_coleta cfg_exemplo 1 s1 = some s2 ∧ s2.rodadas 1 = some R2 ∧
      s2.rodadas 2 = some Rc ∧
      (R1.ultima_atualizacao_E_Nq1, R1.ultima_atualizacao_E_Nq2, R1.ultima_atualizacao_E_N1,
        R1.ultima_atualizacao_E_N2) = (7, 7, 7, 2) ∧
      (R2.ultima_atualizacao_E_Nq1, R2.ultima_atualizacao_E_Nq2, R2.ultima_atualizacao_E_N1,
        R2.ultima_atualizacao_E_N2) = (7, 7, 7, 2) ∧
      (Rc.ultima_atualizacao_E_Nq1, Rc.ultima_atualizacao_E_Nq2, Rc.ultima_atualizacao_E_N1,
        Rc.ultima_atualizacao_E_N2) = (14, 14, 14, 14) ∧
      R1.E_N2 = 0 ∧ R2.E_N2 = 0 := by
  have h0 : ((chamada_encerrar cfg_exemplo 8).bind fun x =>
      (encerrar_coleta cfg_exemplo x.2.1 x.1).bind fun s2 =>
        (s2.rodadas 1).bind fun R2 =>
          (s2.rodadas 2).map fun Rc =>
            (x.2.1, x.1.eventos.map (fun e => e.momento), x.1.rodada_atual, get_N2 x.1,
              (x.2.2.ultima_atualizacao_E_Nq1, x.2.2.ultima_atualizacao_E_Nq2,
                x.2.2.ultima_atualizacao_E_N1, x.2.2.ultima_atualizacao_E_N2),
              (R2.ultima_atualizacao_E_Nq1, R2.ultima_atualizacao_E_Nq2,
                R2.ultima_atualizacao_E_N1, R2.ultima_atualizacao_E_N2),
              (Rc.ultima_atualizacao_E_Nq1, Rc.ultima_atualizacao_E_Nq2,
                Rc.ultima_atualizacao_E_N1, Rc.ultima_atualizacao_E_N2),
              x.2.2.E_N2, R2.E_N2)) =
      some (1, [14, 407], 2, 1, (7, 7, 7, 2), (7, 7, 7, 2), (14, 14, 14, 14), 0, 0) := by
    with_unfolding_all rfl
  cases hx : chamada_encerrar cfg_exemplo 8 with
  | none => rw [hx] at h0; cases h0
  | some x =>
    obtain ⟨s1, r, R1⟩ := x
    rw [hx] at h0
    simp only [Option.some_bind] at h0
    cases h2 : encerrar_coleta cfg_exemplo r s1 with
    | none => rw [h2] at h0; cases h0
    | some s2 =>
      rw [h2] at h0
      simp only [Option.some_bind] at h0
      cases h3 : s2.rodadas 1 with
      | none => rw [h3] at h0; cases h0
      | some R2 =>
        rw [h3] at h0
        simp only [Option.some_bind] at h0
        cases h4 : s2.rodadas 2 with
        | none => rw [h4] at h0; cases h0
        | some Rc =>
          rw [h4] at h0
          simp only [Option.map_some', Option.some.injEq, Prod.mk.injEq] at h0
          obtain ⟨e1, e2, e3, e4, e5, e6, e7, e8, e9⟩ := h0
          subst e1
          exact ⟨s1, R1, s2, R2, Rc, rfl, e2, e3, e4, h2, h3, h4,
            by simp only [Prod.mk.injEq]; exact e5, by simp only [Prod.mk.injEq]; exact e6,
            by simp only [Prod.mk.injEq]; exact e7, e8, e9⟩

/-! ## Scheduling and cancelling events -/

theorem inserir_divide (novo : Evento) (l : List Evento) (h : ordenada l) :
    ∃ l1 l2, l = l1 ++ l2 ∧ inserir novo l = l1 ++ novo :: l2 ∧
      (∀ e ∈ l1, e.momento ≤ novo.momento) ∧ (∀ e ∈ l2, novo.momento < e.momento) := by
  induction l with
  | nil => exact ⟨[], [], rfl, rfl, by simp, by simp⟩
  | cons e es ih =>
    have h' := List.pairwise_cons.mp h
    by_cases hle : e.momento ≤ novo.momento
    · obtain ⟨l1, l2, e1, e2, e3, e4⟩ := ih h'.2
      refine ⟨e :: l1, l2, by rw [e1]; rfl, ?_, ?_, e4⟩
      · simp only [inserir, if_pos hle, e2, List.cons_append]
      · intro x hx
        rcases List.mem_cons.mp hx with rfl | hx
        · exact hle
        · exact e3 x hx
    · refine ⟨[], e :: es, rfl, by simp only [inserir, if_neg hle, List.nil_append],
        by simp, ?_⟩
      intro x hx
      rcases List.mem_cons.mp hx with rfl | hx
      · exact lt_of_not_le hle
      · exact lt_of_lt_of_le (lt_of_not_le hle) (h'.1 x hx)

theorem ordenada_inserida {l1 l2 : List Evento} {novo : Evento} (h : ordenada (l1 ++ l2))
    (h1 : ∀ e ∈ l1, e.momento ≤ novo.momento) (h2 : ∀ e ∈ l2, novo.momento < e.momento) :
    ordenada (l1 ++ novo :: l2) := by
  unfold ordenada at *
  rw [List.pairwise_append] at h ⊢
  refine ⟨h.1, ?_, ?_⟩
  · rw [List.pairwise_cons]
    exact ⟨fun e he => le_of_lt (h2 e he), h.2.1⟩
  · intro x hx y hy
    rcases List.mem_cons.mp hy with rfl | hy
    · exact h1 x hx
    · exact h.2.2 x hx y hy

/-- C11: `agendar_evento` leaves `evento_atual` at the head whatever the new `momento` is;
when the events after the head are in ascending order of `momento`, they are split in two
parts that keep their order, the new event is linked in between, every event before it has
a `momento` at most the new one, every event after it a strictly greater one, and the list
after the head is again in ascending order. -/
theorem agendar_evento_posicao (momento : ℚ) (cliente : Nat) (tipo : TipoEvento) (s : Estado)
    (atual : Evento) (pendentes : List Evento) (he : s.eventos = atual :: pendentes)
    (hord : ordenada pendentes) :
    ∃ l1 l2 novo, pendentes = l1 ++ l2 ∧
      novo = { ident := s.num_eventos_criados, momento := momento, cliente := cliente,
               tipo := tipo } ∧
      agendar_evento momento cliente tipo s =
        some { s with eventos := atual :: (l1 ++ novo :: l2),
                      num_eventos_criados := s.num_eventos_criados + 1 } ∧
      (∀ e ∈ l1, e.momento ≤ momento) ∧ (∀ e ∈ l2, momento < e.momento) ∧
      ordenada (l1 ++ novo :: l2) := by
  obtain ⟨l1, l2, e1, e2, e3, e4⟩ := inserir_divide
    { ident := s.num_eventos_criados, momento := momento, cliente := cliente, tipo := tipo }
    pendentes hord
  refine ⟨l1, l2, _, e1, rfl, ?_, e3, e4, ordenada_inserida (e1 ▸ hord) e3 e4⟩
  unfold agendar_evento
  rw [he]
  simp only [e2]

/-- Witness of C11: an event of time 7 scheduled while the event of time 5 is handled and
events of times 6, 7 and 9 are pending. -/
theorem agendar_evento_posicao_witness :
    ordenada estado_agenda.eventos.tail ∧
    ∃ l1 l2 novo, estado_agenda.eventos.tail = l1 ++ l2 ∧
      novo = { ident := 4, momento := 7, cliente := 1, tipo := TipoEvento.chegada_fila_2 } ∧
      agendar_evento 7 1 TipoEvento.chegada_fila_2 estado_agenda =
        some { estado_agenda with
          eventos :=
            { ident := 0, momento := 5, cliente := 0, tipo := TipoEvento.chegada_fila_2 } ::
              (l1 ++ novo :: l2)
          num_eventos_criados := 5 } ∧
      (∀ e ∈ l1, e.momento ≤ 7) ∧ (∀ e ∈ l2, (7 : ℚ) < e.momento) ∧
      ordenada (l1 ++ novo :: l2) :=
  ⟨by decide!, agendar_evento_posicao 7 1 TipoEvento.chegada_fila_2 estado_agenda _ _ rfl
    (by decide!)⟩

theorem remover_partida_divide {l1 l2 : List Evento} {p : Evento}
    (h1 : ∀ e ∈ l1, e.tipo ≠ TipoEvento.partida) (hp : p.tipo = TipoEvento.partida) :
    remover_partida (l1 ++ p :: l2) = some (p, l1 ++ l2) := by
  induction l1 with
  | nil => simp [remover_partida, hp]
  | cons e es ih =>
    have he : e.tipo ≠ TipoEvento.partida := h1 e (List.mem_cons_self _ _)
    have ih' := ih (fun x hx => h1 x (List.mem_cons_of_mem _ hx))
    rw [List.cons_append]
    unfold remover_partida
    rw [if_neg he, ih']
    rfl

theorem remover_partida_sem {l : List Evento} (h : ∀ e ∈ l, e.tipo ≠ TipoEvento.partida) :
    remover_partida l = none := by
  induction l with
  | nil => rfl
  | cons e es ih =>
    have he : e.tipo ≠ TipoEvento.partida := h e (List.mem_cons_self _ _)
    simp only [remover_partida, if_neg he, ih (fun x hx => h x (List.mem_cons_of_mem _ hx))]

theorem ordenada_sem {l1 l2 : List Evento} {p : Evento} (h : ordenada (l1 ++ p :: l2)) :
    ordenada (l1 ++ l2) := by
  unfold ordenada at *
  exact h.sublist (List.Sublist.append_left (List.sublist_cons_self p l2) l1)

/-- C12: `interromper_servico_fila_2` returns the state unchanged when `fila2` is empty or
no event after `evento_atual` has type `partida`.  Otherwise, with `p` the first event of
type `partida` after `evento_atual`, exactly `p` is unlinked, the events before and after it
keep their order (so an ascending list stays ascending), the `chegada_estado_atual` of the
customer of `p` becomes the time of `evento_atual`, and nothing else changes. -/
theorem interromper_servico_fila_2_efeito (s : Estado) (atual : Evento)
    (pendentes : List Evento) (he : s.eventos = atual :: pendentes) :
    ((s.fila2.num_clientes = 0 ∨ ∀ e ∈ pendentes, e.tipo ≠ TipoEvento.partida) →
      interromper_servico_fila_2 s = some s) ∧
    (∀ l1 p l2 c, s.fila2.num_clientes ≠ 0 → pendentes = l1 ++ p :: l2 →
      (∀ e ∈ l1, e.tipo ≠ TipoEvento.partida) → p.tipo = TipoEvento.partida →
      s.clientes p.cliente = some c →
      interromper_servico_fila_2 s =
        some { s with
          eventos := atual :: (l1 ++ l2)
          clientes := gravar s.clientes p.cliente
            { c with chegada_estado_atual := atual.momento } } ∧
      (ordenada pendentes → ordenada (l1 ++ l2))) := by
  constructor
  · intro h
    unfold interromper_servico_fila_2
    by_cases h0 : s.fila2.num_clientes = 0
    · rw [if_pos h0]
    · rw [if_neg h0, he]
      rcases h with h | h
      · exact absurd h h0
      · simp only [remover_partida_sem h]
  · intro l1 p l2 c h0 hl h1 hp hc
    refine ⟨?_, fun ho => ordenada_sem (hl ▸ ho)⟩
    unfold interromper_servico_fila_2
    rw [if_neg h0, he, hl]
    simp only [remover_partida_divide h1 hp, hc]

/-- Witness of C12: the departure of customer 0, pending at time 7 behind an arrival of
time 6, is cancelled while the event of time 5 is handled. -/
theorem interromper_servico_fila_2_efeito_witness :
    interromper_servico_fila_2 estado_interrupcao =
      some { estado_interrupcao with
        eventos :=
          [{ ident := 0, momento := 5, cliente := 0, tipo := TipoEvento.chegada_fila_2 },
           { ident := 1, momento := 6, cliente := 1, tipo := TipoEvento.chegada_fila_1 },
           { ident := 3, momento := 9, cliente := 2, tipo := TipoEvento.chegada_fila_1 }]
        clientes := gravar estado_interrupcao.clientes 0
          { rodada := 0, prox_cliente := none, indice_rodada := 0, chegada_estado_atual := 5,
            chegada_fila_atual := 0 } } ∧
      (ordenada estado_interrupcao.eventos.tail →
        ordenada
          [{ ident := 1, momento := 6, cliente := 1, tipo := TipoEvento.chegada_fila_1 },
           { ident := 3, momento := 9, cliente := 2, tipo := TipoEvento.chegada_fila_1 }]) :=
  (interromper_servico_fila_2_efeito estado_interrupcao
    { ident := 0, momento := 5, cliente := 0, tipo := TipoEvento.chegada_fila_2 } _ rfl).2
    [{ ident := 1, momento := 6, cliente := 1, tipo := TipoEvento.chegada_fila_1 }]
    { ident := 2, momento := 7, cliente := 0, tipo := TipoEvento.partida }
    [{ ident := 3, momento := 9, cliente := 2, tipo := TipoEvento.chegada_fila_1 }]
    { rodada := 0, prox_cliente := none, indice_rodada := 0, chegada_estado_atual := 0,
      chegada_fila_atual := 0 }
    (by decide) rfl (by decide) rfl rfl

/-! ## Queue lengths, the uniform draw and the variance -/

/-- C13, as stated, fails when both queues are empty: `get_Nq2` returns 0, while the size
of `fila2` minus one (because `fila1` is empty) is -1. -/
theorem get_Nq2_filas_vazias :
    (inicial cfg_exemplo).fila1.num_clientes = 0 ∧
    (inicial cfg_exemplo).fila2.num_clientes = 0 ∧
    (get_Nq2 (inicial cfg_exemplo) : ℤ) = 0 ∧
    ((inicial cfg_exemplo).fila2.num_clientes : ℤ) -
      (if (inicial cfg_exemplo).fila1.num_clientes = 0 then 1 else 0) = -1 ∧
    ¬ ∀ s : Estado, (get_Nq2 s : ℤ) =
      (s.fila2.num_clientes : ℤ) - (if s.fila1.num_clientes = 0 then 1 else 0) := by
  refine ⟨rfl, rfl, rfl, rfl, ?_⟩
  intro h
  have h0 := h (inicial cfg_exemplo)
  exact absurd h0 (by decide)

/-- C13, amended: for queue sizes of at most `LONG_MAX`, `get_Nq2` returns the size of
`fila2` minus one when `fila1` is empty and `fila2` is not, and the size of `fila2` otherwise
(0 when both are empty); `get_Nq1` returns the size of `fila1` minus one when it is non-empty
and 0 otherwise; `get_N1` and `get_N2` return the two sizes.  The four values are at most
`LONG_MAX`, so the conversion to the return type `long` does not change them. -/
theorem tamanhos_das_filas (s : Estado) (h1 : s.fila1.num_clientes ≤ LONG_MAX)
    (h2 : s.fila2.num_clientes ≤ LONG_MAX) :
    (get_Nq2 s : ℤ) = (s.fila2.num_clientes : ℤ) -
      (if s.fila1.num_clientes = 0 ∧ 0 < s.fila2.num_clientes then 1 else 0) ∧
    (get_Nq1 s : ℤ) =
      (if 0 < s.fila1.num_clientes then (s.fila1.num_clientes : ℤ) - 1 else 0) ∧
    get_N1 s = s.fila1.num_clientes ∧ get_N2 s = s.fila2.num_clientes ∧
    get_Nq1 s ≤ LONG_MAX ∧ get_N1 s ≤ LONG_MAX ∧ get_Nq2 s ≤ LONG_MAX ∧
    get_N2 s ≤ LONG_MAX := by
  refine ⟨?_, ?_, rfl, rfl, ?_, h1, ?_, h2⟩
  · unfold get_Nq2
    by_cases h1 : s.fila1.num_clientes > 0
    · rw [if_pos h1, if_neg (by omega)]; simp
    · rw [if_neg h1]
      by_cases h2 : s.fila2.num_clientes > 0
      · rw [if_pos h2, if_pos ⟨by omega, h2⟩]; omega
      · rw [if_neg h2, if_neg (fun h => h2 h.2)]; omega
  · unfold get_Nq1
    by_cases h1 : s.fila1.num_clientes > 0
    · rw [if_pos h1, if_pos h1]; omega
    · rw [if_neg h1, if_neg h1]; rfl
  · unfold get_Nq1
    split <;> omega
  · unfold get_Nq2
    split
    · exact h2
    · split <;> omega

/-- Witness of C13 on the example run: after three passes customer 1 is in `fila1` and
customer 0, whose service was interrupted, is in `fila2`. -/
theorem tamanhos_das_filas_witness :
    ∃ s, rodar cfg_exemplo 3 = some s ∧ s.fila1.num_clientes = 1 ∧
      s.fila2.num_clientes = 1 ∧ s.fila1.num_clientes ≤ LONG_MAX ∧
      s.fila2.num_clientes ≤ LONG_MAX ∧
      (get_Nq2 s : ℤ) = (s.fila2.num_clientes : ℤ) -
        (if s.fila1.num_clientes = 0 ∧ 0 < s.fila2.num_clientes then 1 else 0) ∧
      (get_Nq1 s : ℤ) =
        (if 0 < s.fila1.num_clientes then (s.fila1.num_clientes : ℤ) - 1 else 0) ∧
      get_N1 s = s.fila1.num_clientes ∧ get_N2 s = s.fila2.num_clientes ∧
      get_Nq1 s ≤ LONG_MAX ∧ get_N1 s ≤ LONG_MAX ∧ get_Nq2 s ≤ LONG_MAX ∧
      get_N2 s ≤ LONG_MAX := by
  obtain ⟨s, hs⟩ := Option.isSome_iff_exists.mp
    (show (rodar cfg_exemplo 3).isSome = true by decide!)
  have h : (rodar cfg_exemplo 3).map (fun s => (s.fila1.num_clientes, s.fila2.num_clientes)) =
      some (1, 1) := by
    decide!
  rw [hs] at h
  simp only [Option.map_some', Option.some.injEq, Prod.mk.injEq] at h
  have b1 : s.fila1.num_clientes ≤ LONG_MAX := by rw [h.1]; decide
  have b2 : s.fila2.num_clientes ≤ LONG_MAX := by rw [h.2]; decide
  exact ⟨s, hs, h.1, h.2, b1, b2, tamanhos_das_filas s b1 b2⟩

/-- C15, evaluated: for every value of `RAND_MAX` of at least one, `rand()` returning 0
gives `u_0 = 0` and `rand()` returning `RAND_MAX` gives `u_0 = 1`; the draw lies in the open
interval exactly when `rand()` returns neither of the two. -/
theorem u_0_extremos (M : Nat) :
    u_0 (M + 1) 0 = 0 ∧ u_0 (M + 1) (M + 1) = 1 ∧ u_0 2147483647 0 = 0 ∧
    u_0 2147483647 2147483647 = 1 ∧
    ∀ r : Nat, (0 < u_0 (M + 1) r ∧ u_0 (M + 1) r < 1) ↔ (0 < r ∧ r < M + 1) := by
  have hM : (0 : ℚ) < ((M + 1 : Nat) : ℚ) := by exact_mod_cast Nat.succ_pos M
  refine ⟨by simp [u_0], ?_, by simp [u_0], by norm_num [u_0], ?_⟩
  · unfold u_0; exact div_self (ne_of_gt hM)
  · intro r
    unfold u_0
    rw [div_pos_iff_of_pos_right hM, div_lt_one hM]
    constructor
    · rintro ⟨h1, h2⟩
      exact ⟨by exact_mod_cast h1, by exact_mod_cast h2⟩
    · rintro ⟨h1, h2⟩
      exact ⟨by exact_mod_cast h1, by exact_mod_cast h2⟩

theorem foldl_soma (f : Nat → ℚ) (n : Nat) :
    (List.range n).foldl (fun acc i => acc + f i) 0 = ∑ i in Finset.range n, f i := by
  induction n with
  | zero => simp
  | succ n ih => rw [List.range_succ, List.foldl_append, ih, Finset.sum_range_succ]; rfl

theorem variancia_soma (cfg : Config) (E_X : ℚ) (X : Nat → ℚ) :
    variancia cfg E_X X =
      (∑ i in Finset.range cfg.K, (X i - E_X) ^ 2) / ((cfg.K - 1 : Nat) : ℚ) := by
  unfold variancia
  simp only [foldl_soma (fun i => (X i - E_X) * (X i - E_X))]
  congr 1
  exact Finset.sum_congr rfl (fun i _ => (sq (X i - E_X)).symm)

theorem variancia_nonneg (cfg : Config) (E_X : ℚ) (X : Nat → ℚ) :
    0 ≤ variancia cfg E_X X := by
  rw [variancia_soma]
  exact div_nonneg (Finset.sum_nonneg (fun i _ => sq_nonneg _)) (Nat.cast_nonneg _)

/-! ## The queues as lists -/

theorem Ligada.membro {mem : Nat → Option Cliente} {l : List Nat} (h : Ligada mem l) :
    ∀ x ∈ l, (mem x).isSome := by
  induction l with
  | nil => intro x hx; cases hx
  | cons y t ih =>
    cases t with
    | nil =>
      intro x hx
      rw [List.mem_singleton] at hx
      subst hx
      exact h
    | cons z t' =>
      obtain ⟨⟨c, hc, -⟩, h'⟩ := h
      intro x hx
      rcases List.mem_cons.mp hx with rfl | hx
      · rw [hc]; rfl
      · exact ih h' x hx

theorem Ligada.cauda {mem : Nat → Option Cliente} {x : Nat} {t : List Nat}
    (h : Ligada mem (x :: t)) : Ligada mem t := by
  cases t with
  | nil => trivial
  | cons y t' => exact h.2

theorem Ligada.cabeca {mem : Nat → Option Cliente} {x : Nat} {t : List Nat}
    (h : Ligada mem (x :: t)) :
    ∃ c, mem x = some c ∧ ∀ y t', t = y :: t' → c.prox_cliente = some y := by
  cases t with
  | nil =>
    obtain ⟨c, hc⟩ := Option.isSome_iff_exists.mp h
    exact ⟨c, hc, fun y t' ht => by cases ht⟩
  | cons z t' =>
    obtain ⟨⟨c, hc, hp⟩, -⟩ := h
    refine ⟨c, hc, fun y t'' ht => ?_⟩
    cases ht
    exact hp

theorem Ligada.gravar_fora {mem : Nat → Option Cliente} {l : List Nat} (h : Ligada mem l)
    {p : Nat} (hp : p ∉ l) (c : Cliente) : Ligada (gravar mem p c) l := by
  induction l with
  | nil => trivial
  | cons y t ih =>
    have hy : y ≠ p := fun e => hp (e ▸ List.mem_cons_self _ _)
    have ht : p ∉ t := fun e => hp (List.mem_cons_of_mem _ e)
    cases t with
    | nil =>
      show (gravar mem p c y).isSome
      rw [gravar_outro _ _ hy]
      exact h
    | cons z t' =>
      obtain ⟨⟨c0, hc0, hl⟩, h'⟩ := h
      exact ⟨⟨c0, by rw [gravar_outro _ _ hy]; exact hc0, hl⟩, ih h' ht⟩

theorem Ligada.acrescentar {mem : Nat → Option Cliente} {t : List Nat} {u c : Nat}
    {cu : Cliente} (h : Ligada mem (t ++ [u])) (hnd : (t ++ [u]).Nodup)
    (hc : (mem c).isSome) (hcl : c ∉ t ++ [u]) :
    Ligada (gravar mem u { cu with prox_cliente := some c }) ((t ++ [u]) ++ [c]) := by
  induction t with
  | nil =>
    have hcu : c ≠ u := fun e => hcl (by simp [e])
    refine ⟨⟨_, gravar_mesmo _ _ _, rfl⟩, ?_⟩
    show (gravar mem u _ c).isSome
    rw [gravar_outro _ _ hcu]
    exact hc
  | cons y t' ih =>
    have hnd' : (t' ++ [u]).Nodup := (List.nodup_cons.mp hnd).2
    have hyu : y ≠ u := by
      intro e
      exact (List.nodup_cons.mp hnd).1 (by simp [e])
    have hcl' : c ∉ t' ++ [u] := fun e => hcl (List.mem_cons_of_mem _ e)
    have ih' := ih (Ligada.cauda h) hnd' hcl'
    cases t' with
    | nil =>
      obtain ⟨⟨c0, hc0, hl⟩, -⟩ := h
      exact ⟨⟨c0, by rw [gravar_outro _ _ hyu]; exact hc0, hl⟩, ih'⟩
    | cons z t'' =>
      obtain ⟨⟨c0, hc0, hl⟩, -⟩ := h
      exact ⟨⟨c0, by rw [gravar_outro _ _ hyu]; exact hc0, hl⟩, ih'⟩

theorem Contem.gravar_fora_da_fila {mem : Nat → Option Cliente} {f : FilaEspera} {l : List Nat}
    (h : Contem mem f l) {p : Nat} (hp : p ∉ l) (c : Cliente) :
    Contem (gravar mem p c) f l :=
  ⟨h.num, h.pri, h.ult, h.lig.gravar_fora hp c⟩

theorem adicionar_contem {mem : Nat → Option Cliente} {f : FilaEspera} {l : List Nat}
    {c : Nat} (h : Contem mem f l) (hnd : l.Nodup) (hc : (mem c).isSome) (hcl : c ∉ l) :
    ∃ mem' f', adicionar_cliente_fila mem f c = some (mem', f') ∧
      Contem mem' f' (l ++ [c]) ∧ (∀ i, (mem' i).isSome = (mem i).isSome) ∧
      (∀ g l', Contem mem g l' → (∀ x ∈ l, x ∉ l') → Contem mem' g l') := by
  rcases List.eq_nil_or_concat l with hl | ⟨t, u, hl⟩
  · subst hl
    have h0 : f.num_clientes = 0 := h.num
    refine ⟨mem, { primeiro_cliente := some c, ultimo_cliente := some c,
                   num_clientes := f.num_clientes + 1 },
      by unfold adicionar_cliente_fila; rw [if_pos h0], ?_, fun _ => rfl,
      fun g l' hg _ => hg⟩
    refine ⟨by simp [h0], ?_, ?_, hc⟩
    · intro x t ht
      simp only [List.nil_append, List.cons.injEq] at ht
      rw [ht.1]
    · intro t x ht
      have := List.append_inj' (ht.trans rfl : [] ++ [c] = t ++ [x]) rfl
      simp only [List.cons.injEq, and_true] at this
      rw [this.2]
  · rw [List.concat_eq_append] at hl
    subst hl
    have h0 : f.num_clientes ≠ 0 := by rw [h.num]; simp
    have hu := h.ult t u rfl
    obtain ⟨cu, hcu⟩ := Option.isSome_iff_exists.mp (h.lig.membro u (by simp))
    refine ⟨gravar mem u { cu with prox_cliente := some c },
      { primeiro_cliente := f.primeiro_cliente, ultimo_cliente := some c,
        num_clientes := f.num_clientes + 1 },
      by unfold adicionar_cliente_fila; rw [if_neg h0, hu]; simp only [hcu], ?_, ?_, ?_⟩
    · refine ⟨by simp [h.num], ?_, ?_, h.lig.acrescentar hnd hc hcl⟩
      · intro x t' ht
        cases t with
        | nil =>
          simp only [List.nil_append, List.singleton_append, List.cons.injEq] at ht
          rw [← ht.1]; exact h.pri u [] rfl
        | cons y t'' =>
          simp only [List.cons_append, List.cons.injEq] at ht
          rw [← ht.1]; exact h.pri y _ rfl
      · intro t' x ht
        have := List.append_inj' ht rfl
        simp only [List.cons.injEq, and_true] at this
        rw [this.2]
    · intro i
      by_cases hi : i = u
      · subst hi; rw [gravar_mesmo, hcu]; rfl
      · rw [gravar_outro _ _ hi]
    · intro g l' hg hdis
      exact hg.gravar_fora_da_fila (hdis u (by simp)) _

theorem retirar_contem {mem : Nat → Option Cliente} {f : FilaEspera} {x : Nat} {t : List Nat}
    (h : Contem mem f (x :: t)) :
    ∃ f', prox_cliente_fila mem f = some (x, f') ∧ Contem mem f' t := by
  obtain ⟨cx, hcx, hprox⟩ := h.lig.cabeca
  have hp := h.pri x t rfl
  have hn : dec_ul f.num_clientes = t.length := by
    rw [h.num]; simp [dec_ul]
  refine ⟨{ primeiro_cliente := cx.prox_cliente,
            ultimo_cliente := if dec_ul f.num_clientes = 0 then none else f.ultimo_cliente,
            num_clientes := dec_ul f.num_clientes },
    by unfold prox_cliente_fila; rw [hp]; simp only [hcx], ?_⟩
  refine ⟨hn, ?_, ?_, h.lig.cauda⟩
  · intro y t' ht
    exact hprox y t' ht
  · intro t' u ht
    have hne : dec_ul f.num_clientes ≠ 0 := by rw [hn, ht]; simp
    simp only [if_neg hne]
    exact h.ult (x :: t') u (by rw [ht]; rfl)

theorem chamar_representa {mem : Nat → Option Cliente} {q : Filas} {m : Fifos} {ch : Chamada}
    (h : Representa q m) (hal : ∀ i, (q.clientes i).isSome = (mem i).isSome)
    (h1 : m.nao_vazia mem ch) (h2 : m.fora_das_filas ch) :
    ∃ q', chamar q ch = some (q', (m.chamar ch).2) ∧ Representa q' (m.chamar ch).1 ∧
      ∀ i, (q'.clientes i).isSome = (mem i).isSome := by
  obtain ⟨r1, r2, nd⟩ := h
  have nd' := List.nodup_append.mp nd
  have hdis : ∀ x ∈ m.l1, x ∉ m.l2 := fun x hx hx' => nd'.2.2 hx hx'
  cases ch with
  | adicionar segunda c =>
    have hc : (q.clientes c).isSome := by rw [hal]; exact h1
    cases segunda with
    | false =>
      obtain ⟨mem', f', e, hC, hA, hO⟩ := adicionar_contem r1 nd'.1 hc h2.1
      refine ⟨{ q with clientes := mem', fila1 := f' }, ?_, ⟨hC, hO _ _ r2 hdis, ?_⟩,
        fun i => (hA i).trans (hal i)⟩
      · simp only [chamar, Filas.fila, Bool.false_eq_true, if_false, e, Filas.atribuir,
          Fifos.chamar]
      · simp only [Fifos.chamar, Bool.false_eq_true, if_false]
        rw [List.append_assoc]
        refine List.nodup_append.mpr ⟨nd'.1, ?_, ?_⟩
        · exact List.nodup_cons.mpr ⟨h2.2, nd'.2.1⟩
        · intro x hx hx'
          rcases List.mem_cons.mp hx' with rfl | hx'
          · exact h2.1 hx
          · exact nd'.2.2 hx hx'
    | true =>
      obtain ⟨mem', f', e, hC, hA, hO⟩ := adicionar_contem r2 nd'.2.1 hc h2.2
      refine ⟨{ q with clientes := mem', fila2 := f' }, ?_,
        ⟨hO _ _ r1 (fun x hx hx' => hdis x hx' hx), hC, ?_⟩, fun i => (hA i).trans (hal i)⟩
      · simp only [chamar, Filas.fila, if_true, e, Filas.atribuir, Fifos.chamar]
      · simp only [Fifos.chamar, if_true]
        rw [← List.append_assoc]
        refine List.nodup_append.mpr ⟨nd, List.nodup_singleton c, ?_⟩
        intro x hx hx'
        rw [List.mem_singleton] at hx'
        subst hx'
        rcases List.mem_append.mp hx with hx | hx
        · exact h2.1 hx
        · exact h2.2 hx
  | retirar segunda =>
    cases segunda with
    | false =>
      have hne : m.l1 ≠ [] := h1
      obtain ⟨x, t, hl⟩ := List.exists_cons_of_ne_nil hne
      rw [hl] at r1
      obtain ⟨f', e, hC⟩ := retirar_contem r1
      refine ⟨{ q with fila1 := f' }, ?_, ⟨?_, r2, ?_⟩, hal⟩
      · simp only [chamar, Filas.fila, Bool.false_eq_true, if_false, e, Filas.atribuir,
          Fifos.chamar, Fifos.lista, hl, List.head?_cons]
      · simp only [Fifos.chamar, Bool.false_eq_true, if_false, hl, List.tail_cons]
        exact hC
      · simp only [Fifos.chamar, Bool.false_eq_true, if_false, hl, List.tail_cons]
        rw [hl] at nd
        exact (List.nodup_cons.mp nd).2
    | true =>
      have hne : m.l2 ≠ [] := h1
      obtain ⟨x, t, hl⟩ := List.exists_cons_of_ne_nil hne
      rw [hl] at r2
      obtain ⟨f', e, hC⟩ := retirar_contem r2
      refine ⟨{ q with fila2 := f' }, ?_, ⟨r1, ?_, ?_⟩, hal⟩
      · simp only [chamar, Filas.fila, if_true, e, Filas.atribuir, Fifos.chamar, Fifos.lista,
          hl, List.head?_cons]
      · simp only [Fifos.chamar, if_true, hl, List.tail_cons]
        exact hC
      · simp only [Fifos.chamar, if_true, hl, List.tail_cons]
        rw [hl] at nd
        exact (List.nodup_append.mpr ⟨nd'.1, (List.nodup_cons.mp (hl ▸ nd'.2.1)).2,
          fun y hy hy' => hdis y hy (hl ▸ List.mem_cons_of_mem _ hy')⟩)
  | mover =>
    have hne : m.l1 ≠ [] := h1
    obtain ⟨x, t, hl⟩ := List.exists_cons_of_ne_nil hne
    have hx1 : x ∈ m.l1 := hl ▸ List.mem_cons_self _ _
    have hxa : (q.clientes x).isSome := r1.lig.membro x hx1
    have hnd1 : (x :: t).Nodup := hl ▸ nd'.1
    rw [hl] at r1
    obtain ⟨f1', e1, hC1⟩ := retirar_contem r1
    obtain ⟨mem', f2', e2, hC2, hA, hO⟩ := adicionar_contem r2 nd'.2.1 hxa (hdis x hx1)
    refine ⟨{ clientes := mem', fila1 := f1', fila2 := f2' }, ?_, ⟨?_, ?_, ?_⟩,
      fun i => (hA i).trans (hal i)⟩
    · simp only [chamar, e1, e2, Fifos.chamar]
    · simp only [Fifos.chamar, hl, List.tail_cons]
      exact hO _ _ hC1 (fun y hy hy' => hdis y (hl ▸ List.mem_cons_of_mem _ hy') hy)
    · simp only [Fifos.chamar, hl, List.head?_cons, Option.toList]
      exact hC2
    · simp only [Fifos.chamar, hl, List.tail_cons, List.head?_cons, Option.toList]
      rw [← List.append_assoc]
      refine List.nodup_append.mpr ⟨?_, List.nodup_singleton x, ?_⟩
      · exact List.nodup_append.mpr ⟨(List.nodup_cons.mp hnd1).2, nd'.2.1,
          fun y hy hy' => hdis y (hl ▸ List.mem_cons_of_mem _ hy) hy'⟩
      · intro y hy hy'
        rw [List.mem_singleton] at hy'
        subst hy'
        rcases List.mem_append.mp hy with hy | hy
        · exact (List.nodup_cons.mp hnd1).1 hy
        · exact hdis y hx1 hy

theorem executar_representa {mem : Nat → Option Cliente} (chs : List Chamada) :
    ∀ (q : Filas) (m : Fifos), Representa q m →
      (∀ i, (q.clientes i).isSome = (mem i).isSome) →
      m.todas (Fifos.nao_vazia mem) chs → m.todas Fifos.fora_das_filas chs →
      ∃ q', executar q chs = some (q', (m.executar chs).2) ∧
        Representa q' (m.executar chs).1 := by
  induction chs with
  | nil => intro q m h _ _ _; exact ⟨q, rfl, h⟩
  | cons ch chs ih =>
    intro q m h hal h1 h2
    obtain ⟨q1, e1, hR1, hal1⟩ := chamar_representa h hal h1.1 h2.1
    obtain ⟨q2, e2, hR2⟩ := ih q1 _ hR1 hal1 h1.2 h2.2
    refine ⟨q2, ?_, hR2⟩
    simp only [executar, e1, e2, Fifos.executar]

theorem Fifos.contagem (mem : Nat → Option Cliente) (chs : List Chamada) :
    ∀ m : Fifos, m.todas (Fifos.nao_vazia mem) chs →
      (m.executar chs).1.l1.length + remocoes false chs = m.l1.length + adicoes false chs ∧
      (m.executar chs).1.l2.length + remocoes true chs = m.l2.length + adicoes true chs := by
  induction chs with
  | nil => intro m _; exact ⟨rfl, rfl⟩
  | cons ch chs ih =>
    intro m h
    obtain ⟨i1, i2⟩ := ih _ h.2
    have hv := h.1
    cases ch with
    | adicionar segunda c =>
      cases segunda with
      | false =>
        simp only [Fifos.executar, Fifos.chamar, Bool.false_eq_true, if_false, remocoes,
          adicoes, if_true, List.length_append, List.length_singleton] at i1 i2 ⊢
        omega
      | true =>
        simp only [Fifos.executar, Fifos.chamar, Bool.false_eq_true, if_false, remocoes,
          adicoes, if_true, List.length_append, List.length_singleton, Bool.true_eq_false]
          at i1 i2 ⊢
        omega
    | retirar segunda =>
      cases segunda with
      | false =>
        have hne : m.l1 ≠ [] := hv
        have hl := List.length_pos.mpr hne
        simp only [Fifos.executar, Fifos.chamar, Bool.false_eq_true, if_false, remocoes,
          adicoes, if_true, List.length_tail] at i1 i2 ⊢
        omega
      | true =>
        have hne : m.l2 ≠ [] := hv
        have hl := List.length_pos.mpr hne
        simp only [Fifos.executar, Fifos.chamar, Bool.false_eq_true, if_false, remocoes,
          adicoes, if_true, List.length_tail, Bool.true_eq_false] at i1 i2 ⊢
        omega
    | mover =>
      have hne : m.l1 ≠ [] := hv
      obtain ⟨x, t, hl⟩ := List.exists_cons_of_ne_nil hne
      simp only [Fifos.executar, Fifos.chamar, Bool.false_eq_true, if_false, remocoes,
        adicoes, if_true, hl, List.tail_cons, List.head?_cons, Option.toList,
        List.length_append, List.length_singleton, List.length_cons, List.length_nil]
        at i1 i2 ⊢
      omega

theorem filas_novas_representa (mem : Nat → Option Cliente) :
    Representa (filas_novas mem) { l1 := [], l2 := [] } := by
  have hC : Contem mem criar_fila [] :=
    ⟨rfl, fun x t h => (by cases h), fun t x h => (by simp at h), trivial⟩
  exact ⟨hC, hC, List.nodup_nil⟩

/-- C20, as stated, fails: in this sequence `prox_cliente_fila` is only called on a
non-empty queue and every customer added is allocated, customers 0, 1, 0, 2 are added to
`fila1` in this order, and the two calls of `prox_cliente_fila` return 0 and 2, where the
order of addition is 0 and 1. -/
theorem fila_com_cliente_repetido :
    Fifos.todas (Fifos.nao_vazia quatro_clientes) { l1 := [], l2 := [] }
      chamadas_repetidas ∧
    (executar (filas_novas quatro_clientes) chamadas_repetidas).map (fun r => r.2) =
      some [0, 2] ∧
    (Fifos.executar { l1 := [], l2 := [] } chamadas_repetidas).2 = [0, 1] := by
  refine ⟨?_, by decide!, rfl⟩
  simp [Fifos.todas, Fifos.nao_vazia, chamadas_repetidas, Fifos.chamar, Fifos.lista,
    quatro_clientes]

/-- C20, amended: starting from two queues made by `criar_fila`, for every sequence of
calls in which `prox_cliente_fila` is only called on a non-empty queue and
`adicionar_cliente_fila` only with an allocated customer that is in neither queue at that
moment, every call succeeds, `prox_cliente_fila` returns the customers of each queue in the
order in which they were added to it, and `num_clientes` of each queue is its number of
additions minus its number of removals.  This includes line 417, where the customer removed
from the head of `fila1` is added to `fila2` with its old `prox_cliente` link. -/
theorem filas_sao_fifo (mem : Nat → Option Cliente) (chs : List Chamada)
    (h1 : Fifos.todas (Fifos.nao_vazia mem) { l1 := [], l2 := [] } chs)
    (h2 : Fifos.todas Fifos.fora_das_filas { l1 := [], l2 := [] } chs) :
    ∃ q, executar (filas_novas mem) chs =
        some (q, (Fifos.executar { l1 := [], l2 := [] } chs).2) ∧
      Representa q (Fifos.executar { l1 := [], l2 := [] } chs).1 ∧
      q.fila1.num_clientes + remocoes false chs = adicoes false chs ∧
      q.fila2.num_clientes + remocoes true chs = adicoes true chs := by
  obtain ⟨q, e, hR⟩ := executar_representa chs (filas_novas mem) _
    (filas_novas_representa mem) (fun _ => rfl) h1 h2
  obtain ⟨c1, c2⟩ := Fifos.contagem mem chs _ h1
  refine ⟨q, e, hR, ?_, ?_⟩
  · rw [hR.r1.num, c1]; simp
  · rw [hR.r2.num, c2]; simp

/-- Witness of C20: customers 0 and 1 pass through both queues, customers 2 and 3 are
added in between, and the four removals return 0, 2, 1 from `fila2` and 3 from `fila1`. -/
theorem filas_sao_fifo_witness :
    Fifos.todas (Fifos.nao_vazia quatro_clientes) { l1 := [], l2 := [] } chamadas_exemplo ∧
    Fifos.todas Fifos.fora_das_filas { l1 := [], l2 := [] } chamadas_exemplo ∧
    ∃ q, executar (filas_novas quatro_clientes) chamadas_exemplo = some (q, [0, 2, 1, 3]) ∧
      Representa q { l1 := [], l2 := [] } ∧
      q.fila1.num_clientes + 3 = 3 ∧ q.fila2.num_clientes + 3 = 3 :=
  have h1 : Fifos.todas (Fifos.nao_vazia quatro_clientes) { l1 := [], l2 := [] }
      chamadas_exemplo := by
    simp [Fifos.todas, Fifos.nao_vazia, chamadas_exemplo, Fifos.chamar, Fifos.lista,
      quatro_clientes]
  have h2 : Fifos.todas Fifos.fora_das_filas { l1 := [], l2 := [] } chamadas_exemplo := by
    simp [Fifos.todas, Fifos.fora_das_filas, chamadas_exemplo, Fifos.chamar]
  ⟨h1, h2, filas_sao_fifo quatro_clientes chamadas_exemplo h1 h2⟩

/-! ## The event list is never exhausted -/

theorem processar_evento_atual_ok {cfg : Config} (hcfg : ConfigOk cfg) {s : Estado}
    {a b n : Nat} {t : ℚ} {ev : Evento} {pend : List Evento} (hI : Inv cfg s a b n t)
    (he : s.eventos = ev :: pend) :
    ∃ s1 pend', processar_evento_atual cfg s = some s1 ∧ s1.eventos = ev :: pend' ∧
      iteracao cfg s = some { s1 with eventos := pend' } ∧
      Inv cfg { s1 with eventos := pend' }
        (a + if ev.tipo = TipoEvento.partida then 1 else 0)
        (b + if ev.tipo = TipoEvento.chegada_fila_2 then 1 else 0)
        (n + if ev.tipo = TipoEvento.chegada_fila_1 then 1 else 0) ev.momento := by
  cases htp : ev.tipo with
  | chegada_fila_1 =>
    obtain ⟨s', pend', h1, h2, h3, -, -⟩ := processar_chegada_fila_1_ok hcfg hI he htp
    refine ⟨s', pend', ?_, h2, ?_, by simpa using h3⟩
    · simp only [processar_evento_atual, he, htp, h1]
    · simp only [iteracao, processar_evento_atual, he, htp, h1, h2]
  | chegada_fila_2 =>
    obtain ⟨s', pend', h1, h2, h3, -, -⟩ := processar_chegada_fila_2_ok hcfg hI he htp
    refine ⟨s', pend', ?_, h2, ?_, by simpa using h3⟩
    · simp only [processar_evento_atual, he, htp, h1]
    · simp only [iteracao, processar_evento_atual, he, htp, h1, h2]
  | partida =>
    obtain ⟨s', pend', h1, h2, h3, -, -⟩ := processar_partida_ok hcfg hI he htp
    refine ⟨s', pend', ?_, h2, ?_, by simpa using h3⟩
    · simp only [processar_evento_atual, he, htp, h1]
    · simp only [iteracao, processar_evento_atual, he, htp, h1, h2]

/-- C18: in every state reached by the main loop in which the loop condition holds, the
event list is not empty, the handler of `evento_atual` completes without dereferencing a
null pointer and leaves `evento_atual` in place with at least one event after it; exactly
one of the events after it is a `chegada_fila_1`, that of the next customer to arrive; and
the pass ends in the state in which `evento_atual` has advanced to that non-empty rest. -/
theorem fila_de_eventos_nao_esgota {cfg : Config} (hcfg : ConfigOk cfg) {k : Nat}
    {s : Estado} (hs : rodar cfg k = some s)
    (hg : s.rodadas_encerradas < cfg.NUM_RODADAS + 1) :
    ∃ ev pend s1 prox resto, s.eventos = ev :: pend ∧
      processar_evento_atual cfg s = some s1 ∧ s1.eventos = ev :: prox :: resto ∧
      tipos TipoEvento.chegada_fila_1 (prox :: resto) =
        [processados cfg TipoEvento.chegada_fila_1 (k + 1)] ∧
      rodar cfg (k + 1) = some { s1 with eventos := prox :: resto } := by
  have hI := rodar_inv hcfg k s hs
  obtain ⟨ev, pend, he⟩ := hI.eventos_ne
  obtain ⟨s1, pend', h1, h2, h3, -⟩ := processar_evento_atual_ok hcfg hI he
  have hr := rodar_passo hs hg h3
  have hI' := rodar_inv hcfg (k + 1) _ hr
  have hc1 := hI'.evs.c1
  cases hp : pend' with
  | nil =>
    simp only [hp] at hc1
    cases hc1
  | cons prox resto =>
    rw [hp] at h2 hr hc1
    exact ⟨ev, pend, s1, prox, resto, he, h1, h2, hc1, hr⟩

/-- Witness of C18 on the example run: the state before the fourth pass. -/
theorem fila_de_eventos_nao_esgota_witness :
    ∃ s, rodar cfg_exemplo 3 = some s ∧ s.rodadas_encerradas < cfg_exemplo.NUM_RODADAS + 1 ∧
      ∃ ev pend s1 prox resto, s.eventos = ev :: pend ∧
        processar_evento_atual cfg_exemplo s = some s1 ∧ s1.eventos = ev :: prox :: resto ∧
        tipos TipoEvento.chegada_fila_1 (prox :: resto) =
          [processados cfg_exemplo TipoEvento.chegada_fila_1 (3 + 1)] ∧
        rodar cfg_exemplo (3 + 1) = some { s1 with eventos := prox :: resto } := by
  obtain ⟨s, hs⟩ := Option.isSome_iff_exists.mp
    (show (rodar cfg_exemplo 3).isSome = true by decide!)
  have hg : (rodar cfg_exemplo 3).map (fun s => s.rodadas_encerradas) = some 0 := by decide!
  rw [hs] at hg
  simp only [Option.map_some', Option.some.injEq] at hg
  have hg' : s.rodadas_encerradas < cfg_exemplo.NUM_RODADAS + 1 := by rw [hg]; decide
  exact ⟨s, hs, hg', fila_de_eventos_nao_esgota cfg_exemplo_ok hs hg'⟩

/-! ## Closed rounds are not written to -/

theorem Quadro.igual {L : Nat} {φ : Nat → Option Rodada → Prop} {s s' : Estado}
    (h : Quadro L φ s) (e1 : s'.clientes = s.clientes)
    (e2 : s'.num_clientes_criados = s.num_clientes_criados)
    (e3 : s'.rodada_atual = s.rodada_atual)
    (e4 : s'.num_rodadas_criadas = s.num_rodadas_criadas) (e5 : s'.rodadas = s.rodadas) :
    Quadro L φ s' := by
  refine ⟨?_, ?_, ?_, ?_, ?_, ?_, ?_⟩
  · rw [e1]; exact h.lo
  · rw [e1, e2]; exact h.hi
  · rw [e2]; exact h.lim
  · rw [e3, e4]; exact h.nrd
  · rw [e5]; exact h.rod
  · rw [e3]; exact h.cur
  · rw [e1]; exact h.cli

theorem Quadro.rod_outra {L : Nat} {φ : Nat → Option Rodada → Prop} {s : Estado}
    (h : Quadro L φ s) {x : Nat} (hx : ∀ r Rr, φ r Rr → r ≠ x) (R' : Rodada) :
    Quadro L φ { s with rodadas := gravar s.rodadas x R' } :=
  ⟨h.lo, h.hi, h.lim, h.nrd,
    fun r Rr hr => by
      show gravar s.rodadas x R' r = Rr
      rw [gravar_outro _ _ (hx r Rr hr)]; exact h.rod r Rr hr,
    h.cur, h.cli⟩

theorem Quadro.rod_atual {L : Nat} {φ : Nat → Option Rodada → Prop} {s : Estado}
    (h : Quadro L φ s) (R' : Rodada) :
    Quadro L φ { s with rodadas := gravar s.rodadas s.rodada_atual R' } :=
  h.rod_outra (fun r Rr hr => ne_of_lt (h.cur r Rr hr)) R'

theorem Quadro.rod_cliente {L : Nat} {φ : Nat → Option Rodada → Prop} {s : Estado}
    (h : Quadro L φ s) {p : Nat} {c : Cliente} (hp : s.clientes p = some c) (R' : Rodada) :
    Quadro L φ { s with rodadas := gravar s.rodadas c.rodada R' } :=
  h.rod_outra (fun r Rr hr => ne_of_lt (h.cli r Rr hr p c hp)) R'

theorem Quadro.cli_gravar {L : Nat} {φ : Nat → Option Rodada → Prop} {s : Estado}
    (h : Quadro L φ s) {p : Nat} {c c' : Cliente} (hp : s.clientes p = some c)
    (hr : c'.rodada = c.rodada) :
    Quadro L φ { s with clientes := gravar s.clientes p c' } := by
  have hpL : L ≤ p := by
    by_contra hlt
    rw [h.lo p (by omega)] at hp; cases hp
  have hpn : p < s.num_clientes_criados := by
    by_contra hge
    rw [h.hi p (by omega)] at hp; cases hp
  refine ⟨?_, ?_, h.lim, h.nrd, h.rod, h.cur, ?_⟩
  · intro i hi
    show gravar s.clientes p c' i = none
    rw [gravar_outro _ _ (by omega)]; exact h.lo i hi
  · intro i hi
    have hi' : s.num_clientes_criados ≤ i := hi
    show gravar s.clientes p c' i = none
    rw [gravar_outro _ _ (by omega : i ≠ p)]; exact h.hi i hi
  · intro r Rr hφ i ci hi
    by_cases hip : i = p
    · subst hip
      have : gravar s.clientes i c' i = some ci := hi
      rw [gravar_mesmo] at this
      cases this
      rw [hr]; exact h.cli r Rr hφ i c hp
    · have : gravar s.clientes p c' i = some ci := hi
      rw [gravar_outro _ _ hip] at this
      exact h.cli r Rr hφ i ci this

theorem Quadro.cli_liberar {L : Nat} {φ : Nat → Option Rodada → Prop} {s : Estado}
    (h : Quadro L φ s) (p : Nat) :
    Quadro L φ { s with clientes := liberar s.clientes p } := by
  refine ⟨?_, ?_, h.lim, h.nrd, h.rod, h.cur, ?_⟩
  · intro i hi
    show liberar s.clientes p i = none
    unfold liberar; split
    · rfl
    · exact h.lo i hi
  · intro i hi
    show liberar s.clientes p i = none
    unfold liberar; split
    · rfl
    · exact h.hi i hi
  · intro r Rr hφ i ci hi
    have hi' : liberar s.clientes p i = some ci := hi
    unfold liberar at hi'
    split at hi'
    · cases hi'
    · exact h.cli r Rr hφ i ci hi'

theorem atualizar_E_Nq1_quadro {L : Nat} {φ : Nat → Option Rodada → Prop} {s s' : Estado}
    (h : atualizar_E_Nq1 s = some s') (hQ : Quadro L φ s) : Quadro L φ s' := by
  unfold atualizar_E_Nq1 at h
  split at h
  · cases h
  · split at h
    · cases h
    · cases h; exact hQ.rod_atual _

theorem atualizar_E_N1_quadro {L : Nat} {φ : Nat → Option Rodada → Prop} {s s' : Estado}
    (h : atualizar_E_N1 s = some s') (hQ : Quadro L φ s) : Quadro L φ s' := by
  unfold atualizar_E_N1 at h
  split at h
  · cases h
  · split at h
    · cases h
    · cases h; exact hQ.rod_atual _

theorem atualizar_E_Nq2_quadro {L : Nat} {φ : Nat → Option Rodada → Prop} {s s' : Estado}
    (h : atualizar_E_Nq2 s = some s') (hQ : Quadro L φ s) : Quadro L φ s' := by
  unfold atualizar_E_Nq2 at h
  split at h
  · cases h
  · split at h
    · cases h
    · cases h; exact hQ.rod_atual _

theorem atualizar_E_N2_quadro {L : Nat} {φ : Nat → Option Rodada → Prop} {s s' : Estado}
    (h : atualizar_E_N2 s = some s') (hQ : Quadro L φ s) : Quadro L φ s' := by
  unfold atualizar_E_N2 at h
  split at h
  · cases h
  · split at h
    · cases h
    · cases h; exact hQ.rod_atual _

theorem se_quadro {L : Nat} {φ : Nat → Option Rodada → Prop} {p : Prop} [Decidable p]
    {f : Estado → Option Estado} {s s' : Estado}
    (hf : f s = some s' → Quadro L φ s → Quadro L φ s')
    (h : (if p then f s else some s) = some s') (hQ : Quadro L φ s) : Quadro L φ s' := by
  split at h
  · exact hf h hQ
  · cases h; exact hQ

theorem chegada_fila_1_integrais_quadro {L : Nat} {φ : Nat → Option Rodada → Prop}
    {s s' : Estado} (h : chegada_fila_1_integrais s = some s') (hQ : Quadro L φ s) :
    Quadro L φ s' := by
  unfold chegada_fila_1_integrais at h
  split at h
  · cases h
  · rename_i s1 h1
    have Q1 := atualizar_E_N1_quadro h1 hQ
    split at h
    · cases h
    · rename_i s2 h2
      have Q2 := se_quadro atualizar_E_Nq1_quadro h2 Q1
      exact se_quadro atualizar_E_Nq2_quadro h Q2

theorem chegada_fila_2_integrais_quadro {L : Nat} {φ : Nat → Option Rodada → Prop}
    {s s' : Estado} (h : chegada_fila_2_integrais s = some s') (hQ : Quadro L φ s) :
    Quadro L φ s' := by
  unfold chegada_fila_2_integrais at h
  split at h
  · cases h
  · rename_i s1 h1
    have Q1 := atualizar_E_N1_quadro h1 hQ
    split at h
    · cases h
    · rename_i s2 h2
      have Q2 := atualizar_E_N2_quadro h2 Q1
      split at h
      · cases h
      · rename_i s3 h3
        have Q3 := atualizar_E_Nq2_quadro h3 Q2
        exact se_quadro atualizar_E_Nq1_quadro h Q3

theorem partida_integrais_quadro {L : Nat} {φ : Nat → Option Rodada → Prop}
    {s s' : Estado} (h : partida_integrais s = some s') (hQ : Quadro L φ s) :
    Quadro L φ s' := by
  unfold partida_integrais at h
  split at h
  · cases h
  · rename_i s1 h1
    exact se_quadro atualizar_E_Nq2_quadro h (atualizar_E_N2_quadro h1 hQ)

theorem adicionar_quadro {L : Nat} {φ : Nat → Option Rodada → Prop} {s : Estado}
    {f : FilaEspera} {c : Nat} {r : (Nat → Option Cliente) × FilaEspera}
    (h : adicionar_cliente_fila s.clientes f c = some r) (hQ : Quadro L φ s) :
    Quadro L φ { s with clientes := r.1 } := by
  unfold adicionar_cliente_fila at h
  split at h
  · cases h; exact hQ
  · split at h
    · cases h
    · split at h
      · cases h
      · rename_i u hu cu hcu
        cases h
        exact hQ.cli_gravar hcu rfl

theorem chegada_fila_1_contagem_quadro {L : Nat} {φ : Nat → Option Rodada → Prop}
    {s s' : Estado} (h : chegada_fila_1_contagem s = some s') (hQ : Quadro L φ s) :
    Quadro L φ s' := by
  unfold chegada_fila_1_contagem at h
  split at h
  · cases h
  · rename_i ev pend he
    split at h
    · cases h
    · rename_i r hr
      have Q1 := adicionar_quadro hr hQ
      split at h
      · cases h
      · rename_i c hc
        simp only at h
        split at h
        · cases h
        · rename_i R hR
          cases h
          refine Quadro.igual (Quadro.rod_atual (Quadro.cli_gravar Q1 hc ?_) _)
            rfl rfl rfl rfl rfl
          rfl

theorem iniciar_nova_rodada_quadro {cfg : Config} {L : Nat} {φ : Nat → Option Rodada → Prop}
    {s s' : Estado} (h : iniciar_nova_rodada cfg s = some s') (hQ : Quadro L φ s) :
    Quadro L φ s' := by
  unfold iniciar_nova_rodada at h
  simp only [criar_rodada] at h
  split at h
  · cases h
  · cases h
    refine ⟨hQ.lo, hQ.hi, hQ.lim, Nat.lt_succ_self _, ?_, ?_, hQ.cli⟩
    · intro r Rr hr
      have h1 := hQ.cur r Rr hr
      have h2 := hQ.nrd
      show gravar (gravar s.rodadas s.num_rodadas_criadas _) s.rodada_atual _ r = Rr
      rw [gravar_outro _ _ (by omega), gravar_outro _ _ (by omega)]
      exact hQ.rod r Rr hr
    · intro r Rr hr
      have h1 := hQ.cur r Rr hr
      have h2 := hQ.nrd
      show r < s.num_rodadas_criadas
      omega

theorem chegada_fila_1_rodada_quadro {cfg : Config} {L : Nat}
    {φ : Nat → Option Rodada → Prop} {s s' : Estado}
    (h : chegada_fila_1_rodada cfg s = some s') (hQ : Quadro L φ s) : Quadro L φ s' := by
  unfold chegada_fila_1_rodada at h
  split at h
  · cases h
  · split at h
    · exact iniciar_nova_rodada_quadro h hQ
    · cases h; exact hQ

theorem agendar_evento_quadro {L : Nat} {φ : Nat → Option Rodada → Prop} {s s' : Estado}
    {momento : ℚ} {cliente : Nat} {tipo : TipoEvento}
    (h : agendar_evento momento cliente tipo s = some s') (hQ : Quadro L φ s) :
    Quadro L φ s' := by
  unfold agendar_evento at h
  split at h
  · cases h
  · cases h; exact hQ.igual rfl rfl rfl rfl rfl

theorem interromper_quadro {L : Nat} {φ : Nat → Option Rodada → Prop} {s s' : Estado}
    (h : interromper_servico_fila_2 s = some s') (hQ : Quadro L φ s) : Quadro L φ s' := by
  unfold interromper_servico_fila_2 at h
  split at h
  · cases h; exact hQ
  · split at h
    · cases h
    · split at h
      · cases h; exact hQ
      · split at h
        · cases h
        · rename_i c hc
          cases h
          refine Quadro.igual (Quadro.cli_gravar hQ hc ?_) rfl rfl rfl rfl rfl
          rfl

theorem servico_1_quadro {cfg : Config} {L : Nat} {φ : Nat → Option Rodada → Prop}
    {s s' : Estado} (h : processar_chegada_servico_1 cfg s = some s') (hQ : Quadro L φ s) :
    Quadro L φ s' := by
  unfold processar_chegada_servico_1 at h
  split at h
  · cases h
  · split at h
    · cases h
    · split at h
      · cases h
      · rename_i c hc
        split at h
        · cases h
        · simp only at h
          split at h
          · cases h
          · split at h
            · cases h
            · rename_i s2 h2
              refine agendar_evento_quadro h (Quadro.igual (interromper_quadro h2 ?_)
                rfl rfl rfl rfl rfl)
              refine Quadro.igual (Quadro.cli_gravar (Quadro.rod_cliente hQ hc _) hc ?_)
                rfl rfl rfl rfl rfl
              rfl

theorem servico_2_quadro {cfg : Config} {L : Nat} {φ : Nat → Option Rodada → Prop}
    {s s' : Estado} (h : processar_chegada_servico_2 cfg s = some s') (hQ : Quadro L φ s) :
    Quadro L φ s' := by
  unfold processar_chegada_servico_2 at h
  split at h
  · cases h
  · split at h
    · cases h
    · split at h
      · cases h
      · rename_i c hc
        split at h
        · cases h
        · simp only at h
          split at h
          · cases h
          · refine agendar_evento_quadro h (Quadro.igual ?_ rfl rfl rfl rfl rfl)
            refine Quadro.igual (Quadro.cli_gravar (Quadro.rod_cliente hQ hc _) hc ?_)
              rfl rfl rfl rfl rfl
            rfl

theorem chegada_fila_1_proxima_quadro {cfg : Config} {L : Nat}
    {φ : Nat → Option Rodada → Prop} {s s' : Estado}
    (h : chegada_fila_1_proxima cfg s = some s') (hQ : Quadro L φ s) : Quadro L φ s' := by
  unfold chegada_fila_1_proxima at h
  split at h
  · cases h
  · simp only [amostra_exponencial, criar_cliente] at h
    split at h
    · cases h
    · rename_i r hr
      split at hr
      · cases hr
      · cases hr
        refine agendar_evento_quadro h ?_
        refine ⟨?_, ?_, Nat.le_succ_of_le hQ.lim, hQ.nrd, hQ.rod, hQ.cur, ?_⟩
        · intro i hi
          have := hQ.lim
          show gravar s.clientes s.num_clientes_criados _ i = none
          rw [gravar_outro _ _ (by omega)]; exact hQ.lo i hi
        · intro i hi
          have hi' : s.num_clientes_criados + 1 ≤ i := hi
          show gravar s.clientes s.num_clientes_criados _ i = none
          rw [gravar_outro _ _ (by omega)]; exact hQ.hi i (by omega)
        · intro r Rr hφ i ci hi
          have hi' : gravar s.clientes s.num_clientes_criados _ i = some ci := hi
          by_cases hip : i = s.num_clientes_criados
          · subst hip
            rw [gravar_mesmo] at hi'
            cases hi'
            exact hQ.cur r Rr hφ
          · rw [gravar_outro _ _ hip] at hi'
            exact hQ.cli r Rr hφ i ci hi'

theorem chegada_fila_2_cliente_quadro {L : Nat} {φ : Nat → Option Rodada → Prop}
    {s s' : Estado} (h : chegada_fila_2_cliente s = some s') (hQ : Quadro L φ s) :
    Quadro L φ s' := by
  unfold chegada_fila_2_cliente at h
  split at h
  · cases h
  · split at h
    · cases h
    · rename_i c hc
      split at h
      · cases h
      · cases h
        refine Quadro.igual (Quadro.cli_gravar (Quadro.rod_cliente hQ hc _) hc ?_)
          rfl rfl rfl rfl rfl
        rfl

theorem chegada_fila_2_mover_quadro {L : Nat} {φ : Nat → Option Rodada → Prop}
    {s s' : Estado} (h : chegada_fila_2_mover s = some s') (hQ : Quadro L φ s) :
    Quadro L φ s' := by
  unfold chegada_fila_2_mover at h
  split at h
  · cases h
  · split at h
    · cases h
    · rename_i w hw
      cases h
      exact (adicionar_quadro hw hQ).igual rfl rfl rfl rfl rfl

theorem partida_contagem_quadro {L : Nat} {φ : Nat → Option Rodada → Prop}
    {s s' : Estado} (h : partida_contagem s = some s') (hQ : Quadro L φ s) :
    Quadro L φ s' := by
  unfold partida_contagem at h
  split at h
  · cases h
  · split at h
    · cases h
    · rename_i c hc
      split at h
      · cases h
      · cases h
        exact hQ.rod_cliente hc _

theorem encerrar_coleta_quadro {cfg : Config} {L : Nat} {φ : Nat → Option Rodada → Prop}
    {s s' : Estado} {x : Nat} (h : encerrar_coleta cfg x s = some s') (hQ : Quadro L φ s)
    (hx : ∀ r Rr, φ r Rr → r ≠ x) : Quadro L φ s' := by
  unfold encerrar_coleta at h
  split at h
  · cases h
  · split at h
    · cases h
    · split at h
      · cases h
      · simp only at h
        split at h
        · cases h
        · rename_i s1 h1
          split at h
          · cases h
          · rename_i s2 h2
            split at h
            · cases h
            · rename_i s3 h3
              split at h
              · cases h
              · rename_i s4 h4
                have Q4 := atualizar_E_N2_quadro h4 (atualizar_E_N1_quadro h3
                  (atualizar_E_Nq2_quadro h2 (atualizar_E_Nq1_quadro h1 hQ)))
                split at h
                · cases h
                · cases h
                  exact Q4.rod_outra hx _

theorem partida_encerramento_quadro {cfg : Config} {L : Nat}
    {φ : Nat → Option Rodada → Prop} {s s' : Estado}
    (h : partida_encerramento cfg s = some s') (hQ : Quadro L φ s) : Quadro L φ s' := by
  unfold partida_encerramento at h
  split at h
  · cases h
  · split at h
    · cases h
    · rename_i c hc
      split at h
      · cases h
      · split at h
        · split at h
          · cases h
          · rename_i s1 h1
            cases h
            exact (encerrar_coleta_quadro h1 hQ
              (fun r Rr hr => ne_of_lt (hQ.cli r Rr hr _ c hc))).igual rfl rfl rfl rfl rfl
        · cases h; exact hQ

theorem processar_chegada_fila_1_quadro {cfg : Config} {L : Nat}
    {φ : Nat → Option Rodada → Prop} {s s' : Estado}
    (h : processar_chegada_fila_1 cfg s = some s') (hQ : Quadro L φ s) : Quadro L φ s' := by
  unfold processar_chegada_fila_1 at h
  split at h
  · cases h
  · rename_i s1 h1
    split at h
    · cases h
    · rename_i s2 h2
      split at h
      · cases h
      · rename_i s3 h3
        split at h
        · cases h
        · rename_i s4 h4
          have Q3 := chegada_fila_1_rodada_quadro h3
            (chegada_fila_1_contagem_quadro h2 (chegada_fila_1_integrais_quadro h1 hQ))
          exact chegada_fila_1_proxima_quadro h (se_quadro servico_1_quadro h4 Q3)

theorem processar_chegada_fila_2_quadro {cfg : Config} {L : Nat}
    {φ : Nat → Option Rodada → Prop} {s s' : Estado}
    (h : processar_chegada_fila_2 cfg s = some s') (hQ : Quadro L φ s) : Quadro L φ s' := by
  unfold processar_chegada_fila_2 at h
  split at h
  · cases h
  · rename_i s1 h1
    split at h
    · cases h
    · rename_i s2 h2
      split at h
      · cases h
      · rename_i s3 h3
        have Q3 := chegada_fila_2_mover_quadro h3
          (chegada_fila_2_integrais_quadro h2 (chegada_fila_2_cliente_quadro h1 hQ))
        split at h
        · exact servico_1_quadro h Q3
        · exact servico_2_quadro h Q3

theorem processar_partida_fases {cfg : Config} {s : Estado}
    {a b n : Nat} {t : ℚ} {ev : Evento} {pend : List Evento}
    (hI : Inv cfg s a b n t) (he : s.eventos = ev :: pend)
    (htp : ev.tipo = TipoEvento.partida) :
    ∃ (c : Cliente) (R1 : Rodada) (rods2 rods3 : Nat → Option Rodada) (f2' : FilaEspera),
      s.clientes ev.cliente = some c ∧ ev.cliente = a ∧ a < b ∧ b = n ∧
      base cfg c.rodada ≤ a ∧ a < base cfg (c.rodada + 1) ∧
      partida_contagem s = some { s with rodadas := gravar s.rodadas c.rodada R1 } ∧
      partida_encerramento cfg { s with rodadas := gravar s.rodadas c.rodada R1 } =
        some { s with
          rodadas := rods2
          rodadas_encerradas :=
            s.rodadas_encerradas + (if a + 1 = base cfg (c.rodada + 1) then 1 else 0) } ∧
      partida_integrais
          { s with
            rodadas := rods2
            rodadas_encerradas :=
              s.rodadas_encerradas + (if a + 1 = base cfg (c.rodada + 1) then 1 else 0) } =
        some { s with
          rodadas := rods3
          rodadas_encerradas :=
            s.rodadas_encerradas + (if a + 1 = base cfg (c.rodada + 1) then 1 else 0) } ∧
      processar_partida cfg s =
        (if 0 < f2'.num_clientes then
          processar_chegada_servico_2 cfg
            { s with
              rodadas := rods3
              rodadas_encerradas :=
                s.rodadas_encerradas + (if a + 1 = base cfg (c.rodada + 1) then 1 else 0)
              clientes := liberar s.clientes a
              fila2 := f2' }
        else some
            { s with
              rodadas := rods3
              rodadas_encerradas :=
                s.rodadas_encerradas + (if a + 1 = base cfg (c.rodada + 1) then 1 else 0)
              clientes := liberar s.clientes a
              fila2 := f2' }) := by
  obtain ⟨hE, hQ, hC, hR, hcur, hft, hnr, hnc⟩ := hI
  rw [he] at hE
  obtain ⟨ht, hP, -, -, h3⟩ := hE.abrir
  obtain ⟨hca, hbn, hab⟩ := h3 htp
  obtain ⟨c, R, hc, hRc, hrc, hb1, hb2, hK⟩ :=
    cliente_valido hC hR hcur (Nat.le_refl a) (by omega)
  rw [← hca] at hc
  obtain ⟨R1, e1, -, -, -, hR1⟩ := partida_contagem_ok he hc hRc hR hb1 hb2
  obtain ⟨rods2, e2, hR2, hlt⟩ := partida_encerramento_ok
    (s := { s with rodadas := gravar s.rodadas c.rodada R1 }) he hft hc hR1 ht rfl
    (by omega) (by omega) (by omega) hcur
  obtain ⟨rods3, e3, hR3⟩ := partida_integrais_ok
    (s := { s with
      rodadas := rods2
      rodadas_encerradas :=
        s.rodadas_encerradas + (if a + 1 = base cfg (c.rodada + 1) then 1 else 0) }) he hR2
  obtain ⟨f2', e4, hQ4, hC4, hn4⟩ := partida_remover_ok
    (s := { s with
      rodadas := rods3
      rodadas_encerradas :=
        s.rodadas_encerradas + (if a + 1 = base cfg (c.rodada + 1) then 1 else 0) })
    hQ hC hab
  refine ⟨c, R1, rods2, rods3, f2', hc, hca, hab, hbn, hb1, hb2, e1, e2, e3, ?_⟩
  unfold processar_partida
  rw [e1]
  simp only
  rw [e2]
  simp only
  rw [e3]
  simp only
  rw [e4]

theorem atualizar_E_N2_outra {s s' : Estado} (h : atualizar_E_N2 s = some s') :
    s'.rodada_atual = s.rodada_atual ∧
    ∀ r, r ≠ s.rodada_atual → s'.rodadas r = s.rodadas r := by
  unfold atualizar_E_N2 at h
  split at h
  · cases h
  · split at h
    · cases h
    · cases h
      exact ⟨rfl, fun r hr => gravar_outro _ _ hr⟩

theorem atualizar_E_Nq2_outra {s s' : Estado} (h : atualizar_E_Nq2 s = some s') :
    s'.rodada_atual = s.rodada_atual ∧
    ∀ r, r ≠ s.rodada_atual → s'.rodadas r = s.rodadas r := by
  unfold atualizar_E_Nq2 at h
  split at h
  · cases h
  · split at h
    · cases h
    · cases h
      exact ⟨rfl, fun r hr => gravar_outro _ _ hr⟩

theorem partida_integrais_outra {s s' : Estado} (h : partida_integrais s = some s') :
    ∀ r, r ≠ s.rodada_atual → s'.rodadas r = s.rodadas r := by
  unfold partida_integrais at h
  split at h
  · cases h
  · rename_i s1 h1
    obtain ⟨c1, f1⟩ := atualizar_E_N2_outra h1
    intro r hr
    split at h
    · obtain ⟨-, f2⟩ := atualizar_E_Nq2_outra h
      rw [f2 r (by rw [c1]; exact hr), f1 r hr]
    · cases h
      exact f1 r hr

theorem Quadro.menos {L : Nat} {φ φ' : Nat → Option Rodada → Prop} {s : Estado}
    (h : Quadro L φ s) (hφ : ∀ r Rr, φ' r Rr → φ r Rr) : Quadro L φ' s :=
  ⟨h.lo, h.hi, h.lim, h.nrd, fun r Rr hr => h.rod r Rr (hφ r Rr hr),
    fun r Rr hr => h.cur r Rr (hφ r Rr hr), fun r Rr hr => h.cli r Rr (hφ r Rr hr)⟩

theorem inicial_quadro (cfg : Config) : Quadro 0 (fechadas cfg 0) (inicial cfg) := by
  have hφ : ∀ r Rr, ¬ fechadas cfg 0 r Rr := by
    rintro r Rr ⟨j, -, -, -, hj, -⟩
    exact Nat.not_lt_zero j hj
  refine ⟨fun i hi => absurd hi (Nat.not_lt_zero i), ?_, Nat.zero_le _, ?_,
    fun r Rr h => absurd h (hφ r Rr), fun r Rr h => absurd h (hφ r Rr),
    fun r Rr h => absurd h (hφ r Rr)⟩
  · intro i hi
    simp only [inicial, iniciar_fase_transiente, criar_rodada, amostra_exponencial,
      criar_cliente, gravar_mesmo] at hi ⊢
    exact gravar_outro _ _ (by omega)
  · simp only [inicial, iniciar_fase_transiente, criar_rodada, amostra_exponencial,
      criar_cliente, gravar_mesmo]
    exact Nat.lt_succ_self _

theorem chamada_encerrar_forma {cfg : Config} {k : Nat} {s s1 : Estado} {ev : Evento}
    {pend : List Evento} {r : Nat} {R1 : Rodada} (hs : rodar cfg k = some s)
    (he : s.eventos = ev :: pend) (h : chamada_encerrar cfg k = some (s1, r, R1)) :
    ev.tipo = TipoEvento.partida ∧ ∃ c, s.clientes ev.cliente = some c ∧ r = c.rodada ∧
      partida_contagem s = some s1 ∧ s1.rodadas r = some R1 ∧
      atingiu_partidas cfg s1 r R1 := by
  unfold chamada_encerrar at h
  rw [hs] at h
  simp only [he] at h
  split at h
  · split at h
    · rename_i htp
      split at h
      · cases h
      · rename_i c hc
        split at h
        · cases h
        · rename_i sA hA
          split at h
          · cases h
          · rename_i RA hRA
            split at h
            · rename_i hat
              simp only [Option.some.injEq, Prod.mk.injEq] at h
              obtain ⟨rfl, rfl, rfl⟩ := h
              exact ⟨htp, c, hc, rfl, hA, hRA, hat⟩
            · cases h
    · cases h
  · cases h

theorem partida_encerramento_forma {cfg : Config} {s sy : Estado} {ev : Evento}
    {pend : List Evento} {c : Cliente} {R : Rodada} (he : s.eventos = ev :: pend)
    (hc : s.clientes ev.cliente = some c) (hR : s.rodadas c.rodada = some R)
    (hat : atingiu_partidas cfg s c.rodada R)
    (hy : encerrar_coleta cfg c.rodada s = some sy) :
    partida_encerramento cfg s =
      some { sy with rodadas_encerradas := sy.rodadas_encerradas + 1 } := by
  unfold partida_encerramento
  rw [he]
  simp only [hc, hR, if_pos hat, hy]

theorem partida_contagem_forma {s s1 : Estado} (h : partida_contagem s = some s1) :
    s1.eventos = s.eventos ∧ s1.clientes = s.clientes := by
  unfold partida_contagem at h
  split at h
  · cases h
  · split at h
    · cases h
    · split at h
      · cases h
      · cases h; exact ⟨rfl, rfl⟩

theorem passo_quadro {cfg : Config} (hcfg : ConfigOk cfg) {k : Nat} {s s' : Estado}
    {a b n : Nat} {t : ℚ} {ev : Evento} {pend : List Evento}
    (hs : rodar cfg k = some s) (hs' : rodar cfg (k + 1) = some s')
    (ha : processados cfg TipoEvento.partida k = a) (hI : Inv cfg s a b n t)
    (hQ : Quadro a (fechadas cfg k) s) (he : s.eventos = ev :: pend) :
    Quadro (a + if ev.tipo = TipoEvento.partida then 1 else 0) (fechadas cfg (k + 1)) s' := by
  obtain ⟨s0, hs0, -, hit⟩ := rodar_succ hs'
  rw [hs] at hs0
  cases hs0
  by_cases htp : ev.tipo = TipoEvento.partida
  · rw [if_pos htp]
    obtain ⟨c, R1, rods2, rods3, f2', hc, hca, hab, hbn, hb1, hb2, e1, e2, e3, e5⟩ :=
      processar_partida_fases hI he htp
    have QA := partida_contagem_quadro e1 hQ
    have QB := partida_encerramento_quadro e2 QA
    have QC := partida_integrais_quadro e3 QB
    have hnova : ∀ r Rr, fechadas cfg (k + 1) r Rr →
        fechadas cfg k r Rr ∨ (a + 1 = base cfg (r + 1) ∧ rods2 r = Rr) := by
      rintro r Rr ⟨j, sx, Rx, sy, hj, hch, hy, hRr⟩
      rcases Nat.lt_succ_iff_lt_or_eq.mp hj with hj | rfl
      · exact Or.inl ⟨j, sx, Rx, sy, hj, hch, hy, hRr⟩
      · right
        obtain ⟨-, c', hc', hr, hA, hRA, hat⟩ := chamada_encerrar_forma hs he hch
        rw [hc] at hc'
        cases hc'
        rw [e1] at hA
        cases hA
        subst hr
        have h1 := (chamada_encerrar_iff hcfg hs hs' c.rodada).mp (by rw [hch]; rfl)
        rw [ha] at h1
        refine ⟨h1.2, ?_⟩
        have h2 := partida_encerramento_forma
          (s := { s with rodadas := gravar s.rodadas c.rodada R1 }) he hc hRA hat hy
        rw [e2] at h2
        have h3 := congrArg (fun o : Option Estado => o.map (fun x => x.rodadas c.rodada)) h2
        simp only [Option.map_some', Option.some.injEq] at h3
        exact h3.trans hRr
    have hcur_r : ∀ r, a + 1 = base cfg (r + 1) → r < s.rodada_atual := by
      intro r h
      have := @base_le_of_lt cfg (r + 1) s.rodada_atual (a + 1) (by omega)
        (by have := hI.cur_hi; omega)
      omega
    have QD : Quadro (a + 1) (fechadas cfg (k + 1))
        { s with
          rodadas := rods3
          rodadas_encerradas :=
            s.rodadas_encerradas + (if a + 1 = base cfg (c.rodada + 1) then 1 else 0)
          clientes := liberar s.clientes a
          fila2 := f2' } := by
      refine ⟨?_, ?_, ?_, QC.nrd, ?_, ?_, ?_⟩
      · intro i hi
        show liberar s.clientes a i = none
        by_cases hia : i = a
        · simp [liberar, hia]
        · rw [liberar_outro _ hia]; exact hQ.lo i (by omega)
      · intro i hi
        show liberar s.clientes a i = none
        unfold liberar
        split
        · rfl
        · exact hQ.hi i hi
      · show a + 1 ≤ s.num_clientes_criados
        rw [hI.ncli]; omega
      · intro r Rr h
        show rods3 r = Rr
        rcases hnova r Rr h with h | ⟨h1, h2⟩
        · exact QC.rod r Rr h
        · exact (partida_integrais_outra e3 r (ne_of_lt (hcur_r r h1))).trans h2
      · intro r Rr h
        rcases hnova r Rr h with h | ⟨h1, -⟩
        · exact QC.cur r Rr h
        · exact hcur_r r h1
      · intro r Rr h i ci hi
        have hi' : liberar s.clientes a i = some ci := hi
        have hia : i ≠ a := by
          intro e
          rw [e] at hi'
          simp [liberar] at hi'
        rw [liberar_outro _ hia] at hi'
        rcases hnova r Rr h with h | ⟨h1, -⟩
        · exact hQ.cli r Rr h i ci hi'
        · have h2 : a ≤ i := by
            by_contra hlt
            rw [hQ.lo i (by omega)] at hi'; cases hi'
          have h3 : i ≤ n := by
            by_contra hgt
            rw [hQ.hi i (by rw [hI.ncli]; omega)] at hi'; cases hi'
          obtain ⟨c2, hc2, -, hb4, -⟩ := hI.cls i h2 h3
          rw [hi'] at hc2
          cases hc2
          have := @base_le_of_lt cfg (r + 1) ci.rodada i (by omega) hb4
          omega
    unfold iteracao processar_evento_atual at hit
    rw [he] at hit
    simp only [htp] at hit
    rw [e5] at hit
    by_cases hf : 0 < f2'.num_clientes
    · rw [if_pos hf] at hit
      split at hit
      · cases hit
      · rename_i s1 h1
        split at hit
        · cases hit
        · cases hit
          exact (servico_2_quadro h1 QD).igual rfl rfl rfl rfl rfl
    · rw [if_neg hf] at hit
      simp only at hit
      split at hit
      · cases hit
      · cases hit
        exact QD.igual rfl rfl rfl rfl rfl
  · rw [if_neg htp, Nat.add_zero]
    have hφ : ∀ r Rr, fechadas cfg (k + 1) r Rr → fechadas cfg k r Rr := by
      rintro r Rr ⟨j, s1, R1, s2, hj, hch, hy, hRr⟩
      rcases Nat.lt_succ_iff_lt_or_eq.mp hj with hj | rfl
      · exact ⟨j, s1, R1, s2, hj, hch, hy, hRr⟩
      · exact absurd (chamada_encerrar_forma hs he hch).1 htp
    refine Quadro.menos ?_ hφ
    unfold iteracao processar_evento_atual at hit
    rw [he] at hit
    simp only at hit
    cases htp' : ev.tipo with
    | partida => exact absurd htp' htp
    | chegada_fila_1 =>
      rw [htp'] at hit
      simp only at hit
      split at hit
      · cases hit
      · rename_i s1 h1
        split at hit
        · cases hit
        · cases hit
          exact (processar_chegada_fila_1_quadro h1 hQ).igual rfl rfl rfl rfl rfl
    | chegada_fila_2 =>
      rw [htp'] at hit
      simp only at hit
      split at hit
      · cases hit
      · rename_i s1 h1
        split at hit
        · cases hit
        · cases hit
          exact (processar_chegada_fila_2_quadro h1 hQ).igual rfl rfl rfl rfl rfl

theorem rodar_quadro {cfg : Config} (hcfg : ConfigOk cfg) :
    ∀ (k : Nat) (s : Estado), rodar cfg k = some s →
      Quadro (processados cfg TipoEvento.partida k) (fechadas cfg k) s := by
  intro k
  induction k with
  | zero =>
    intro s hs
    simp only [rodar, Option.some.injEq] at hs
    subst hs
    exact inicial_quadro cfg
  | succ k ih =>
    intro s' hs'
    obtain ⟨s, hs, -, -⟩ := rodar_succ hs'
    have hI := rodar_inv hcfg k s hs
    obtain ⟨ev, pend, he⟩ := hI.eventos_ne
    have hev := evento_processado_eq hs hs' he
    rw [processados_succ _ hev]
    exact passo_quadro hcfg hs hs' rfl hI (ih s hs) he

theorem partida_encerramento_falha {cfg : Config} {s : Estado} {ev : Evento}
    {pend : List Evento} {c : Cliente} {R : Rodada} (he : s.eventos = ev :: pend)
    (hc : s.clientes ev.cliente = some c) (hR : s.rodadas c.rodada = some R)
    (hat : atingiu_partidas cfg s c.rodada R)
    (hy : encerrar_coleta cfg c.rodada s = none) :
    partida_encerramento cfg s = none := by
  unfold partida_encerramento
  rw [he]
  simp only [hc, hR, if_pos hat, hy]

theorem chamada_encerrar_retorna {cfg : Config} {j : Nat} {s s1 : Estado}
    {r : Nat} {R1 : Rodada} (hs : rodar cfg j = some s)
    {a b n : Nat} {t : ℚ} (hI : Inv cfg s a b n t)
    (hch : chamada_encerrar cfg j = some (s1, r, R1)) :
    ∃ s2, encerrar_coleta cfg r s1 = some s2 := by
  obtain ⟨ev, pend, he⟩ := hI.eventos_ne
  obtain ⟨htp, c', hc', hr, hA, hRA, hat⟩ := chamada_encerrar_forma hs he hch
  obtain ⟨c, R1', rods2, rods3, f2', hc, -, -, -, -, -, e1, e2, -, -⟩ :=
    processar_partida_fases hI he htp
  rw [hc] at hc'
  cases hc'
  rw [e1] at hA
  cases hA
  subst hr
  cases hy : encerrar_coleta cfg c'.rodada
      { s with rodadas := gravar s.rodadas c'.rodada R1' } with
  | some s2 => exact ⟨s2, rfl⟩
  | none =>
    have h2 := partida_encerramento_falha
      (s := { s with rodadas := gravar s.rodadas c'.rodada R1' }) he hc hRA hat hy
    rw [e2] at h2
    cases h2

theorem encerrar_coleta_variancias {cfg : Config} {s s' : Estado} {r : Nat}
    (h : encerrar_coleta cfg r s = some s') :
    ∃ R', s'.rodadas r = some R' ∧ R'.V_W1 = variancia cfg R'.E_W1 R'.W1 ∧
      R'.V_W2 = variancia cfg R'.E_W2 R'.W2 := by
  unfold encerrar_coleta at h
  split at h
  · cases h
  · split at h
    · cases h
    · split at h
      · cases h
      · simp only at h
        split at h
        · cases h
        · split at h
          · cases h
          · split at h
            · cases h
            · split at h
              · cases h
              · split at h
                · cases h
                · cases h
                  exact ⟨_, gravar_mesmo _ _ _, rfl, rfl⟩

theorem encerradas_limites {cfg : Config} (hcfg : ConfigOk cfg) :
    ∀ (k : Nat) (s : Estado), rodar cfg k = some s →
      s.rodadas_encerradas ≤ cfg.NUM_RODADAS + 1 ∧
      base cfg s.rodadas_encerradas ≤ processados cfg TipoEvento.partida k ∧
      processados cfg TipoEvento.partida k < base cfg (s.rodadas_encerradas + 1) := by
  intro k
  induction k with
  | zero =>
    intro s hs
    simp only [rodar, Option.some.injEq] at hs
    subst hs
    have h0 : (inicial cfg).rodadas_encerradas = 0 := by
      simp only [inicial, iniciar_fase_transiente, criar_rodada, amostra_exponencial,
        criar_cliente, gravar_mesmo]
    rw [h0]
    exact ⟨Nat.zero_le _, Nat.le_refl _, base_lt_succ hcfg 0⟩
  | succ k ih =>
    intro s' hs'
    obtain ⟨s, hs, hg, hit⟩ := rodar_succ hs'
    obtain ⟨-, i1, i2⟩ := ih s hs
    have hI := rodar_inv hcfg k s hs
    obtain ⟨ev, pend, he⟩ := hI.eventos_ne
    have hev := evento_processado_eq hs hs' he
    obtain ⟨h1, h2⟩ := iteracao_encerradas hcfg hI he hit
    rw [processados_succ _ hev]
    by_cases htp : ev.tipo = TipoEvento.partida
    · obtain ⟨c, -, hb1, hb2, hen⟩ := h2 htp
      have hrc : c.rodada = s.rodadas_encerradas := base_unico hb1 hb2 i1 i2
      rw [if_pos htp, hen, hrc]
      by_cases hcl : processados cfg TipoEvento.partida k + 1 =
          base cfg (s.rodadas_encerradas + 1)
      · rw [if_pos hcl]
        have := base_lt_succ hcfg (s.rodadas_encerradas + 1)
        exact ⟨by omega, by omega, by omega⟩
      · rw [if_neg hcl, Nat.add_zero]
        exact ⟨by omega, by omega, by omega⟩
    · rw [if_neg htp, h1 htp]
      exact ⟨by omega, i1, i2⟩

theorem encerradas_antes {cfg : Config} (hcfg : ConfigOk cfg) (r : Nat) :
    ∀ (k : Nat) (s : Estado), rodar cfg k = some s →
      ((∃ j, j < k ∧ (chamada_encerrar cfg j).map (fun x => x.2.1) = some r) ↔
        base cfg (r + 1) ≤ processados cfg TipoEvento.partida k) := by
  intro k
  induction k with
  | zero =>
    intro s _
    constructor
    · rintro ⟨j, hj, -⟩
      exact absurd hj (Nat.not_lt_zero j)
    · intro h
      have h1 := base_lt_succ hcfg r
      have h2 : processados cfg TipoEvento.partida 0 = 0 := rfl
      omega
  | succ k ih =>
    intro s' hs'
    obtain ⟨s, hs, hg, hit⟩ := rodar_succ hs'
    have ih' := ih s hs
    have hI := rodar_inv hcfg k s hs
    obtain ⟨ev, pend, he⟩ := hI.eventos_ne
    have hev := evento_processado_eq hs hs' he
    have hiff := chamada_encerrar_iff hcfg hs hs' r
    obtain ⟨h1, h2⟩ := iteracao_encerradas hcfg hI he hit
    rw [processados_succ _ hev]
    constructor
    · rintro ⟨j, hj, hch⟩
      rcases Nat.lt_succ_iff_lt_or_eq.mp hj with hj | rfl
      · have := ih'.mp ⟨j, hj, hch⟩
        omega
      · obtain ⟨hrd, hb⟩ := hiff.mp hch
        obtain ⟨ev', pend', c, he', htp, -⟩ := rodada_da_partida_some hcfg hs hs' hrd
        rw [he] at he'
        cases he'
        rw [if_pos htp]
        omega
    · intro h
      by_cases hold : base cfg (r + 1) ≤ processados cfg TipoEvento.partida k
      · obtain ⟨j, hj, hch⟩ := ih'.mpr hold
        exact ⟨j, Nat.lt_succ_of_lt hj, hch⟩
      · have htp : ev.tipo = TipoEvento.partida := by
          by_contra hne
          rw [if_neg hne] at h
          omega
        rw [if_pos htp] at h
        obtain ⟨c, hc, hb1, hb2, -⟩ := h2 htp
        have hb : processados cfg TipoEvento.partida k + 1 = base cfg (r + 1) := by omega
        have hr : base cfg r ≤ processados cfg TipoEvento.partida k := by
          have := base_lt_succ hcfg r
          omega
        have hrc : c.rodada = r := base_unico hb1 hb2 hr (by omega)
        refine ⟨k, Nat.lt_succ_self k, hiff.mpr ⟨?_, hb⟩⟩
        rw [rodada_da_partida_eq hs hev, if_pos htp, hc]
        simp only [Option.map_some', hrc]

/-! ## Closed rounds at the end of the run -/

theorem rodada_lida_ordem {cfg : Config} {s : Estado} {a b n : Nat} {t : ℚ}
    (hI : Inv cfg s a b n t) : ∀ i, i ≤ s.rodada_atual → rodada_lida s i = some i := by
  intro i
  induction i with
  | zero => intro _; simp only [rodada_lida, hI.ft]
  | succ i ih =>
    intro hi
    obtain ⟨R, hR, -, -, hp⟩ := hI.rods.dentro i (by omega)
    simp only [rodada_lida, ih (by omega), hR, hp, if_pos (show i < s.rodada_atual by omega)]

/-- C16: once the call of `encerrar_coleta` on round `r` made by pass `j + 1` has returned
the state `s2`, every state reached after that pass or after a later one holds for `r`
the very record that `s2` holds (all fields: means, variances, sample arrays, counters,
start time and next link); `r` is not `rodada_atual` there, which the updates of the
integrals write to, and it is not the round of any allocated customer, which the updates of
the wait and sojourn sums write to. -/
theorem rodada_encerrada_imutavel {cfg : Config} (hcfg : ConfigOk cfg) {j k : Nat}
    {s1 s2 s : Estado} {r : Nat} {R1 : Rodada}
    (hch : chamada_encerrar cfg j = some (s1, r, R1))
    (hy : encerrar_coleta cfg r s1 = some s2) (hjk : j < k) (hs : rodar cfg k = some s) :
    s.rodadas r = s2.rodadas r ∧ (s.rodadas r).isSome = true ∧ r < s.rodada_atual ∧
    (∀ i c, s.clientes i = some c → r < c.rodada) := by
  have hQ := rodar_quadro hcfg k s hs
  have hf : fechadas cfg k r (s2.rodadas r) := ⟨j, s1, R1, s2, hjk, hch, hy, rfl⟩
  obtain ⟨R', hR', -⟩ := encerrar_coleta_variancias hy
  refine ⟨hQ.rod _ _ hf, ?_, hQ.cur _ _ hf, hQ.cli _ _ hf⟩
  rw [hQ.rod _ _ hf, hR']
  rfl

/-- Witness of C16 on the example run: the transient round, closed by the seventh pass,
in the state after nine passes. -/
theorem rodada_encerrada_imutavel_witness :
    ∃ s1 R1 s2 s, chamada_encerrar cfg_exemplo 6 = some (s1, 0, R1) ∧
      encerrar_coleta cfg_exemplo 0 s1 = some s2 ∧ 6 < 9 ∧ rodar cfg_exemplo 9 = some s ∧
      s.rodadas 0 = s2.rodadas 0 ∧ (s.rodadas 0).isSome = true ∧ 0 < s.rodada_atual ∧
      (∀ i c, s.clientes i = some c → 0 < c.rodada) := by
  have h1 : ((chamada_encerrar cfg_exemplo 6).bind fun x =>
      (encerrar_coleta cfg_exemplo x.2.1 x.1).map fun _ => x.2.1) = some 0 := by
    with_unfolding_all rfl
  obtain ⟨s, hs⟩ := Option.isSome_iff_exists.mp
    (show (rodar cfg_exemplo 9).isSome = true by decide!)
  cases hch : chamada_encerrar cfg_exemplo 6 with
  | none => rw [hch] at h1; cases h1
  | some x =>
    obtain ⟨s1, r, R1⟩ := x
    rw [hch] at h1
    simp only [Option.some_bind] at h1
    cases hy : encerrar_coleta cfg_exemplo r s1 with
    | none => rw [hy] at h1; cases h1
    | some s2 =>
      rw [hy] at h1
      simp only [Option.map_some', Option.some.injEq] at h1
      subst h1
      exact ⟨s1, R1, s2, s, rfl, hy, by decide, hs,
        rodada_encerrada_imutavel cfg_exemplo_ok hch hy (by decide) hs⟩

/-- C17: rounds are closed in list order.  In every state reached, at most
`NUM_RODADAS + 1` rounds are closed, so the loop condition fails exactly when
`rodadas_encerradas = NUM_RODADAS + 1`; the rounds on which `encerrar_coleta` has been
called are exactly the first `rodadas_encerradas` rounds of the list that starts at
`fase_transiente`; and each of them is reached from `fase_transiente` through its number
of `prox_rodada` links, as `calcular_IC_rodadas` reads it, and holds the record that its
call of `encerrar_coleta` left. -/
theorem rodadas_fecham_em_ordem {cfg : Config} (hcfg : ConfigOk cfg) {k : Nat} {s : Estado}
    (hs : rodar cfg k = some s) :
    s.rodadas_encerradas ≤ cfg.NUM_RODADAS + 1 ∧
    (¬ s.rodadas_encerradas < cfg.NUM_RODADAS + 1 ↔
      s.rodadas_encerradas = cfg.NUM_RODADAS + 1) ∧
    (∀ r, (∃ j, j < k ∧ (chamada_encerrar cfg j).map (fun x => x.2.1) = some r) ↔
      r < s.rodadas_encerradas) ∧
    (∀ i, i < s.rodadas_encerradas →
      rodada_lida s i = some i ∧
      ∃ R j s1 R1 s2, s.rodadas i = some R ∧ j < k ∧
        chamada_encerrar cfg j = some (s1, i, R1) ∧ encerrar_coleta cfg i s1 = some s2 ∧
        s2.rodadas i = some R) := by
  obtain ⟨l1, l2, l3⟩ := encerradas_limites hcfg k s hs
  have hI := rodar_inv hcfg k s hs
  have hfe : ∀ r, (∃ j, j < k ∧ (chamada_encerrar cfg j).map (fun x => x.2.1) = some r) ↔
      r < s.rodadas_encerradas := by
    intro r
    rw [encerradas_antes hcfg r k s hs]
    constructor
    · intro h
      have := @base_le_of_lt cfg (r + 1) s.rodadas_encerradas _ h l3
      omega
    · intro h
      exact Nat.le_trans (base_mono (by omega : r + 1 ≤ s.rodadas_encerradas)) l2
  have hcur : s.rodadas_encerradas ≤ s.rodada_atual := by
    have h1 := hI.filas.hab
    have h2 := hI.filas.hbn
    exact @base_le_of_lt cfg _ _ _ l2 (by have := hI.cur_hi; omega)
  refine ⟨l1, by omega, hfe, ?_⟩
  intro i hi
  refine ⟨rodada_lida_ordem hI i (by omega), ?_⟩
  obtain ⟨j, hj, hch⟩ := (hfe i).mpr hi
  cases hx : chamada_encerrar cfg j with
  | none => rw [hx] at hch; cases hch
  | some x =>
    obtain ⟨s1, r, R1⟩ := x
    rw [hx] at hch
    simp only [Option.map_some', Option.some.injEq] at hch
    subst hch
    have hsj : ∃ sj, rodar cfg j = some sj := by
      cases hr : rodar cfg j with
      | some sj => exact ⟨sj, rfl⟩
      | none =>
        unfold chamada_encerrar at hx
        rw [hr] at hx
        cases hx
    obtain ⟨sj, hsj⟩ := hsj
    obtain ⟨s2, hy⟩ := chamada_encerrar_retorna hsj (rodar_inv hcfg j sj hsj) hx
    obtain ⟨R', hR', -⟩ := encerrar_coleta_variancias hy
    have hQ := rodar_quadro hcfg k s hs
    have hrod := hQ.rod _ _ ⟨j, s1, R1, s2, hj, hx, hy, rfl⟩
    exact ⟨R', j, s1, R1, s2, hrod.trans hR', hj, hx, hy, hR'⟩

/-- Witness of C17 on the example run: the state after fifteen passes, in which the loop
condition fails. -/
theorem rodadas_fecham_em_ordem_witness :
    ∃ s, rodar cfg_exemplo 15 = some s ∧ s.rodadas_encerradas = 3 ∧
      s.rodadas_encerradas ≤ cfg_exemplo.NUM_RODADAS + 1 ∧
      (¬ s.rodadas_encerradas < cfg_exemplo.NUM_RODADAS + 1 ↔
        s.rodadas_encerradas = cfg_exemplo.NUM_RODADAS + 1) ∧
      (∀ r, (∃ j, j < 15 ∧ (chamada_encerrar cfg_exemplo j).map (fun x => x.2.1) = some r) ↔
        r < s.rodadas_encerradas) ∧
      (∀ i, i < s.rodadas_encerradas →
        rodada_lida s i = some i ∧
        ∃ R j s1 R1 s2, s.rodadas i = some R ∧ j < 15 ∧
          chamada_encerrar cfg_exemplo j = some (s1, i, R1) ∧
          encerrar_coleta cfg_exemplo i s1 = some s2 ∧ s2.rodadas i = some R) := by
  obtain ⟨s, hs⟩ := Option.isSome_iff_exists.mp
    (show (rodar cfg_exemplo 15).isSome = true by decide!)
  have h1 : (rodar cfg_exemplo 15).map (fun s => s.rodadas_encerradas) = some 3 := by decide!
  rw [hs] at h1
  simp only [Option.map_some', Option.some.injEq] at h1
  exact ⟨s, hs, h1, rodadas_fecham_em_ordem cfg_exemplo_ok hs⟩

/-- C19: `variancia(E_X, X)` is the sum over `i < K` of `(X[i] - E_X)^2` divided by `K - 1`
and, for `K` of at least two, it is not negative whatever `E_X` and `X` are.  A round on
which `encerrar_coleta` has been called holds, in every later state, `V_W1` and `V_W2`
equal to `variancia` of its own `E_W1`, `W1` and `E_W2`, `W2`, hence not negative. -/
theorem variancias_nao_negativas {cfg : Config} (hcfg : ConfigOk cfg) (hK : 2 ≤ cfg.K)
    (E_X : ℚ) (X : Nat → ℚ) {j k : Nat} {s1 s : Estado} {r : Nat} {R1 R : Rodada}
    (hch : chamada_encerrar cfg j = some (s1, r, R1)) (hjk : j < k)
    (hs : rodar cfg k = some s) (hR : s.rodadas r = some R) :
    variancia cfg E_X X =
      (∑ i in Finset.range cfg.K, (X i - E_X) ^ 2) / ((cfg.K : ℚ) - 1) ∧
    0 ≤ variancia cfg E_X X ∧
    R.V_W1 = variancia cfg R.E_W1 R.W1 ∧ R.V_W2 = variancia cfg R.E_W2 R.W2 ∧
    0 ≤ R.V_W1 ∧ 0 ≤ R.V_W2 := by
  have hsj : ∃ sj, rodar cfg j = some sj := by
    cases hr : rodar cfg j with
    | some sj => exact ⟨sj, rfl⟩
    | none =>
      unfold chamada_encerrar at hch
      rw [hr] at hch
      cases hch
  obtain ⟨sj, hsj⟩ := hsj
  obtain ⟨s2, hy⟩ := chamada_encerrar_retorna hsj (rodar_inv hcfg j sj hsj) hch
  obtain ⟨R', hR', v1, v2⟩ := encerrar_coleta_variancias hy
  have hQ := rodar_quadro hcfg k s hs
  have hrod := hQ.rod _ _ ⟨j, s1, R1, s2, hjk, hch, hy, rfl⟩
  rw [hrod, hR'] at hR
  cases hR
  refine ⟨?_, variancia_nonneg cfg E_X X, v1, v2, ?_, ?_⟩
  · rw [variancia_soma]
    congr 1
    rw [Nat.cast_sub (by omega)]
    simp
  · rw [v1]; exact variancia_nonneg cfg _ _
  · rw [v2]; exact variancia_nonneg cfg _ _

/-- Witness of C19 on the example run, where `K = 2`: round 1, closed by the ninth pass. -/
theorem variancias_nao_negativas_witness :
    ∃ s1 R1 s R, 2 ≤ cfg_exemplo.K ∧ chamada_encerrar cfg_exemplo 8 = some (s1, 1, R1) ∧
      8 < 9 ∧ rodar cfg_exemplo 9 = some s ∧ s.rodadas 1 = some R ∧
      variancia cfg_exemplo 0 (fun _ => 1) =
        (∑ i in Finset.range cfg_exemplo.K, ((fun _ => (1 : ℚ)) i - 0) ^ 2) /
          ((cfg_exemplo.K : ℚ) - 1) ∧
      0 ≤ variancia cfg_exemplo 0 (fun _ => 1) ∧
      R.V_W1 = variancia cfg_exemplo R.E_W1 R.W1 ∧
      R.V_W2 = variancia cfg_exemplo R.E_W2 R.W2 ∧ 0 ≤ R.V_W1 ∧ 0 ≤ R.V_W2 := by
  have h1 : (chamada_encerrar cfg_exemplo 8).map (fun x => x.2.1) = some 1 := by
    with_unfolding_all rfl
  obtain ⟨s, hs⟩ := Option.isSome_iff_exists.mp
    (show (rodar cfg_exemplo 9).isSome = true by decide!)
  have h2 : ((rodar cfg_exemplo 9).bind fun s => s.rodadas 1).isSome = true := by decide!
  rw [hs] at h2
  simp only [Option.some_bind] at h2
  obtain ⟨R, hR⟩ := Option.isSome_iff_exists.mp h2
  cases hch : chamada_encerrar cfg_exemplo 8 with
  | none => rw [hch] at h1; cases h1
  | some x =>
    obtain ⟨s1, r, R1⟩ := x
    rw [hch] at h1
    simp only [Option.map_some', Option.some.injEq] at h1
    subst h1
    exact ⟨s1, R1, s, R, by decide, rfl, by decide, hs, hR,
      variancias_nao_negativas cfg_exemplo_ok (by decide) 0 (fun _ => 1) hch (by decide)
        hs hR⟩

/-! ## Waits of the service starts -/

theorem processar_chegada_fila_1_servico (cfg : Config) (s : Estado) :
    processar_chegada_fila_1 cfg s =
      match chegada_fila_1_ate_servico cfg s with
      | none => none
      | some s3 =>
        match (if s3.fila1.num_clientes = 1 then processar_chegada_servico_1 cfg s3
               else some s3) with
        | none => none
        | some s4 => chegada_fila_1_proxima cfg s4 := by
  unfold processar_chegada_fila_1 chegada_fila_1_ate_servico
  cases chegada_fila_1_integrais s with
  | none => rfl
  | some s1 =>
    simp only
    cases chegada_fila_1_contagem s1 with
    | none => rfl
    | some s2 => rfl

theorem processar_chegada_fila_2_servico (cfg : Config) (s : Estado) :
    processar_chegada_fila_2 cfg s =
      match chegada_fila_2_ate_servico s with
      | none => none
      | some s3 =>
        if s3.fila1.num_clientes > 0 then processar_chegada_servico_1 cfg s3
        else processar_chegada_servico_2 cfg s3 := by
  unfold processar_chegada_fila_2 chegada_fila_2_ate_servico
  cases chegada_fila_2_cliente s with
  | none => rfl
  | some s1 =>
    simp only
    cases chegada_fila_2_integrais s1 with
    | none => rfl
    | some s2 => rfl

theorem atualizar_E_N1_forma {s s' : Estado} (h : atualizar_E_N1 s = some s') :
    ∃ rods, s' = { s with rodadas := rods } := by
  unfold atualizar_E_N1 at h
  split at h
  · cases h
  · split at h
    · cases h
    · cases h; exact ⟨_, rfl⟩

theorem atualizar_E_N2_forma {s s' : Estado} (h : atualizar_E_N2 s = some s') :
    ∃ rods, s' = { s with rodadas := rods } := by
  unfold atualizar_E_N2 at h
  split at h
  · cases h
  · split at h
    · cases h
    · cases h; exact ⟨_, rfl⟩

theorem atualizar_E_Nq1_forma {s s' : Estado} (h : atualizar_E_Nq1 s = some s') :
    ∃ rods, s' = { s with rodadas := rods } := by
  unfold atualizar_E_Nq1 at h
  split at h
  · cases h
  · split at h
    · cases h
    · cases h; exact ⟨_, rfl⟩

theorem atualizar_E_Nq2_forma {s s' : Estado} (h : atualizar_E_Nq2 s = some s') :
    ∃ rods, s' = { s with rodadas := rods } := by
  unfold atualizar_E_Nq2 at h
  split at h
  · cases h
  · split at h
    · cases h
    · cases h; exact ⟨_, rfl⟩

theorem se_forma {p : Prop} [Decidable p] {f : Estado → Option Estado} {s s' : Estado}
    (hf : f s = some s' → ∃ rods, s' = { s with rodadas := rods })
    (h : (if p then f s else some s) = some s') :
    ∃ rods, s' = { s with rodadas := rods } := by
  split at h
  · exact hf h
  · cases h; exact ⟨s.rodadas, rfl⟩

theorem chegada_fila_1_integrais_forma {s s' : Estado}
    (h : chegada_fila_1_integrais s = some s') : ∃ rods, s' = { s with rodadas := rods } := by
  unfold chegada_fila_1_integrais at h
  split at h
  · cases h
  · rename_i s1 h1
    obtain ⟨r1, rfl⟩ := atualizar_E_N1_forma h1
    split at h
    · cases h
    · rename_i s2 h2
      obtain ⟨r2, rfl⟩ := se_forma atualizar_E_Nq1_forma h2
      obtain ⟨r3, rfl⟩ := se_forma atualizar_E_Nq2_forma h
      exact ⟨r3, rfl⟩

theorem chegada_fila_2_integrais_forma {s s' : Estado}
    (h : chegada_fila_2_integrais s = some s') : ∃ rods, s' = { s with rodadas := rods } := by
  unfold chegada_fila_2_integrais at h
  split at h
  · cases h
  · rename_i s1 h1
    obtain ⟨r1, rfl⟩ := atualizar_E_N1_forma h1
    split at h
    · cases h
    · rename_i s2 h2
      obtain ⟨r2, rfl⟩ := atualizar_E_N2_forma h2
      split at h
      · cases h
      · rename_i s3 h3
        obtain ⟨r3, rfl⟩ := atualizar_E_Nq2_forma h3
        obtain ⟨r4, rfl⟩ := se_forma atualizar_E_Nq1_forma h
        exact ⟨r4, rfl⟩

theorem chegada_fila_1_contagem_vazia {s s2 : Estado} {ev : Evento} {pend : List Evento}
    (he : s.eventos = ev :: pend) (h0 : s.fila1.num_clientes = 0)
    (h : chegada_fila_1_contagem s = some s2) :
    s2.eventos = ev :: pend ∧ s2.fila1.num_clientes = 1 ∧
    s2.fila1.primeiro_cliente = some ev.cliente ∧
    ∃ c, s2.clientes ev.cliente = some c ∧ c.chegada_estado_atual = ev.momento := by
  unfold chegada_fila_1_contagem at h
  rw [he] at h
  simp only [adicionar_cliente_fila, if_pos h0] at h
  split at h
  · cases h
  · split at h
    · cases h
    · cases h
      exact ⟨rfl, by simp [h0], rfl, _, gravar_mesmo _ _ _, rfl⟩

theorem chegada_fila_1_rodada_forma {cfg : Config} {s s3 : Estado}
    (h : chegada_fila_1_rodada cfg s = some s3) :
    s3.eventos = s.eventos ∧ s3.fila1 = s.fila1 ∧ s3.fila2 = s.fila2 ∧
    s3.clientes = s.clientes := by
  unfold chegada_fila_1_rodada at h
  split at h
  · cases h
  · split at h
    · unfold iniciar_nova_rodada at h
      simp only [criar_rodada] at h
      split at h
      · cases h
      · cases h; exact ⟨rfl, rfl, rfl, rfl⟩
    · cases h; exact ⟨rfl, rfl, rfl, rfl⟩

theorem espera_servico_1_nula {cfg : Config} {s s3 : Estado} {ev : Evento}
    {pend : List Evento} (he : s.eventos = ev :: pend) (h0 : s.fila1.num_clientes = 0)
    (h : chegada_fila_1_ate_servico cfg s = some s3) :
    s3.eventos = ev :: pend ∧ s3.fila1.num_clientes = 1 ∧
    s3.fila1.primeiro_cliente = some ev.cliente ∧ espera_servico_1 s3 = some 0 := by
  unfold chegada_fila_1_ate_servico at h
  split at h
  · cases h
  · rename_i s1 h1
    obtain ⟨r1, rfl⟩ := chegada_fila_1_integrais_forma h1
    split at h
    · cases h
    · rename_i s2 h2
      obtain ⟨e2, n2, p2, c, hc, ht⟩ := chegada_fila_1_contagem_vazia
        (s := { s with rodadas := r1 }) he h0 h2
      obtain ⟨e3, f3, -, c3⟩ := chegada_fila_1_rodada_forma h
      refine ⟨e3.trans e2, by rw [f3]; exact n2, by rw [f3]; exact p2, ?_⟩
      unfold espera_servico_1
      rw [e3, e2, f3, p2, c3]
      simp only [hc, ht, sub_self]

theorem interromper_rodadas {s s' : Estado} (h : interromper_servico_fila_2 s = some s') :
    s'.rodadas = s.rodadas := by
  unfold interromper_servico_fila_2 at h
  split at h
  · cases h; rfl
  · split at h
    · cases h
    · split at h
      · cases h; rfl
      · split at h
        · cases h
        · cases h; rfl

theorem agendar_evento_rodadas {s s' : Estado} {momento : ℚ} {cliente : Nat}
    {tipo : TipoEvento} (h : agendar_evento momento cliente tipo s = some s') :
    s'.rodadas = s.rodadas := by
  unfold agendar_evento at h
  split at h
  · cases h
  · cases h; rfl

theorem servico_1_espera {cfg : Config} {s s' : Estado}
    (h : processar_chegada_servico_1 cfg s = some s') :
    ∃ ev resto p c R R', s.eventos = ev :: resto ∧ s.fila1.primeiro_cliente = some p ∧
      s.clientes p = some c ∧ s.rodadas c.rodada = some R ∧
      s'.rodadas c.rodada = some R' ∧
      espera_servico_1 s = some (ev.momento - c.chegada_estado_atual) ∧
      R'.E_W1 = R.E_W1 + (ev.momento - c.chegada_estado_atual) ∧
      ∀ r, r ≠ c.rodada → s'.rodadas r = s.rodadas r := by
  unfold processar_chegada_servico_1 at h
  split at h
  · cases h
  · rename_i ev resto he
    split at h
    · cases h
    · rename_i p hp
      split at h
      · cases h
      · rename_i c hc
        split at h
        · cases h
        · rename_i R hR
          simp only at h
          split at h
          · cases h
          · split at h
            · cases h
            · rename_i s2 h2
              have e1 := agendar_evento_rodadas h
              have e2 := interromper_rodadas h2
              have e3 : s'.rodadas = gravar s.rodadas c.rodada _ := e1.trans e2
              refine ⟨ev, resto, p, c, R, _, he, hp, hc, hR, by rw [e3]; exact gravar_mesmo _ _ _,
                ?_, ?_, fun r hr => by rw [e3]; exact gravar_outro _ _ hr⟩
              · unfold espera_servico_1
                rw [he]
                simp only [hp, hc]
              · split <;> rfl

theorem servico_2_espera {cfg : Config} {s s' : Estado}
    (h : processar_chegada_servico_2 cfg s = some s') :
    ∃ ev resto p c R R', s.eventos = ev :: resto ∧ s.fila2.primeiro_cliente = some p ∧
      s.clientes p = some c ∧ s.rodadas c.rodada = some R ∧
      s'.rodadas c.rodada = some R' ∧
      espera_servico_2 s = some (ev.momento - c.chegada_estado_atual) ∧
      R'.E_W2 = R.E_W2 + (ev.momento - c.chegada_estado_atual) ∧
      ∀ r, r ≠ c.rodada → s'.rodadas r = s.rodadas r := by
  unfold processar_chegada_servico_2 at h
  split at h
  · cases h
  · rename_i ev resto he
    split at h
    · cases h
    · rename_i p hp
      split at h
      · cases h
      · rename_i c hc
        split at h
        · cases h
        · rename_i R hR
          simp only at h
          split at h
          · cases h
          · have e3 : s'.rodadas = gravar s.rodadas c.rodada _ := agendar_evento_rodadas h
            refine ⟨ev, resto, p, c, R, _, he, hp, hc, hR, by rw [e3]; exact gravar_mesmo _ _ _,
              ?_, ?_, fun r hr => by rw [e3]; exact gravar_outro _ _ hr⟩
            · unfold espera_servico_2
              rw [he]
              simp only [hp, hc]
            · split <;> rfl

theorem chegada_fila_2_cliente_forma {s s1 : Estado} {ev : Evento} {pend : List Evento}
    (he : s.eventos = ev :: pend) (h : chegada_fila_2_cliente s = some s1) :
    s1.eventos = ev :: pend ∧ s1.fila1 = s.fila1 ∧ s1.fila2 = s.fila2 ∧
    ∃ c, s1.clientes ev.cliente = some c ∧ c.chegada_estado_atual = ev.momento := by
  unfold chegada_fila_2_cliente at h
  rw [he] at h
  simp only at h
  split at h
  · cases h
  · split at h
    · cases h
    · cases h
      exact ⟨rfl, rfl, rfl, _, gravar_mesmo _ _ _, rfl⟩

theorem chegada_fila_2_mover_unico {s s3 : Estado} {p : Nat}
    (hp : s.fila1.primeiro_cliente = some p) (h : chegada_fila_2_mover s = some s3)
    (h1 : s3.fila2.num_clientes = 1) :
    s3.eventos = s.eventos ∧ s3.fila2.primeiro_cliente = some p ∧
    s3.clientes = s.clientes := by
  unfold chegada_fila_2_mover prox_cliente_fila at h
  rw [hp] at h
  simp only at h
  split at h
  · cases h
  · rename_i r hr
    split at hr
    · cases hr
    · cases hr
      simp only at h
      unfold adicionar_cliente_fila at h
      by_cases h0 : s.fila2.num_clientes = 0
      · rw [if_pos h0] at h
        cases h
        exact ⟨rfl, rfl, rfl⟩
      · rw [if_neg h0] at h
        split at h
        · cases h
        · rename_i w hw
          exfalso
          split at hw
          · cases hw
          · split at hw
            · cases hw
            · cases hw
              cases h
              have : s.fila2.num_clientes + 1 = 1 := h1
              omega

theorem espera_servico_2_nula {s s3 : Estado} {ev : Evento} {pend : List Evento}
    (he : s.eventos = ev :: pend) (hp : s.fila1.primeiro_cliente = some ev.cliente)
    (h : chegada_fila_2_ate_servico s = some s3) (h1 : s3.fila2.num_clientes = 1) :
    s3.eventos = ev :: pend ∧ s3.fila2.primeiro_cliente = some ev.cliente ∧
    espera_servico_2 s3 = some 0 := by
  unfold chegada_fila_2_ate_servico at h
  split at h
  · cases h
  · rename_i s1 hs1
    obtain ⟨e1, f1, -, c, hc, ht⟩ := chegada_fila_2_cliente_forma he hs1
    split at h
    · cases h
    · rename_i s2 hs2
      obtain ⟨r2, rfl⟩ := chegada_fila_2_integrais_forma hs2
      have hp1 : s1.fila1.primeiro_cliente = some ev.cliente := by rw [f1]; exact hp
      obtain ⟨e3, p3, c3⟩ := chegada_fila_2_mover_unico
        (s := { s1 with rodadas := r2 }) hp1 h h1
      refine ⟨e3.trans e1, p3, ?_⟩
      unfold espera_servico_2
      rw [e3, p3, c3]
      simp only [e1, hc, ht, sub_self]

/-- C14: in every state reached by the main loop, when `evento_atual` is a `chegada_fila_1`
and `fila1` is empty, the handler reaches the test of line 389 with one customer in
`fila1`, calls `processar_chegada_servico_1`, the amount that call adds to `E_W1` is 0 and
the `E_W1` of the round of the customer is unchanged by it.  When `evento_atual` is a
`chegada_fila_2` and the move of line 417 leaves `fila1` empty and one customer in `fila2`,
the handler calls `processar_chegada_servico_2`, the amount that call adds to `E_W2` is 0
and the `E_W2` of the round of the customer is unchanged by it.  In general each call adds
the time of `evento_atual` minus the `chegada_estado_atual` of the head customer to the sum
of the round of that customer. -/
theorem esperas_sem_contencao {cfg : Config} (hcfg : ConfigOk cfg) {k : Nat} {s : Estado}
    {ev : Evento} {pend : List Evento} (hs : rodar cfg k = some s)
    (he : s.eventos = ev :: pend) :
    (ev.tipo = TipoEvento.chegada_fila_1 → s.fila1.num_clientes = 0 →
      ∃ s3 s4 c R R', chegada_fila_1_ate_servico cfg s = some s3 ∧
        s3.fila1.num_clientes = 1 ∧ processar_chegada_servico_1 cfg s3 = some s4 ∧
        processar_chegada_fila_1 cfg s = chegada_fila_1_proxima cfg s4 ∧
        espera_servico_1 s3 = some 0 ∧ s3.fila1.primeiro_cliente = some ev.cliente ∧
        s3.clientes ev.cliente = some c ∧ s3.rodadas c.rodada = some R ∧
        s4.rodadas c.rodada = some R' ∧ R'.E_W1 = R.E_W1) ∧
    (ev.tipo = TipoEvento.chegada_fila_2 →
      ∃ s3, chegada_fila_2_ate_servico s = some s3 ∧
        (s3.fila1.num_clientes = 0 → s3.fila2.num_clientes = 1 →
          ∃ s4 c R R', processar_chegada_servico_2 cfg s3 = some s4 ∧
            processar_chegada_fila_2 cfg s = some s4 ∧
            espera_servico_2 s3 = some 0 ∧ s3.fila2.primeiro_cliente = some ev.cliente ∧
            s3.clientes ev.cliente = some c ∧ s3.rodadas c.rodada = some R ∧
            s4.rodadas c.rodada = some R' ∧ R'.E_W2 = R.E_W2)) ∧
    (∀ st st', processar_chegada_servico_1 cfg st = some st' →
      ∃ e resto p c R R', st.eventos = e :: resto ∧ st.fila1.primeiro_cliente = some p ∧
        st.clientes p = some c ∧ st.rodadas c.rodada = some R ∧
        st'.rodadas c.rodada = some R' ∧
        espera_servico_1 st = some (e.momento - c.chegada_estado_atual) ∧
        R'.E_W1 = R.E_W1 + (e.momento - c.chegada_estado_atual) ∧
        ∀ r, r ≠ c.rodada → st'.rodadas r = st.rodadas r) ∧
    (∀ st st', processar_chegada_servico_2 cfg st = some st' →
      ∃ e resto p c R R', st.eventos = e :: resto ∧ st.fila2.primeiro_cliente = some p ∧
        st.clientes p = some c ∧ st.rodadas c.rodada = some R ∧
        st'.rodadas c.rodada = some R' ∧
        espera_servico_2 st = some (e.momento - c.chegada_estado_atual) ∧
        R'.E_W2 = R.E_W2 + (e.momento - c.chegada_estado_atual) ∧
        ∀ r, r ≠ c.rodada → st'.rodadas r = st.rodadas r) := by
  have hI := rodar_inv hcfg k s hs
  refine ⟨?_, ?_, fun st st' h => servico_1_espera h, fun st st' h => servico_2_espera h⟩
  · intro htp h0
    obtain ⟨s', pend', h1, -⟩ := processar_chegada_fila_1_ok hcfg hI he htp
    have h2 := processar_chegada_fila_1_servico cfg s
    rw [h1] at h2
    cases hA : chegada_fila_1_ate_servico cfg s with
    | none => rw [hA] at h2; cases h2
    | some s3 =>
      rw [hA] at h2
      obtain ⟨e3, n3, p3, z3⟩ := espera_servico_1_nula he h0 hA
      simp only [if_pos n3] at h2
      cases hB : processar_chegada_servico_1 cfg s3 with
      | none => rw [hB] at h2; cases h2
      | some s4 =>
        rw [hB] at h2
        simp only at h2
        obtain ⟨e, resto, p, c, R, R', x1, x2, x3, x4, x5, x6, x7, -⟩ := servico_1_espera hB
        rw [p3] at x2
        cases x2
        rw [z3] at x6
        simp only [Option.some.injEq] at x6
        rw [← x6, add_zero] at x7
        exact ⟨s3, s4, c, R, R', rfl, n3, hB, h1.trans h2, z3, p3, x3, x4, x5, x7⟩
  · intro htp
    obtain ⟨s', pend', h1, -⟩ := processar_chegada_fila_2_ok hcfg hI he htp
    have hE := hI.evs
    rw [he] at hE
    obtain ⟨-, -, -, hb, -⟩ := hE.abrir
    obtain ⟨hcb, hbn⟩ := hb htp
    have hp : s.fila1.primeiro_cliente = some ev.cliente := by
      rw [hcb]; exact hI.filas.f1_p hbn
    have h2 := processar_chegada_fila_2_servico cfg s
    rw [h1] at h2
    cases hA : chegada_fila_2_ate_servico s with
    | none => rw [hA] at h2; cases h2
    | some s3 =>
      rw [hA] at h2
      refine ⟨s3, rfl, ?_⟩
      intro n1 n2
      obtain ⟨e3, p3, z3⟩ := espera_servico_2_nula he hp hA n2
      simp only [gt_iff_lt, n1, Nat.lt_irrefl, if_false] at h2
      obtain ⟨e, resto, p, c, R, R', x1, x2, x3, x4, x5, x6, x7, -⟩ :=
        servico_2_espera h2.symm
      rw [p3] at x2
      cases x2
      rw [z3] at x6
      simp only [Option.some.injEq] at x6
      rw [← x6, add_zero] at x7
      exact ⟨s', c, R, R', h2.symm, h1, z3, p3, x3, x4, x5, x7⟩

/-- Witness of C14 on the example run: the second pass handles a `chegada_fila_2` that
leaves `fila1` empty and customer 0 alone in `fila2`. -/
theorem esperas_sem_contencao_witness :
    ∃ s pend, rodar cfg_exemplo 1 = some s ∧
      s.eventos =
        { ident := 1, momento := 2, cliente := 0, tipo := TipoEvento.chegada_fila_2 } ::
          pend ∧
      ∃ s3, chegada_fila_2_ate_servico s = some s3 ∧
        (s3.fila1.num_clientes = 0 → s3.fila2.num_clientes = 1 →
          ∃ s4 c R R', processar_chegada_servico_2 cfg_exemplo s3 = some s4 ∧
            processar_chegada_fila_2 cfg_exemplo s = some s4 ∧
            espera_servico_2 s3 = some 0 ∧ s3.fila2.primeiro_cliente = some 0 ∧
            s3.clientes 0 = some c ∧ s3.rodadas c.rodada = some R ∧
            s4.rodadas c.rodada = some R' ∧ R'.E_W2 = R.E_W2) := by
  obtain ⟨s, hs⟩ := Option.isSome_iff_exists.mp
    (show (rodar cfg_exemplo 1).isSome = true by decide!)
  have h1 : (rodar cfg_exemplo 1).map (fun s => s.eventos.head?) =
      some (some { ident := 1, momento := 2, cliente := 0,
                   tipo := TipoEvento.chegada_fila_2 }) := by decide!
  rw [hs] at h1
  simp only [Option.map_some', Option.some.injEq] at h1
  cases he : s.eventos with
  | nil => rw [he] at h1; cases h1
  | cons ev pend =>
    rw [he] at h1
    simp only [List.head?_cons, Option.some.injEq] at h1
    subst h1
    exact ⟨s, pend, hs, he, (esperas_sem_contencao cfg_exemplo_ok hs he).2.1 rfl⟩

/-! ## Customers, their rounds and the events that name them -/

theorem cliente_alocado {cfg : Config} (hcfg : ConfigOk cfg) {k : Nat} {s : Estado}
    (hs : rodar cfg k = some s) {i : Nat} {c : Cliente} (hc : s.clientes i = some c) :
    processados cfg TipoEvento.partida k ≤ i ∧
    i ≤ processados cfg TipoEvento.chegada_fila_1 k ∧
    base cfg c.rodada ≤ i ∧ i < base cfg (c.rodada + 1) ∧
    c.indice_rodada = i - base cfg c.rodada := by
  have hI := rodar_inv hcfg k s hs
  have hQ := rodar_quadro hcfg k s hs
  have h1 : processados cfg TipoEvento.partida k ≤ i := by
    by_contra hlt
    rw [hQ.lo i (by omega)] at hc; cases hc
  have h2 : i ≤ processados cfg TipoEvento.chegada_fila_1 k := by
    by_contra hgt
    rw [hQ.hi i (by rw [hI.ncli]; omega)] at hc; cases hc
  obtain ⟨c', hc', h3, h4, h5⟩ := hI.cls i h1 h2
  rw [hc] at hc'
  cases hc'
  exact ⟨h1, h2, h3, h4, h5⟩

/-- C22: in every state reached by the main loop, each allocated customer, of serial
number `i`, belongs to the round whose range of serial numbers contains `i` and has
`indice_rodada` equal to its offset in that range; for a round other than the transient
one the range has `K` elements, so `indice_rodada < K` and the customers of the round have
the indices `0` to `K - 1`, each once.  When a `chegada_fila_1` event is about to be
handled, the round of its customer is `rodada_atual`.  No pass of the main loop writes
outside `W1` or `W2`: while the loop condition holds the next pass produces a state. -/
theorem indices_dentro_dos_vetores {cfg : Config} (hcfg : ConfigOk cfg) {k : Nat}
    {s : Estado} (hs : rodar cfg k = some s) :
    (∀ i c, s.clientes i = some c →
      base cfg c.rodada ≤ i ∧ i < base cfg (c.rodada + 1) ∧
      c.indice_rodada = i - base cfg c.rodada ∧
      (c.rodada ≠ s.fase_transiente →
        c.indice_rodada < cfg.K ∧ base cfg (c.rodada + 1) = base cfg c.rodada + cfg.K)) ∧
    (∀ k' s' i j ci cj, rodar cfg k' = some s' → s.clientes i = some ci →
      s'.clientes j = some cj → ci.rodada = cj.rodada →
      ci.indice_rodada = cj.indice_rodada → i = j) ∧
    (∀ ev pend c, s.eventos = ev :: pend → ev.tipo = TipoEvento.chegada_fila_1 →
      s.clientes ev.cliente = some c → c.rodada = s.rodada_atual) ∧
    (s.rodadas_encerradas < cfg.NUM_RODADAS + 1 → ∃ s', rodar cfg (k + 1) = some s') := by
  have hI := rodar_inv hcfg k s hs
  refine ⟨?_, ?_, ?_, rodar_progresso hcfg hs⟩
  · intro i c hc
    obtain ⟨-, -, h3, h4, h5⟩ := cliente_alocado hcfg hs hc
    refine ⟨h3, h4, h5, ?_⟩
    intro hne
    rw [hI.ft] at hne
    have hq : base cfg (c.rodada + 1) = base cfg c.rodada + cfg.K := by
      rw [base_succ, quota, if_neg hne]
    exact ⟨by omega, hq⟩
  · intro k' s' i j ci cj hs' hi hj hr hx
    obtain ⟨-, -, h3, h4, h5⟩ := cliente_alocado hcfg hs hi
    obtain ⟨-, -, g3, g4, g5⟩ := cliente_alocado hcfg hs' hj
    rw [hr] at h3 h5
    omega
  · intro ev pend c he htp hc
    have hE := hI.evs
    rw [he] at hE
    obtain ⟨-, -, h1, -, -⟩ := hE.abrir
    rw [h1 htp] at hc
    obtain ⟨-, -, h3, h4, -⟩ := cliente_alocado hcfg hs hc
    exact base_unico h3 h4 hI.rods.cur_lo hI.cur_hi

/-- Witness of C22 on the example run: the state after five passes. -/
theorem indices_dentro_dos_vetores_witness :
    ∃ s, rodar cfg_exemplo 5 = some s ∧
      (∀ i c, s.clientes i = some c →
        base cfg_exemplo c.rodada ≤ i ∧ i < base cfg_exemplo (c.rodada + 1) ∧
        c.indice_rodada = i - base cfg_exemplo c.rodada ∧
        (c.rodada ≠ s.fase_transiente →
          c.indice_rodada < cfg_exemplo.K ∧
          base cfg_exemplo (c.rodada + 1) = base cfg_exemplo c.rodada + cfg_exemplo.K)) ∧
      (∀ k' s' i j ci cj, rodar cfg_exemplo k' = some s' → s.clientes i = some ci →
        s'.clientes j = some cj → ci.rodada = cj.rodada →
        ci.indice_rodada = cj.indice_rodada → i = j) ∧
      (∀ ev pend c, s.eventos = ev :: pend → ev.tipo = TipoEvento.chegada_fila_1 →
        s.clientes ev.cliente = some c → c.rodada = s.rodada_atual) ∧
      (s.rodadas_encerradas < cfg_exemplo.NUM_RODADAS + 1 →
        ∃ s', rodar cfg_exemplo (5 + 1) = some s') := by
  obtain ⟨s, hs⟩ := Option.isSome_iff_exists.mp
    (show (rodar cfg_exemplo 5).isSome = true by decide!)
  exact ⟨s, hs, indices_dentro_dos_vetores cfg_exemplo_ok hs⟩

theorem chegada_fila_1_contagem_forma {s s2 : Estado}
    (h : chegada_fila_1_contagem s = some s2) :
    s2.eventos = s.eventos ∧ s2.fila2 = s.fila2 := by
  unfold chegada_fila_1_contagem at h
  split at h
  · cases h
  · split at h
    · cases h
    · split at h
      · cases h
      · simp only at h
        split at h
        · cases h
        · cases h
          rename_i he _ _ _ _ _ _ _
          exact ⟨rfl, rfl⟩

theorem chegada_fila_1_ate_servico_forma {cfg : Config} {s s3 : Estado}
    (h : chegada_fila_1_ate_servico cfg s = some s3) :
    s3.eventos = s.eventos ∧ s3.fila2 = s.fila2 := by
  unfold chegada_fila_1_ate_servico at h
  split at h
  · cases h
  · rename_i s1 h1
    obtain ⟨r1, rfl⟩ := chegada_fila_1_integrais_forma h1
    split at h
    · cases h
    · rename_i s2 h2
      obtain ⟨e2, f2⟩ := chegada_fila_1_contagem_forma h2
      obtain ⟨e3, -, f3, -⟩ := chegada_fila_1_rodada_forma h
      exact ⟨e3.trans e2, f3.trans f2⟩

theorem chegada_fila_2_mover_forma {s s3 : Estado} (h : chegada_fila_2_mover s = some s3) :
    s3.eventos = s.eventos ∧
    ∃ p, s.fila1.primeiro_cliente = some p ∧ s3.fila2.ultimo_cliente = some p := by
  unfold chegada_fila_2_mover at h
  split at h
  · cases h
  · rename_i r hr
    split at h
    · cases h
    · rename_i w hw
      cases h
      refine ⟨rfl, r.1, ?_, ?_⟩
      · unfold prox_cliente_fila at hr
        split at hr
        · cases hr
        · split at hr
          · cases hr
          · cases hr
            assumption
      · unfold adicionar_cliente_fila at hw
        split at hw
        · cases hw; rfl
        · split at hw
          · cases hw
          · split at hw
            · cases hw
            · cases hw; rfl

theorem chegada_fila_2_ate_servico_forma {s s3 : Estado} {ev : Evento} {pend : List Evento}
    (he : s.eventos = ev :: pend) (h : chegada_fila_2_ate_servico s = some s3) :
    s3.eventos = ev :: pend ∧
    ∃ p, s.fila1.primeiro_cliente = some p ∧ s3.fila2.ultimo_cliente = some p := by
  unfold chegada_fila_2_ate_servico at h
  split at h
  · cases h
  · rename_i s1 hs1
    obtain ⟨e1, f1, -, -⟩ := chegada_fila_2_cliente_forma he hs1
    split at h
    · cases h
    · rename_i s2 hs2
      obtain ⟨r2, rfl⟩ := chegada_fila_2_integrais_forma hs2
      obtain ⟨e3, p, hp, hu⟩ := chegada_fila_2_mover_forma h
      exact ⟨e3.trans e1, p, by rw [← f1]; exact hp, hu⟩

theorem remover_partida_tipo {l l' : List Evento} {e : Evento}
    (h : remover_partida l = some (e, l')) : e.tipo = TipoEvento.partida := by
  induction l generalizing l' with
  | nil => cases h
  | cons x xs ih =>
    unfold remover_partida at h
    split at h
    · rename_i hx
      cases h
      exact hx
    · split at h
      · cases h
      · rename_i r hr
        cases h
        exact ih hr

/-- C23: in every state reached by the main loop, with `ev` the event about to be handled:
if `ev` is a `chegada_fila_2`, its customer is the head of `fila1` and is the customer that
line 417 appends to `fila2`; if `ev` is a `partida`, its customer is the head of `fila2`
and is released by the pass; if the handler of `ev` calls `processar_chegada_servico_1` and
`interromper_servico_fila_2` unlinks an event there, the customer of that event is the head
of `fila2`; and the event list holds at most one `partida` and at most one
`chegada_fila_2`. -/
theorem eventos_nomeiam_o_cliente {cfg : Config} (hcfg : ConfigOk cfg) {k : Nat}
    {s : Estado} {ev : Evento} {pend : List Evento} (hs : rodar cfg k = some s)
    (he : s.eventos = ev :: pend) :
    (ev.tipo = TipoEvento.chegada_fila_2 →
      s.fila1.primeiro_cliente = some ev.cliente ∧
      ∃ s3, chegada_fila_2_ate_servico s = some s3 ∧
        s3.fila2.ultimo_cliente = some ev.cliente) ∧
    (ev.tipo = TipoEvento.partida →
      s.fila2.primeiro_cliente = some ev.cliente ∧ (s.clientes ev.cliente).isSome = true ∧
      ∀ s', rodar cfg (k + 1) = some s' → s'.clientes ev.cliente = none) ∧
    (∀ s3 e,
      ((ev.tipo = TipoEvento.chegada_fila_1 ∧ chegada_fila_1_ate_servico cfg s = some s3 ∧
          s3.fila1.num_clientes = 1) ∨
        (ev.tipo = TipoEvento.chegada_fila_2 ∧ chegada_fila_2_ate_servico s = some s3 ∧
          0 < s3.fila1.num_clientes)) →
      partida_cancelada s3 = some e →
      e.tipo = TipoEvento.partida ∧ s3.fila2.primeiro_cliente = some e.cliente) ∧
    (tipos TipoEvento.partida s.eventos).length ≤ 1 ∧
    (tipos TipoEvento.chegada_fila_2 s.eventos).length ≤ 1 := by
  have hI := rodar_inv hcfg k s hs
  have hE := hI.evs
  have hcp := hE.cp
  have hc2 := hE.c2
  rw [he] at hE
  obtain ⟨-, hP, h1, h2, h3⟩ := hE.abrir
  refine ⟨?_, ?_, ?_, ?_, ?_⟩
  · intro htp
    obtain ⟨hcb, hbn⟩ := h2 htp
    have hp : s.fila1.primeiro_cliente = some ev.cliente := by
      rw [hcb]; exact hI.filas.f1_p hbn
    refine ⟨hp, ?_⟩
    obtain ⟨s', pend', hh, -⟩ := processar_chegada_fila_2_ok hcfg hI he htp
    have h4 := processar_chegada_fila_2_servico cfg s
    rw [hh] at h4
    cases hA : chegada_fila_2_ate_servico s with
    | none => rw [hA] at h4; cases h4
    | some s3 =>
      obtain ⟨-, p, hp', hu⟩ := chegada_fila_2_ate_servico_forma he hA
      rw [hp] at hp'
      cases hp'
      exact ⟨s3, rfl, hu⟩
  · intro htp
    obtain ⟨hca, hbn, hab⟩ := h3 htp
    obtain ⟨c, hc, -⟩ := hI.cls _ (Nat.le_refl _) (by omega : processados cfg TipoEvento.partida k ≤
      processados cfg TipoEvento.chegada_fila_1 k)
    refine ⟨by rw [hca]; exact hI.filas.f2_p hab, by rw [hca, hc]; rfl, ?_⟩
    intro s' hs'
    have hQ := rodar_quadro hcfg (k + 1) s' hs'
    have hev := evento_processado_eq hs hs' he
    rw [processados_succ _ hev, if_pos htp] at hQ
    exact hQ.lo _ (by rw [hca]; omega)
  · intro s3 e hcall hcan
    unfold partida_cancelada at hcan
    split at hcan
    · cases hcan
    · rcases hcall with ⟨htp, hA, -⟩ | ⟨htp, hA, -⟩
      · obtain ⟨e3, f3⟩ := chegada_fila_1_ate_servico_forma hA
        rw [e3, he] at hcan
        simp only at hcan
        simp only [htp, if_true, if_false, reduceCtorEq] at hP
        have hpp := hP.cp
        by_cases hx : processados cfg TipoEvento.chegada_fila_2 k =
            processados cfg TipoEvento.chegada_fila_1 k ∧
            processados cfg TipoEvento.partida k < processados cfg TipoEvento.chegada_fila_2 k
        · rw [if_pos hx] at hpp
          obtain ⟨e', l', hrem, hcl, hsub, -⟩ := remover_partida_some hpp
          rw [hrem] at hcan
          simp only [Option.map_some', Option.some.injEq] at hcan
          subst hcan
          exact ⟨remover_partida_tipo hrem, by rw [f3, hcl]; exact hI.filas.f2_p hx.2⟩
        · rw [if_neg hx] at hpp
          rw [remover_partida_none hpp] at hcan
          cases hcan
      · obtain ⟨e3, -⟩ := chegada_fila_2_ate_servico_forma he hA
        rw [e3] at hcan
        simp only at hcan
        obtain ⟨-, hbn⟩ := h2 htp
        simp only [htp, if_true, if_false, reduceCtorEq] at hP
        have hpp := hP.cp
        rw [if_neg (by omega)] at hpp
        rw [remover_partida_none hpp] at hcan
        cases hcan
  · rw [hcp]; split <;> simp
  · rw [hc2]; split <;> simp

/-- Witness of C23 on the example run: the third pass handles the arrival of customer 1
at time 5 while customer 0 is in service at stage 2, and cancels its departure. -/
theorem eventos_nomeiam_o_cliente_witness :
    ∃ s pend s3 e, rodar cfg_exemplo 2 = some s ∧
      s.eventos =
        { ident := 2, momento := 5, cliente := 1, tipo := TipoEvento.chegada_fila_1 } ::
          pend ∧
      chegada_fila_1_ate_servico cfg_exemplo s = some s3 ∧ s3.fila1.num_clientes = 1 ∧
      partida_cancelada s3 = some e ∧ e.cliente = 0 ∧
      e.tipo = TipoEvento.partida ∧ s3.fila2.primeiro_cliente = some e.cliente ∧
      (tipos TipoEvento.partida s.eventos).length ≤ 1 ∧
      (tipos TipoEvento.chegada_fila_2 s.eventos).length ≤ 1 := by
  obtain ⟨s, hs⟩ := Option.isSome_iff_exists.mp
    (show (rodar cfg_exemplo 2).isSome = true by decide!)
  have h1 : (rodar cfg_exemplo 2).map (fun s => s.eventos.head?) =
      some (some { ident := 2, momento := 5, cliente := 1,
                   tipo := TipoEvento.chegada_fila_1 }) := by decide!
  have h2 : ((rodar cfg_exemplo 2).bind fun s =>
      (chegada_fila_1_ate_servico cfg_exemplo s).map fun s3 =>
        (s3.fila1.num_clientes, (partida_cancelada s3).map fun e => e.cliente)) =
      some (1, some 0) := by decide!
  rw [hs] at h1 h2
  simp only [Option.map_some', Option.some.injEq, Option.some_bind] at h1 h2
  cases he : s.eventos with
  | nil => rw [he] at h1; cases h1
  | cons ev pend =>
    rw [he] at h1
    simp only [List.head?_cons, Option.some.injEq] at h1
    subst h1
    cases hA : chegada_fila_1_ate_servico cfg_exemplo s with
    | none => rw [hA] at h2; cases h2
    | some s3 =>
      rw [hA] at h2
      simp only [Option.map_some', Option.some.injEq, Prod.mk.injEq] at h2
      obtain ⟨hn, hcan⟩ := h2
      cases hC : partida_cancelada s3 with
      | none => rw [hC] at hcan; cases hcan
      | some e =>
        rw [hC] at hcan
        simp only [Option.map_some', Option.some.injEq] at hcan
        have hT := eventos_nomeiam_o_cliente cfg_exemplo_ok hs he
        obtain ⟨ht, hp⟩ := hT.2.2.1 s3 e (Or.inl ⟨rfl, hA, hn⟩) hC
        exact ⟨s, pend, s3, e, hs, he, hA, hn, hC, hcan, ht, hp, hT.2.2.2.1, hT.2.2.2.2⟩

/-! ## The wait samples `W1` and `W2` of a round -/

theorem AmEq.am_refl (rods : Nat → Option Rodada) : AmEq rods rods := fun _ => rfl

theorem AmEq.am_trans {r1 r2 r3 : Nat → Option Rodada} (h12 : AmEq r1 r2)
    (h23 : AmEq r2 r3) : AmEq r1 r3 := fun r => (h23 r).trans (h12 r)

theorem AmEq.am_gravar {rods : Nat → Option Rodada} {p : Nat} {R R' : Rodada}
    (hp : rods p = some R) (h : R'.amostra_1 = R.amostra_1) :
    AmEq rods (gravar rods p R') := by
  intro r
  by_cases hr : r = p
  · subst hr
    rw [gravar_mesmo, hp]
    simp only [Option.map_some', h]
  · rw [gravar_outro _ _ hr]

theorem AmEq.am_some {rods rods' : Nat → Option Rodada} (h : AmEq rods rods') {r : Nat}
    {R' : Rodada} (hR : rods' r = some R') :
    ∃ R, rods r = some R ∧ R'.E_W1 = R.E_W1 ∧ R'.W1 = R.W1 := by
  have hr := h r
  rw [hR] at hr
  cases hx : rods r with
  | none => rw [hx] at hr; cases hr
  | some R =>
    rw [hx] at hr
    simp only [Option.map_some', Option.some.injEq, Rodada.amostra_1, Prod.mk.injEq] at hr
    exact ⟨R, rfl, hr.1, hr.2⟩

theorem atualizar_E_N1_amostras {s s' : Estado} (h : atualizar_E_N1 s = some s') :
    AmEq s.rodadas s'.rodadas := by
  unfold atualizar_E_N1 at h
  split at h
  · cases h
  · split at h
    · cases h
    · rename_i R hR
      cases h
      exact AmEq.am_gravar hR rfl

theorem atualizar_E_N2_amostras {s s' : Estado} (h : atualizar_E_N2 s = some s') :
    AmEq s.rodadas s'.rodadas := by
  unfold atualizar_E_N2 at h
  split at h
  · cases h
  · split at h
    · cases h
    · rename_i R hR
      cases h
      exact AmEq.am_gravar hR rfl

theorem atualizar_E_Nq1_amostras {s s' : Estado} (h : atualizar_E_Nq1 s = some s') :
    AmEq s.rodadas s'.rodadas := by
  unfold atualizar_E_Nq1 at h
  split at h
  · cases h
  · split at h
    · cases h
    · rename_i R hR
      cases h
      exact AmEq.am_gravar hR rfl

theorem atualizar_E_Nq2_amostras {s s' : Estado} (h : atualizar_E_Nq2 s = some s') :
    AmEq s.rodadas s'.rodadas := by
  unfold atualizar_E_Nq2 at h
  split at h
  · cases h
  · split at h
    · cases h
    · rename_i R hR
      cases h
      exact AmEq.am_gravar hR rfl

theorem se_amostras {p : Prop} [Decidable p] {f : Estado → Option Estado} {s s' : Estado}
    (hf : f s = some s' → AmEq s.rodadas s'.rodadas)
    (h : (if p then f s else some s) = some s') : AmEq s.rodadas s'.rodadas := by
  split at h
  · exact hf h
  · cases h; exact AmEq.am_refl _

theorem chegada_fila_1_integrais_amostras {s s' : Estado}
    (h : chegada_fila_1_integrais s = some s') : AmEq s.rodadas s'.rodadas := by
  unfold chegada_fila_1_integrais at h
  split at h
  · cases h
  · rename_i s1 h1
    split at h
    · cases h
    · rename_i s2 h2
      exact ((atualizar_E_N1_amostras h1).am_trans
        (se_amostras atualizar_E_Nq1_amostras h2)).am_trans
        (se_amostras atualizar_E_Nq2_amostras h)

theorem chegada_fila_2_integrais_amostras {s s' : Estado}
    (h : chegada_fila_2_integrais s = some s') : AmEq s.rodadas s'.rodadas := by
  unfold chegada_fila_2_integrais at h
  split at h
  · cases h
  · rename_i s1 h1
    split at h
    · cases h
    · rename_i s2 h2
      split at h
      · cases h
      · rename_i s3 h3
        exact (((atualizar_E_N1_amostras h1).am_trans (atualizar_E_N2_amostras h2)).am_trans
          (atualizar_E_Nq2_amostras h3)).am_trans (se_amostras atualizar_E_Nq1_amostras h)

theorem partida_integrais_amostras {s s' : Estado}
    (h : partida_integrais s = some s') : AmEq s.rodadas s'.rodadas := by
  unfold partida_integrais at h
  split at h
  · cases h
  · rename_i s1 h1
    exact (atualizar_E_N2_amostras h1).am_trans (se_amostras atualizar_E_Nq2_amostras h)

theorem chegada_fila_1_contagem_amostras {s s' : Estado}
    (h : chegada_fila_1_contagem s = some s') : AmEq s.rodadas s'.rodadas := by
  unfold chegada_fila_1_contagem at h
  split at h
  · cases h
  · split at h
    · cases h
    · split at h
      · cases h
      · simp only at h
        split at h
        · cases h
        · rename_i R hR
          cases h
          exact AmEq.am_gravar hR rfl

theorem chegada_fila_2_cliente_amostras {s s' : Estado}
    (h : chegada_fila_2_cliente s = some s') : AmEq s.rodadas s'.rodadas := by
  unfold chegada_fila_2_cliente at h
  split at h
  · cases h
  · split at h
    · cases h
    · split at h
      · cases h
      · rename_i R hR
        cases h
        exact AmEq.am_gravar hR rfl

theorem chegada_fila_2_mover_rodadas {s s' : Estado}
    (h : chegada_fila_2_mover s = some s') : s'.rodadas = s.rodadas := by
  unfold chegada_fila_2_mover at h
  split at h
  · cases h
  · split at h
    · cases h
    · cases h; rfl

theorem partida_contagem_amostras {s s' : Estado}
    (h : partida_contagem s = some s') : AmEq s.rodadas s'.rodadas := by
  unfold partida_contagem at h
  split at h
  · cases h
  · split at h
    · cases h
    · split at h
      · cases h
      · rename_i R hR
        cases h
        exact AmEq.am_gravar hR rfl

theorem partida_remover_rodadas {s s' : Estado}
    (h : partida_remover s = some s') : s'.rodadas = s.rodadas := by
  unfold partida_remover at h
  split at h
  · cases h
  · cases h; rfl

theorem servico_2_amostras {cfg : Config} {s s' : Estado}
    (h : processar_chegada_servico_2 cfg s = some s') : AmEq s.rodadas s'.rodadas := by
  unfold processar_chegada_servico_2 at h
  split at h
  · cases h
  · split at h
    · cases h
    · split at h
      · cases h
      · split at h
        · cases h
        · rename_i R hR
          simp only at h
          split at h
          · cases h
          · rw [agendar_evento_rodadas h]
            refine AmEq.am_gravar hR ?_
            split <;> rfl

theorem chegada_fila_1_proxima_rodadas {cfg : Config} {s s' : Estado}
    (h : chegada_fila_1_proxima cfg s = some s') : s'.rodadas = s.rodadas := by
  unfold chegada_fila_1_proxima at h
  split at h
  · cases h
  · simp only [amostra_exponencial, criar_cliente] at h
    split at h
    · cases h
    · rename_i r hr
      split at hr
      · cases hr
      · cases hr
        have h2 := agendar_evento_rodadas h
        exact h2

theorem chegada_fila_1_rodada_amostras {cfg : Config} {s s' : Estado}
    (h : chegada_fila_1_rodada cfg s = some s') :
    ∀ r R', s'.rodadas r = some R' →
      (∃ R, s.rodadas r = some R ∧ R'.E_W1 = R.E_W1 ∧ R'.W1 = R.W1) ∨
      (r = s.num_rodadas_criadas ∧ R'.E_W1 = 0) := by
  unfold chegada_fila_1_rodada at h
  split at h
  · cases h
  · split at h
    · unfold iniciar_nova_rodada at h
      simp only [criar_rodada] at h
      split at h
      · cases h
      · rename_i Rc hRc
        cases h
        intro r R' hR'
        simp only at hR'
        by_cases h1 : r = s.rodada_atual
        · subst h1
          rw [gravar_mesmo] at hR'
          cases hR'
          by_cases h2 : s.rodada_atual = s.num_rodadas_criadas
          · rw [h2, gravar_mesmo] at hRc
            cases hRc
            exact Or.inr ⟨h2, rfl⟩
          · rw [gravar_outro _ _ h2] at hRc
            exact Or.inl ⟨_, hRc, rfl, rfl⟩
        · rw [gravar_outro _ _ h1] at hR'
          by_cases h2 : r = s.num_rodadas_criadas
          · subst h2
            rw [gravar_mesmo] at hR'
            cases hR'
            exact Or.inr ⟨rfl, rfl⟩
          · rw [gravar_outro _ _ h2] at hR'
            exact Or.inl ⟨_, hR', rfl, rfl⟩
    · cases h
      intro r R' hR'
      exact Or.inl ⟨_, hR', rfl, rfl⟩

theorem servico_1_amostra {cfg : Config} {s s' : Estado}
    (h : processar_chegada_servico_1 cfg s = some s') :
    ∃ ev resto p c R R', s.eventos = ev :: resto ∧ s.fila1.primeiro_cliente = some p ∧
      s.clientes p = some c ∧ s.rodadas c.rodada = some R ∧
      s'.rodadas = gravar s.rodadas c.rodada R' ∧
      R'.E_W1 = R.E_W1 + (ev.momento - c.chegada_estado_atual) ∧
      R'.W1 = (if c.rodada ≠ s.fase_transiente then
        escrever R.W1 c.indice_rodada (ev.momento - c.chegada_estado_atual) else R.W1) := by
  unfold processar_chegada_servico_1 at h
  split at h
  · cases h
  · rename_i ev resto he
    split at h
    · cases h
    · rename_i p hp
      split at h
      · cases h
      · rename_i c hc
        split at h
        · cases h
        · rename_i R hR
          simp only at h
          split at h
          · cases h
          · split at h
            · cases h
            · rename_i s2 h2
              have e1 := agendar_evento_rodadas h
              have e2 := interromper_rodadas h2
              refine ⟨ev, resto, p, c, R, _, he, hp, hc, hR, e1.trans e2, ?_, ?_⟩
              · split <;> rfl
              · split <;> rfl

theorem encerrar_coleta_amostras {cfg : Config} {s s' : Estado} {x : Nat}
    (h : encerrar_coleta cfg x s = some s') :
    ∃ R0 R', s.rodadas x = some R0 ∧ s'.rodadas x = some R' ∧
      R'.E_W1 = R0.E_W1 / (R0.num_chegadas : ℚ) ∧ R'.W1 = R0.W1 ∧
      R'.V_W1 = variancia cfg R'.E_W1 R'.W1 ∧
      ∀ r, r ≠ x → (s'.rodadas r).map Rodada.amostra_1 = (s.rodadas r).map Rodada.amostra_1 := by
  unfold encerrar_coleta at h
  split at h
  · cases h
  · rename_i R0 hR0
    split at h
    · cases h
    · split at h
      · cases h
      · simp only at h
        split at h
        · cases h
        · rename_i s1 h1
          split at h
          · cases h
          · rename_i s2 h2
            split at h
            · cases h
            · rename_i s3 h3
              split at h
              · cases h
              · rename_i s4 h4
                have hA : AmEq s.rodadas s4.rodadas :=
                  (((atualizar_E_Nq1_amostras h1).am_trans
                    (atualizar_E_Nq2_amostras h2)).am_trans
                    (atualizar_E_N1_amostras h3)).am_trans (atualizar_E_N2_amostras h4)
                split at h
                · cases h
                · rename_i R hR
                  cases h
                  obtain ⟨Ra, hRa, hE, hW⟩ := hA.am_some hR
                  rw [hR0] at hRa
                  cases hRa
                  refine ⟨R0, _, hR0, gravar_mesmo _ _ _, ?_, hW, rfl, ?_⟩
                  · show R.E_W1 / _ = _
                    rw [hE]
                  · intro r hr
                    show ((gravar s4.rodadas x _) r).map _ = _
                    rw [gravar_outro _ _ hr]
                    exact hA r

/-- The state in which `processar_chegada_fila_1` reaches the test of line 389: the
arriving customer `n` is in `fila1`, and a round opened by line 386 has no wait yet. -/
theorem chegada_fila_1_fases {cfg : Config} (hcfg : ConfigOk cfg) {s : Estado}
    {a b n : Nat} {t : ℚ} {ev : Evento} {pend : List Evento}
    (hI : Inv cfg s a b n t) (he : s.eventos = ev :: pend)
    (htp : ev.tipo = TipoEvento.chegada_fila_1) :
    ∃ s3, chegada_fila_1_ate_servico cfg s = some s3 ∧ s3.fase_transiente = 0 ∧
      InvQ s3.clientes s3.fila1 s3.fila2 a b (n + 1) ∧ InvC cfg s3.clientes a n ∧
      ∀ r R', s3.rodadas r = some R' →
        (∃ R, s.rodadas r = some R ∧ R'.E_W1 = R.E_W1 ∧ R'.W1 = R.W1) ∨
        (base cfg r = n + 1 ∧ R'.E_W1 = 0) := by
  obtain ⟨hE, hQ, hC, hR, hcur, hft, hnr, hnc⟩ := hI
  rw [he] at hE
  obtain ⟨ht, hP, h1, -, -⟩ := hE.abrir
  have hcn := h1 htp
  have hab := hQ.hab
  have hbn := hQ.hbn
  obtain ⟨rods1, e1, hR1⟩ := chegada_fila_1_integrais_ok he hR ht
  obtain ⟨R1, hRc1, -⟩ := hR1.dentro s.rodada_atual (Nat.le_refl _)
  obtain ⟨mem2, f1', e2, hQ2, hC2⟩ := chegada_fila_1_contagem_ok
    (s := { s with rodadas := rods1 }) he hcn hQ hC hRc1
  obtain ⟨rods3, cur', e3, hR3, hcur3, hcc⟩ := chegada_fila_1_rodada_ok hcfg
    (s := { s with
      rodadas := gravar rods1 s.rodada_atual { R1 with num_chegadas := R1.num_chegadas + 1 }
      clientes := mem2
      fila1 := f1' }) he hft hnr hR1 hRc1 rfl hcur (by omega)
  have A1 := chegada_fila_1_integrais_amostras e1
  have A2 := chegada_fila_1_contagem_amostras e2
  have A3 := chegada_fila_1_rodada_amostras e3
  refine ⟨{ s with rodadas := rods3, rodada_atual := cur', num_rodadas_criadas := cur' + 1,
                   clientes := mem2, fila1 := f1' }, ?_, hft, hQ2, hC2, ?_⟩
  · unfold chegada_fila_1_ate_servico
    rw [e1]
    simp only
    rw [e2]
    simp only
    rw [e3]
  · intro r R' hR'
    rcases A3 r R' hR' with ⟨R, hR2, hE2, hW2⟩ | ⟨hr, hz⟩
    · obtain ⟨Rx, hRx, hEx, hWx⟩ := (A1.am_trans A2).am_some hR2
      exact Or.inl ⟨Rx, hRx, hE2.trans hEx, hW2.trans hWx⟩
    · right
      refine ⟨?_, hz⟩
      have hr' : r = s.rodada_atual + 1 := hr.trans hnr
      have hle : r ≤ cur' := by
        by_contra hx
        have := hR3.fora r (by omega)
        have hR'' : rods3 r = some R' := hR'
        rw [this] at hR''
        cases hR''
      have hc' : cur' = s.rodada_atual + 1 := by
        have hcc' : cur' = s.rodada_atual ∨ cur' = s.rodada_atual + 1 := hcc
        omega
      have hlo := hR3.cur_lo
      rw [hc'] at hlo
      rw [hr']
      omega

/-- The state in which `processar_chegada_fila_2` reaches the test of line 421: customer
`b` has moved to `fila2` and no stage 1 wait has changed. -/
theorem chegada_fila_2_fases {cfg : Config} {s : Estado}
    {a b n : Nat} {t : ℚ} {ev : Evento} {pend : List Evento}
    (hI : Inv cfg s a b n t) (he : s.eventos = ev :: pend)
    (htp : ev.tipo = TipoEvento.chegada_fila_2) :
    ∃ s3, chegada_fila_2_ate_servico s = some s3 ∧ s3.fase_transiente = 0 ∧ b < n ∧
      InvQ s3.clientes s3.fila1 s3.fila2 a (b + 1) n ∧ InvC cfg s3.clientes a n ∧
      AmEq s.rodadas s3.rodadas := by
  obtain ⟨hE, hQ, hC, hR, hcur, hft, hnr, hnc⟩ := hI
  rw [he] at hE
  obtain ⟨ht, hP, -, h2, -⟩ := hE.abrir
  obtain ⟨hcb, hbn⟩ := h2 htp
  have hab := hQ.hab
  obtain ⟨c, R, hc, hRc, -, -, -, -⟩ := cliente_valido hC hR hcur hab (Nat.le_of_lt hbn)
  rw [← hcb] at hc
  obtain ⟨mem1, rods1, e1, hM1, hE1⟩ := chegada_fila_2_cliente_ok he hc hRc
  obtain ⟨rods2, e2, hR2⟩ := chegada_fila_2_integrais_ok
    (s := { s with rodadas := rods1, clientes := mem1 }) he (hR.rod_congr hE1) ht
  obtain ⟨mem3, f1', f2', e3, hQ3, hC3⟩ := chegada_fila_2_mover_ok
    (s := { s with rodadas := rods2, clientes := mem1 }) (hQ.fila_congr hM1) (hC.cli_congr hM1) hbn
  have A1 := chegada_fila_2_cliente_amostras e1
  have A2 := chegada_fila_2_integrais_amostras e2
  refine ⟨{ s with rodadas := rods2, clientes := mem3, fila1 := f1', fila2 := f2' }, ?_, hft,
    hbn, hQ3, hC3, A1.am_trans A2⟩
  unfold chegada_fila_2_ate_servico
  rw [e1]
  simp only
  rw [e2]
  simp only
  rw [e3]

theorem iteracao_rodadas {cfg : Config} {s s' : Estado} (h : iteracao cfg s = some s') :
    ∃ s1, processar_evento_atual cfg s = some s1 ∧ s'.rodadas = s1.rodadas := by
  unfold iteracao at h
  split at h
  · cases h
  · rename_i s1 h1
    split at h
    · cases h
    · cases h
      exact ⟨s1, h1, rfl⟩

theorem Soma.soma_am {cfg : Config} {a m : Nat} {rods rods' : Nat → Option Rodada}
    (hS : Soma cfg a m rods) (h : AmEq rods rods') : Soma cfg a m rods' := by
  intro r R' hr hR' har
  obtain ⟨R, hR, hE, hW⟩ := h.am_some hR'
  rw [hE, hW]
  exact hS r R hr hR har

theorem base_succ_K (cfg : Config) {r : Nat} (hr : 1 ≤ r) :
    base cfg (r + 1) = base cfg r + cfg.K := by
  rw [base_succ]
  unfold quota
  rw [if_neg (by omega)]

theorem Soma.soma_servico {cfg : Config} {a m rc : Nat} {rods : Nat → Option Rodada}
    {R R' : Rodada} {x : ℚ} (hS : Soma cfg a m rods) (hR : rods rc = some R)
    (h1 : base cfg rc ≤ m) (h2 : m < base cfg (rc + 1))
    (hE : R'.E_W1 = R.E_W1 + x)
    (hW : R'.W1 = (if rc ≠ 0 then escrever R.W1 (m - base cfg rc) x else R.W1)) :
    Soma cfg a (m + 1) (gravar rods rc R') := by
  intro r Rr hr hRr har
  by_cases hrc : r = rc
  · subst hrc
    rw [gravar_mesmo] at hRr
    cases hRr
    have hb := base_succ_K cfg hr
    have e1 : min (m + 1 - base cfg r) cfg.K = (m - base cfg r) + 1 := by omega
    have e2 : min (m - base cfg r) cfg.K = m - base cfg r := by omega
    rw [e1, Finset.sum_range_succ, hE, hS r R hr hR (by omega), e2, hW, if_pos (by omega)]
    congr 1
    · refine Finset.sum_congr rfl ?_
      intro i hi
      have hi' := Finset.mem_range.mp hi
      unfold escrever
      rw [if_neg (by omega)]
    · unfold escrever
      rw [if_pos rfl]
  · rw [gravar_outro _ _ hrc] at hRr
    have hb := base_succ_K cfg hr
    have e : min (m + 1 - base cfg r) cfg.K = min (m - base cfg r) cfg.K := by
      rcases Nat.lt_or_gt_of_ne hrc with hlt | hgt
      · have := @base_mono cfg (r + 1) rc (by omega)
        omega
      · have := @base_mono cfg (rc + 1) r (by omega)
        omega
    rw [e]
    exact hS r Rr hr hRr har

theorem Soma.soma_menos {cfg : Config} {a a' m : Nat} {rods : Nat → Option Rodada}
    (hS : Soma cfg a m rods) (h : a ≤ a') : Soma cfg a' m rods :=
  fun r R hr hR har => hS r R hr hR (by omega)

/-- The call of `processar_chegada_servico_1` made for the head `p` of `fila1`, the next
customer to start stage 1, keeps the sums. -/
theorem soma_chamada {cfg : Config} {s3 s4 : Estado} {a m nn : Nat}
    (hS : Soma cfg a m s3.rodadas) (hft : s3.fase_transiente = 0)
    (hp : s3.fila1.primeiro_cliente = some m) (hC : InvC cfg s3.clientes a nn)
    (h1 : a ≤ m) (h2 : m ≤ nn)
    (h : processar_chegada_servico_1 cfg s3 = some s4) :
    Soma cfg a (m + 1) s4.rodadas := by
  obtain ⟨ev, resto, p, c, R, R', -, hp', hc, hR, e, hE, hW⟩ := servico_1_amostra h
  rw [hp] at hp'
  cases hp'
  obtain ⟨c', hc', b1, b2, b3⟩ := hC m h1 h2
  rw [hc] at hc'
  cases hc'
  rw [e]
  refine hS.soma_servico hR b1 b2 hE ?_
  rw [hW, hft, b3]

theorem encerrar_coleta_encerradas {cfg : Config} {s s' : Estado} {x : Nat}
    (h : encerrar_coleta cfg x s = some s') :
    s'.rodadas_encerradas = s.rodadas_encerradas := by
  unfold encerrar_coleta at h
  split at h
  · cases h
  · split at h
    · cases h
    · split at h
      · cases h
      · simp only at h
        split at h
        · cases h
        · rename_i s1 h1
          split at h
          · cases h
          · rename_i s2 h2
            split at h
            · cases h
            · rename_i s3 h3
              split at h
              · cases h
              · rename_i s4 h4
                obtain ⟨r1, rfl⟩ := atualizar_E_Nq1_forma h1
                obtain ⟨r2, rfl⟩ := atualizar_E_Nq2_forma h2
                obtain ⟨r3, rfl⟩ := atualizar_E_N1_forma h3
                obtain ⟨r4, rfl⟩ := atualizar_E_N2_forma h4
                split at h
                · cases h
                · cases h
                  rfl

theorem partida_encerramento_amostras {cfg : Config} {s s' : Estado}
    (h : partida_encerramento cfg s = some s') :
    ∃ ev pend c, s.eventos = ev :: pend ∧ s.clientes ev.cliente = some c ∧
      ∀ r, (s'.rodadas r).map Rodada.amostra_1 = (s.rodadas r).map Rodada.amostra_1 ∨
        (r = c.rodada ∧ s'.rodadas_encerradas = s.rodadas_encerradas + 1) := by
  unfold partida_encerramento at h
  split at h
  · cases h
  · rename_i ev pend he
    split at h
    · cases h
    · rename_i c hc
      split at h
      · cases h
      · split at h
        · split at h
          · cases h
          · rename_i sy hy
            cases h
            refine ⟨ev, pend, c, he, hc, ?_⟩
            intro r
            obtain ⟨R0, R', -, -, -, -, -, hfr⟩ := encerrar_coleta_amostras hy
            by_cases hr : r = c.rodada
            · right
              refine ⟨hr, ?_⟩
              show sy.rodadas_encerradas + 1 = _
              rw [encerrar_coleta_encerradas hy]
            · exact Or.inl (hfr r hr)
        · cases h
          exact ⟨ev, pend, c, he, hc, fun r => Or.inl rfl⟩

theorem amostra_1_some {o : Option Rodada} {R' : Rodada}
    (h : some R'.amostra_1 = o.map Rodada.amostra_1) :
    ∃ R, o = some R ∧ R'.E_W1 = R.E_W1 ∧ R'.W1 = R.W1 := by
  cases o with
  | none => cases h
  | some R =>
    simp only [Option.map_some', Option.some.injEq, Rodada.amostra_1, Prod.mk.injEq] at h
    exact ⟨R, rfl, h.1, h.2⟩

/-- One pass of the main loop keeps the sums of the open rounds. -/
theorem passo_soma {cfg : Config} (hcfg : ConfigOk cfg) {s s' : Estado}
    {a b n : Nat} {t : ℚ} {ev : Evento} {pend : List Evento}
    (hI : Inv cfg s a b n t) (he : s.eventos = ev :: pend)
    (hit : iteracao cfg s = some s') (hS : Soma cfg a (min (b + 1) n) s.rodadas) :
    Soma cfg (a + if ev.tipo = TipoEvento.partida then 1 else 0)
      (min (b + (if ev.tipo = TipoEvento.chegada_fila_2 then 1 else 0) + 1)
        (n + if ev.tipo = TipoEvento.chegada_fila_1 then 1 else 0)) s'.rodadas := by
  obtain ⟨s1, hp, hr⟩ := iteracao_rodadas hit
  rw [hr]
  unfold processar_evento_atual at hp
  rw [he] at hp
  simp only at hp
  have hab := hI.filas.hab
  have hbn := hI.filas.hbn
  cases htp : ev.tipo with
  | chegada_fila_1 =>
    rw [htp] at hp
    simp only at hp
    simp only [reduceCtorEq, if_true, if_false, Nat.add_zero]
    obtain ⟨s3, hA, hft, hQ3, hC3, hrel⟩ := chegada_fila_1_fases hcfg hI he htp
    rw [processar_chegada_fila_1_servico, hA] at hp
    simp only at hp
    have hS3 : Soma cfg a (min (b + 1) n) s3.rodadas := by
      intro r R' hr1 hR' har
      rcases hrel r R' hR' with ⟨R, hR, hE, hW⟩ | ⟨hb, hz⟩
      · rw [hE, hW]
        exact hS r R hr1 hR har
      · rw [hz]
        have e0 : min (min (b + 1) n - base cfg r) cfg.K = 0 := by omega
        rw [e0]
        simp
    by_cases hf : s3.fila1.num_clientes = 1
    · rw [if_pos hf] at hp
      split at hp
      · cases hp
      · rename_i s4 h4
        have hb : b = n := by have := hQ3.f1_n; omega
        rw [chegada_fila_1_proxima_rodadas hp]
        have e1 : min (b + 1) n = n := by omega
        have e2 : min (b + 1) (n + 1) = n + 1 := by omega
        rw [e1] at hS3
        rw [e2]
        exact soma_chamada hS3 hft (by rw [hQ3.f1_p (by omega), hb]) hC3 (by omega)
          (Nat.le_refl n) h4
    · rw [if_neg hf] at hp
      simp only at hp
      rw [chegada_fila_1_proxima_rodadas hp]
      have hb : b < n := by have := hQ3.f1_n; omega
      have e1 : min (b + 1) (n + 1) = min (b + 1) n := by omega
      rw [e1]
      exact hS3
  | chegada_fila_2 =>
    rw [htp] at hp
    simp only at hp
    simp only [reduceCtorEq, if_true, if_false, Nat.add_zero]
    obtain ⟨s3, hA, hft, hbn', hQ3, hC3, hAm⟩ := chegada_fila_2_fases hI he htp
    rw [processar_chegada_fila_2_servico, hA] at hp
    simp only at hp
    have hS3 := hS.soma_am hAm
    by_cases hf : s3.fila1.num_clientes > 0
    · rw [if_pos hf] at hp
      have hb1 : b + 1 < n := by have := hQ3.f1_n; omega
      have e1 : min (b + 1) n = b + 1 := by omega
      have e2 : min (b + 1 + 1) n = b + 1 + 1 := by omega
      rw [e1] at hS3
      rw [e2]
      exact soma_chamada hS3 hft (hQ3.f1_p hb1) hC3 (by omega) (by omega) hp
    · rw [if_neg hf] at hp
      have hb1 : b + 1 = n := by have := hQ3.f1_n; omega
      have e1 : min (b + 1 + 1) n = min (b + 1) n := by omega
      rw [e1]
      exact hS3.soma_am (servico_2_amostras hp)
  | partida =>
    rw [htp] at hp
    simp only at hp
    simp only [reduceCtorEq, if_true, if_false, Nat.add_zero]
    obtain ⟨c, R1, rods2, rods3, f2', hc, hca, hab', hbn', hb1, hb2, e1, e2, e3, e5⟩ :=
      processar_partida_fases hI he htp
    rw [e5] at hp
    have A1 := partida_contagem_amostras e1
    obtain ⟨ev', pend', c', he', hc', hrel⟩ := partida_encerramento_amostras e2
    have he2 : ev :: pend = ev' :: pend' := he.symm.trans he'
    cases he2
    have hc2 : s.clientes ev.cliente = some c' := hc'
    rw [hc] at hc2
    cases hc2
    have A3 := partida_integrais_amostras e3
    have hS3 : Soma cfg (a + 1) (min (b + 1) n) rods3 := by
      intro r R' hr1 hR' har
      obtain ⟨R2, hR2, hE, hW⟩ := A3.am_some hR'
      rcases hrel r with hsame | ⟨hrc, hre⟩
      · have h2 : (rods2 r).map Rodada.amostra_1 = (s.rodadas r).map Rodada.amostra_1 :=
          hsame.trans (A1 r)
        have hR2' : rods2 r = some R2 := hR2
        rw [hR2'] at h2
        obtain ⟨R, hR, hE', hW'⟩ := amostra_1_some h2
        rw [hE, hW, hE', hW']
        exact hS r R hr1 hR (by omega)
      · exfalso
        have hre' : s.rodadas_encerradas +
            (if a + 1 = base cfg (c.rodada + 1) then 1 else 0) = s.rodadas_encerradas + 1 := hre
        rw [hrc] at har
        rw [if_neg (by omega)] at hre'
        omega
    by_cases hf : 0 < f2'.num_clientes
    · rw [if_pos hf] at hp
      exact hS3.soma_am (servico_2_amostras hp)
    · rw [if_neg hf] at hp
      cases hp
      exact hS3

/-- In every state that the main loop reaches, the `E_W1` of an open round other than the
transient one is the sum of the `W1` entries of its customers that have started stage 1. -/
theorem rodar_soma {cfg : Config} (hcfg : ConfigOk cfg) :
    ∀ (k : Nat) (s : Estado), rodar cfg k = some s →
      Soma cfg (processados cfg TipoEvento.partida k)
        (min (processados cfg TipoEvento.chegada_fila_2 k + 1)
          (processados cfg TipoEvento.chegada_fila_1 k)) s.rodadas := by
  intro k
  induction k with
  | zero =>
    intro s hs
    have hI := rodar_inv hcfg 0 s hs
    simp only [rodar, Option.some.injEq] at hs
    subst hs
    intro r R hr hR _
    have hcur : (inicial cfg).rodada_atual = 0 := by
      simp only [inicial, iniciar_fase_transiente, criar_rodada, amostra_exponencial,
        criar_cliente, gravar_mesmo]
    have := hI.rods.fora r (by rw [hcur]; omega)
    rw [this] at hR
    cases hR
  | succ k ih =>
    intro s' hs'
    obtain ⟨s, hs, -, hit⟩ := rodar_succ hs'
    have hI := rodar_inv hcfg k s hs
    obtain ⟨ev, pend, he⟩ := hI.eventos_ne
    have hev := evento_processado_eq hs hs' he
    rw [processados_succ _ hev, processados_succ _ hev, processados_succ _ hev]
    exact passo_soma hcfg hI he hit (ih s hs)

/-- The state of a call of `encerrar_coleta` on a round other than the transient one: the
departure being handled is the last one of the round, all the customers of the round have
arrived and left `fila1`, and the round has counted `K` arrivals. -/
theorem chamada_encerrar_fim {cfg : Config} (hcfg : ConfigOk cfg) {j : Nat} {s1 : Estado}
    {r : Nat} {R1 : Rodada} (hch : chamada_encerrar cfg j = some (s1, r, R1)) (hr : 1 ≤ r) :
    ∃ s R, rodar cfg j = some s ∧ s.rodadas r = some R ∧ s1.rodadas r = some R1 ∧
      R1.E_W1 = R.E_W1 ∧ R1.W1 = R.W1 ∧ R1.num_chegadas = cfg.K ∧
      processados cfg TipoEvento.partida j + 1 = base cfg (r + 1) ∧
      processados cfg TipoEvento.partida j < processados cfg TipoEvento.chegada_fila_2 j ∧
      processados cfg TipoEvento.chegada_fila_2 j =
        processados cfg TipoEvento.chegada_fila_1 j := by
  have hsj : ∃ sj, rodar cfg j = some sj := by
    cases hx : rodar cfg j with
    | some sj => exact ⟨sj, rfl⟩
    | none =>
      unfold chamada_encerrar at hch
      rw [hx] at hch
      cases hch
  obtain ⟨s, hs⟩ := hsj
  have hI := rodar_inv hcfg j s hs
  obtain ⟨ev, pend, he⟩ := hI.eventos_ne
  obtain ⟨htp, c', hc', hrc, hA, hRA, hat⟩ := chamada_encerrar_forma hs he hch
  obtain ⟨c, R1', rods2, rods3, f2', hc, hca, hab, hbn, hb1, hb2, -, -, -, -⟩ :=
    processar_partida_fases hI he htp
  have hcc : c = c' := by
    rw [hc] at hc'
    exact Option.some.inj hc'
  subst hcc
  subst hrc
  have hle : c.rodada ≤ s.rodada_atual :=
    base_le_of_lt hb1 (Nat.lt_of_le_of_lt (Nat.le_of_lt (hbn ▸ hab)) hI.cur_hi)
  obtain ⟨R, hR, hnc, hnp, -⟩ := hI.rods.dentro c.rodada hle
  obtain ⟨Rx, ex, hxp, hxc, -, -⟩ := partida_contagem_ok he hc hR hI.rods hb1 hb2
  rw [ex] at hA
  cases hA
  have hRA' : gravar s.rodadas c.rodada Rx c.rodada = some R1 := hRA
  rw [gravar_mesmo] at hRA'
  cases hRA'
  have hK := base_succ_K cfg hr
  have hq : quota cfg c.rodada = cfg.K := by
    unfold quota
    rw [if_neg (by omega)]
  have hft : s.fase_transiente = 0 := hI.ft
  have hnpK : R1.num_partidas = cfg.K := by
    rcases hat with ⟨-, h⟩ | ⟨h, -⟩
    · exact h
    · exfalso
      have h' : c.rodada = s.fase_transiente := h
      omega
  have hfim : processados cfg TipoEvento.partida j + 1 = base cfg (c.rodada + 1) := by
    rw [hxp, hnp, hq] at hnpK
    omega
  have hncK : R1.num_chegadas = cfg.K := by
    rw [hxc, hnc, hq]
    omega
  obtain ⟨Ra, hRa, hE, hW⟩ := (partida_contagem_amostras ex).am_some hRA
  rw [hR] at hRa
  cases hRa
  exact ⟨s, R, hs, hR, hRA, hE, hW, hncK, hfim, hab, hbn⟩

/-- When `encerrar_coleta` returns from closing a round other than the transient one, the
`K` entries of `W1` add up to `K` times the normalised `E_W1`, and `V_W1` is the variance
of the entries around it. -/
theorem fechada_soma {cfg : Config} (hcfg : ConfigOk cfg) {j : Nat} {s1 s2 : Estado}
    {r : Nat} {R1 : Rodada} (hch : chamada_encerrar cfg j = some (s1, r, R1)) (hr : 1 ≤ r)
    (hy : encerrar_coleta cfg r s1 = some s2) :
    ∃ R', s2.rodadas r = some R' ∧
      ∑ i in Finset.range cfg.K, R'.W1 i = (cfg.K : ℚ) * R'.E_W1 ∧
      R'.V_W1 = variancia cfg R'.E_W1 R'.W1 := by
  obtain ⟨s, R, hs, hR, hRA, hE, hW, hncK, hfim, hab, hbn⟩ := chamada_encerrar_fim hcfg hch hr
  have hK := base_succ_K cfg hr
  have hsum := rodar_soma hcfg j s hs r R hr hR (by omega)
  have e : min (min (processados cfg TipoEvento.chegada_fila_2 j + 1)
      (processados cfg TipoEvento.chegada_fila_1 j) - base cfg r) cfg.K = cfg.K := by
    omega
  rw [e] at hsum
  obtain ⟨R0, R', hR0, hR', hE', hW', hV, -⟩ := encerrar_coleta_amostras hy
  rw [hRA] at hR0
  cases hR0
  refine ⟨R', hR', ?_, hV⟩
  rw [hW', hE', hW, hE, hncK, hsum]
  have hKq : (cfg.K : ℚ) ≠ 0 := by
    have := hcfg.hK
    exact_mod_cast (by omega : cfg.K ≠ 0)
  rw [mul_div_cancel₀ _ hKq]

/-- A pass of the main loop either starts no stage 1 service, or starts the one of the next
customer in order of arrival. -/
theorem iniciados_passo {cfg : Config} (hcfg : ConfigOk cfg) (k : Nat) :
    (servico_1_iniciado cfg k = none ∧ iniciados cfg (k + 1) = iniciados cfg k) ∨
    (∃ rr, servico_1_iniciado cfg k =
        some (iniciados cfg k, rr, iniciados cfg k - base cfg rr) ∧
      base cfg rr ≤ iniciados cfg k ∧ iniciados cfg k < base cfg (rr + 1) ∧
      iniciados cfg (k + 1) = iniciados cfg k + 1) := by
  cases hs' : rodar cfg (k + 1) with
  | none =>
    left
    have hev : evento_processado cfg k = none := by
      unfold evento_processado
      rw [hs']
      cases rodar cfg k <;> rfl
    refine ⟨?_, ?_⟩
    · unfold servico_1_iniciado inicio_servico_1
      cases hs : rodar cfg k with
      | none => rfl
      | some s =>
        simp only
        by_cases hg : s.rodadas_encerradas < cfg.NUM_RODADAS + 1
        · obtain ⟨s', h⟩ := rodar_progresso hcfg hs hg
          rw [hs'] at h
          cases h
        · rw [if_neg hg]
    · unfold iniciados
      rw [processados_none _ hev, processados_none _ hev]
  | some s' =>
    obtain ⟨s, hs, hg, hit⟩ := rodar_succ hs'
    have hI := rodar_inv hcfg k s hs
    obtain ⟨ev, pend, he⟩ := hI.eventos_ne
    have hev := evento_processado_eq hs hs' he
    have hab := hI.filas.hab
    have hbn := hI.filas.hbn
    unfold servico_1_iniciado inicio_servico_1 iniciados
    rw [processados_succ _ hev, processados_succ _ hev, hs]
    simp only [if_pos hg, he]
    cases htp : ev.tipo with
    | chegada_fila_1 =>
      simp only [reduceCtorEq, if_true, if_false, Nat.add_zero]
      obtain ⟨s3, hA, hft, hQ3, hC3, -⟩ := chegada_fila_1_fases hcfg hI he htp
      rw [hA]
      simp only
      by_cases hf : s3.fila1.num_clientes = 1
      · right
        have hb : processados cfg TipoEvento.chegada_fila_2 k =
            processados cfg TipoEvento.chegada_fila_1 k := by have := hQ3.f1_n; omega
        obtain ⟨c, hc, b1, b2, b3⟩ := hC3 _ (by omega) (Nat.le_refl _)
        have hp := hQ3.f1_p (by omega)
        rw [hb] at hp
        have e1 : min (processados cfg TipoEvento.chegada_fila_1 k + 1)
            (processados cfg TipoEvento.chegada_fila_1 k) =
            processados cfg TipoEvento.chegada_fila_1 k := by omega
        rw [if_pos hf, hb, e1]
        simp only [hp, hc]
        refine ⟨c.rodada, ?_, b1, b2, by omega⟩
        rw [b3]
      · left
        rw [if_neg hf]
        have := hQ3.f1_n
        exact ⟨rfl, by omega⟩
    | chegada_fila_2 =>
      simp only [reduceCtorEq, if_true, if_false, Nat.add_zero]
      obtain ⟨s3, hA, hft, hbn', hQ3, hC3, -⟩ := chegada_fila_2_fases hI he htp
      rw [hA]
      simp only
      by_cases hf : s3.fila1.num_clientes > 0
      · right
        have hb1 : processados cfg TipoEvento.chegada_fila_2 k + 1 <
            processados cfg TipoEvento.chegada_fila_1 k := by have := hQ3.f1_n; omega
        obtain ⟨c, hc, b1, b2, b3⟩ := hC3 _ (by omega) (Nat.le_of_lt hb1)
        have hp := hQ3.f1_p hb1
        have e1 : min (processados cfg TipoEvento.chegada_fila_2 k + 1)
            (processados cfg TipoEvento.chegada_fila_1 k) =
            processados cfg TipoEvento.chegada_fila_2 k + 1 := by omega
        rw [if_pos hf, e1]
        simp only [hp, hc]
        refine ⟨c.rodada, ?_, b1, b2, by omega⟩
        rw [b3]
      · left
        rw [if_neg hf]
        have := hQ3.f1_n
        exact ⟨rfl, by omega⟩
    | partida =>
      simp only [reduceCtorEq, if_true, if_false, Nat.add_zero]
      exact Or.inl ⟨trivial, trivial⟩

theorem iniciados_mono {cfg : Config} (hcfg : ConfigOk cfg) {j k : Nat} (h : j ≤ k) :
    iniciados cfg j ≤ iniciados cfg k := by
  induction h with
  | refl => exact Nat.le_refl _
  | @step m _ ih =>
    show iniciados cfg j ≤ iniciados cfg (m + 1)
    rcases iniciados_passo hcfg m with ⟨-, e⟩ | ⟨rr, -, -, -, e⟩ <;> omega

theorem servico_1_iniciado_forma {cfg : Config} (hcfg : ConfigOk cfg) {k p rr ii : Nat}
    (h : servico_1_iniciado cfg k = some (p, rr, ii)) :
    p = iniciados cfg k ∧ iniciados cfg (k + 1) = p + 1 ∧ base cfg rr ≤ p ∧
      p < base cfg (rr + 1) ∧ ii = p - base cfg rr := by
  rcases iniciados_passo hcfg k with ⟨e, -⟩ | ⟨r, e, b1, b2, e'⟩
  · rw [e] at h
    cases h
  · rw [e] at h
    simp only [Option.some.injEq, Prod.mk.injEq] at h
    obtain ⟨h1, h2, h3⟩ := h
    subst h1
    subst h2
    exact ⟨rfl, e', b1, b2, h3.symm⟩

/-- Stage 1 service is started at most once for a customer. -/
theorem servico_1_iniciado_unico {cfg : Config} (hcfg : ConfigOk cfg) {m m' p : Nat}
    {x x' : Nat × Nat} (h : servico_1_iniciado cfg m = some (p, x))
    (h' : servico_1_iniciado cfg m' = some (p, x')) : m = m' := by
  obtain ⟨r1, i1⟩ := x
  obtain ⟨r2, i2⟩ := x'
  obtain ⟨a1, a2, -⟩ := servico_1_iniciado_forma hcfg h
  obtain ⟨c1, c2, -⟩ := servico_1_iniciado_forma hcfg h'
  rcases Nat.lt_trichotomy m m' with hlt | heq | hgt
  · have := iniciados_mono hcfg (show m + 1 ≤ m' from hlt)
    omega
  · exact heq
  · have := iniciados_mono hcfg (show m' + 1 ≤ m from hgt)
    omega

/-- Stage 1 service has been started for every customer counted by `iniciados`. -/
theorem servico_1_iniciado_existe {cfg : Config} (hcfg : ConfigOk cfg) {p : Nat} :
    ∀ k, p < iniciados cfg k → ∃ m x, m < k ∧ servico_1_iniciado cfg m = some (p, x) := by
  intro k
  induction k with
  | zero =>
    intro h
    simp [iniciados, processados] at h
  | succ k ih =>
    intro h
    by_cases hp : p < iniciados cfg k
    · obtain ⟨m, x, hm, hx⟩ := ih hp
      exact ⟨m, x, by omega, hx⟩
    · rcases iniciados_passo hcfg k with ⟨-, e⟩ | ⟨rr, e, -, -, e'⟩
      · omega
      · have hpe : p = iniciados cfg k := by omega
        exact ⟨k, _, Nat.lt_succ_self k, hpe ▸ e⟩

/-- C24: for a round `r` other than the transient one on which `encerrar_coleta` has been
called (by pass `j + 1`), each of its `K` customers `base r + i` has had
`processar_chegada_servico_1` called for it in a pass before the closing one, with
`cliente->rodada = r` and `cliente->indice_rodada = i`, so that the call writes `W1[i]` of
the round, and no other call of the run names the entry `i` of round `r`; no customer is
served by two calls.  In every later state the `K` entries of `W1` add up to `K` times the
normalised `E_W1` of the round, and `V_W1` is `variancia` of `W1` around that `E_W1`. -/
theorem amostras_W1_da_rodada {cfg : Config} (hcfg : ConfigOk cfg) {j k : Nat}
    {s1 s : Estado} {r : Nat} {R1 R : Rodada}
    (hch : chamada_encerrar cfg j = some (s1, r, R1)) (hjk : j < k)
    (hs : rodar cfg k = some s) (hr : r ≠ s.fase_transiente) (hR : s.rodadas r = some R) :
    (∀ i, i < cfg.K → ∃ m, m < j ∧
      servico_1_iniciado cfg m = some (base cfg r + i, r, i) ∧
      ∀ m' p, servico_1_iniciado cfg m' = some (p, r, i) → m' = m) ∧
    (∀ m m' p x x', servico_1_iniciado cfg m = some (p, x) →
      servico_1_iniciado cfg m' = some (p, x') → m = m') ∧
    ∑ i in Finset.range cfg.K, R.W1 i = (cfg.K : ℚ) * R.E_W1 ∧
    R.V_W1 = variancia cfg R.E_W1 R.W1 := by
  have hr1 : 1 ≤ r := by
    have := (rodar_inv hcfg k s hs).ft
    omega
  obtain ⟨sj, Rj, hsj, -, -, -, -, -, hfim, hab, hbn⟩ := chamada_encerrar_fim hcfg hch hr1
  obtain ⟨s2, hy⟩ := chamada_encerrar_retorna hsj (rodar_inv hcfg j sj hsj) hch
  obtain ⟨R', hR', hsum, hV⟩ := fechada_soma hcfg hch hr1 hy
  have hQ := rodar_quadro hcfg k s hs
  have hrod := hQ.rod _ _ ⟨j, s1, R1, s2, hjk, hch, hy, rfl⟩
  rw [hrod, hR'] at hR
  cases hR
  have hK := base_succ_K cfg hr1
  refine ⟨?_, ?_, hsum, hV⟩
  · intro i hi
    have hp : base cfg r + i < iniciados cfg j := by
      unfold iniciados
      omega
    obtain ⟨m, x, hm, hx⟩ := servico_1_iniciado_existe hcfg j hp
    obtain ⟨rr, ii⟩ := x
    obtain ⟨-, -, b1, b2, b3⟩ := servico_1_iniciado_forma hcfg hx
    have hrr : rr = r := base_unico b1 b2 (by omega) (by omega)
    subst hrr
    have hii : ii = i := by omega
    subst hii
    refine ⟨m, hm, hx, ?_⟩
    intro m' p h'
    obtain ⟨-, -, c1, -, c3⟩ := servico_1_iniciado_forma hcfg h'
    have hpe : p = base cfg rr + ii := by omega
    subst hpe
    exact servico_1_iniciado_unico hcfg h' hx
  · intro m m' p x x' h h'
    exact servico_1_iniciado_unico hcfg h h'

/-- Witness of C24 on the example run: round 1, closed by the ninth pass. -/
theorem amostras_W1_da_rodada_witness :
    ∃ s1 R1 s R, chamada_encerrar cfg_exemplo 8 = some (s1, 1, R1) ∧ 8 < 9 ∧
      rodar cfg_exemplo 9 = some s ∧ 1 ≠ s.fase_transiente ∧ s.rodadas 1 = some R ∧
      (∀ i, i < cfg_exemplo.K → ∃ m, m < 8 ∧
        servico_1_iniciado cfg_exemplo m = some (base cfg_exemplo 1 + i, 1, i) ∧
        ∀ m' p, servico_1_iniciado cfg_exemplo m' = some (p, 1, i) → m' = m) ∧
      (∀ m m' p x x', servico_1_iniciado cfg_exemplo m = some (p, x) →
        servico_1_iniciado cfg_exemplo m' = some (p, x') → m = m') ∧
      ∑ i in Finset.range cfg_exemplo.K, R.W1 i = (cfg_exemplo.K : ℚ) * R.E_W1 ∧
      R.V_W1 = variancia cfg_exemplo R.E_W1 R.W1 := by
  have h1 : (chamada_encerrar cfg_exemplo 8).map (fun x => x.2.1) = some 1 := by
    with_unfolding_all rfl
  obtain ⟨s, hs⟩ := Option.isSome_iff_exists.mp
    (show (rodar cfg_exemplo 9).isSome = true by decide!)
  have h2 : ((rodar cfg_exemplo 9).bind fun s => s.rodadas 1).isSome = true := by decide!
  rw [hs] at h2
  simp only [Option.some_bind] at h2
  obtain ⟨R, hR⟩ := Option.isSome_iff_exists.mp h2
  have hft : 1 ≠ s.fase_transiente := by
    rw [(rodar_inv cfg_exemplo_ok 9 s hs).ft]
    decide
  cases hch : chamada_encerrar cfg_exemplo 8 with
  | none => rw [hch] at h1; cases h1
  | some x =>
    obtain ⟨s1, r, R1⟩ := x
    rw [hch] at h1
    simp only [Option.map_some', Option.some.injEq] at h1
    subst h1
    exact ⟨s1, R1, s, R, rfl, by decide, hs, hft, hR,
      amostras_W1_da_rodada cfg_exemplo_ok hch (by decide) hs hft hR⟩

/-- C21, evaluated on the example run in memory where the entries of `W2` hold 7 when
`malloc` returns: round 1, which is not the transient one, is closed by the ninth pass.
The stage 2 waits added to its `E_W2` total 4 when `encerrar_coleta` is called, and its
normalised `E_W2` is 2, but `W2[0]` and `W2[1]` are 9 each, the waits of 2 added to the 7
that the entries held: the entries add up to 18 and not to `K` times `E_W2`.  In the same
run started in memory that holds zeros (`cfg_exemplo`) the two entries are 2. -/
theorem amostras_W2_memoria_suja :
    ∃ s1 R1 s R, chamada_encerrar cfg_memoria_suja 8 = some (s1, 1, R1) ∧
      rodar cfg_memoria_suja 9 = some s ∧ s.rodadas 1 = some R ∧
      1 ≠ s.fase_transiente ∧ R1.E_W2 = 4 ∧ R.E_W2 = 2 ∧ R.W2 0 = 9 ∧ R.W2 1 = 9 ∧
      ∑ i in Finset.range cfg_memoria_suja.K, R.W2 i ≠ (cfg_memoria_suja.K : ℚ) * R.E_W2 ∧
      (rodar cfg_exemplo 9).bind (fun s0 => (s0.rodadas 1).map (fun R0 => (R0.W2 0, R0.W2 1)))
        = some (2, 2) := by
  have h1 : (chamada_encerrar cfg_memoria_suja 8).map (fun x => (x.2.1, x.2.2.E_W2)) =
      some (1, 4) := by
    with_unfolding_all rfl
  obtain ⟨s, hs⟩ := Option.isSome_iff_exists.mp
    (show (rodar cfg_memoria_suja 9).isSome = true by decide!)
  have h3 : ((rodar cfg_memoria_suja 9).bind fun s => s.rodadas 1).isSome = true := by decide!
  have h4 : ((rodar cfg_memoria_suja 9).bind fun s =>
      (s.rodadas 1).map fun R => (s.fase_transiente, R.E_W2, R.W2 0, R.W2 1)) =
      some (0, 2, 9, 9) := by
    decide!
  rw [hs] at h3 h4
  simp only [Option.some_bind] at h3 h4
  obtain ⟨R, hR⟩ := Option.isSome_iff_exists.mp h3
  rw [hR] at h4
  simp only [Option.map_some', Option.some.injEq, Prod.mk.injEq] at h4
  obtain ⟨h5, h6, h7, h8⟩ := h4
  cases hch : chamada_encerrar cfg_memoria_suja 8 with
  | none => rw [hch] at h1; cases h1
  | some x =>
    obtain ⟨s1, r, R1⟩ := x
    rw [hch] at h1
    simp only [Option.map_some', Option.some.injEq, Prod.mk.injEq] at h1
    obtain ⟨h9, h10⟩ := h1
    subst h9
    refine ⟨s1, R1, s, R, rfl, hs, hR, by rw [h5]; decide, h10, h6, h7, h8, ?_, by decide!⟩
    have hK : cfg_memoria_suja.K = 2 := rfl
    rw [hK, Finset.sum_range_succ, Finset.sum_range_one, h6, h7, h8]
    norm_num

/-! ## The stage 1 estimators that `encerrar_coleta` stores -/

/-- The rational quotients that `encerrar_coleta` holds in the model are those of the
operands of lines 541 and 543. -/
theorem encerrar_coleta_operandos {cfg : Config} {s s' : Estado} {r : Nat}
    (h : encerrar_coleta cfg r s = some s') :
    ∃ x y d R', operandos_fila_1 r s = some (x, y, d) ∧ s'.rodadas r = some R' ∧
      R'.E_Nq1 = x / d ∧ R'.E_N1 = y / d := by
  unfold encerrar_coleta at h
  unfold operandos_fila_1
  split at h
  · cases h
  · rename_i R0 h0
    split at h
    · cases h
    · rename_i q hq
      split at h
      · cases h
      · rename_i Rq hRq
        simp only at h
        split at h
        · cases h
        · rename_i s1 h1
          split at h
          · cases h
          · rename_i s2 h2
            split at h
            · cases h
            · rename_i s3 h3
              split at h
              · cases h
              · rename_i s4 h4
                split at h
                · cases h
                · rename_i R hR
                  cases h
                  simp only [h0, hq, hRq, h1, h2, h3, h4, hR]
                  exact ⟨_, _, _, _, rfl, gravar_mesmo _ _ _, rfl, rfl⟩

theorem operandos_fila_1_duracao {s : Estado} {r : Nat} {x y d : ℚ}
    (h : operandos_fila_1 r s = some (x, y, d)) :
    ∃ R0 q Rq, s.rodadas r = some R0 ∧ R0.prox_rodada = some q ∧ s.rodadas q = some Rq ∧
      d = Rq.inicio - R0.inicio := by
  unfold operandos_fila_1 at h
  split at h
  · cases h
  · rename_i R0 h0
    split at h
    · cases h
    · rename_i q hq
      split at h
      · cases h
      · rename_i Rq hRq
        simp only at h
        split at h
        · cases h
        · split at h
          · cases h
          · split at h
            · cases h
            · split at h
              · cases h
              · split at h
                · cases h
                · simp only [Option.some.injEq, Prod.mk.injEq] at h
                  exact ⟨R0, q, Rq, h0, hq, hRq, h.2.2.symm⟩

theorem chamada_encerrar_guarda {cfg : Config} {j : Nat} {s s1 : Estado} {r : Nat}
    {R1 : Rodada} (hs : rodar cfg j = some s)
    (hch : chamada_encerrar cfg j = some (s1, r, R1)) :
    s.rodadas_encerradas < cfg.NUM_RODADAS + 1 := by
  unfold chamada_encerrar at hch
  rw [hs] at hch
  simp only at hch
  split at hch
  · assumption
  · cases hch

/-- A call of `encerrar_coleta` made in a run on a round whose duration is not zero divides
by a positive duration: the doubles stored in `E_Nq1` and `E_N1` are the quotients of the
integrals, and the second is at least the first. -/
theorem estimadores_1_duracao_nao_nula {cfg : Config} (hcfg : ConfigOk cfg) {j : Nat}
    {s1 : Estado} {r : Nat} {R1 : Rodada} {x y d : ℚ}
    (hch : chamada_encerrar cfg j = some (s1, r, R1))
    (hop : operandos_fila_1 r s1 = some (x, y, d)) (hd : d ≠ 0) :
    0 < d ∧ x ≤ y ∧
      estimadores_fila_1 r s1 = some (Duplo.numero (x / d), Duplo.numero (y / d)) ∧
      Duplo.maior_ou_igual (Duplo.numero (y / d)) (Duplo.numero (x / d)) = true := by
  have hsj : ∃ sj, rodar cfg j = some sj := by
    cases hx : rodar cfg j with
    | some sj => exact ⟨sj, rfl⟩
    | none =>
      unfold chamada_encerrar at hch
      rw [hx] at hch
      cases hch
  obtain ⟨s, hs⟩ := hsj
  have hI := rodar_inv hcfg j s hs
  have hg := chamada_encerrar_guarda hs hch
  obtain ⟨s', hs'⟩ := rodar_progresso hcfg hs hg
  obtain ⟨s2, hy⟩ := chamada_encerrar_retorna hs hI hch
  obtain ⟨x', y', d', R', hop', hR', e1, e2⟩ := encerrar_coleta_operandos hy
  rw [hop] at hop'
  simp only [Option.some.injEq, Prod.mk.injEq] at hop'
  obtain ⟨hx, hy', hd'⟩ := hop'
  subst hx
  subst hy'
  subst hd'
  have hQ := rodar_quadro hcfg (j + 1) s' hs'
  have hrod := hQ.rod _ _ ⟨j, s1, R1, s2, Nat.lt_succ_self j, hch, hy, rfl⟩
  have hord := (rodar_inv hcfg (j + 1) s' hs').rods.ord1 r R' (hrod.trans hR')
  rw [e1, e2] at hord
  -- the duration is not negative
  obtain ⟨R0, q, Rq, h0, hq, hRq, hdur⟩ := operandos_fila_1_duracao hop
  obtain ⟨ev, pend, he⟩ := hI.eventos_ne
  obtain ⟨htp, c', hc', hrc, hA, hRA, hat⟩ := chamada_encerrar_forma hs he hch
  obtain ⟨c, R1', rods2, rods3, f2', hc, hca, hab, hbn, hb1, hb2, -, -, -, -⟩ :=
    processar_partida_fases hI he htp
  have hcc : c = c' := by
    rw [hc] at hc'
    exact Option.some.inj hc'
  subst hcc
  subst hrc
  have hle : c.rodada ≤ s.rodada_atual :=
    base_le_of_lt hb1 (Nat.lt_of_le_of_lt (Nat.le_of_lt (hbn ▸ hab)) hI.cur_hi)
  obtain ⟨R, hR, -⟩ := hI.rods.dentro c.rodada hle
  obtain ⟨Rx, ex, -, -, hpx, hRod1⟩ := partida_contagem_ok he hc hR hI.rods hb1 hb2
  rw [ex] at hA
  cases hA
  have h0' : gravar s.rodadas c.rodada Rx c.rodada = some R0 := h0
  obtain ⟨Ry, hRy, -, -, hprox⟩ := hRod1.dentro c.rodada hle
  have e0 : Ry = R0 := by
    rw [hRy] at h0'
    exact Option.some.inj h0'
  subst e0
  have hq' : q = c.rodada + 1 := by
    rw [hprox] at hq
    split at hq
    · exact (Option.some.inj hq).symm
    · cases hq
  subst hq'
  have hmono := hRod1.mono c.rodada Ry Rq hRy hRq
  have hdpos : 0 < d := lt_of_le_of_ne (by rw [hdur]; linarith) (Ne.symm hd)
  have hxy : x ≤ y := (div_le_div_iff_of_pos_right hdpos).mp hord
  refine ⟨hdpos, hxy, ?_, ?_⟩
  · unfold estimadores_fila_1
    rw [hop]
    simp only [Option.map_some', dividir, if_neg hd]
  · simp only [Duplo.maior_ou_igual, decide_eq_true_eq]
    exact hord

/-- C8, evaluated on a run in which the third and the fourth draw are `u_0 = 1`: the
customers 0, 1 and 2 arrive at time 1, so round 1 and round 2 both start at time 1.  The
thirteenth pass calls `encerrar_coleta` on round 1 with `E_Nq1 = 0`, `E_N1 = 0` and
`duracao_rodada = 0`: lines 541 and 543 store `0.0 / 0.0`, which is NaN, in both fields,
and `E_N1 >= E_Nq1` is false. -/
theorem estimadores_da_fila_1_duracao_nula :
    ∃ s1 R1 Rq, cfg_duracao_nula.neg_log_u 2 = 0 ∧ cfg_duracao_nula.neg_log_u 3 = 0 ∧
      chamada_encerrar cfg_duracao_nula 12 = some (s1, 1, R1) ∧
      R1.prox_rodada = some 2 ∧ s1.rodadas 2 = some Rq ∧ R1.inicio = 1 ∧ Rq.inicio = 1 ∧
      operandos_fila_1 1 s1 = some (0, 0, 0) ∧
      estimadores_fila_1 1 s1 = some (Duplo.nan, Duplo.nan) ∧
      Duplo.maior_ou_igual Duplo.nan Duplo.nan = false := by
  have h0 : ((chamada_encerrar cfg_duracao_nula 12).bind fun x =>
      (x.1.rodadas 2).bind fun Rq =>
        (operandos_fila_1 x.2.1 x.1).map fun o =>
          (x.2.1, x.2.2.prox_rodada, x.2.2.inicio, Rq.inicio, o)) =
      some (1, some 2, 1, 1, 0, 0, 0) := by
    with_unfolding_all rfl
  cases hx : chamada_encerrar cfg_duracao_nula 12 with
  | none => rw [hx] at h0; cases h0
  | some x =>
    obtain ⟨s1, r, R1⟩ := x
    rw [hx] at h0
    simp only [Option.some_bind] at h0
    cases h2 : s1.rodadas 2 with
    | none => rw [h2] at h0; cases h0
    | some Rq =>
      rw [h2] at h0
      simp only [Option.some_bind] at h0
      cases h3 : operandos_fila_1 r s1 with
      | none => rw [h3] at h0; cases h0
      | some o =>
        rw [h3] at h0
        simp only [Option.map_some', Option.some.injEq, Prod.mk.injEq] at h0
        obtain ⟨e1, e2, e3, e4, e5⟩ := h0
        subst e1
        subst e5
        refine ⟨s1, R1, Rq, rfl, rfl, rfl, e2, h2, e3, e4, h3, ?_, rfl⟩
        unfold estimadores_fila_1
        rw [h3]
        simp [dividir]

end Simulador
